import Mathlib

/-!
# glTF document codec: default-value aware JSON encoding and decoding

A verification development for the entity codecs of struct.go.  The Go
program relies on encoding/json and on bytes.Replace; both are embedded here
as executable functions over character lists, followed by the entities of
struct.go with their constructors, UnmarshalJSON and MarshalJSON methods.

Conventions of the embedding

* A byte slice is a list of characters.  Go strings are taken to be valid
  UTF-8, so that a character stands for its UTF-8 bytes; every pattern that
  struct.go searches for is ASCII, hence searching characters and searching
  bytes agree.
* Machine integers are mathematical integers; range checks are explicit
  where encoding/json performs them.
* A float64 is represented by its shortest decimal expansion (sign, digits,
  position of the decimal point), which is what strconv prints and what
  determines a finite float64.  A number literal is read as the float64
  nearest to it, ties going to the even mantissa, and a literal beyond the
  range of float64 is an error, as with strconv.ParseFloat.
* A value of a model type that is no value of the Go type (an integer beyond
  the range, a decimal expansion that is not the shortest one of a float64, a
  list that has not the length of the array type, map entries that are not in
  the order of their keys) is rejected by the encoder.
* A method with a pointer receiver becomes a function that takes the
  receiver's value and returns the new value together with the error.
-/

namespace Gltf

/-- A byte slice. -/
abbrev Bytes := List Char

/-! ## Characters used by the JSON grammar -/

/-- The double quote character. -/
def dquote : Char := Char.ofNat 34
/-- The backslash character. -/
def bslash : Char := Char.ofNat 92
/-- The opening brace. -/
def lbrace : Char := Char.ofNat 123
/-- The closing brace. -/
def rbrace : Char := Char.ofNat 125
/-- The opening bracket. -/
def lbrack : Char := Char.ofNat 91
/-- The closing bracket. -/
def rbrack : Char := Char.ofNat 93
/-- The comma. -/
def comma : Char := Char.ofNat 44
/-- The colon. -/
def colon : Char := Char.ofNat 58

/-! ## bytes.Replace with n = 1 -/

/-- Go's bytes.Replace(s, old, new, 1): the leftmost occurrence of old in s is
replaced by new; s is returned unchanged when old does not occur. -/
def replaceFirst (old new : Bytes) : Bytes → Bytes
  | [] => if old.isPrefixOf [] then new else []
  | c :: cs =>
    if old.isPrefixOf (c :: cs) then new ++ (c :: cs).drop old.length
    else c :: replaceFirst old new cs

/-! ## JSON values -/

/-- A JSON value.  A number keeps its literal text, as the decoder of
encoding/json does until the target type is known; object members keep their
order. -/
inductive JSON where
  | null : JSON
  | bool (b : Bool) : JSON
  | num (lit : Bytes) : JSON
  | str (s : String) : JSON
  | arr (xs : List JSON) : JSON
  | obj (ms : List (String × JSON)) : JSON

/-- Errors returned by encoding/json. -/
inductive JsonError where
  | invalidJSON : JsonError
  | typeMismatch : JsonError
  | marshalerFailed : JsonError
  | unsupportedValue : JsonError
deriving DecidableEq, Repr

/-- Decidable equality of results. -/
instance exceptDecEq {ε α : Type} [DecidableEq ε] [DecidableEq α] : DecidableEq (Except ε α)
  | .ok a, .ok b =>
    if h : a = b then isTrue (by rw [h]) else isFalse (fun h1 => h (Except.ok.inj h1))
  | .error a, .error b =>
    if h : a = b then isTrue (by rw [h]) else isFalse (fun h1 => h (Except.error.inj h1))
  | .ok _, .error _ => isFalse (fun h => Except.noConfusion h)
  | .error _, .ok _ => isFalse (fun h => Except.noConfusion h)

/-! ## Encoding of strings -/

/-- Lower-case hexadecimal digit. -/
def hexDigit (n : Nat) : Char :=
  if n < 10 then Char.ofNat (48 + n) else Char.ofNat (87 + n)

/-- The escape of one character as written by encoding/json with HTML
escaping on, which is the mode of json.Marshal.  The backspace and the form
feed are written as a backslash and the letter b or f, as Go 1.22 and the
later releases write them; the earlier releases wrote them with their code,
as the other control characters. -/
def escapeChar (c : Char) : Bytes :=
  if c = dquote ∨ c = bslash then [bslash, c]
  else if c.toNat = 10 then [bslash, 'n']
  else if c.toNat = 13 then [bslash, 'r']
  else if c.toNat = 9 then [bslash, 't']
  else if c.toNat = 8 then [bslash, 'b']
  else if c.toNat = 12 then [bslash, 'f']
  else if c.toNat < 32 ∨ c = '<' ∨ c = '>' ∨ c = '&' then
    [bslash, 'u', '0', '0', hexDigit (c.toNat / 16), hexDigit (c.toNat % 16)]
  else if c.toNat = 8232 then [bslash, 'u', '2', '0', '2', '8']
  else if c.toNat = 8233 then [bslash, 'u', '2', '0', '2', '9']
  else [c]

/-- The body of a JSON string literal, without the surrounding quotes. -/
def escapeString : List Char → Bytes
  | [] => []
  | c :: cs => escapeChar c ++ escapeString cs

/-- A JSON string literal. -/
def renderString (s : String) : Bytes :=
  dquote :: (escapeString s.data ++ [dquote])

/-! ## Rendering of JSON values, without insignificant white space -/

mutual
/-- The compact text of a JSON value. -/
def render : JSON → Bytes
  | .null => ['n', 'u', 'l', 'l']
  | .bool true => ['t', 'r', 'u', 'e']
  | .bool false => ['f', 'a', 'l', 's', 'e']
  | .num lit => lit
  | .str s => renderString s
  | .arr xs => lbrack :: (renderElems xs ++ [rbrack])
  | .obj ms => lbrace :: (renderMembers ms ++ [rbrace])
/-- The elements of an array, separated by commas. -/
def renderElems : List JSON → Bytes
  | [] => []
  | x :: xs =>
    match xs with
    | [] => render x
    | _ :: _ => render x ++ comma :: renderElems xs
/-- The members of an object, separated by commas. -/
def renderMembers : List (String × JSON) → Bytes
  | [] => []
  | (k, v) :: ms =>
    match ms with
    | [] => renderString k ++ colon :: render v
    | _ :: _ => renderString k ++ colon :: (render v ++ comma :: renderMembers ms)
end

/-! ## Parsing of JSON text -/

/-- JSON white space. -/
def isWs (c : Char) : Bool :=
  c.toNat = 32 || c.toNat = 9 || c.toNat = 10 || c.toNat = 13

/-- Drops leading white space. -/
def skipWs : Bytes → Bytes
  | [] => []
  | c :: cs => if isWs c then skipWs cs else c :: cs

/-- Value of a hexadecimal digit. -/
def hexVal (c : Char) : Option Nat :=
  if 48 ≤ c.toNat ∧ c.toNat ≤ 57 then some (c.toNat - 48)
  else if 97 ≤ c.toNat ∧ c.toNat ≤ 102 then some (c.toNat - 87)
  else if 65 ≤ c.toNat ∧ c.toNat ≤ 70 then some (c.toNat - 55)
  else none

/-- Value of four hexadecimal digits. -/
def hex4 (a b c d : Char) : Option Nat :=
  match hexVal a, hexVal b, hexVal c, hexVal d with
  | some x, some y, some z, some w => some (((x * 16 + y) * 16 + z) * 16 + w)
  | _, _, _, _ => none

/-- The character denoted by a one-letter escape. -/
def unescapeSimple (e : Char) : Option Char :=
  if e = dquote then some dquote
  else if e = bslash then some bslash
  else if e = '/' then some '/'
  else if e = 'b' then some (Char.ofNat 8)
  else if e = 'f' then some (Char.ofNat 12)
  else if e = 'n' then some (Char.ofNat 10)
  else if e = 'r' then some (Char.ofNat 13)
  else if e = 't' then some (Char.ofNat 9)
  else none

/-- The low half of a surrogate pair that follows a high half, if any. -/
def lowSurrogate (cs : Bytes) : Option Nat :=
  match cs with
  | b :: u :: h1 :: h2 :: h3 :: h4 :: _ =>
    if b = bslash ∧ u = 'u' then
      match hex4 h1 h2 h3 h4 with
      | some lo => if 56320 ≤ lo ∧ lo < 57344 then some lo else none
      | none => none
    else none
  | _ => none

/-- Reads one character of a string body: a plain character, or an escape
sequence.  A lone surrogate escape denotes the replacement character; a
control character is not allowed. -/
def readChar : Bytes → Option (Char × Bytes)
  | [] => none
  | c :: cs =>
    if c = bslash then
      match cs with
      | [] => none
      | e :: cs1 =>
        if e = 'u' then
          match cs1 with
          | h1 :: h2 :: h3 :: h4 :: cs2 =>
            match hex4 h1 h2 h3 h4 with
            | none => none
            | some n =>
              if 55296 ≤ n ∧ n < 57344 then
                match (if n < 56320 then lowSurrogate cs2 else none) with
                | some lo =>
                  some (Char.ofNat (65536 + (n - 55296) * 1024 + (lo - 56320)), cs2.drop 6)
                | none => some (Char.ofNat 65533, cs2)
              else some (Char.ofNat n, cs2)
          | _ => none
        else
          match unescapeSimple e with
          | none => none
          | some ch => some (ch, cs1)
    else if c.toNat < 32 then none
    else some (c, cs)

/-- Reads a string literal after its opening quote: the decoded characters
and the text after the closing quote.  The first argument bounds the number
of characters read. -/
def parseStringBody : Nat → Bytes → Option (List Char × Bytes)
  | 0, _ => none
  | fuel + 1, cs =>
    match cs with
    | [] => none
    | c :: rest =>
      if c = dquote then some ([], rest)
      else
        match readChar (c :: rest) with
        | none => none
        | some (ch, r) =>
          match parseStringBody fuel r with
          | some (s, r1) => some (ch :: s, r1)
          | none => none

/-- Reads a string literal after its opening quote, with enough fuel for the
whole input. -/
def parseStringLit (cs : Bytes) : Option (List Char × Bytes) :=
  parseStringBody (cs.length + 1) cs

/-- Decimal digit test. -/
def isDigit (c : Char) : Bool := 48 ≤ c.toNat && c.toNat ≤ 57

/-- Splits off the longest run of leading digits. -/
def takeDigits : Bytes → Bytes × Bytes
  | [] => ([], [])
  | c :: cs =>
    if isDigit c then ((takeDigits cs).1.cons c, (takeDigits cs).2) else ([], c :: cs)

/-- Reads the integer part of a number: a single zero, or a non-zero digit
followed by digits. -/
def scanInt (cs : Bytes) : Option (Bytes × Bytes) :=
  match cs with
  | [] => none
  | c :: rest =>
    if c = '0' then some (['0'], rest)
    else if isDigit c then some (c :: (takeDigits rest).1, (takeDigits rest).2)
    else none

/-- Reads an optional fraction: a point followed by at least one digit. -/
def scanFrac (cs : Bytes) : Option (Bytes × Bytes) :=
  match cs with
  | c :: rest =>
    if c = '.' then
      match takeDigits rest with
      | ([], _) => none
      | (ds, r) => some (c :: ds, r)
    else some ([], cs)
  | [] => some ([], [])

/-- Reads an optional exponent: e or E, an optional sign, at least one digit. -/
def scanExp (cs : Bytes) : Option (Bytes × Bytes) :=
  match cs with
  | c :: rest =>
    if c = 'e' ∨ c = 'E' then
      match rest with
      | s :: rest1 =>
        if s = '+' ∨ s = '-' then
          match takeDigits rest1 with
          | ([], _) => none
          | (ds, r) => some (c :: s :: ds, r)
        else
          match takeDigits rest with
          | ([], _) => none
          | (ds, r) => some (c :: ds, r)
      | [] => none
    else some ([], cs)
  | [] => some ([], [])

/-- Reads a number literal: its text and the remaining input. -/
def parseNumber (cs : Bytes) : Option (Bytes × Bytes) :=
  let signed : Bytes × Bytes :=
    match cs with
    | c :: rest => if c = '-' then ([c], rest) else ([], cs)
    | [] => ([], [])
  match scanInt signed.2 with
  | none => none
  | some (i, r1) =>
    match scanFrac r1 with
    | none => none
    | some (f, r2) =>
      match scanExp r2 with
      | none => none
      | some (e, r3) => some (signed.1 ++ i ++ f ++ e, r3)

/-- Drops a given word from the front of the input. -/
def dropWord (w : Bytes) (cs : Bytes) : Option Bytes :=
  if w.isPrefixOf cs then some (cs.drop w.length) else none

mutual
/-- Reads one JSON value from input that starts at its first character.  The
first argument bounds the number of nested calls. -/
def parseValue : Nat → Bytes → Option (JSON × Bytes)
  | 0, _ => none
  | fuel + 1, cs =>
    match cs with
    | [] => none
    | c :: rest =>
      if c = lbrace then
        match skipWs rest with
        | [] => none
        | d :: rest1 =>
          if d = rbrace then some (.obj [], rest1)
          else
            match parseMembers fuel (d :: rest1) with
            | some (ms, r) => some (.obj ms, r)
            | none => none
      else if c = lbrack then
        match skipWs rest with
        | [] => none
        | d :: rest1 =>
          if d = rbrack then some (.arr [], rest1)
          else
            match parseElems fuel (d :: rest1) with
            | some (xs, r) => some (.arr xs, r)
            | none => none
      else if c = dquote then
        match parseStringLit rest with
        | some (s, r) => some (.str (String.mk s), r)
        | none => none
      else if c = 't' then
        match dropWord ['r', 'u', 'e'] rest with
        | some r => some (.bool true, r)
        | none => none
      else if c = 'f' then
        match dropWord ['a', 'l', 's', 'e'] rest with
        | some r => some (.bool false, r)
        | none => none
      else if c = 'n' then
        match dropWord ['u', 'l', 'l'] rest with
        | some r => some (.null, r)
        | none => none
      else
        match parseNumber (c :: rest) with
        | some (lit, r) => some (.num lit, r)
        | none => none
/-- Reads the elements of a non-empty array up to and including the closing
bracket. -/
def parseElems : Nat → Bytes → Option (List JSON × Bytes)
  | 0, _ => none
  | fuel + 1, cs =>
    match parseValue fuel cs with
    | none => none
    | some (x, r) =>
      match skipWs r with
      | [] => none
      | d :: r1 =>
        if d = rbrack then some ([x], r1)
        else if d = comma then
          match parseElems fuel (skipWs r1) with
          | some (xs, r2) => some (x :: xs, r2)
          | none => none
        else none
/-- Reads the members of a non-empty object up to and including the closing
brace. -/
def parseMembers : Nat → Bytes → Option (List (String × JSON) × Bytes)
  | 0, _ => none
  | fuel + 1, cs =>
    match cs with
    | [] => none
    | q :: rest =>
      if q = dquote then
        match parseStringLit rest with
        | none => none
        | some (k, r) =>
          match skipWs r with
          | [] => none
          | c :: r1 =>
            if c = colon then
              match parseValue fuel (skipWs r1) with
              | none => none
              | some (v, r2) =>
                match skipWs r2 with
                | [] => none
                | d :: r3 =>
                  if d = rbrace then some ([(String.mk k, v)], r3)
                  else if d = comma then
                    match parseMembers fuel (skipWs r3) with
                    | some (ms, r4) => some ((String.mk k, v) :: ms, r4)
                    | none => none
                  else none
            else none
      else none
end

/-- The value denoted by a complete JSON text, or none when the text is not
well-formed JSON.  This is the syntax check and the scan of json.Unmarshal. -/
def parseJSON (data : Bytes) : Option JSON :=
  match parseValue (data.length + 1) (skipWs data) with
  | some (j, rest) => if skipWs rest = [] then some j else none
  | none => none

mutual
/-- Boolean equality of JSON values. -/
def JSON.beq : JSON → JSON → Bool
  | .null, .null => true
  | .bool a, .bool b => decide (a = b)
  | .num a, .num b => decide (a = b)
  | .str a, .str b => decide (a = b)
  | .arr xs, .arr ys => JSON.beqElems xs ys
  | .obj xs, .obj ys => JSON.beqMembers xs ys
  | _, _ => false
/-- Boolean equality of lists of JSON values. -/
def JSON.beqElems : List JSON → List JSON → Bool
  | [], [] => true
  | x :: xs, y :: ys => JSON.beq x y && JSON.beqElems xs ys
  | _, _ => false
/-- Boolean equality of member lists. -/
def JSON.beqMembers : List (String × JSON) → List (String × JSON) → Bool
  | [], [] => true
  | (k, x) :: xs, (l, y) :: ys => decide (k = l) && JSON.beq x y && JSON.beqMembers xs ys
  | _, _ => false
end

mutual
theorem JSON.beq_iff : ∀ (a b : JSON), JSON.beq a b = true ↔ a = b
  | .null, b => by cases b <;> simp [JSON.beq]
  | .bool a, b => by cases b <;> simp [JSON.beq]
  | .num a, b => by cases b <;> simp [JSON.beq]
  | .str a, b => by cases b <;> simp [JSON.beq]
  | .arr xs, b => by
    cases b <;> simp [JSON.beq]
    exact JSON.beqElems_iff xs _
  | .obj xs, b => by
    cases b <;> simp [JSON.beq]
    exact JSON.beqMembers_iff xs _
theorem JSON.beqElems_iff : ∀ (a b : List JSON), JSON.beqElems a b = true ↔ a = b
  | [], b => by cases b <;> simp [JSON.beqElems]
  | x :: xs, b => by
    cases b with
    | nil => simp [JSON.beqElems]
    | cons y ys => simp [JSON.beqElems, JSON.beq_iff x y, JSON.beqElems_iff xs ys]
theorem JSON.beqMembers_iff : ∀ (a b : List (String × JSON)), JSON.beqMembers a b = true ↔ a = b
  | [], b => by cases b <;> simp [JSON.beqMembers]
  | (k, x) :: xs, b => by
    cases b with
    | nil => simp [JSON.beqMembers]
    | cons y ys =>
      obtain ⟨l, y⟩ := y
      simp [JSON.beqMembers, JSON.beq_iff x y, JSON.beqMembers_iff xs ys, and_assoc]
end

instance : DecidableEq JSON := fun a b => decidable_of_iff _ (JSON.beq_iff a b)

/-! ## Integers -/

/-- The character of a decimal digit. -/
def digitChar (d : Nat) : Char := Char.ofNat (48 + d)

/-- The value of a decimal digit character. -/
def digitVal (c : Char) : Nat := c.toNat - 48

/-- Decimal digits of a natural number, most significant first.  The first
argument bounds the number of digits. -/
def natDigits : Nat → Nat → Bytes
  | 0, _ => []
  | fuel + 1, n =>
    if n < 10 then [digitChar n] else natDigits fuel (n / 10) ++ [digitChar (n % 10)]

/-- Go's strconv.FormatUint in base 10. -/
def formatNat (n : Nat) : Bytes := natDigits (n + 1) n

/-- Go's strconv.FormatInt in base 10. -/
def formatInt (i : Int) : Bytes :=
  if i < 0 then '-' :: formatNat i.natAbs else formatNat i.natAbs

/-- The number denoted by a run of decimal digits. -/
def parseNat (ds : Bytes) : Nat := ds.foldl (fun acc c => 10 * acc + digitVal c) 0

/-- Go's strconv.ParseUint in base 10 on a JSON number literal: digits only. -/
def parseUintLit (lit : Bytes) : Option Nat :=
  if lit ≠ [] ∧ lit.all isDigit then some (parseNat lit) else none

/-- Go's strconv.ParseInt in base 10 on a JSON number literal: an optional
minus sign and digits; a fraction or an exponent is rejected. -/
def parseIntLit (lit : Bytes) : Option Int :=
  match lit with
  | [] => none
  | c :: ds =>
    if c = '-' then (parseUintLit ds).map (fun n => - Int.ofNat n)
    else (parseUintLit lit).map (fun n => Int.ofNat n)

/-! ## Floating point numbers -/

/-- A finite float64, given by its decimal expansion: the value is
0.d1 d2 ... dn times ten to the power exp, negated when neg is set.  No
digits stand for zero.  The expansions of the float64 values are the shortest
ones that read back as the same float64 (see Float64.isValue below). -/
structure Float64 where
  neg : Bool
  digits : List (Fin 10)
  exp : Int
deriving DecidableEq, Repr

/-- Removes leading zero digits, moving the decimal point along. -/
def stripLeading : List (Fin 10) → Int → List (Fin 10) × Int
  | [], e => ([], e)
  | d :: ds, e => if d = 0 then stripLeading ds (e - 1) else (d :: ds, e)

/-- Removes trailing zero digits. -/
def stripTrailing (ds : List (Fin 10)) : List (Fin 10) :=
  (ds.reverse.dropWhile (fun d => d = 0)).reverse

/-- The shortest expansion of the same number. -/
def Float64.normalize (f : Float64) : Float64 :=
  match stripTrailing (stripLeading f.digits f.exp).1 with
  | [] => { neg := f.neg, digits := [], exp := 0 }
  | d :: ds => { neg := f.neg, digits := d :: ds, exp := (stripLeading f.digits f.exp).2 }

/-- Go's == on float64: equal numbers, a negative zero being equal to zero. -/
def Float64.eq (a b : Float64) : Bool :=
  (a.normalize.digits = [] ∧ b.normalize.digits = []) ∨ a.normalize = b.normalize

/-- Go's == on arrays of float64. -/
def floatsEq : List Float64 → List Float64 → Bool
  | [], [] => true
  | a :: as, b :: bs => Float64.eq a b && floatsEq as bs
  | _, _ => false

/-- The float64 of a natural number given by its digits. -/
def Float64.ofDigits (ds : List (Fin 10)) : Float64 :=
  Float64.normalize { neg := false, digits := ds, exp := ds.length }

/-- The constant 0. -/
def f0 : Float64 := { neg := false, digits := [], exp := 0 }
/-- The constant 1. -/
def f1 : Float64 := { neg := false, digits := [1], exp := 1 }
/-- The constant -1. -/
def fm1 : Float64 := { neg := true, digits := [1], exp := 1 }
/-- The constant 0.5. -/
def fhalf : Float64 := { neg := false, digits := [5], exp := 0 }

/-- The characters of a digit list. -/
def digitsToChars (ds : List (Fin 10)) : Bytes := ds.map (fun d => digitChar d.val)

/-- The float formatting of encoding/json: strconv.AppendFloat with the
shortest precision, in format e when the magnitude is below 1e-6 or at least
1e21 and in format f otherwise; a two-digit negative exponent with a leading
zero loses the zero. -/
def formatFloat (f : Float64) : Bytes :=
  let g := f.normalize
  let sign : Bytes := if g.neg then ['-'] else []
  match g.digits with
  | [] => sign ++ ['0']
  | d :: ds =>
    if g.exp ≤ -6 ∨ 22 ≤ g.exp then
      sign ++ digitChar d.val ::
        ((if ds = [] then [] else '.' :: digitsToChars ds) ++
          'e' :: (if g.exp - 1 < 0 then '-' else '+') :: formatNat (g.exp - 1).natAbs)
    else if g.exp ≤ 0 then
      sign ++ '0' :: '.' :: (List.replicate (- g.exp).toNat '0' ++ digitsToChars (d :: ds))
    else if g.exp < ((d :: ds).length : Int) then
      sign ++ (digitsToChars ((d :: ds).take g.exp.toNat) ++
        '.' :: digitsToChars ((d :: ds).drop g.exp.toNat))
    else
      sign ++ (digitsToChars (d :: ds) ++
        List.replicate (g.exp - ((d :: ds).length : Int)).toNat '0')

/-- The digit denoted by a digit character. -/
def charDigit (c : Char) : Fin 10 := ⟨digitVal c % 10, Nat.mod_lt _ (by decide)⟩

/-- The exponent denoted by the exponent part of a number literal. -/
def parseExp (cs : Bytes) : Int :=
  match cs with
  | [] => 0
  | _ :: r =>
    match r with
    | [] => 0
    | s :: r1 =>
      if s = '-' then - (parseNat r1 : Int)
      else if s = '+' then (parseNat r1 : Int)
      else (parseNat r : Int)

/-- The number of decimal digits of a natural number, counted with the given
number of steps; 1 for the numbers below ten. -/
def decimalLengthAux : Nat → Nat → Nat
  | 0, _ => 1
  | fuel + 1, n => if n < 10 then 1 else decimalLengthAux fuel (n / 10) + 1

/-- The number of decimal digits of a natural number. -/
def decimalLength (n : Nat) : Nat := decimalLengthAux n n

/-- The exponent of the greatest power of two that is at most the number,
found with the given number of steps; 0 for the numbers below two. -/
def floorLog2Aux : Nat → Nat → Nat
  | 0, _ => 0
  | fuel + 1, n => if n < 2 then 0 else floorLog2Aux fuel (n / 2) + 1

/-- The exponent of the greatest power of two that is at most the number. -/
def floorLog2 (n : Nat) : Nat := floorLog2Aux n n

/-- The quotient of two natural numbers rounded to the nearest natural number,
and to the even one when two are equally near. -/
def roundHalfEven (num den : Nat) : Nat :=
  if 2 * (num % den) < den then num / den
  else if den < 2 * (num % den) then num / den + 1
  else if (num / den) % 2 = 0 then num / den else num / den + 1

/-- The float64 nearest to the quotient num / den of two positive numbers, as
the pair (m, e) of the mantissa and the exponent of the value m times two to
the power e: m has 53 bits, or fewer with the least exponent -1074 of the
subnormal numbers.  Ties go to the even mantissa.  No float64 is given when the
rounded value is beyond the largest finite float64. -/
def roundBinary64 (num den : Nat) : Option (Nat × Int) :=
  let b0 : Int := (floorLog2 num : Int) - (floorLog2 den : Int)
  let b : Int := if den * 2 ^ b0.toNat ≤ num * 2 ^ (- b0).toNat then b0 else b0 - 1
  let e : Int := max (b - 52) (-1074)
  let m := roundHalfEven (num * 2 ^ (- e).toNat) (den * 2 ^ e.toNat)
  if m = 2 ^ 53 then (if 971 < e + 1 then none else some (2 ^ 52, e + 1))
  else if 971 < e then none else some (m, e)

/-- The float64 nearest to d times ten to the power e10.  A number of more
than 310 digits before the decimal point is beyond the range, one with more
than 330 zeros after the point rounds to zero; the powers of ten are computed
for the others only. -/
def nearestBinary64 (d : Nat) (e10 : Int) : Option (Nat × Int) :=
  if d = 0 then some (0, -1074)
  else if 310 < (decimalLength d : Int) + e10 then none
  else if (decimalLength d : Int) + e10 < -330 then some (0, -1074)
  else roundBinary64 (d * 10 ^ e10.toNat) (10 ^ (- e10).toNat)

/-- The search for the shortest decimal that reads back as the float64 t: w
times ten to the power k is the exact value of t and has len digits; with n
digits kept, the number cut after n digits and the next number of n digits are
tried, and the nearer one is taken when both read back as t. -/
def shortestAux (t : Nat × Int) (w : Nat) (k : Int) (len : Nat) : Nat → Nat → Nat × Int
  | 0, _ => (w, k)
  | fuel + 1, n =>
    if len ≤ n then (w, k)
    else
      let p := 10 ^ (len - n)
      let lo := w / p
      let k1 : Int := k + ((len - n : Nat) : Int)
      let down : Bool := nearestBinary64 lo k1 = some t
      let up : Bool := nearestBinary64 (lo + 1) k1 = some t
      if down && up then (roundHalfEven w p, k1)
      else if down then (lo, k1)
      else if up then (lo + 1, k1)
      else shortestAux t w k len fuel (n + 1)

/-- The shortest decimal that reads back as the float64 m times two to the
power e, as strconv.FormatFloat with precision -1 finds it: the pair (d, k)
stands for d times ten to the power k. -/
def shortestDecimal (m : Nat) (e : Int) : Nat × Int :=
  let w := m * 2 ^ e.toNat * 5 ^ (- e).toNat
  shortestAux (m, e) w (min e 0) (decimalLength w) 17 1

/-- The decimal expansion of the float64 m times two to the power e. -/
def Float64.ofBinary (neg : Bool) (m : Nat) (e : Int) : Float64 :=
  if m = 0 then { neg := neg, digits := [], exp := 0 }
  else
    let s := shortestDecimal m e
    Float64.normalize
      { neg := neg
        digits := (formatNat s.1).map charDigit
        exp := ((formatNat s.1).length : Int) + s.2 }

/-- Go's strconv.ParseFloat on a JSON number literal: the float64 nearest to
the number that the literal denotes, and none, for the range error of strconv,
when the number is beyond the range of float64. -/
def parseFloatLit (lit : Bytes) : Option Float64 :=
  let signed : Bool × Bytes :=
    match lit with
    | c :: r => if c = '-' then (true, r) else (false, lit)
    | [] => (false, [])
  let ip := takeDigits signed.2
  let fp : Bytes × Bytes :=
    match ip.2 with
    | c :: r => if c = '.' then takeDigits r else ([], ip.2)
    | [] => ([], [])
  match nearestBinary64 (parseNat (ip.1 ++ fp.1)) (parseExp fp.2 - (fp.1.length : Int)) with
  | some t => some (Float64.ofBinary signed.1 t.1 t.2)
  | none => none

/-- Whether the decimal expansion is that of a float64: the text that
strconv.AppendFloat writes for it reads back as the same expansion.  The
expansions that are not, those with more digits than the shortest one of the
float64 nearest to them and those beyond the range, are not values of the Go
type. -/
def Float64.isValue (f : Float64) : Bool :=
  parseFloatLit (formatFloat f) = some f.normalize

/-! ## encoding/json on Go types

A codec describes how encoding/json writes and reads one Go type: the value
written by json.Marshal, the emptiness test behind the omitempty option, and
the effect of json.Unmarshal on a variable of that type, given the JSON value
found in the input and the previous content of the variable. -/

/-- The treatment of one Go type by encoding/json. -/
structure Codec (α : Type) where
  encode : α → Except JsonError JSON
  isEmpty : α → Bool
  decode : JSON → α → Except JsonError α

/-- Signed integers of the given bit size.  A number outside the range of the
type is not a value of the type and is rejected by the encoder. -/
def intCodec (bits : Nat) : Codec Int where
  encode := fun i =>
    if - (2 : Int) ^ (bits - 1) ≤ i ∧ i < (2 : Int) ^ (bits - 1) then .ok (.num (formatInt i))
    else .error .unsupportedValue
  isEmpty := fun i => i = 0
  decode := fun j old =>
    match j with
    | .null => .ok old
    | .num lit =>
      match parseIntLit lit with
      | some v =>
        if - (2 : Int) ^ (bits - 1) ≤ v ∧ v < (2 : Int) ^ (bits - 1) then .ok v
        else .error .typeMismatch
      | none => .error .typeMismatch
    | _ => .error .typeMismatch

/-- Unsigned integers of the given bit size.  A number outside the range of
the type is not a value of the type and is rejected by the encoder. -/
def uintCodec (bits : Nat) : Codec Nat where
  encode := fun n => if n < 2 ^ bits then .ok (.num (formatNat n)) else .error .unsupportedValue
  isEmpty := fun n => n = 0
  decode := fun j old =>
    match j with
    | .null => .ok old
    | .num lit =>
      match parseUintLit lit with
      | some v => if v < 2 ^ bits then .ok v else .error .typeMismatch
      | none => .error .typeMismatch
    | _ => .error .typeMismatch

/-- Go type int32. -/
def int32Codec : Codec Int := intCodec 32
/-- Go type uint32. -/
def uint32Codec : Codec Nat := uintCodec 32
/-- Go type uint16. -/
def uint16Codec : Codec Nat := uintCodec 16
/-- Go type uint8. -/
def uint8Codec : Codec Nat := uintCodec 8

/-- Go type string, and the named string types. -/
def stringCodec : Codec String where
  encode := fun s => .ok (.str s)
  isEmpty := fun s => s.data = []
  decode := fun j old =>
    match j with
    | .null => .ok old
    | .str s => .ok s
    | _ => .error .typeMismatch

/-- Go type bool. -/
def boolCodec : Codec Bool where
  encode := fun b => .ok (.bool b)
  isEmpty := fun b => !b
  decode := fun j old =>
    match j with
    | .null => .ok old
    | .bool b => .ok b
    | _ => .error .typeMismatch

/-- Go type float64.  A decimal expansion that is not that of a float64 is not
a value of the type and is rejected by the encoder.  The decoder stores the
float64 nearest to the number read and rejects a number beyond the range of
float64, for which strconv.ParseFloat returns an error. -/
def float64Codec : Codec Float64 where
  encode := fun f =>
    if f.isValue then .ok (.num (formatFloat f)) else .error .unsupportedValue
  isEmpty := fun f => Float64.eq f f0
  decode := fun j old =>
    match j with
    | .null => .ok old
    | .num lit =>
      match parseFloatLit lit with
      | some f => .ok f
      | none => .error .typeMismatch
    | _ => .error .typeMismatch

/-- Encodes the elements of a list in order; the first error wins. -/
def encodeElems {α : Type} (c : Codec α) : List α → Except JsonError (List JSON)
  | [] => .ok []
  | a :: as =>
    match c.encode a with
    | .error e => .error e
    | .ok j =>
      match encodeElems c as with
      | .error e => .error e
      | .ok js => .ok (j :: js)

/-- Decodes the elements of a JSON array into the n slots of a Go array: an
element is decoded into the slot of the same index, slots beyond the JSON
array are zeroed, and elements beyond the Go array are dropped without being
looked at. -/
def decodeArrayElems {α : Type} (c : Codec α) (zero : α) :
    Nat → List JSON → List α → Except JsonError (List α)
  | 0, _, _ => .ok []
  | n + 1, [], _ => .ok (List.replicate (n + 1) zero)
  | n + 1, j :: js, old =>
    match c.decode j (old.headD zero) with
    | .error e => .error e
    | .ok a1 =>
      match decodeArrayElems c zero n js old.tail with
      | .error e => .error e
      | .ok as1 => .ok (a1 :: as1)

/-- Go array type [n]T, as a list of length n.  A list of another length is
not a value of the type and is rejected by the encoder. -/
def arrayCodec {α : Type} (c : Codec α) (zero : α) (n : Nat) : Codec (List α) where
  encode := fun xs =>
    if xs.length = n then (encodeElems c xs).map JSON.arr else .error .unsupportedValue
  isEmpty := fun xs => xs.length = 0
  decode := fun j old =>
    match j with
    | .null => .ok old
    | .arr js => decodeArrayElems c zero n js old
    | _ => .error .typeMismatch

/-- Decodes the elements of a JSON array into fresh elements of a slice. -/
def decodeSliceElems {α : Type} (c : Codec α) (zero : α) :
    List JSON → Except JsonError (List α)
  | [] => .ok []
  | j :: js =>
    match c.decode j zero with
    | .error e => .error e
    | .ok a =>
      match decodeSliceElems c zero js with
      | .error e => .error e
      | .ok as => .ok (a :: as)

/-- Go slice type []T: none is the nil slice.  Elements are decoded into
zero values, as happens for a slice that was nil before the call. -/
def sliceCodec {α : Type} (c : Codec α) (zero : α) : Codec (Option (List α)) where
  encode := fun xs =>
    match xs with
    | none => .ok .null
    | some l => (encodeElems c l).map JSON.arr
  isEmpty := fun xs =>
    match xs with
    | none => true
    | some l => l.length = 0
  decode := fun j _ =>
    match j with
    | .null => .ok none
    | .arr js => (decodeSliceElems c zero js).map some
    | _ => .error .typeMismatch

/-- Go pointer type *T: none is the nil pointer.  A value is decoded into
the pointee, which is allocated as a zero value when the pointer was nil. -/
def ptrCodec {α : Type} (c : Codec α) (zero : α) : Codec (Option α) where
  encode := fun p =>
    match p with
    | none => .ok .null
    | some a => c.encode a
  isEmpty := fun p => p.isNone
  decode := fun j old =>
    match j with
    | .null => .ok none
    | _ => (c.decode j (old.getD zero)).map some

/-- A number literal that follows the JSON grammar. -/
def validNumber (lit : Bytes) : Bool :=
  decide (parseNumber lit = some (lit, []))

mutual
/-- A JSON value whose number literals follow the JSON grammar. -/
def JSON.wf : JSON → Bool
  | .null => true
  | .bool _ => true
  | .num lit => validNumber lit
  | .str _ => true
  | .arr xs => JSON.wfElems xs
  | .obj ms => JSON.wfMembers ms
/-- Well-formed elements. -/
def JSON.wfElems : List JSON → Bool
  | [] => true
  | x :: xs => JSON.wf x && JSON.wfElems xs
/-- Well-formed members. -/
def JSON.wfMembers : List (String × JSON) → Bool
  | [] => true
  | (_, v) :: ms => JSON.wf v && JSON.wfMembers ms
end

/-- Go's order of strings, by which json.Marshal sorts the keys of a map: the
order of the texts character by character, a text coming after its proper
prefixes.  The order of the characters is that of their UTF-8 bytes. -/
def bytesLt : Bytes → Bytes → Bool
  | _, [] => false
  | [], _ :: _ => true
  | a :: as, b :: bs =>
    if a.toNat < b.toNat then true
    else if b.toNat < a.toNat then false
    else bytesLt as bs

/-- Sets a key of a map whose entries stand in the order of their keys: the
value of a key that is there is replaced, and a new key takes its place in the
order. -/
def mapInsert {β : Type} (k : String) (v : β) : List (String × β) → List (String × β)
  | [] => [(k, v)]
  | (k1, v1) :: rest =>
    if k1 = k then (k, v) :: rest
    else if bytesLt k.data k1.data then (k, v) :: (k1, v1) :: rest
    else (k1, v1) :: mapInsert k v rest

/-- The entries stand in the strict order of their keys. -/
def keysSorted {β : Type} : List (String × β) → Bool
  | [] => true
  | (k, _) :: rest =>
    match rest with
    | [] => true
    | (k1, _) :: _ => bytesLt k.data k1.data && keysSorted rest

mutual
/-- The JSON value that json.Marshal writes for the Go value that json.Unmarshal
stores in an empty interface for a JSON value: a number becomes a float64 and
is written as one, an object becomes a map, in which the last of the members of
one key stays, and is written in the order of the keys.  A number beyond the
range of float64 is an error of json.Unmarshal: there is no value then. -/
def JSON.canon : JSON → Option JSON
  | .null => some .null
  | .bool b => some (.bool b)
  | .num lit =>
    match parseFloatLit lit with
    | some f => some (.num (formatFloat f))
    | none => none
  | .str s => some (.str s)
  | .arr xs =>
    match JSON.canonElems xs with
    | some ys => some (.arr ys)
    | none => none
  | .obj ms =>
    match JSON.canonMembers ms with
    | some ns => some (.obj (ns.foldl (fun acc m => mapInsert m.1 m.2 acc) []))
    | none => none
/-- The elements of an array, stored and written again. -/
def JSON.canonElems : List JSON → Option (List JSON)
  | [] => some []
  | x :: xs =>
    match JSON.canon x with
    | none => none
    | some y =>
      match JSON.canonElems xs with
      | none => none
      | some ys => some (y :: ys)
/-- The members of an object with their values stored and written again, in
the order of the input. -/
def JSON.canonMembers : List (String × JSON) → Option (List (String × JSON))
  | [] => some []
  | (k, v) :: ms =>
    match JSON.canon v with
    | none => none
    | some y =>
      match JSON.canonMembers ms with
      | none => none
      | some ns => some ((k, y) :: ns)
end

/-- Go type interface with no methods, used for Extras: none is the nil
interface, and a value is represented by the JSON value it is written as.
json.Marshal rejects a value that holds a malformed number literal.  A value
that holds a number beyond the range of float64 is not taken as a value of the
type: json.Unmarshal stores none, it returns an error for such a number.  What
json.Unmarshal stores for another JSON value is represented by the JSON value
written for it, in which the numbers are float64 and the keys are in order. -/
def anyCodec : Codec (Option JSON) where
  encode := fun x =>
    match x with
    | none => .ok .null
    | some j =>
      if j.wf && (JSON.canon j).isSome then .ok j else .error .unsupportedValue
  isEmpty := fun x => x.isNone
  decode := fun j _ =>
    match j with
    | .null => .ok none
    | _ =>
      match JSON.canon j with
      | some c => .ok (some c)
      | none => .error .typeMismatch

/-- Encodes the entries of a map. -/
def encodeEntries {β : Type} (c : Codec β) :
    List (String × β) → Except JsonError (List (String × JSON))
  | [] => .ok []
  | (k, b) :: rest =>
    match c.encode b with
    | .error e => .error e
    | .ok j =>
      match encodeEntries c rest with
      | .error e => .error e
      | .ok js => .ok ((k, j) :: js)

/-- Decodes the members of a JSON object into a map. -/
def decodeEntries {β : Type} (c : Codec β) (zero : β) :
    List (String × JSON) → List (String × β) → Except JsonError (List (String × β))
  | [], acc => .ok acc
  | (k, j) :: rest, acc =>
    match c.decode j zero with
    | .error e => .error e
    | .ok b => decodeEntries c zero rest (mapInsert k b acc)

/-- Go map type with string keys: none is the nil map; a map is given by its
entries in the order in which json.Marshal writes them, the order of the keys.
A list of entries that is not in the strict order of its keys is not a map and
is rejected by the encoder; the decoder puts every key it reads at its place in
the order. -/
def mapCodec {β : Type} (c : Codec β) (zero : β) : Codec (Option (List (String × β))) where
  encode := fun m =>
    match m with
    | none => .ok .null
    | some es =>
      if keysSorted es then (encodeEntries c es).map JSON.obj else .error .unsupportedValue
  isEmpty := fun m =>
    match m with
    | none => true
    | some es => es.length = 0
  decode := fun j old =>
    match j with
    | .null => .ok none
    | .obj ms => (decodeEntries c zero ms (old.getD [])).map some
    | _ => .error .typeMismatch

/-! ### Struct types -/

/-- One field of a struct type as encoding/json sees it: the name of the
json tag, the omitempty option, and the codec of the field type applied to
the field of a struct value. -/
structure Field (σ : Type) where
  name : String
  omitempty : Bool
  encode : σ → Except JsonError JSON
  isEmpty : σ → Bool
  decode : JSON → σ → Except JsonError σ

/-- The field of a struct seen through its getter and setter. -/
def Field.of {σ α : Type} (name : String) (omitempty : Bool) (c : Codec α)
    (get : σ → α) (set : σ → α → σ) : Field σ where
  name := name
  omitempty := omitempty
  encode := fun s => c.encode (get s)
  isEmpty := fun s => c.isEmpty (get s)
  decode := fun j s =>
    match c.decode j (get s) with
    | .error e => .error e
    | .ok a => .ok (set s a)

/-- The members written for a struct value: the fields in declaration order,
without the fields that omitempty leaves out. -/
def encodeFields {σ : Type} (s : σ) : List (Field σ) → Except JsonError (List (String × JSON))
  | [] => .ok []
  | f :: fs =>
    if f.omitempty && f.isEmpty s then encodeFields s fs
    else
      match f.encode s with
      | .error e => .error e
      | .ok j =>
        match encodeFields s fs with
        | .error e => .error e
        | .ok ms => .ok ((f.name, j) :: ms)

/-- Case folding of one character of an object key: ASCII letters, and the
two characters that Unicode folds to k and s. -/
def foldChar (c : Char) : Char :=
  if c.toNat = 383 then 's'
  else if c.toNat = 8490 then 'k'
  else if 65 ≤ c.toNat ∧ c.toNat ≤ 90 then Char.ofNat (c.toNat + 32)
  else c

/-- Case-insensitive match of an object key with a field name. -/
def foldEq (name key : String) : Bool :=
  key.data.map foldChar = name.data.map foldChar

/-- The field that receives an object key: the field of that exact name,
else the first field whose name matches without regard to case. -/
def findField {σ : Type} (fs : List (Field σ)) (key : String) : Option (Field σ) :=
  match fs.find? (fun f => f.name = key) with
  | some f => some f
  | none => fs.find? (fun f => foldEq f.name key)

/-- Decodes the members of an object into a struct value, in input order;
unknown keys are skipped. -/
def decodeMembers {σ : Type} (fs : List (Field σ)) :
    List (String × JSON) → σ → Except JsonError σ
  | [], s => .ok s
  | (k, v) :: ms, s =>
    match findField fs k with
    | none => decodeMembers fs ms s
    | some f =>
      match f.decode v s with
      | .error e => .error e
      | .ok s1 => decodeMembers fs ms s1

/-- The decoding of a JSON value into a struct value: an object overlays its
members, null leaves the value alone, anything else is a type error. -/
def decodeStruct {σ : Type} (fs : List (Field σ)) (j : JSON) (s : σ) : Except JsonError σ :=
  match j with
  | .null => .ok s
  | .obj ms => decodeMembers fs ms s
  | _ => .error .typeMismatch

/-- A struct type without methods. -/
def structCodec {σ : Type} (fs : List (Field σ)) : Codec σ where
  encode := fun s => (encodeFields s fs).map JSON.obj
  isEmpty := fun _ => false
  decode := decodeStruct fs

/-- Go's json.Marshal on a struct value. -/
def marshalStruct {σ : Type} (fs : List (Field σ)) (s : σ) : Except JsonError Bytes :=
  (encodeFields s fs).map (fun ms => render (.obj ms))

/-- Go's json.Unmarshal into a struct variable holding tmp: the resulting
value, or the error. -/
def unmarshalStruct {σ : Type} (fs : List (Field σ)) (data : Bytes) (tmp : σ) :
    Except JsonError σ :=
  match parseJSON data with
  | none => .error .invalidJSON
  | some j => decodeStruct fs j tmp

/-- The fields of an anonymous struct that embeds a struct type after its
own fields: an own field hides the embedded field of the same name. -/
def embedFields {σ : Type} (own embedded : List (Field σ)) : List (Field σ) :=
  own ++ embedded.filter (fun f => own.all (fun g => g.name ≠ f.name))

/-- A type with MarshalJSON and UnmarshalJSON methods.  json.Marshal checks
the text returned by MarshalJSON and copies it to its output; the copy is
represented by the value that the text denotes.  json.Unmarshal hands the
text of the value to UnmarshalJSON, represented by its action on the value
that the text denotes. -/
def methodCodec {α : Type} (marshal : α → Except JsonError Bytes)
    (unmarshal : JSON → α → Except JsonError α) : Codec α where
  encode := fun a =>
    match marshal a with
    | .error _ => .error .marshalerFailed
    | .ok b =>
      match parseJSON b with
      | none => .error .marshalerFailed
      | some j => .ok j
  isEmpty := fun _ => false
  decode := unmarshal

/-- The assignment made by an UnmarshalJSON method of struct.go: the receiver
takes the decoded value when json.Unmarshal returned no error and keeps its
value otherwise; the error is returned. -/
def assignIfOk {σ : Type} (recv : σ) (r : Except JsonError σ) : σ × Option JsonError :=
  match r with
  | .ok t => (t, none)
  | .error e => (recv, some e)

/-! ## Declarations used by struct.go that live outside it -/

/-- Modelled from the spec: the type Extensions is declared outside struct.go;
it is taken to be a map from extension names to arbitrary values, the shape
of the extensions member of the wire format. -/
abbrev Extensions := Option (List (String × Option JSON))

/-- The codec of Extensions. -/
def extensionsCodec : Codec Extensions := mapCodec anyCodec none

/-- Modelled from the spec: the type Attribute is declared outside struct.go;
the tests of the repository assign a map from strings to uint32 to it. -/
abbrev Attribute := Option (List (String × Nat))

/-- The codec of Attribute. -/
def attributeCodec : Codec Attribute := mapCodec uint32Codec 0

/-- Modelled from the spec: the constant Triangles of the numeric type
PrimitiveMode is declared outside struct.go; it has the value that the wire
format assigns to triangles. -/
def Triangles : Nat := 4

/-- Modelled from the spec: the constant Opaque of the string type AlphaMode is
declared outside struct.go; Material.MarshalJSON removes the text it is
written as. -/
def Opaque : String := "OPAQUE"

/-- Modelled from the spec: the constant Repeat of the numeric type
WrappingMode is declared outside struct.go; it has the value that the wire
format assigns to repeated wrapping. -/
def Repeat : Nat := 10497

/-- Modelled from the spec: the constant Linear of the string type
Interpolation is declared outside struct.go. -/
def Linear : String := "LINEAR"

/-! ## removeProperty and sanitizeJSON -/

/-- Function removeProperty of struct.go. -/
def removeProperty (str : Bytes) (b : Bytes) : Bytes :=
  replaceFirst [comma, comma] [comma] (replaceFirst str [] b)

/-- Function sanitizeJSON of struct.go. -/
def sanitizeJSON (b : Bytes) : Bytes :=
  replaceFirst [comma, rbrace] [rbrace] (replaceFirst [lbrace, comma] [lbrace] b)

/-- Applies removeProperty when the condition holds. -/
def removeIf (cond : Bool) (str : String) (b : Bytes) : Bytes :=
  if cond then removeProperty str.data b else b

/-! ## Asset -/

/-- Struct Asset. -/
structure Asset where
  Extensions : Extensions
  Extras : Option JSON
  Copyright : String
  Generator : String
  Version : String
  MinVersion : String
deriving DecidableEq

/-- The zero value of Asset. -/
def Asset.zero : Asset := ⟨none, none, "", "", "", ""⟩

/-- The json tags of Asset. -/
def Asset.fields : List (Field Asset) :=
  [ Field.of "extensions" true extensionsCodec (fun s => s.Extensions) (fun s a => { s with Extensions := a }),
    Field.of "extras" true anyCodec (fun s => s.Extras) (fun s a => { s with Extras := a }),
    Field.of "copyright" true stringCodec (fun s => s.Copyright) (fun s a => { s with Copyright := a }),
    Field.of "generator" true stringCodec (fun s => s.Generator) (fun s a => { s with Generator := a }),
    Field.of "version" false stringCodec (fun s => s.Version) (fun s a => { s with Version := a }),
    Field.of "minVersion" true stringCodec (fun s => s.MinVersion) (fun s a => { s with MinVersion := a }) ]

/-- The codec of Asset, a struct without methods. -/
def Asset.codec : Codec Asset := structCodec Asset.fields

/-! ## Accessor and Sparse -/

/-- Struct SparseValues. -/
structure SparseValues where
  Extensions : Extensions
  Extras : Option JSON
  BufferView : Nat
  ByteOffset : Nat
deriving DecidableEq

/-- The zero value of SparseValues. -/
def SparseValues.zero : SparseValues := ⟨none, none, 0, 0⟩

/-- The json tags of SparseValues. -/
def SparseValues.fields : List (Field SparseValues) :=
  [ Field.of "extensions" true extensionsCodec (fun s => s.Extensions) (fun s a => { s with Extensions := a }),
    Field.of "extras" true anyCodec (fun s => s.Extras) (fun s a => { s with Extras := a }),
    Field.of "bufferView" false uint32Codec (fun s => s.BufferView) (fun s a => { s with BufferView := a }),
    Field.of "byteOffset" true uint32Codec (fun s => s.ByteOffset) (fun s a => { s with ByteOffset := a }) ]

/-- Struct SparseIndices. -/
structure SparseIndices where
  Extensions : Extensions
  Extras : Option JSON
  BufferView : Nat
  ByteOffset : Nat
  ComponentType : Nat
deriving DecidableEq

/-- The zero value of SparseIndices. -/
def SparseIndices.zero : SparseIndices := ⟨none, none, 0, 0, 0⟩

/-- The json tags of SparseIndices. -/
def SparseIndices.fields : List (Field SparseIndices) :=
  [ Field.of "extensions" true extensionsCodec (fun s => s.Extensions) (fun s a => { s with Extensions := a }),
    Field.of "extras" true anyCodec (fun s => s.Extras) (fun s a => { s with Extras := a }),
    Field.of "bufferView" false uint32Codec (fun s => s.BufferView) (fun s a => { s with BufferView := a }),
    Field.of "byteOffset" true uint32Codec (fun s => s.ByteOffset) (fun s a => { s with ByteOffset := a }),
    Field.of "componentType" false uint16Codec (fun s => s.ComponentType)
      (fun s a => { s with ComponentType := a }) ]

/-- Struct Sparse. -/
structure Sparse where
  Extensions : Extensions
  Extras : Option JSON
  Count : Nat
  Indices : SparseIndices
  Values : SparseValues
deriving DecidableEq

/-- The zero value of Sparse. -/
def Sparse.zero : Sparse := ⟨none, none, 0, SparseIndices.zero, SparseValues.zero⟩

/-- The json tags of Sparse. -/
def Sparse.fields : List (Field Sparse) :=
  [ Field.of "extensions" true extensionsCodec (fun s => s.Extensions) (fun s a => { s with Extensions := a }),
    Field.of "extras" true anyCodec (fun s => s.Extras) (fun s a => { s with Extras := a }),
    Field.of "count" false uint32Codec (fun s => s.Count) (fun s a => { s with Count := a }),
    Field.of "indices" false (structCodec SparseIndices.fields) (fun s => s.Indices)
      (fun s a => { s with Indices := a }),
    Field.of "values" false (structCodec SparseValues.fields) (fun s => s.Values)
      (fun s a => { s with Values := a }) ]

/-- Struct Accessor. -/
structure Accessor where
  Extensions : Extensions
  Extras : Option JSON
  Name : String
  BufferView : Int
  ByteOffset : Nat
  ComponentType : Nat
  Normalized : Bool
  Count : Nat
  Type_ : String
  Max : Option (List Float64)
  Min : Option (List Float64)
  Sparse : Option Sparse
deriving DecidableEq

/-- The zero value of Accessor. -/
def Accessor.zero : Accessor := ⟨none, none, "", 0, 0, 0, false, 0, "", none, none, none⟩

/-- The json tags of Accessor. -/
def Accessor.fields : List (Field Accessor) :=
  [ Field.of "extensions" true extensionsCodec (fun s => s.Extensions) (fun s a => { s with Extensions := a }),
    Field.of "extras" true anyCodec (fun s => s.Extras) (fun s a => { s with Extras := a }),
    Field.of "name" true stringCodec (fun s => s.Name) (fun s a => { s with Name := a }),
    Field.of "bufferView" false int32Codec (fun s => s.BufferView) (fun s a => { s with BufferView := a }),
    Field.of "byteOffset" true uint32Codec (fun s => s.ByteOffset) (fun s a => { s with ByteOffset := a }),
    Field.of "componentType" false uint16Codec (fun s => s.ComponentType)
      (fun s a => { s with ComponentType := a }),
    Field.of "normalized" true boolCodec (fun s => s.Normalized) (fun s a => { s with Normalized := a }),
    Field.of "count" false uint32Codec (fun s => s.Count) (fun s a => { s with Count := a }),
    Field.of "type" false stringCodec (fun s => s.Type_) (fun s a => { s with Type_ := a }),
    Field.of "max" true (sliceCodec float64Codec f0) (fun s => s.Max) (fun s a => { s with Max := a }),
    Field.of "min" true (sliceCodec float64Codec f0) (fun s => s.Min) (fun s a => { s with Min := a }),
    Field.of "sparse" true (ptrCodec (structCodec Sparse.fields) Sparse.zero) (fun s => s.Sparse)
      (fun s a => { s with Sparse := a }) ]

/-- Function NewAccessor. -/
def NewAccessor : Accessor := { Accessor.zero with BufferView := -1 }

/-- The shadowing field that MarshalJSON methods place before the embedded
alias: an int32 with the omitempty option and the value 0. -/
def shadowField {σ : Type} (name : String) : Field σ :=
  Field.of name true int32Codec (fun _ => (0 : Int)) (fun s _ => s)

/-- Method Accessor.UnmarshalJSON. -/
def Accessor.UnmarshalJSON (a : Accessor) (data : Bytes) : Accessor × Option JsonError :=
  assignIfOk a (unmarshalStruct Accessor.fields data NewAccessor)

/-- Method Accessor.MarshalJSON. -/
def Accessor.MarshalJSON (a : Accessor) : Except JsonError Bytes :=
  if a.BufferView = -1 then
    marshalStruct (embedFields [shadowField "bufferView"] Accessor.fields) a
  else marshalStruct (embedFields [] Accessor.fields) a

/-- The codec of Accessor, through its methods. -/
def Accessor.codec : Codec Accessor :=
  methodCodec Accessor.MarshalJSON (fun j _ => decodeStruct Accessor.fields j NewAccessor)

/-! ## Buffer and BufferView -/

/-- Struct Buffer.  The field Data carries the tag that excludes it from
JSON. -/
structure Buffer where
  Extensions : Extensions
  Extras : Option JSON
  Name : String
  URI : String
  ByteLength : Nat
  Data : List Nat
deriving DecidableEq

/-- The zero value of Buffer. -/
def Buffer.zero : Buffer := ⟨none, none, "", "", 0, []⟩

/-- The json tags of Buffer. -/
def Buffer.fields : List (Field Buffer) :=
  [ Field.of "extensions" true extensionsCodec (fun s => s.Extensions) (fun s a => { s with Extensions := a }),
    Field.of "extras" true anyCodec (fun s => s.Extras) (fun s a => { s with Extras := a }),
    Field.of "name" true stringCodec (fun s => s.Name) (fun s a => { s with Name := a }),
    Field.of "uri" true stringCodec (fun s => s.URI) (fun s a => { s with URI := a }),
    Field.of "byteLength" false uint32Codec (fun s => s.ByteLength) (fun s a => { s with ByteLength := a }) ]

/-- Struct BufferView. -/
structure BufferView where
  Extensions : Extensions
  Extras : Option JSON
  Buffer : Int
  ByteOffset : Nat
  ByteLength : Nat
  ByteStride : Nat
  Target : Nat
deriving DecidableEq

/-- The zero value of BufferView. -/
def BufferView.zero : BufferView := ⟨none, none, 0, 0, 0, 0, 0⟩

/-- The json tags of BufferView. -/
def BufferView.fields : List (Field BufferView) :=
  [ Field.of "extensions" true extensionsCodec (fun s => s.Extensions) (fun s a => { s with Extensions := a }),
    Field.of "extras" true anyCodec (fun s => s.Extras) (fun s a => { s with Extras := a }),
    Field.of "buffer" false int32Codec (fun s => s.Buffer) (fun s a => { s with Buffer := a }),
    Field.of "byteOffset" true uint32Codec (fun s => s.ByteOffset) (fun s a => { s with ByteOffset := a }),
    Field.of "byteLength" false uint32Codec (fun s => s.ByteLength) (fun s a => { s with ByteLength := a }),
    Field.of "byteStride" true uint32Codec (fun s => s.ByteStride) (fun s a => { s with ByteStride := a }),
    Field.of "target" true uint16Codec (fun s => s.Target) (fun s a => { s with Target := a }) ]

/-- Method BufferView.UnmarshalJSON. -/
def BufferView.UnmarshalJSON (b : BufferView) (data : Bytes) : BufferView × Option JsonError :=
  assignIfOk b (unmarshalStruct BufferView.fields data { BufferView.zero with Buffer := -1 })

/-- Method BufferView.MarshalJSON. -/
def BufferView.MarshalJSON (b : BufferView) : Except JsonError Bytes :=
  if b.Buffer = -1 then
    marshalStruct (embedFields [shadowField "buffer"] BufferView.fields) b
  else marshalStruct (embedFields [] BufferView.fields) b

/-- The codec of BufferView, through its methods. -/
def BufferView.codec : Codec BufferView :=
  methodCodec BufferView.MarshalJSON
    (fun j _ => decodeStruct BufferView.fields j { BufferView.zero with Buffer := -1 })

/-! ## Scene -/

/-- Struct Scene. -/
structure Scene where
  Extensions : Extensions
  Extras : Option JSON
  Name : String
  Nodes : Option (List Nat)
deriving DecidableEq

/-- The zero value of Scene. -/
def Scene.zero : Scene := ⟨none, none, "", none⟩

/-- The json tags of Scene. -/
def Scene.fields : List (Field Scene) :=
  [ Field.of "extensions" true extensionsCodec (fun s => s.Extensions) (fun s a => { s with Extensions := a }),
    Field.of "extras" true anyCodec (fun s => s.Extras) (fun s a => { s with Extras := a }),
    Field.of "name" true stringCodec (fun s => s.Name) (fun s a => { s with Name := a }),
    Field.of "nodes" true (sliceCodec uint32Codec 0) (fun s => s.Nodes) (fun s a => { s with Nodes := a }) ]

/-! ## Node -/

/-- Struct Node. -/
structure Node where
  Extensions : Extensions
  Extras : Option JSON
  Name : String
  Camera : Int
  Children : Option (List Nat)
  Skin : Int
  Matrix : List Float64
  Mesh : Int
  Rotation : List Float64
  Scale : List Float64
  Translation : List Float64
  Weights : Option (List Float64)
deriving DecidableEq

/-- The zero value of Node. -/
def Node.zero : Node :=
  { Extensions := none, Extras := none, Name := "", Camera := 0, Children := none, Skin := 0,
    Matrix := List.replicate 16 f0, Mesh := 0, Rotation := List.replicate 4 f0,
    Scale := List.replicate 3 f0, Translation := List.replicate 3 f0, Weights := none }

/-- The json tags of Node. -/
def Node.fields : List (Field Node) :=
  [ Field.of "extensions" true extensionsCodec (fun s => s.Extensions) (fun s a => { s with Extensions := a }),
    Field.of "extras" true anyCodec (fun s => s.Extras) (fun s a => { s with Extras := a }),
    Field.of "name" true stringCodec (fun s => s.Name) (fun s a => { s with Name := a }),
    Field.of "camera" false int32Codec (fun s => s.Camera) (fun s a => { s with Camera := a }),
    Field.of "children" true (sliceCodec uint32Codec 0) (fun s => s.Children)
      (fun s a => { s with Children := a }),
    Field.of "skin" false int32Codec (fun s => s.Skin) (fun s a => { s with Skin := a }),
    Field.of "matrix" false (arrayCodec float64Codec f0 16) (fun s => s.Matrix)
      (fun s a => { s with Matrix := a }),
    Field.of "mesh" false int32Codec (fun s => s.Mesh) (fun s a => { s with Mesh := a }),
    Field.of "rotation" false (arrayCodec float64Codec f0 4) (fun s => s.Rotation)
      (fun s a => { s with Rotation := a }),
    Field.of "scale" false (arrayCodec float64Codec f0 3) (fun s => s.Scale)
      (fun s a => { s with Scale := a }),
    Field.of "translation" false (arrayCodec float64Codec f0 3) (fun s => s.Translation)
      (fun s a => { s with Translation := a }),
    Field.of "weights" true (sliceCodec float64Codec f0) (fun s => s.Weights)
      (fun s a => { s with Weights := a }) ]

/-- The identity matrix in column-major order. -/
def identityMatrix : List Float64 :=
  [f1, f0, f0, f0, f0, f1, f0, f0, f0, f0, f1, f0, f0, f0, f0, f1]

/-- Function NewNode. -/
def NewNode : Node :=
  { Node.zero with
    Matrix := identityMatrix, Rotation := [f0, f0, f0, f1], Scale := [f1, f1, f1],
    Camera := -1, Skin := -1, Mesh := -1 }

/-- Method Node.UnmarshalJSON. -/
def Node.UnmarshalJSON (n : Node) (data : Bytes) : Node × Option JsonError :=
  assignIfOk n (unmarshalStruct Node.fields data NewNode)

/-- Method Node.MarshalJSON. -/
def Node.MarshalJSON (n : Node) : Except JsonError Bytes :=
  match marshalStruct (embedFields [] Node.fields) n with
  | .error e => .error e
  | .ok out =>
    .ok (sanitizeJSON
      (removeIf (n.Mesh = -1) "\"mesh\":-1"
      (removeIf (n.Skin = -1) "\"skin\":-1"
      (removeIf (n.Camera = -1) "\"camera\":-1"
      (removeIf (floatsEq n.Translation [f0, f0, f0]) "\"translation\":[0,0,0]"
      (removeIf (floatsEq n.Scale [f1, f1, f1]) "\"scale\":[1,1,1]"
      (removeIf (floatsEq n.Rotation [f0, f0, f0, f1]) "\"rotation\":[0,0,0,1]"
      (removeIf (floatsEq n.Matrix identityMatrix) "\"matrix\":[1,0,0,0,0,1,0,0,0,0,1,0,0,0,0,1]"
      out))))))))

/-- The codec of Node, through its methods. -/
def Node.codec : Codec Node :=
  methodCodec Node.MarshalJSON (fun j _ => decodeStruct Node.fields j NewNode)

/-! ## Skin -/

/-- Struct Skin. -/
structure Skin where
  Extensions : Extensions
  Extras : Option JSON
  Name : String
  InverseBindMatrices : Int
  Skeleton : Int
  Joints : Option (List Nat)
deriving DecidableEq

/-- The zero value of Skin. -/
def Skin.zero : Skin := ⟨none, none, "", 0, 0, none⟩

/-- The json tags of Skin. -/
def Skin.fields : List (Field Skin) :=
  [ Field.of "extensions" true extensionsCodec (fun s => s.Extensions) (fun s a => { s with Extensions := a }),
    Field.of "extras" true anyCodec (fun s => s.Extras) (fun s a => { s with Extras := a }),
    Field.of "name" true stringCodec (fun s => s.Name) (fun s a => { s with Name := a }),
    Field.of "inverseBindMatrices" false int32Codec (fun s => s.InverseBindMatrices)
      (fun s a => { s with InverseBindMatrices := a }),
    Field.of "skeleton" false int32Codec (fun s => s.Skeleton) (fun s a => { s with Skeleton := a }),
    Field.of "joints" false (sliceCodec uint32Codec 0) (fun s => s.Joints)
      (fun s a => { s with Joints := a }) ]

/-- Function NewSkin. -/
def NewSkin : Skin := { Skin.zero with InverseBindMatrices := -1, Skeleton := -1 }

/-- Method Skin.UnmarshalJSON. -/
def Skin.UnmarshalJSON (s : Skin) (data : Bytes) : Skin × Option JsonError :=
  assignIfOk s (unmarshalStruct Skin.fields data NewSkin)

/-- Method Skin.MarshalJSON. -/
def Skin.MarshalJSON (s : Skin) : Except JsonError Bytes :=
  match marshalStruct (embedFields [] Skin.fields) s with
  | .error e => .error e
  | .ok out =>
    .ok (sanitizeJSON
      (removeIf (s.Skeleton = -1) "\"skeleton\":-1"
      (removeIf (s.InverseBindMatrices = -1) "\"inverseBindMatrices\":-1"
      out)))

/-- The codec of Skin, through its methods. -/
def Skin.codec : Codec Skin :=
  methodCodec Skin.MarshalJSON (fun j _ => decodeStruct Skin.fields j NewSkin)

/-! ## Camera -/

/-- Struct Orthographic. -/
structure Orthographic where
  Extensions : Extensions
  Extras : Option JSON
  Xmag : Float64
  Ymag : Float64
  Zfar : Float64
  Znear : Float64
deriving DecidableEq

/-- The zero value of Orthographic. -/
def Orthographic.zero : Orthographic := ⟨none, none, f0, f0, f0, f0⟩

/-- The json tags of Orthographic. -/
def Orthographic.fields : List (Field Orthographic) :=
  [ Field.of "extensions" true extensionsCodec (fun s => s.Extensions) (fun s a => { s with Extensions := a }),
    Field.of "extras" true anyCodec (fun s => s.Extras) (fun s a => { s with Extras := a }),
    Field.of "xmag" false float64Codec (fun s => s.Xmag) (fun s a => { s with Xmag := a }),
    Field.of "ymag" false float64Codec (fun s => s.Ymag) (fun s a => { s with Ymag := a }),
    Field.of "zfar" false float64Codec (fun s => s.Zfar) (fun s a => { s with Zfar := a }),
    Field.of "znear" false float64Codec (fun s => s.Znear) (fun s a => { s with Znear := a }) ]

/-- Struct Perspective. -/
structure Perspective where
  Extensions : Extensions
  Extras : Option JSON
  AspectRatio : Float64
  Yfov : Float64
  Zfar : Float64
  Znear : Float64
deriving DecidableEq

/-- The zero value of Perspective. -/
def Perspective.zero : Perspective := ⟨none, none, f0, f0, f0, f0⟩

/-- The json tags of Perspective. -/
def Perspective.fields : List (Field Perspective) :=
  [ Field.of "extensions" true extensionsCodec (fun s => s.Extensions) (fun s a => { s with Extensions := a }),
    Field.of "extras" true anyCodec (fun s => s.Extras) (fun s a => { s with Extras := a }),
    Field.of "aspectRatio" true float64Codec (fun s => s.AspectRatio)
      (fun s a => { s with AspectRatio := a }),
    Field.of "yfov" false float64Codec (fun s => s.Yfov) (fun s a => { s with Yfov := a }),
    Field.of "zfar" true float64Codec (fun s => s.Zfar) (fun s a => { s with Zfar := a }),
    Field.of "znear" false float64Codec (fun s => s.Znear) (fun s a => { s with Znear := a }) ]

/-- Struct Camera. -/
structure Camera where
  Extensions : Extensions
  Extras : Option JSON
  Name : String
  Orthographic : Option Orthographic
  Perspective : Option Perspective
  Type_ : String
deriving DecidableEq

/-- The zero value of Camera. -/
def Camera.zero : Camera := ⟨none, none, "", none, none, ""⟩

/-- The json tags of Camera. -/
def Camera.fields : List (Field Camera) :=
  [ Field.of "extensions" true extensionsCodec (fun s => s.Extensions) (fun s a => { s with Extensions := a }),
    Field.of "extras" true anyCodec (fun s => s.Extras) (fun s a => { s with Extras := a }),
    Field.of "name" true stringCodec (fun s => s.Name) (fun s a => { s with Name := a }),
    Field.of "orthographic" true (ptrCodec (structCodec Orthographic.fields) Orthographic.zero) (fun s => s.Orthographic)
      (fun s a => { s with Orthographic := a }),
    Field.of "perspective" true (ptrCodec (structCodec Perspective.fields) Perspective.zero) (fun s => s.Perspective)
      (fun s a => { s with Perspective := a }),
    Field.of "type" false stringCodec (fun s => s.Type_) (fun s a => { s with Type_ := a }) ]

/-! ## Mesh and Primitive -/

/-- Struct Primitive. -/
structure Primitive where
  Extensions : Extensions
  Extras : Option JSON
  Attributes : Attribute
  Indices : Int
  Material : Int
  Mode : Nat
  Targets : Option (List Attribute)
deriving DecidableEq

/-- The zero value of Primitive. -/
def Primitive.zero : Primitive := ⟨none, none, none, 0, 0, 0, none⟩

/-- The json tags of Primitive. -/
def Primitive.fields : List (Field Primitive) :=
  [ Field.of "extensions" true extensionsCodec (fun s => s.Extensions) (fun s a => { s with Extensions := a }),
    Field.of "extras" true anyCodec (fun s => s.Extras) (fun s a => { s with Extras := a }),
    Field.of "attributes" false attributeCodec (fun s => s.Attributes)
      (fun s a => { s with Attributes := a }),
    Field.of "indices" false int32Codec (fun s => s.Indices) (fun s a => { s with Indices := a }),
    Field.of "material" false int32Codec (fun s => s.Material) (fun s a => { s with Material := a }),
    Field.of "mode" false uint8Codec (fun s => s.Mode) (fun s a => { s with Mode := a }),
    Field.of "targets" true (sliceCodec attributeCodec none) (fun s => s.Targets)
      (fun s a => { s with Targets := a }) ]

/-- Function NewPrimitive. -/
def NewPrimitive : Primitive := { Primitive.zero with Mode := Triangles, Indices := -1, Material := -1 }

/-- Method Primitive.UnmarshalJSON. -/
def Primitive.UnmarshalJSON (p : Primitive) (data : Bytes) : Primitive × Option JsonError :=
  assignIfOk p (unmarshalStruct Primitive.fields data NewPrimitive)

/-- Method Primitive.MarshalJSON. -/
def Primitive.MarshalJSON (p : Primitive) : Except JsonError Bytes :=
  match marshalStruct (embedFields [] Primitive.fields) p with
  | .error e => .error e
  | .ok out =>
    .ok (sanitizeJSON
      (removeIf (p.Material = -1) "\"material\":-1"
      (removeIf (p.Indices = -1) "\"indices\":-1"
      out)))

/-- The codec of Primitive, through its methods. -/
def Primitive.codec : Codec Primitive :=
  methodCodec Primitive.MarshalJSON (fun j _ => decodeStruct Primitive.fields j NewPrimitive)

/-- Struct Mesh. -/
structure Mesh where
  Extensions : Extensions
  Extras : Option JSON
  Name : String
  Primitives : Option (List Primitive)
  Weights : Option (List Float64)
deriving DecidableEq

/-- The zero value of Mesh. -/
def Mesh.zero : Mesh := ⟨none, none, "", none, none⟩

/-- The json tags of Mesh. -/
def Mesh.fields : List (Field Mesh) :=
  [ Field.of "extensions" true extensionsCodec (fun s => s.Extensions) (fun s a => { s with Extensions := a }),
    Field.of "extras" true anyCodec (fun s => s.Extras) (fun s a => { s with Extras := a }),
    Field.of "name" true stringCodec (fun s => s.Name) (fun s a => { s with Name := a }),
    Field.of "primitives" false (sliceCodec Primitive.codec Primitive.zero) (fun s => s.Primitives)
      (fun s a => { s with Primitives := a }),
    Field.of "weights" true (sliceCodec float64Codec f0) (fun s => s.Weights)
      (fun s a => { s with Weights := a }) ]

/-! ## Material and its textures -/

/-- Struct TextureInfo. -/
structure TextureInfo where
  Extensions : Extensions
  Extras : Option JSON
  Index : Int
  TexCoord : Nat
deriving DecidableEq

/-- The zero value of TextureInfo. -/
def TextureInfo.zero : TextureInfo := ⟨none, none, 0, 0⟩

/-- The json tags of TextureInfo. -/
def TextureInfo.fields : List (Field TextureInfo) :=
  [ Field.of "extensions" true extensionsCodec (fun s => s.Extensions) (fun s a => { s with Extensions := a }),
    Field.of "extras" true anyCodec (fun s => s.Extras) (fun s a => { s with Extras := a }),
    Field.of "index" false int32Codec (fun s => s.Index) (fun s a => { s with Index := a }),
    Field.of "texCoord" true uint32Codec (fun s => s.TexCoord) (fun s a => { s with TexCoord := a }) ]

/-- Function NewTextureInfo. -/
def NewTextureInfo (index : Int) : TextureInfo := { TextureInfo.zero with Index := index }

/-- Method TextureInfo.UnmarshalJSON. -/
def TextureInfo.UnmarshalJSON (t : TextureInfo) (data : Bytes) : TextureInfo × Option JsonError :=
  assignIfOk t (unmarshalStruct TextureInfo.fields data (NewTextureInfo (-1)))

/-- Method TextureInfo.MarshalJSON. -/
def TextureInfo.MarshalJSON (t : TextureInfo) : Except JsonError Bytes :=
  if t.Index = -1 then
    marshalStruct (embedFields [shadowField "index"] TextureInfo.fields) t
  else marshalStruct (embedFields [] TextureInfo.fields) t

/-- The codec of TextureInfo, through its methods. -/
def TextureInfo.codec : Codec TextureInfo :=
  methodCodec TextureInfo.MarshalJSON (fun j _ => decodeStruct TextureInfo.fields j (NewTextureInfo (-1)))

/-- Struct NormalTexture. -/
structure NormalTexture where
  Extensions : Extensions
  Extras : Option JSON
  Index : Int
  TexCoord : Nat
  Scale : Float64
deriving DecidableEq

/-- The zero value of NormalTexture. -/
def NormalTexture.zero : NormalTexture := ⟨none, none, 0, 0, f0⟩

/-- The json tags of NormalTexture. -/
def NormalTexture.fields : List (Field NormalTexture) :=
  [ Field.of "extensions" true extensionsCodec (fun s => s.Extensions) (fun s a => { s with Extensions := a }),
    Field.of "extras" true anyCodec (fun s => s.Extras) (fun s a => { s with Extras := a }),
    Field.of "index" false int32Codec (fun s => s.Index) (fun s a => { s with Index := a }),
    Field.of "texCoord" true uint32Codec (fun s => s.TexCoord) (fun s a => { s with TexCoord := a }),
    Field.of "scale" false float64Codec (fun s => s.Scale) (fun s a => { s with Scale := a }) ]

/-- Function NewNormalTexture. -/
def NewNormalTexture (index : Int) : NormalTexture :=
  { NormalTexture.zero with Index := index, Scale := f1 }

/-- Method NormalTexture.UnmarshalJSON. -/
def NormalTexture.UnmarshalJSON (n : NormalTexture) (data : Bytes) : NormalTexture × Option JsonError :=
  assignIfOk n (unmarshalStruct NormalTexture.fields data (NewNormalTexture (-1)))

/-- Method NormalTexture.MarshalJSON. -/
def NormalTexture.MarshalJSON (n : NormalTexture) : Except JsonError Bytes :=
  match marshalStruct (embedFields [] NormalTexture.fields) n with
  | .error e => .error e
  | .ok out =>
    .ok (sanitizeJSON
      (removeIf (Float64.eq n.Scale fm1) "\"scale\":-1"
      (removeIf (n.Index = -1) "\"index\":-1"
      out)))

/-- The codec of NormalTexture, through its methods. -/
def NormalTexture.codec : Codec NormalTexture :=
  methodCodec NormalTexture.MarshalJSON (fun j _ => decodeStruct NormalTexture.fields j (NewNormalTexture (-1)))

/-- Struct OcclusionTexture. -/
structure OcclusionTexture where
  Extensions : Extensions
  Extras : Option JSON
  Index : Int
  TexCoord : Nat
  Strength : Float64
deriving DecidableEq

/-- The zero value of OcclusionTexture. -/
def OcclusionTexture.zero : OcclusionTexture := ⟨none, none, 0, 0, f0⟩

/-- The json tags of OcclusionTexture. -/
def OcclusionTexture.fields : List (Field OcclusionTexture) :=
  [ Field.of "extensions" true extensionsCodec (fun s => s.Extensions) (fun s a => { s with Extensions := a }),
    Field.of "extras" true anyCodec (fun s => s.Extras) (fun s a => { s with Extras := a }),
    Field.of "index" false int32Codec (fun s => s.Index) (fun s a => { s with Index := a }),
    Field.of "texCoord" true uint32Codec (fun s => s.TexCoord) (fun s a => { s with TexCoord := a }),
    Field.of "strength" false float64Codec (fun s => s.Strength)
      (fun s a => { s with Strength := a }) ]

/-- Function NewOcclusionTexture. -/
def NewOcclusionTexture (index : Int) : OcclusionTexture :=
  { OcclusionTexture.zero with Index := index, Strength := f1 }

/-- Method OcclusionTexture.UnmarshalJSON. -/
def OcclusionTexture.UnmarshalJSON (o : OcclusionTexture) (data : Bytes) : OcclusionTexture × Option JsonError :=
  assignIfOk o (unmarshalStruct OcclusionTexture.fields data (NewOcclusionTexture (-1)))

/-- Method OcclusionTexture.MarshalJSON. -/
def OcclusionTexture.MarshalJSON (o : OcclusionTexture) : Except JsonError Bytes :=
  match marshalStruct (embedFields [] OcclusionTexture.fields) o with
  | .error e => .error e
  | .ok out =>
    .ok (sanitizeJSON
      (removeIf (Float64.eq o.Strength f1) "\"strength\":1"
      (removeIf (o.Index = -1) "\"index\":-1"
      out)))

/-- The codec of OcclusionTexture, through its methods. -/
def OcclusionTexture.codec : Codec OcclusionTexture :=
  methodCodec OcclusionTexture.MarshalJSON (fun j _ => decodeStruct OcclusionTexture.fields j (NewOcclusionTexture (-1)))

/-- Struct PBRMetallicRoughness. -/
structure PBRMetallicRoughness where
  Extensions : Extensions
  Extras : Option JSON
  BaseColorFactor : List Float64
  BaseColorTexture : Option TextureInfo
  MetallicFactor : Float64
  RoughnessFactor : Float64
  MetallicRoughnessTexture : Option TextureInfo
deriving DecidableEq

/-- The zero value of PBRMetallicRoughness. -/
def PBRMetallicRoughness.zero : PBRMetallicRoughness :=
  ⟨none, none, List.replicate 4 f0, none, f0, f0, none⟩

/-- The json tags of PBRMetallicRoughness. -/
def PBRMetallicRoughness.fields : List (Field PBRMetallicRoughness) :=
  [ Field.of "extensions" true extensionsCodec (fun s => s.Extensions) (fun s a => { s with Extensions := a }),
    Field.of "extras" true anyCodec (fun s => s.Extras) (fun s a => { s with Extras := a }),
    Field.of "baseColorFactor" false (arrayCodec float64Codec f0 4) (fun s => s.BaseColorFactor)
      (fun s a => { s with BaseColorFactor := a }),
    Field.of "baseColorTexture" true (ptrCodec TextureInfo.codec TextureInfo.zero) (fun s => s.BaseColorTexture)
      (fun s a => { s with BaseColorTexture := a }),
    Field.of "metallicFactor" false float64Codec (fun s => s.MetallicFactor)
      (fun s a => { s with MetallicFactor := a }),
    Field.of "roughnessFactor" false float64Codec (fun s => s.RoughnessFactor)
      (fun s a => { s with RoughnessFactor := a }),
    Field.of "metallicRoughnessTexture" true (ptrCodec TextureInfo.codec TextureInfo.zero) (fun s => s.MetallicRoughnessTexture)
      (fun s a => { s with MetallicRoughnessTexture := a }) ]

/-- Function NewPBRMetallicRoughness. -/
def NewPBRMetallicRoughness : PBRMetallicRoughness :=
  { PBRMetallicRoughness.zero with
    BaseColorFactor := [f1, f1, f1, f1], MetallicFactor := f1, RoughnessFactor := f1 }

/-- Method PBRMetallicRoughness.UnmarshalJSON. -/
def PBRMetallicRoughness.UnmarshalJSON (p : PBRMetallicRoughness) (data : Bytes) : PBRMetallicRoughness × Option JsonError :=
  assignIfOk p (unmarshalStruct PBRMetallicRoughness.fields data NewPBRMetallicRoughness)

/-- Method PBRMetallicRoughness.MarshalJSON. -/
def PBRMetallicRoughness.MarshalJSON (p : PBRMetallicRoughness) : Except JsonError Bytes :=
  match marshalStruct (embedFields [] PBRMetallicRoughness.fields) p with
  | .error e => .error e
  | .ok out =>
    .ok (sanitizeJSON
      (removeIf (floatsEq p.BaseColorFactor [f1, f1, f1, f1]) "\"baseColorFactor\":[1,1,1,1]"
      (removeIf (Float64.eq p.RoughnessFactor f1) "\"roughnessFactor\":1"
      (removeIf (Float64.eq p.MetallicFactor f1) "\"metallicFactor\":1"
      out))))

/-- The codec of PBRMetallicRoughness, through its methods. -/
def PBRMetallicRoughness.codec : Codec PBRMetallicRoughness :=
  methodCodec PBRMetallicRoughness.MarshalJSON (fun j _ => decodeStruct PBRMetallicRoughness.fields j NewPBRMetallicRoughness)

/-- Struct Material. -/
structure Material where
  Extensions : Extensions
  Extras : Option JSON
  Name : String
  PBRMetallicRoughness : Option PBRMetallicRoughness
  NormalTexture : Option NormalTexture
  OcclusionTexture : Option OcclusionTexture
  EmissiveTexture : Option TextureInfo
  EmissiveFactor : List Float64
  AlphaMode : String
  AlphaCutoff : Float64
  DoubleSided : Bool
deriving DecidableEq

/-- The zero value of Material. -/
def Material.zero : Material :=
  ⟨none, none, "", none, none, none, none, List.replicate 3 f0, "", f0, false⟩

/-- The json tags of Material. -/
def Material.fields : List (Field Material) :=
  [ Field.of "extensions" true extensionsCodec (fun s => s.Extensions) (fun s a => { s with Extensions := a }),
    Field.of "extras" true anyCodec (fun s => s.Extras) (fun s a => { s with Extras := a }),
    Field.of "name" true stringCodec (fun s => s.Name) (fun s a => { s with Name := a }),
    Field.of "pbrMetallicRoughness" true (ptrCodec PBRMetallicRoughness.codec PBRMetallicRoughness.zero) (fun s => s.PBRMetallicRoughness)
      (fun s a => { s with PBRMetallicRoughness := a }),
    Field.of "normalTexture" true (ptrCodec NormalTexture.codec NormalTexture.zero) (fun s => s.NormalTexture)
      (fun s a => { s with NormalTexture := a }),
    Field.of "occlusionTexture" true (ptrCodec OcclusionTexture.codec OcclusionTexture.zero) (fun s => s.OcclusionTexture)
      (fun s a => { s with OcclusionTexture := a }),
    Field.of "emissiveTexture" true (ptrCodec TextureInfo.codec TextureInfo.zero) (fun s => s.EmissiveTexture)
      (fun s a => { s with EmissiveTexture := a }),
    Field.of "emissiveFactor" true (arrayCodec float64Codec f0 3) (fun s => s.EmissiveFactor)
      (fun s a => { s with EmissiveFactor := a }),
    Field.of "alphaMode" true stringCodec (fun s => s.AlphaMode)
      (fun s a => { s with AlphaMode := a }),
    Field.of "alphaCutoff" false float64Codec (fun s => s.AlphaCutoff)
      (fun s a => { s with AlphaCutoff := a }),
    Field.of "doubleSided" true boolCodec (fun s => s.DoubleSided)
      (fun s a => { s with DoubleSided := a }) ]

/-- Function NewMaterial. -/
def NewMaterial : Material := { Material.zero with AlphaCutoff := fhalf, AlphaMode := Opaque }

/-- Method Material.UnmarshalJSON. -/
def Material.UnmarshalJSON (m : Material) (data : Bytes) : Material × Option JsonError :=
  assignIfOk m (unmarshalStruct Material.fields data NewMaterial)

/-- Method Material.MarshalJSON. -/
def Material.MarshalJSON (m : Material) : Except JsonError Bytes :=
  match marshalStruct (embedFields [] Material.fields) m with
  | .error e => .error e
  | .ok out =>
    .ok (sanitizeJSON
      (removeIf (floatsEq m.EmissiveFactor [f0, f0, f0]) "\"emissiveFactor\":[0,0,0]"
      (removeIf (m.AlphaMode = Opaque) "\"alphaMode\":\"OPAQUE\""
      (removeIf (Float64.eq m.AlphaCutoff fhalf) "\"alphaCutoff\":0.5"
      out))))

/-- The codec of Material, through its methods. -/
def Material.codec : Codec Material :=
  methodCodec Material.MarshalJSON (fun j _ => decodeStruct Material.fields j NewMaterial)

/-! ## Texture, Sampler and Image -/

/-- Struct Texture. -/
structure Texture where
  Extensions : Extensions
  Extras : Option JSON
  Name : String
  Sampler : Int
  Source : Int
deriving DecidableEq

/-- The zero value of Texture. -/
def Texture.zero : Texture := ⟨none, none, "", 0, 0⟩

/-- The json tags of Texture. -/
def Texture.fields : List (Field Texture) :=
  [ Field.of "extensions" true extensionsCodec (fun s => s.Extensions) (fun s a => { s with Extensions := a }),
    Field.of "extras" true anyCodec (fun s => s.Extras) (fun s a => { s with Extras := a }),
    Field.of "name" true stringCodec (fun s => s.Name) (fun s a => { s with Name := a }),
    Field.of "sampler" false int32Codec (fun s => s.Sampler) (fun s a => { s with Sampler := a }),
    Field.of "source" false int32Codec (fun s => s.Source) (fun s a => { s with Source := a }) ]

/-- Function NewTexture. -/
def NewTexture : Texture := { Texture.zero with Sampler := -1, Source := -1 }

/-- Method Texture.UnmarshalJSON. -/
def Texture.UnmarshalJSON (t : Texture) (data : Bytes) : Texture × Option JsonError :=
  assignIfOk t (unmarshalStruct Texture.fields data NewTexture)

/-- Method Texture.MarshalJSON. -/
def Texture.MarshalJSON (t : Texture) : Except JsonError Bytes :=
  match marshalStruct (embedFields [] Texture.fields) t with
  | .error e => .error e
  | .ok out =>
    .ok (sanitizeJSON
      (removeIf (t.Source = -1) "\"source\":-1"
      (removeIf (t.Sampler = -1) "\"sampler\":-1"
      out)))

/-- The codec of Texture, through its methods. -/
def Texture.codec : Codec Texture :=
  methodCodec Texture.MarshalJSON (fun j _ => decodeStruct Texture.fields j NewTexture)

/-- Struct Sampler. -/
structure Sampler where
  Extensions : Extensions
  Extras : Option JSON
  Name : String
  MagFilter : Nat
  MinFilter : Nat
  WrapS : Nat
  WrapT : Nat
deriving DecidableEq

/-- The zero value of Sampler. -/
def Sampler.zero : Sampler := ⟨none, none, "", 0, 0, 0, 0⟩

/-- The json tags of Sampler. -/
def Sampler.fields : List (Field Sampler) :=
  [ Field.of "extensions" true extensionsCodec (fun s => s.Extensions) (fun s a => { s with Extensions := a }),
    Field.of "extras" true anyCodec (fun s => s.Extras) (fun s a => { s with Extras := a }),
    Field.of "name" true stringCodec (fun s => s.Name) (fun s a => { s with Name := a }),
    Field.of "magFilter" true uint16Codec (fun s => s.MagFilter)
      (fun s a => { s with MagFilter := a }),
    Field.of "minFilter" true uint16Codec (fun s => s.MinFilter)
      (fun s a => { s with MinFilter := a }),
    Field.of "wrapS" true uint16Codec (fun s => s.WrapS) (fun s a => { s with WrapS := a }),
    Field.of "wrapT" true uint16Codec (fun s => s.WrapT) (fun s a => { s with WrapT := a }) ]

/-- Function NewSampler. -/
def NewSampler : Sampler := { Sampler.zero with WrapS := Repeat, WrapT := Repeat }

/-- Method Sampler.UnmarshalJSON. -/
def Sampler.UnmarshalJSON (s : Sampler) (data : Bytes) : Sampler × Option JsonError :=
  assignIfOk s (unmarshalStruct Sampler.fields data NewSampler)

/-- The codec of Sampler: written as a plain struct, read through its
UnmarshalJSON method. -/
def Sampler.codec : Codec Sampler :=
  { structCodec Sampler.fields with decode := fun j _ => decodeStruct Sampler.fields j NewSampler }

/-- Struct Image. -/
structure Image where
  Extensions : Extensions
  Extras : Option JSON
  Name : String
  URI : String
  MimeType : String
  BufferView : Nat
deriving DecidableEq

/-- The zero value of Image. -/
def Image.zero : Image := ⟨none, none, "", "", "", 0⟩

/-- The json tags of Image. -/
def Image.fields : List (Field Image) :=
  [ Field.of "extensions" true extensionsCodec (fun s => s.Extensions) (fun s a => { s with Extensions := a }),
    Field.of "extras" true anyCodec (fun s => s.Extras) (fun s a => { s with Extras := a }),
    Field.of "name" true stringCodec (fun s => s.Name) (fun s a => { s with Name := a }),
    Field.of "uri" true stringCodec (fun s => s.URI) (fun s a => { s with URI := a }),
    Field.of "mimeType" true stringCodec (fun s => s.MimeType) (fun s a => { s with MimeType := a }),
    Field.of "bufferView" true uint32Codec (fun s => s.BufferView)
      (fun s a => { s with BufferView := a }) ]

/-! ## Animation -/

/-- Struct AnimationSampler. -/
structure AnimationSampler where
  Extensions : Extensions
  Extras : Option JSON
  Input : Int
  Interpolation : String
  Output : Int
deriving DecidableEq

/-- The zero value of AnimationSampler. -/
def AnimationSampler.zero : AnimationSampler := ⟨none, none, 0, "", 0⟩

/-- The json tags of AnimationSampler. -/
def AnimationSampler.fields : List (Field AnimationSampler) :=
  [ Field.of "extensions" true extensionsCodec (fun s => s.Extensions) (fun s a => { s with Extensions := a }),
    Field.of "extras" true anyCodec (fun s => s.Extras) (fun s a => { s with Extras := a }),
    Field.of "input" false int32Codec (fun s => s.Input) (fun s a => { s with Input := a }),
    Field.of "interpolation" true stringCodec (fun s => s.Interpolation)
      (fun s a => { s with Interpolation := a }),
    Field.of "output" false int32Codec (fun s => s.Output) (fun s a => { s with Output := a }) ]

/-- Function NewAnimationSampler. -/
def NewAnimationSampler : AnimationSampler :=
  { AnimationSampler.zero with Input := -1, Interpolation := Linear, Output := -1 }

/-- Method AnimationSampler.UnmarshalJSON. -/
def AnimationSampler.UnmarshalJSON (as : AnimationSampler) (data : Bytes) : AnimationSampler × Option JsonError :=
  assignIfOk as (unmarshalStruct AnimationSampler.fields data NewAnimationSampler)

/-- The codec of AnimationSampler: written as a plain struct, read through its
UnmarshalJSON method. -/
def AnimationSampler.codec : Codec AnimationSampler :=
  { structCodec AnimationSampler.fields with
    decode := fun j _ => decodeStruct AnimationSampler.fields j NewAnimationSampler }

/-- Struct ChannelTarget. -/
structure ChannelTarget where
  Extensions : Extensions
  Extras : Option JSON
  Node : Int
  Path : String
deriving DecidableEq

/-- The zero value of ChannelTarget. -/
def ChannelTarget.zero : ChannelTarget := ⟨none, none, 0, ""⟩

/-- The json tags of ChannelTarget. -/
def ChannelTarget.fields : List (Field ChannelTarget) :=
  [ Field.of "extensions" true extensionsCodec (fun s => s.Extensions) (fun s a => { s with Extensions := a }),
    Field.of "extras" true anyCodec (fun s => s.Extras) (fun s a => { s with Extras := a }),
    Field.of "node" false int32Codec (fun s => s.Node) (fun s a => { s with Node := a }),
    Field.of "path" false stringCodec (fun s => s.Path) (fun s a => { s with Path := a }) ]

/-- Function NewChannelTarget. -/
def NewChannelTarget (path : String) : ChannelTarget :=
  { ChannelTarget.zero with Node := -1, Path := path }

/-- Method ChannelTarget.UnmarshalJSON. -/
def ChannelTarget.UnmarshalJSON (ch : ChannelTarget) (data : Bytes) : ChannelTarget × Option JsonError :=
  assignIfOk ch (unmarshalStruct ChannelTarget.fields data (NewChannelTarget ""))

/-- Method ChannelTarget.MarshalJSON. -/
def ChannelTarget.MarshalJSON (ch : ChannelTarget) : Except JsonError Bytes :=
  if ch.Node = -1 then
    marshalStruct (embedFields [shadowField "node"] ChannelTarget.fields) ch
  else marshalStruct (embedFields [] ChannelTarget.fields) ch

/-- The codec of ChannelTarget, through its methods. -/
def ChannelTarget.codec : Codec ChannelTarget :=
  methodCodec ChannelTarget.MarshalJSON (fun j _ => decodeStruct ChannelTarget.fields j (NewChannelTarget ""))

/-- Struct Channel. -/
structure Channel where
  Extensions : Extensions
  Extras : Option JSON
  Sampler : Int
  Target : ChannelTarget
deriving DecidableEq

/-- The zero value of Channel. -/
def Channel.zero : Channel := ⟨none, none, 0, ChannelTarget.zero⟩

/-- The json tags of Channel. -/
def Channel.fields : List (Field Channel) :=
  [ Field.of "extensions" true extensionsCodec (fun s => s.Extensions) (fun s a => { s with Extensions := a }),
    Field.of "extras" true anyCodec (fun s => s.Extras) (fun s a => { s with Extras := a }),
    Field.of "sampler" false int32Codec (fun s => s.Sampler) (fun s a => { s with Sampler := a }),
    Field.of "target" false ChannelTarget.codec (fun s => s.Target)
      (fun s a => { s with Target := a }) ]

/-- Function NewChannel. -/
def NewChannel (sampler : Int) : Channel := { Channel.zero with Sampler := sampler }

/-- Method Channel.UnmarshalJSON. -/
def Channel.UnmarshalJSON (ch : Channel) (data : Bytes) : Channel × Option JsonError :=
  assignIfOk ch (unmarshalStruct Channel.fields data (NewChannel (-1)))

/-- Method Channel.MarshalJSON. -/
def Channel.MarshalJSON (ch : Channel) : Except JsonError Bytes :=
  if ch.Sampler = -1 then
    marshalStruct (embedFields [shadowField "sampler"] Channel.fields) ch
  else marshalStruct (embedFields [] Channel.fields) ch

/-- The codec of Channel, through its methods. -/
def Channel.codec : Codec Channel :=
  methodCodec Channel.MarshalJSON (fun j _ => decodeStruct Channel.fields j (NewChannel (-1)))

/-- Struct Animation. -/
structure Animation where
  Extensions : Extensions
  Extras : Option JSON
  Name : String
  Channels : Option (List Channel)
  Samplers : Option (List AnimationSampler)
deriving DecidableEq

/-- The zero value of Animation. -/
def Animation.zero : Animation := ⟨none, none, "", none, none⟩

/-- The json tags of Animation. -/
def Animation.fields : List (Field Animation) :=
  [ Field.of "extensions" true extensionsCodec (fun s => s.Extensions) (fun s a => { s with Extensions := a }),
    Field.of "extras" true anyCodec (fun s => s.Extras) (fun s a => { s with Extras := a }),
    Field.of "name" true stringCodec (fun s => s.Name) (fun s a => { s with Name := a }),
    Field.of "channels" false (sliceCodec Channel.codec Channel.zero) (fun s => s.Channels)
      (fun s a => { s with Channels := a }),
    Field.of "samplers" false (sliceCodec AnimationSampler.codec AnimationSampler.zero) (fun s => s.Samplers)
      (fun s a => { s with Samplers := a }) ]

/-! ## Document -/

/-- Struct Document. -/
structure Document where
  Extensions : Extensions
  Extras : Option JSON
  ExtensionsUsed : Option (List String)
  ExtensionsRequired : Option (List String)
  Accessors : Option (List Accessor)
  Animations : Option (List Animation)
  Asset : Asset
  Buffers : Option (List Buffer)
  BufferViews : Option (List BufferView)
  Cameras : Option (List Camera)
  Images : Option (List Image)
  Materials : Option (List Material)
  Meshes : Option (List Mesh)
  Nodes : Option (List Node)
  Samplers : Option (List Sampler)
  Scene : Int
  Scenes : Option (List Gltf.Scene)
  Skins : Option (List Skin)
  Textures : Option (List Texture)
deriving DecidableEq

/-- The zero value of Document. -/
def Document.zero : Document :=
  { Extensions := none, Extras := none, ExtensionsUsed := none, ExtensionsRequired := none,
    Accessors := none, Animations := none, Asset := Asset.zero, Buffers := none,
    BufferViews := none, Cameras := none, Images := none, Materials := none, Meshes := none,
    Nodes := none, Samplers := none, Scene := 0, Scenes := none, Skins := none, Textures := none }

/-- The json tags of Document. -/
def Document.fields : List (Field Document) :=
  [ Field.of "extensions" true extensionsCodec (fun s => s.Extensions) (fun s a => { s with Extensions := a }),
    Field.of "extras" true anyCodec (fun s => s.Extras) (fun s a => { s with Extras := a }),
    Field.of "extensionsUsed" true (sliceCodec stringCodec "") (fun s => s.ExtensionsUsed)
      (fun s a => { s with ExtensionsUsed := a }),
    Field.of "extensionsRequired" true (sliceCodec stringCodec "") (fun s => s.ExtensionsRequired)
      (fun s a => { s with ExtensionsRequired := a }),
    Field.of "accessors" true (sliceCodec Accessor.codec Accessor.zero) (fun s => s.Accessors)
      (fun s a => { s with Accessors := a }),
    Field.of "animations" true (sliceCodec (structCodec Animation.fields) Animation.zero) (fun s => s.Animations)
      (fun s a => { s with Animations := a }),
    Field.of "asset" false Asset.codec (fun s => s.Asset) (fun s a => { s with Asset := a }),
    Field.of "buffers" true (sliceCodec (structCodec Buffer.fields) Buffer.zero) (fun s => s.Buffers)
      (fun s a => { s with Buffers := a }),
    Field.of "bufferViews" true (sliceCodec BufferView.codec BufferView.zero) (fun s => s.BufferViews)
      (fun s a => { s with BufferViews := a }),
    Field.of "cameras" true (sliceCodec (structCodec Camera.fields) Camera.zero) (fun s => s.Cameras)
      (fun s a => { s with Cameras := a }),
    Field.of "images" true (sliceCodec (structCodec Image.fields) Image.zero) (fun s => s.Images)
      (fun s a => { s with Images := a }),
    Field.of "materials" true (sliceCodec Material.codec Material.zero) (fun s => s.Materials)
      (fun s a => { s with Materials := a }),
    Field.of "meshes" true (sliceCodec (structCodec Mesh.fields) Mesh.zero) (fun s => s.Meshes)
      (fun s a => { s with Meshes := a }),
    Field.of "nodes" true (sliceCodec Node.codec Node.zero) (fun s => s.Nodes)
      (fun s a => { s with Nodes := a }),
    Field.of "samplers" true (sliceCodec Sampler.codec Sampler.zero) (fun s => s.Samplers)
      (fun s a => { s with Samplers := a }),
    Field.of "scene" false int32Codec (fun s => s.Scene) (fun s a => { s with Scene := a }),
    Field.of "scenes" true (sliceCodec (structCodec Scene.fields) Scene.zero) (fun s => s.Scenes)
      (fun s a => { s with Scenes := a }),
    Field.of "skins" true (sliceCodec Skin.codec Skin.zero) (fun s => s.Skins)
      (fun s a => { s with Skins := a }),
    Field.of "textures" true (sliceCodec Texture.codec Texture.zero) (fun s => s.Textures)
      (fun s a => { s with Textures := a }) ]

/-- Method Document.UnmarshalJSON. -/
def Document.UnmarshalJSON (d : Document) (data : Bytes) : Document × Option JsonError :=
  assignIfOk d (unmarshalStruct Document.fields data { Document.zero with Scene := -1 })

/-- Method Document.MarshalJSON. -/
def Document.MarshalJSON (d : Document) : Except JsonError Bytes :=
  if d.Scene = -1 then
    marshalStruct (embedFields [shadowField "scene"] Document.fields) d
  else marshalStruct (embedFields [] Document.fields) d

/-! ## Reading the output of an encoder -/

/-- The text is a well-formed JSON object with the given members. -/
def IsObjectText (out : Bytes) (ms : List (String × JSON)) : Prop :=
  parseJSON out = some (.obj ms)

/-- The value of the first member with the given key. -/
def lookupKey (ms : List (String × JSON)) (k : String) : Option JSON :=
  match ms.find? (fun m => m.1 = k) with
  | some m => some m.2
  | none => none

/-- Whether some member has the given key. -/
def hasKey (ms : List (String × JSON)) (k : String) : Bool :=
  ms.any (fun m => m.1 = k)

/-! ## Go strings, and the functions of the standard library used on them -/

/-- The UTF-8 bytes of one character. -/
def utf8Bytes (c : Char) : List Nat :=
  if c.toNat < 128 then [c.toNat]
  else if c.toNat < 2048 then [192 + c.toNat / 64, 128 + c.toNat % 64]
  else if c.toNat < 65536 then
    [224 + c.toNat / 4096, 128 + c.toNat / 64 % 64, 128 + c.toNat % 64]
  else
    [240 + c.toNat / 262144, 128 + c.toNat / 4096 % 64, 128 + c.toNat / 64 % 64,
      128 + c.toNat % 64]

/-- The bytes of a Go string, which indexing, slicing and len work on. -/
def goBytes (s : String) : List Nat :=
  (s.data.map utf8Bytes).flatten

/-- The Go string of bytes that are ASCII. -/
def goString (bs : List Nat) : String :=
  String.mk (bs.map Char.ofNat)

/-- Go's strings.HasPrefix. -/
def hasPrefix (s p : String) : Bool :=
  (goBytes p).isPrefixOf (goBytes s)

/-- The outcome of a Go call: the values returned, or a run-time panic. -/
inductive Outcome (α : Type) where
  | returns (a : α)
  | panics
deriving DecidableEq

/-- Go's slice expression s[start:] on the bytes of a string: a run-time panic
when start exceeds the length. -/
def sliceFrom (bs : List Nat) (start : Nat) : Outcome (List Nat) :=
  if start ≤ bs.length then .returns (bs.drop start) else .panics

/-! ### encoding/base64, StdEncoding -/

/-- The alphabet of base64.StdEncoding. -/
def encodeStd : List Nat :=
  "ABCDEFGHIJKLMNOPQRSTUVWXYZabcdefghijklmnopqrstuvwxyz0123456789+/".data.map Char.toNat

/-- The padding character of base64.StdEncoding. -/
def padChar : Nat := 61

/-- The character of a six-bit value. -/
def base64Char (v : Nat) : Nat := encodeStd.getD v 0

/-- The six-bit value of a character of the alphabet: the decode map of the
encoding, with none for the entries that hold 0xff. -/
def decodeMap (c : Nat) : Option Nat :=
  if encodeStd.indexOf c < 64 then some (encodeStd.indexOf c) else none

/-- Go's Encoding.Encode for StdEncoding: three bytes give four characters,
and a rest of one or two bytes is padded. -/
def base64Encode : List Nat → List Nat
  | a :: b :: c :: rest =>
    base64Char ((a * 65536 + b * 256 + c) / 262144 % 64) ::
    base64Char ((a * 65536 + b * 256 + c) / 4096 % 64) ::
    base64Char ((a * 65536 + b * 256 + c) / 64 % 64) ::
    base64Char ((a * 65536 + b * 256 + c) % 64) :: base64Encode rest
  | [a, b] =>
    [base64Char ((a * 65536 + b * 256) / 262144 % 64),
      base64Char ((a * 65536 + b * 256) / 4096 % 64),
      base64Char ((a * 65536 + b * 256) / 64 % 64), padChar]
  | [a] =>
    [base64Char (a * 65536 / 262144 % 64), base64Char (a * 65536 / 4096 % 64), padChar, padChar]
  | [] => []

/-- Go's Encoding.EncodeToString for StdEncoding. -/
def base64EncodeToString (src : List Nat) : String :=
  goString (base64Encode src)

/-- The loop of decodeQuantum that skips over newlines. -/
def skipNewlines : List Nat → Nat → List Nat × Nat
  | [], si => ([], si)
  | c :: cs, si => if c = 10 ∨ c = 13 then skipNewlines cs (si + 1) else (c :: cs, si)

/-- The bytes that decodeQuantum stores for dlen six-bit values, the missing
ones being zero. -/
def quantumBytes (dbuf : List Nat) (dlen : Nat) : List Nat :=
  [(dbuf.getD 0 0 * 262144 + dbuf.getD 1 0 * 4096 + dbuf.getD 2 0 * 64 + dbuf.getD 3 0)
      / 65536 % 256,
    (dbuf.getD 0 0 * 262144 + dbuf.getD 1 0 * 4096 + dbuf.getD 2 0 * 64 + dbuf.getD 3 0)
      / 256 % 256,
    (dbuf.getD 0 0 * 262144 + dbuf.getD 1 0 * 4096 + dbuf.getD 2 0 * 64 + dbuf.getD 3 0)
      % 256].take (dlen - 1)

/-- The end of a quantum with padding: newlines are skipped, anything left is
trailing garbage, reported after the bytes of the quantum are stored. -/
def finishPadded (rest : List Nat) (si : Nat) (dbuf out : List Nat) :
    List Nat × Option Nat :=
  match skipNewlines rest si with
  | ([], _) => (out ++ quantumBytes dbuf dbuf.length, none)
  | (_ :: _, si1) => (out ++ quantumBytes dbuf dbuf.length, some si1)

/-- Go's Encoding.Decode for StdEncoding, as one loop over the input: len is
the length of the input, si the index of the next character, dbuf the six-bit
values of the quantum being read and out the bytes stored so far.  The result
is the bytes stored and the offset of the CorruptInputError, if any. -/
def base64Decode (len : Nat) : List Nat → Nat → List Nat → List Nat → List Nat × Option Nat
  | [], si, dbuf, out =>
    if dbuf.length = 0 then (out, none) else (out, some (si - dbuf.length))
  | c :: rest, si, dbuf, out =>
    match decodeMap c with
    | some v =>
      if dbuf.length = 3 then base64Decode len rest (si + 1) [] (out ++ quantumBytes (dbuf ++ [v]) 4)
      else base64Decode len rest (si + 1) (dbuf ++ [v]) out
    | none =>
      if c = 10 ∨ c = 13 then base64Decode len rest (si + 1) dbuf out
      else if c ≠ padChar then (out, some si)
      else if dbuf.length < 2 then (out, some si)
      else if dbuf.length = 2 then
        match skipNewlines rest (si + 1) with
        | ([], _) => (out, some len)
        | (c1 :: rest1, si1) =>
          if c1 ≠ padChar then (out, some (si1 - 1))
          else finishPadded rest1 (si1 + 1) dbuf out
      else finishPadded rest (si + 1) dbuf out

/-- Go's Encoding.DecodeString for StdEncoding: the decoded bytes and the
offset of the CorruptInputError, if any. -/
def base64DecodeString (s : List Nat) : List Nat × Option Nat :=
  base64Decode s.length s 0 [] []

/-- Modelled from the spec: the constant mimetypeApplicationOctet is declared
outside struct.go; it is the data-URI prefix of an embedded buffer. -/
def mimetypeApplicationOctet : String := "data:application/octet-stream;base64"

/-- Modelled from the spec: the constant mimetypeImagePNG is declared outside
struct.go; it is the data-URI prefix of an embedded PNG image. -/
def mimetypeImagePNG : String := "data:image/png;base64"

/-- Modelled from the spec: the constant mimetypeImageJPG is declared outside
struct.go; it is the data-URI prefix of an embedded JPEG image. -/
def mimetypeImageJPG : String := "data:image/jpeg;base64"

/-- Method Buffer.IsEmbeddedResource. -/
def Buffer.IsEmbeddedResource (b : Buffer) : Bool :=
  hasPrefix b.URI mimetypeApplicationOctet

/-- Method Buffer.EmbeddedResource: the buffer after the call. -/
def Buffer.EmbeddedResource (b : Buffer) : Buffer :=
  { b with URI := mimetypeApplicationOctet ++ "," ++ base64EncodeToString b.Data }

/-- Method Buffer.marshalData. -/
def Buffer.marshalData (b : Buffer) : Outcome (List Nat × Option Nat) :=
  if !b.IsEmbeddedResource then .returns ([], none)
  else
    match sliceFrom (goBytes b.URI) ((goBytes mimetypeApplicationOctet).length + 1) with
    | .panics => .panics
    | .returns s => .returns (base64DecodeString s)

/-- Method Image.IsEmbeddedResource. -/
def Image.IsEmbeddedResource (im : Image) : Bool :=
  hasPrefix im.URI mimetypeImagePNG || hasPrefix im.URI mimetypeImageJPG

/-- Method Image.MarshalData. -/
def Image.MarshalData (im : Image) : Outcome (List Nat × Option Nat) :=
  if !im.IsEmbeddedResource then .returns ([], none)
  else
    match sliceFrom (goBytes im.URI)
      ((goBytes (if hasPrefix im.URI mimetypeImageJPG then mimetypeImageJPG
        else mimetypeImagePNG)).length + 1) with
    | .panics => .panics
    | .returns s => .returns (base64DecodeString s)

/-! ## The decoder

The file decoder.go of the repository is not among the sources; its tests are,
in decoder_test.go.  The definitions of this section are modelled from the
specification of the decoder and agree with each case of those tests. -/

/-- Modelled from the spec: the type ReadQuotas is declared in decoder.go, which
is missing.  It is the quota configuration of the spec: the ceiling of the
number of buffers and the ceiling, in bytes, of a single allocation.  A bound of
zero authorizes nothing. -/
structure ReadQuotas where
  MaxBufferCount : Nat
  MaxMemoryAllocation : Nat
deriving DecidableEq

/-- Modelled from the spec: the errors of the decoder, declared in decoder.go,
which is missing, by the taxonomy of the spec: a framing error of the binary
container, a schema error of the JSON, an exceeded quota and a resource error of
a buffer (zero length, missing locator, traversal, failed read, length
mismatch). -/
inductive DecodeError where
  | framing : DecodeError
  | schema : DecodeError
  | quotaExceeded : DecodeError
  | resource : DecodeError
deriving DecidableEq

/-- Modelled from the spec: what a call of the missing decoder does besides
returning, in order: an invocation of the read callback with a locator, and the
allocation of the storage of a payload of some size. -/
inductive Effect where
  | readCallback (uri : String) : Effect
  | allocate (size : Nat) : Effect
deriving DecidableEq

/-- Modelled from the spec: the type Decoder is declared in decoder.go, which is
missing.  It holds the input stream, the read callback, which maps a locator to
the bytes of a stream or to a failure, and the quotas. -/
structure Decoder where
  r : List Nat
  cb : String → Option (List Nat)
  quotas : ReadQuotas

/-- Modelled from the spec: the result of a method of the missing decoder: the
value the call leaves in its argument, the input stream left to read, the error
returned and the effects of the call. -/
structure DecodeResult (α : Type) where
  value : α
  rest : List Nat
  err : Option DecodeError
  effects : List Effect
deriving DecidableEq

/-- Modelled from the spec: the checks of the missing decoder on the declared
length of a buffer, made before any storage is allocated: a declared length of
zero always fails, and a declared length above the ceiling of a single
allocation is an exceeded quota. -/
def Decoder.checkBuffer (d : Decoder) (b : Buffer) : Option DecodeError :=
  if b.ByteLength = 0 then some .resource
  else if d.quotas.MaxMemoryAllocation < b.ByteLength then some .quotaExceeded
  else none

/-- Modelled from the spec: the segments of a locator, which the slash
separates; part of the traversal check of the missing decoder. -/
def pathSegments : List Char → List (List Char)
  | [] => [[]]
  | c :: cs =>
    match pathSegments cs with
    | [] => [[c]]
    | seg :: segs => if c = '/' then [] :: seg :: segs else (c :: seg) :: segs

/-- Modelled from the spec: the traversal check of the missing decoder: whether
a locator contains a parent-directory segment. -/
def hasParentSegment (uri : String) : Bool :=
  (pathSegments uri.data).contains ['.', '.']

/-- Modelled from the spec: the read of the payload of an external buffer by the
missing decoder.  The resolved payload has exactly the declared length: the
bytes of the stream are the payload when their number is the declared length,
and any other number is a failure; the payload is never truncated or padded. -/
def readPayload (n : Nat) (stream : List Nat) : Option (List Nat) :=
  if stream.length = n then some stream else none

/-- Modelled from the spec: method Decoder.decodeBuffer of decoder.go, which is
missing: the resolution of one buffer from its locator.  The steps, in the
order of the spec: the checks of the declared length; an empty locator fails; an
embedded resource is decoded in place by Buffer.marshalData, and fails when the
base64 text is corrupt or the decoded length is not the declared one; a locator
with a parent-directory segment fails before the read callback is invoked; the
read callback is invoked, and its failure fails; the payload is allocated and
read, and a stream whose length is not the declared one fails.  On an error the
buffer is as it was. -/
def Decoder.decodeBuffer (d : Decoder) (b : Buffer) : Outcome (DecodeResult Buffer) :=
  match d.checkBuffer b with
  | some e => .returns ⟨b, d.r, some e, []⟩
  | none =>
    if b.URI = "" then .returns ⟨b, d.r, some .resource, []⟩
    else if b.IsEmbeddedResource then
      match b.marshalData with
      | .panics => .panics
      | .returns (_, some _) => .returns ⟨b, d.r, some .resource, []⟩
      | .returns (data, none) =>
        if data.length = b.ByteLength then
          .returns ⟨{ b with Data := data }, d.r, none, [.allocate data.length]⟩
        else .returns ⟨b, d.r, some .resource, []⟩
    else if hasParentSegment b.URI then .returns ⟨b, d.r, some .resource, []⟩
    else
      match d.cb b.URI with
      | none => .returns ⟨b, d.r, some .resource, [.readCallback b.URI]⟩
      | some stream =>
        match readPayload b.ByteLength stream with
        | none =>
          .returns ⟨b, d.r, some .resource, [.readCallback b.URI, .allocate b.ByteLength]⟩
        | some data =>
          .returns ⟨{ b with Data := data }, d.r, none,
            [.readCallback b.URI, .allocate b.ByteLength]⟩

/-- Modelled from the spec: the value of four bytes read as a little-endian
unsigned integer, as the fields of the binary container are. -/
def u32le (bs : List Nat) : Nat :=
  bs.foldr (fun b acc => b + 256 * acc) 0

/-- Modelled from the spec: the magic constant of the binary container, declared
in decoder.go, which is missing; the bytes are those of the repository tests. -/
def glbHeaderMagic : List Nat := [0x67, 0x6c, 0x54, 0x46]

/-- Modelled from the spec: the type tag of the JSON chunk, declared in
decoder.go, which is missing; the bytes 4a 53 4f 4e of the repository tests. -/
def glbChunkJSON : Nat := 0x4e4f534a

/-- Modelled from the spec: the version of the container that the missing
decoder supports. -/
def glbVersion : Nat := 2

/-- Modelled from the spec: the frame of a chunk read by the missing decoder:
the length, the type tag and the stream after the eight bytes, or nothing when
the stream ends before them. -/
def readChunkHeader (r : List Nat) : Option (Nat × Nat × List Nat) :=
  if r.length < 8 then none
  else some (u32le (r.take 4), u32le ((r.drop 4).take 4), r.drop 8)

/-- Modelled from the spec: method Decoder.decodeBinaryBuffer of decoder.go,
which is missing: the binding of a buffer to the chunk that follows the JSON
chunk.  After the checks of the declared length, the frame of the chunk is
read; the stream ending before the frame or before the payload is a framing
error, as is a second JSON chunk; a chunk length other than the declared
length of the buffer fails.  On an error the buffer is as it was. -/
def Decoder.decodeBinaryBuffer (d : Decoder) (b : Buffer) : DecodeResult Buffer :=
  match d.checkBuffer b with
  | some e => ⟨b, d.r, some e, []⟩
  | none =>
    match readChunkHeader d.r with
    | none => ⟨b, d.r, some .framing, []⟩
    | some (len, tag, rest) =>
      if tag = glbChunkJSON then ⟨b, d.r, some .framing, []⟩
      else if len ≠ b.ByteLength then ⟨b, d.r, some .resource, []⟩
      else if rest.length < len then ⟨b, d.r, some .framing, []⟩
      else ⟨{ b with Data := rest.take len }, rest.drop len, none, [.allocate len]⟩
/-- Modelled from the spec: whether a byte continues a UTF-8 sequence; part of
the reading of the JSON document, which is UTF-8 text, by the missing
decoder. -/
def isContinuation (b : Nat) : Bool :=
  128 ≤ b && b < 192

/-- Modelled from the spec: the character of a UTF-8 sequence of two to four
bytes at the head of the input, and the input after it; nothing when the bytes
are not the shortest encoding of a character. -/
def decodeSequence (b0 : Nat) (rest : List Nat) : Option (Char × List Nat) :=
  if 194 ≤ b0 ∧ b0 < 224 then
    match rest with
    | b1 :: rest1 =>
      if isContinuation b1 then some (Char.ofNat ((b0 - 192) * 64 + (b1 - 128)), rest1)
      else none
    | _ => none
  else if 224 ≤ b0 ∧ b0 < 240 then
    match rest with
    | b1 :: b2 :: rest2 =>
      let n := (b0 - 224) * 4096 + (b1 - 128) * 64 + (b2 - 128)
      if isContinuation b1 ∧ isContinuation b2 ∧ 2048 ≤ n ∧ ¬ (55296 ≤ n ∧ n < 57344) then
        some (Char.ofNat n, rest2)
      else none
    | _ => none
  else if 240 ≤ b0 ∧ b0 < 245 then
    match rest with
    | b1 :: b2 :: b3 :: rest3 =>
      let n := (b0 - 240) * 262144 + (b1 - 128) * 4096 + (b2 - 128) * 64 + (b3 - 128)
      if isContinuation b1 ∧ isContinuation b2 ∧ isContinuation b3 ∧ 65536 ≤ n ∧
          n < 1114112 then
        some (Char.ofNat n, rest3)
      else none
    | _ => none
  else none

/-- Modelled from the spec: the text of UTF-8 bytes, read with the given number
of steps.  A byte that starts no valid sequence is read as the replacement
character, which the JSON grammar accepts inside a string only. -/
def utf8DecodeAux : Nat → List Nat → List Char
  | 0, _ => []
  | _, [] => []
  | fuel + 1, b0 :: rest =>
    if b0 < 128 then Char.ofNat b0 :: utf8DecodeAux fuel rest
    else
      match decodeSequence b0 rest with
      | some (c, rest1) => c :: utf8DecodeAux fuel rest1
      | none => Char.ofNat 65533 :: utf8DecodeAux fuel rest

/-- Modelled from the spec: the text of the UTF-8 bytes of the JSON document
read by the missing decoder. -/
def utf8Decode (bs : List Nat) : List Char :=
  utf8DecodeAux bs.length bs

/-- Modelled from the spec: whether the total length declared by the header of
the container is the sum of the framed chunks: the twelve bytes of the header,
the frame and the payload of the JSON chunk and, when bytes follow, the frame
and the payload of one more chunk.  Part of the framing reader of the missing
decoder. -/
def chunksConsistent (total jsonLen : Nat) (rest : List Nat) : Bool :=
  match rest with
  | [] => total = 20 + jsonLen
  | _ =>
    match readChunkHeader rest with
    | none => false
    | some (len, _, _) => total = 28 + jsonLen + len

/-- Modelled from the spec: the framing reader of the missing decoder, on a
stream that starts with the magic constant: the bytes of the JSON chunk and the
stream after it.  The header is twelve bytes: the magic constant, the version,
which must be the supported one, and the total length.  The first chunk must
be the JSON chunk; its length is checked against the quota before its payload
is allocated.  The framing errors are the version mismatch, the missing JSON
chunk, the truncation and the inconsistent total length. -/
def readContainer (q : ReadQuotas) (r : List Nat) : Except DecodeError (List Nat × List Nat) :=
  if r.length < 12 then .error .framing
  else if u32le ((r.drop 4).take 4) ≠ glbVersion then .error .framing
  else
    match readChunkHeader (r.drop 12) with
    | none => .error .framing
    | some (len, tag, rest) =>
      if tag ≠ glbChunkJSON then .error .framing
      else if q.MaxMemoryAllocation < len then .error .quotaExceeded
      else if rest.length < len then .error .framing
      else if !chunksConsistent (u32le ((r.drop 8).take 4)) len (rest.drop len) then
        .error .framing
      else .ok (rest.take len, rest.drop len)

/-- Modelled from the spec: the resolution of the buffers of a document by the
missing decoder, in order, up to the first failure.  The first buffer of a
binary container is bound to the chunk after the JSON chunk when it declares no
locator; every other buffer is resolved from its locator. -/
def Decoder.resolveBuffers (d : Decoder) :
    Bool → List Buffer → List Nat → Outcome (DecodeResult (List Buffer))
  | _, [], r => .returns ⟨[], r, none, []⟩
  | bound, b :: bs, r =>
    let step : Outcome (DecodeResult Buffer) :=
      if bound ∧ b.URI = "" then .returns ({ d with r := r }.decodeBinaryBuffer b)
      else { d with r := r }.decodeBuffer b
    match step with
    | .panics => .panics
    | .returns res =>
      match res.err with
      | some e => .returns ⟨res.value :: bs, res.rest, some e, res.effects⟩
      | none =>
        match d.resolveBuffers false bs res.rest with
        | .panics => .panics
        | .returns tail =>
          .returns ⟨res.value :: tail.value, tail.rest, tail.err, res.effects ++ tail.effects⟩

/-- Modelled from the spec: method Decoder.Decode of decoder.go, which is
missing: the pipeline of the spec.  The framing is detected from the magic
constant; a binary container is split by the framing reader, and the plain form
is the JSON document; the JSON is decoded into the document by
Document.UnmarshalJSON; the number of buffers is checked against the quota;
every buffer is resolved.  The first failing stage returns its error. -/
def Decoder.Decode (d : Decoder) (doc : Document) : Outcome (DecodeResult Document) :=
  let binary := glbHeaderMagic.isPrefixOf d.r
  let framed : Except DecodeError (List Nat × List Nat) :=
    if binary then readContainer d.quotas d.r else .ok (d.r, [])
  match framed with
  | .error e => .returns ⟨doc, d.r, some e, []⟩
  | .ok (json, rest) =>
    match Document.UnmarshalJSON doc (utf8Decode json) with
    | (doc1, some _) => .returns ⟨doc1, rest, some .schema, []⟩
    | (doc1, none) =>
      match doc1.Buffers with
      | none => .returns ⟨doc1, rest, none, []⟩
      | some bs =>
        if d.quotas.MaxBufferCount < bs.length then
          .returns ⟨doc1, rest, some .quotaExceeded, []⟩
        else
          match d.resolveBuffers binary bs rest with
          | .panics => .panics
          | .returns res =>
            .returns ⟨{ doc1 with Buffers := some res.value }, res.rest, res.err, res.effects⟩

/-- Function readCallback of decoder_test.go: for every name, a stream that
holds the single byte of the letter a. -/
def readCallback (_ : String) : Option (List Nat) :=
  some [97]

/-! # Vocabulary of the statements -/

/-- The fields other than the named one leave the projection alone. -/
def Frames {σ β : Type} (fs : List (Field σ)) (name : String) (proj : σ → β) : Prop :=
  ∀ g ∈ fs, g.name ≠ name → ∀ j s s1, g.decode j s = .ok s1 → proj s1 = proj s

/-- No member has a key that matches the field name, with or without regard
to case. -/
def LacksKey (ms : List (String × JSON)) (name : String) : Prop :=
  ∀ m ∈ ms, foldEq name m.1 = false

/-- The named field decodes a value with the given codec into the projection. -/
def Reads {σ α : Type} (fs : List (Field σ)) (name : String) (c : Codec α) (get : σ → α) : Prop :=
  ∀ g ∈ fs, g.name = name → ∀ j s s1, g.decode j s = .ok s1 → c.decode j (get s) = .ok (get s1)

/-- A number within the range of float64. -/
def isFloat64 (j : JSON) : Bool :=
  match j with
  | .num lit => (parseFloatLit lit).isSome
  | _ => false

/-- An integer literal within int32. -/
def isInt32 (j : JSON) : Bool :=
  match j with
  | .num lit =>
    match parseIntLit lit with
    | some v => decide (- (2 : Int) ^ 31 ≤ v ∧ v < (2 : Int) ^ 31)
    | none => false
  | _ => false

/-- An integer literal within uint32. -/
def isUint32 (j : JSON) : Bool :=
  match j with
  | .num lit =>
    match parseUintLit lit with
    | some v => decide (v < 2 ^ 32)
    | none => false
  | _ => false

/-- An array of numbers within the range of float64, of the given length when
one is given. -/
def isNumArray (n : Option Nat) (j : JSON) : Bool :=
  match j with
  | .arr xs => xs.all isFloat64 && (n.isNone || n = some xs.length)
  | _ => false

/-- An array of uint32 literals. -/
def isUint32Array (j : JSON) : Bool :=
  match j with
  | .arr xs => xs.all isUint32
  | _ => false

/-- The integer given by a JSON value. -/
def intValue (j : JSON) : Int :=
  match j with
  | .num lit => (parseIntLit lit).getD 0
  | _ => 0

/-- The float64 given by a JSON value: the float64 nearest to the number. -/
def floatValue (j : JSON) : Float64 :=
  match j with
  | .num lit => (parseFloatLit lit).getD f0
  | _ => f0

/-- The float64 values given by a JSON array. -/
def floatValues (j : JSON) : List Float64 :=
  match j with
  | .arr xs => xs.map floatValue
  | _ => []

/-- Every number of the value is within the range of float64, so that
json.Unmarshal can store the value in an empty interface. -/
def numbersInRange (v : JSON) : Bool := (JSON.canon v).isSome

/-- The value that the wire format allows for a key of a Node: an object of
values for the extensions, any value for the extras, their numbers being
within the range of float64. -/
def nodeValueOk (name : String) (v : JSON) : Bool :=
  if name = "extensions" then
    (match v with | .obj ms => ms.all (fun m => numbersInRange m.2) | _ => false)
  else if name = "extras" then numbersInRange v
  else if name = "name" then (match v with | .str _ => true | _ => false)
  else if name = "camera" ∨ name = "skin" ∨ name = "mesh" then isInt32 v
  else if name = "children" then isUint32Array v
  else if name = "matrix" then isNumArray (some 16) v
  else if name = "rotation" then isNumArray (some 4) v
  else if name = "scale" ∨ name = "translation" then isNumArray (some 3) v
  else if name = "weights" then isNumArray none v
  else true

/-- The names of the fields of a Node. -/
def Node.keys : List String := Node.fields.map (fun f => f.name)

/-- A valid Node object: no key occurs twice, and a key that matches the name
of a field of Node, with or without regard to case, is that name and carries
a value that the type of the field holds: an integer within int32, an array of
uint32 numbers, an array of the length of the field with numbers within the
range of float64, and so on (see nodeValueOk).  Other keys are free. -/
def ValidNodeObject (ms : List (String × JSON)) : Prop :=
  (ms.map Prod.fst).Nodup ∧
    ∀ m ∈ ms, ∀ name ∈ Node.keys, foldEq name m.1 = true →
      m.1 = name ∧ nodeValueOk name m.2 = true

/-- Text that may follow a value: nothing, a comma, or a closing bracket or
brace. -/
def Delim (rest : Bytes) : Prop :=
  ∀ c tl, rest = c :: tl → c = comma ∨ c = rbrack ∨ c = rbrace

/-- The scanners of a number, one after the other, on unsigned input. -/
def scanUnsigned (cs : Bytes) : Option (Bytes × Bytes) :=
  match scanInt cs with
  | none => none
  | some (i, r1) =>
    match scanFrac r1 with
    | none => none
    | some (f, r2) =>
      match scanExp r2 with
      | none => none
      | some (e, r3) => some (i ++ f ++ e, r3)

/-- The first character of a value: not white space, and none of the
characters that close or separate. -/
def StartsValue (b : Bytes) : Prop :=
  ∃ c tl, b = c :: tl ∧ isWs c = false ∧ c ≠ rbrack ∧ c ≠ rbrace ∧ c ≠ comma

/-- The shape of the integer part of a number. -/
def IntPart (i : Bytes) : Prop :=
  i = ['0'] ∨ ∃ c tl, i = c :: tl ∧ isDigit c = true ∧ c ≠ '0' ∧ tl.all isDigit = true

/-- The shape of the fraction of a number. -/
def FracPart (f : Bytes) : Prop :=
  f = [] ∨ ∃ d ds, f = '.' :: d :: ds ∧ (d :: ds).all isDigit = true

/-- The shape of the exponent of a number. -/
def ExpPart (e : Bytes) : Prop :=
  e = [] ∨ ∃ x sg d ds, (x = 'e' ∨ x = 'E') ∧ (sg = [] ∨ sg = ['+'] ∨ sg = ['-']) ∧
    e = x :: (sg ++ d :: ds) ∧ (d :: ds).all isDigit = true

/-- The encoder of the type writes well-formed JSON values only. -/
class EncWF {α : Type} (c : Codec α) : Prop where
  wf : ∀ a j, c.encode a = .ok j → j.wf = true

/-- The encoding of the value is accepted by the decoder of its type,
whatever the variable decoded into holds. -/
def Decodable {α : Type} (c : Codec α) (a : α) : Prop :=
  ∀ j, c.encode a = .ok j → ∀ old, ∃ a1, c.decode j old = .ok a1

/-- Every value of the type is decodable. -/
class Sound {α : Type} (c : Codec α) : Prop where
  dec : ∀ a, Decodable c a

/-- The field writes well-formed values only. -/
def FieldWF {σ : Type} (f : Field σ) : Prop :=
  ∀ s j, f.encode s = .ok j → j.wf = true

/-- The encoding of the field of the struct value is accepted by the decoder
of the field. -/
def FieldSoundAt {σ : Type} (f : Field σ) (s : σ) : Prop :=
  ∀ j, f.encode s = .ok j → ∀ s0, ∃ s1, f.decode j s0 = .ok s1

/-- The field is left out of the encoding of the struct value. -/
def Omitted {σ : Type} (f : Field σ) (s : σ) : Prop :=
  f.omitempty = true ∧ f.isEmpty s = true

/-- The names of the fields. -/
def fieldNames {σ : Type} (fs : List (Field σ)) : List String := fs.map (fun f => f.name)

/-- All fields write well-formed values. -/
class FieldsWF {σ : Type} (fs : List (Field σ)) : Prop where
  wf : ∀ f ∈ fs, FieldWF f

/-- The names of the fields are distinct and every field accepts what it
writes. -/
class FieldsSound {σ : Type} (fs : List (Field σ)) : Prop where
  nodup : (fieldNames fs).Nodup
  sound : ∀ f ∈ fs, ∀ s, FieldSoundAt f s

/-- The entities of the document whose MarshalJSON edits the text written by
json.Marshal are accepted by their decoders: the materials, the meshes (for
their primitives), the nodes, the skins and the textures. -/
def Document.NestedDecodable (d : Document) : Prop :=
  (∀ l, d.Materials = some l → ∀ a ∈ l, Decodable Material.codec a) ∧
  (∀ l, d.Meshes = some l → ∀ a ∈ l, Decodable (structCodec Mesh.fields) a) ∧
  (∀ l, d.Nodes = some l → ∀ a ∈ l, Decodable Node.codec a) ∧
  (∀ l, d.Skins = some l → ∀ a ∈ l, Decodable Skin.codec a) ∧
  (∀ l, d.Textures = some l → ∀ a ∈ l, Decodable Texture.codec a)

/-- A document with one default node and the given preferred scene. -/
def sampleDocument (scene : Int) : Document :=
  { Document.zero with
    Asset := { Asset.zero with Version := "2.0" }, Nodes := some [NewNode], Scene := scene }

/-- Neither null nor a number. -/
def notNumber (v : JSON) : Bool :=
  match v with
  | .null => false
  | .num _ => false
  | _ => true

/-- Neither null nor an object. -/
def notObject (v : JSON) : Bool :=
  match v with
  | .null => false
  | .obj _ => false
  | _ => true

/-- Neither null nor an array. -/
def notArray (v : JSON) : Bool :=
  match v with
  | .null => false
  | .arr _ => false
  | _ => true

/-- Neither null nor a string. -/
def notString (v : JSON) : Bool :=
  match v with
  | .null => false
  | .str _ => false
  | _ => true

/-- Neither null nor a boolean. -/
def notBool (v : JSON) : Bool :=
  match v with
  | .null => false
  | .bool _ => false
  | _ => true

/-- The JSON value gives the Go type of the codec, or a field at some depth
below it, a value of a wrong JSON type: a value other than a number for a
numeric type, other than a string for a string, other than a boolean for a
bool, other than an array for an array or a slice, other than an object for a
map or a struct; an array with such an element, for a fixed-size array among
its first n elements; an object with such a value under a key of a map, or
under a key that encoding/json matches with a field of a struct.  A type with
an UnmarshalJSON method that decodes into a struct takes what the struct takes.
The value null is of no wrong type, and the empty interface has none. -/
inductive WrongType : {α : Type} → Codec α → JSON → Prop
  | int (bits : Nat) (j : JSON) : notNumber j = true → WrongType (intCodec bits) j
  | uint (bits : Nat) (j : JSON) : notNumber j = true → WrongType (uintCodec bits) j
  | float (j : JSON) : notNumber j = true → WrongType float64Codec j
  | string (j : JSON) : notString j = true → WrongType stringCodec j
  | bool (j : JSON) : notBool j = true → WrongType boolCodec j
  | array {α : Type} (c : Codec α) (zero : α) (n : Nat) (j : JSON) :
      notArray j = true → WrongType (arrayCodec c zero n) j
  | arrayElement {α : Type} (c : Codec α) (zero : α) (n : Nat) (xs : List JSON) (i : Nat)
      (x : JSON) : i < n → xs[i]? = some x → WrongType c x →
      WrongType (arrayCodec c zero n) (.arr xs)
  | slice {α : Type} (c : Codec α) (zero : α) (j : JSON) :
      notArray j = true → WrongType (sliceCodec c zero) j
  | element {α : Type} (c : Codec α) (zero : α) (xs : List JSON) (x : JSON) :
      x ∈ xs → WrongType c x → WrongType (sliceCodec c zero) (.arr xs)
  | pointer {α : Type} (c : Codec α) (zero : α) (j : JSON) :
      WrongType c j → WrongType (ptrCodec c zero) j
  | map {β : Type} (c : Codec β) (zero : β) (j : JSON) :
      notObject j = true → WrongType (mapCodec c zero) j
  | entry {β : Type} (c : Codec β) (zero : β) (ms : List (String × JSON)) (m : String × JSON) :
      m ∈ ms → WrongType c m.2 → WrongType (mapCodec c zero) (.obj ms)
  | struct {σ : Type} (fs : List (Field σ)) (j : JSON) :
      notObject j = true → WrongType (structCodec fs) j
  | member {σ α : Type} (fs : List (Field σ)) (ms : List (String × JSON)) (m : String × JSON)
      (name : String) (omitempty : Bool) (c : Codec α) (get : σ → α) (set : σ → α → σ) :
      m ∈ ms → findField fs m.1 = some (Field.of name omitempty c get set) →
      WrongType c m.2 → WrongType (structCodec fs) (.obj ms)
  | unmarshaler {σ : Type} (c : Codec σ) (fs : List (Field σ)) (tmp : σ) (j : JSON) :
      (∀ v old, c.decode v old = decodeStruct fs v tmp) →
      WrongType (structCodec fs) j → WrongType c j

/-- The text of an object member whose key needs no escape: the key in
quotes, a colon and the text of the value. -/
def memberText (key : String) (value : Bytes) : Bytes :=
  dquote :: (key.data ++ dquote :: colon :: value)

/-- The text of a string value. -/
def stringText (s : String) : Bytes :=
  dquote :: (escapeString s.data ++ [dquote])

/-- The members of an object text, separated by commas, and the closing
brace. -/
def objectBody : List Bytes → Bytes
  | [] => [rbrace]
  | [m] => m ++ [rbrace]
  | m :: m1 :: ms => m ++ comma :: objectBody (m1 :: ms)

/-- The text of an object given by the texts of its members.  An empty member
text stands for a member whose text was removed. -/
def objectText (ms : List Bytes) : Bytes :=
  lbrace :: objectBody ms

/-- The members after the first empty one that stands between two members
is dropped. -/
def dropInnerEmpty : List Bytes → List Bytes
  | m :: [] :: m2 :: ms => m :: m2 :: ms
  | m :: m1 :: ms => m :: dropInnerEmpty (m1 :: ms)
  | ms => ms

/-- The members without an empty first one that is followed by a member. -/
def dropLeadingEmpty : List Bytes → List Bytes
  | [] :: m1 :: ms => m1 :: ms
  | ms => ms

/-- The members without an empty last one that follows a member. -/
def dropTrailingEmpty : List Bytes → List Bytes
  | [m, []] => [m]
  | m :: m1 :: ms => m :: dropTrailingEmpty (m1 :: ms)
  | ms => ms

/-- The search for the pattern passes over the member and the comma after
it. -/
def PassesKey (old m : Bytes) : Prop :=
  ∀ new X, replaceFirst old new (m ++ comma :: X) = m ++ comma :: replaceFirst old new X

/-- The member text holds no comma and no brace. -/
def Quiet (m : Bytes) : Prop :=
  comma ∉ m ∧ lbrace ∉ m ∧ rbrace ∉ m

/-- The members that Texture.MarshalJSON leaves of a Texture without
Extensions and Extras: the name unless empty, the sampler and the source
unless -1. -/
def Texture.members (t : Texture) : List (String × JSON) :=
  (if t.Name.data = [] then [] else [("name", .str t.Name)]) ++
  (if t.Sampler = -1 then [] else [("sampler", .num (formatInt t.Sampler))]) ++
  (if t.Source = -1 then [] else [("source", .num (formatInt t.Source))])

/-- The search for the pair of characters passes over the text, whatever
follows it. -/
def SkipsPair (x y : Char) (m : Bytes) : Prop :=
  ∀ new R, replaceFirst [x, y] new (m ++ R) = m ++ replaceFirst [x, y] new R

/-- The member text takes no part in the pairs that removeProperty and
sanitizeJSON look for: the searches for two commas and for a comma and a
closing brace pass over it, it holds no opening brace, and it starts with
neither a comma nor a closing brace. -/
def Calm (m : Bytes) : Prop :=
  SkipsPair comma comma m ∧ SkipsPair comma rbrace m ∧ lbrace ∉ m ∧
    ∀ c t, m = c :: t → c ≠ comma ∧ c ≠ rbrace

/-- The JSON value that json.Marshal writes for the joints of a Skin: null
for the nil slice, otherwise the array of the numbers. -/
def Skin.jointsValue (s : Skin) : JSON :=
  match s.Joints with
  | none => .null
  | some l => .arr (l.map (fun n => JSON.num (formatNat n)))

/-- The members that Skin.MarshalJSON leaves of a Skin without Extensions and
Extras: the name unless empty, the inverseBindMatrices and the skeleton unless
-1, and the joints. -/
def Skin.members (s : Skin) : List (String × JSON) :=
  (if s.Name.data = [] then [] else [("name", .str s.Name)]) ++
  (if s.InverseBindMatrices = -1 then []
    else [("inverseBindMatrices", .num (formatInt s.InverseBindMatrices))]) ++
  (if s.Skeleton = -1 then [] else [("skeleton", .num (formatInt s.Skeleton))]) ++
  [("joints", Skin.jointsValue s)]

/-- Go's bytes.Contains: whether old occurs in the text.  The empty text
occurs in every text. -/
def occursIn (old : Bytes) : Bytes → Bool
  | [] => old.isPrefixOf []
  | c :: cs => old.isPrefixOf (c :: cs) || occursIn old cs

/-- The float64 negative zero, which Go's == takes as equal to zero and
json.Marshal writes with its sign. -/
def fnegzero : Float64 := { neg := true, digits := [], exp := 0 }

/-! # Theorems -/

/-- C2: the Node returned by NewNode is encoded by Node.MarshalJSON to the
text of an empty JSON object, which is well formed and has none of the keys
matrix, rotation, scale, camera, skin, mesh. -/
theorem C2_newNode_encodes_without_defaults :
    ∃ out ms, Node.MarshalJSON NewNode = .ok out ∧ out = [lbrace, rbrace] ∧
      IsObjectText out ms ∧
      ∀ k ∈ ["matrix", "rotation", "scale", "camera", "skin", "mesh"], hasKey ms k = false := by
  refine ⟨[lbrace, rbrace], [], by decide!, rfl, by unfold IsObjectText; decide!, ?_⟩
  intro k _
  rfl

/-- C1: the round trip of a Node fails on the code.  The Node with the name
a,,b, mesh 0 and the defaults of NewNode elsewhere is encoded with the name
a,b, because removeProperty replaces the first pair of commas of the whole
text; decoding the output succeeds and yields a Node that differs from the
one encoded. -/
theorem C1_node_roundtrip_loses_comma_of_name :
    Node.MarshalJSON { NewNode with Name := "a,,b", Mesh := 0 } =
        .ok "\x7b\"name\":\"a,b\",\"mesh\":0\x7d".data ∧
      Node.UnmarshalJSON NewNode "\x7b\"name\":\"a,b\",\"mesh\":0\x7d".data =
        ({ NewNode with Name := "a,b", Mesh := 0 }, none) ∧
      ({ NewNode with Name := "a,b", Mesh := 0 } : Node) ≠
        { NewNode with Name := "a,,b", Mesh := 0 } := by
  refine ⟨by decide!, by decide!, by decide!⟩

/-- C5: for each entity kind with a constructor, UnmarshalJSON applied to the
empty JSON object stores exactly the value of the constructor in the receiver,
whatever the receiver held, and returns no error. -/
theorem C5_empty_object_decodes_to_constructor :
    (∀ r, Accessor.UnmarshalJSON r [lbrace, rbrace] = (NewAccessor, none)) ∧
    (∀ r, Node.UnmarshalJSON r [lbrace, rbrace] = (NewNode, none)) ∧
    (∀ r, Skin.UnmarshalJSON r [lbrace, rbrace] = (NewSkin, none)) ∧
    (∀ r, Primitive.UnmarshalJSON r [lbrace, rbrace] = (NewPrimitive, none)) ∧
    (∀ r, Material.UnmarshalJSON r [lbrace, rbrace] = (NewMaterial, none)) ∧
    (∀ r, NormalTexture.UnmarshalJSON r [lbrace, rbrace] = (NewNormalTexture (-1), none)) ∧
    (∀ r, OcclusionTexture.UnmarshalJSON r [lbrace, rbrace] =
      (NewOcclusionTexture (-1), none)) ∧
    (∀ r, PBRMetallicRoughness.UnmarshalJSON r [lbrace, rbrace] =
      (NewPBRMetallicRoughness, none)) ∧
    (∀ r, TextureInfo.UnmarshalJSON r [lbrace, rbrace] = (NewTextureInfo (-1), none)) ∧
    (∀ r, Texture.UnmarshalJSON r [lbrace, rbrace] = (NewTexture, none)) ∧
    (∀ r, Sampler.UnmarshalJSON r [lbrace, rbrace] = (NewSampler, none)) ∧
    (∀ r, AnimationSampler.UnmarshalJSON r [lbrace, rbrace] = (NewAnimationSampler, none)) ∧
    (∀ r, Channel.UnmarshalJSON r [lbrace, rbrace] = (NewChannel (-1), none)) ∧
    (∀ r, ChannelTarget.UnmarshalJSON r [lbrace, rbrace] = (NewChannelTarget "", none)) :=
  ⟨fun _ => rfl, fun _ => rfl, fun _ => rfl, fun _ => rfl, fun _ => rfl, fun _ => rfl,
    fun _ => rfl, fun _ => rfl, fun _ => rfl, fun _ => rfl, fun _ => rfl, fun _ => rfl,
    fun _ => rfl, fun _ => rfl⟩

/-- C10: the encoding of an AnimationSampler contains the sentinel.  The type
has no MarshalJSON method, so json.Marshal writes the struct as it is: the
value of NewAnimationSampler is written with input and output equal to the
literal -1. -/
theorem C10_animationSampler_encodes_sentinel :
    marshalStruct AnimationSampler.fields NewAnimationSampler =
        .ok "\x7b\"input\":-1,\"interpolation\":\"LINEAR\",\"output\":-1\x7d".data ∧
      IsObjectText "\x7b\"input\":-1,\"interpolation\":\"LINEAR\",\"output\":-1\x7d".data
        [("input", .num ['-', '1']), ("interpolation", .str "LINEAR"),
          ("output", .num ['-', '1'])] := by
  refine ⟨by decide!, ?_⟩
  unfold IsObjectText
  decide!

/-! ## Decoding of object members: fields that are not named stay as they were -/

theorem foldEq_refl (n : String) : foldEq n n = true := by
  simp [foldEq]

theorem findField_some {σ : Type} (fs : List (Field σ)) (k : String) (f : Field σ)
    (h : findField fs k = some f) : f ∈ fs ∧ foldEq f.name k = true := by
  unfold findField at h
  cases h1 : fs.find? (fun f => decide (f.name = k)) with
  | some g =>
    rw [h1] at h
    simp only [Option.some.injEq] at h
    subst h
    have hm := List.mem_of_find?_eq_some h1
    have hp := List.find?_some h1
    simp only [decide_eq_true_eq] at hp
    exact ⟨hm, by rw [hp]; exact foldEq_refl k⟩
  | none =>
    rw [h1] at h
    simp only at h
    exact ⟨List.mem_of_find?_eq_some h, List.find?_some (p := fun (f : Field σ) => foldEq f.name k) h⟩

theorem decodeMembers_preserves {σ : Type} (fs : List (Field σ)) (P : σ → Prop) :
    ∀ (ms : List (String × JSON)),
      (∀ m ∈ ms, ∀ f, findField fs m.1 = some f → ∀ s s1, P s → f.decode m.2 s = .ok s1 → P s1) →
      ∀ s s1, P s → decodeMembers fs ms s = .ok s1 → P s1
  | [], _, s, s1, hs, h => by
    simp only [decodeMembers, Except.ok.injEq] at h
    exact h ▸ hs
  | (k, v) :: ms, hm, s, s1, hs, h => by
    have ih := decodeMembers_preserves fs P ms
      (fun m hmem => hm m (List.mem_cons_of_mem _ hmem))
    simp only [decodeMembers] at h
    cases hf : findField fs k with
    | none =>
      rw [hf] at h
      exact ih s s1 hs h
    | some f =>
      rw [hf] at h
      simp only at h
      cases hd : f.decode v s with
      | error e => rw [hd] at h; simp at h
      | ok s2 =>
        rw [hd] at h
        simp only at h
        exact ih s2 s1 (hm (k, v) (List.mem_cons_self _ _) f hf s s2 hs hd) h

/-- A field built by Field.of leaves alone what its setter leaves alone. -/
theorem Field.of_frame {σ α β : Type} {name : String} {oe : Bool} {c : Codec α}
    {get : σ → α} {set : σ → α → σ} (proj : σ → β) {j : JSON} {s s1 : σ}
    (h : (Field.of name oe c get set).decode j s = .ok s1)
    (hset : ∀ s a, proj (set s a) = proj s) :
    proj s1 = proj s := by
  simp only [Field.of] at h
  cases hd : c.decode j (get s) with
  | error e => rw [hd] at h; simp at h
  | ok a =>
    rw [hd] at h
    simp only [Except.ok.injEq] at h
    rw [← h]
    exact hset s a

theorem absent_keeps {σ β : Type} (fs : List (Field σ)) (name : String) (proj : σ → β)
    (hfr : Frames fs name proj) (ms : List (String × JSON))
    (habs : ∀ m ∈ ms, foldEq name m.1 = false) (s s1 : σ)
    (h : decodeMembers fs ms s = .ok s1) : proj s1 = proj s := by
  refine decodeMembers_preserves fs (fun t => proj t = proj s) ms ?_ s s1 rfl h
  intro m hm f hf t t1 ht hd
  have hff := findField_some fs m.1 f hf
  have hne : f.name ≠ name := by
    intro heq
    have := habs m hm
    rw [← heq, hff.2] at this
    exact absurd this (by simp)
  rw [hfr f hff.1 hne m.2 t t1 hd]
  exact ht

theorem unmarshal_absent {σ β : Type} (fs : List (Field σ)) (name : String) (proj : σ → β)
    (hfr : Frames fs name proj) (data : Bytes) (ms : List (String × JSON))
    (hobj : IsObjectText data ms) (habs : LacksKey ms name) (tmp s1 : σ)
    (h : unmarshalStruct fs data tmp = .ok s1) : proj s1 = proj tmp := by
  unfold IsObjectText at hobj
  simp only [unmarshalStruct, hobj, decodeStruct] at h
  exact absent_keeps fs name proj hfr ms habs tmp s1 h

theorem assignIfOk_none {σ : Type} (r r1 : σ) (res : Except JsonError σ)
    (h : assignIfOk r res = (r1, none)) : res = .ok r1 := by
  cases res with
  | error e => simp [assignIfOk] at h
  | ok t => simp [assignIfOk] at h; rw [h]

theorem Document_frames_scene : Frames Document.fields "scene" (fun x => x.Scene) := by
  intro g hg hne j s s1 h
  simp only [Document.fields, List.mem_cons, List.mem_singleton, List.not_mem_nil, or_false] at hg
  rcases hg with rfl | rfl | rfl | rfl | rfl | rfl | rfl | rfl | rfl | rfl | rfl | rfl | rfl | rfl | rfl | rfl | rfl | rfl | rfl
  all_goals first
    | exact absurd rfl hne
    | exact Field.of_frame _ h (fun _ _ => rfl)

theorem Accessor_frames_bufferView : Frames Accessor.fields "bufferView" (fun x => x.BufferView) := by
  intro g hg hne j s s1 h
  simp only [Accessor.fields, List.mem_cons, List.mem_singleton, List.not_mem_nil, or_false] at hg
  rcases hg with rfl | rfl | rfl | rfl | rfl | rfl | rfl | rfl | rfl | rfl | rfl | rfl
  all_goals first
    | exact absurd rfl hne
    | exact Field.of_frame _ h (fun _ _ => rfl)

theorem BufferView_frames_buffer : Frames BufferView.fields "buffer" (fun x => x.Buffer) := by
  intro g hg hne j s s1 h
  simp only [BufferView.fields, List.mem_cons, List.mem_singleton, List.not_mem_nil, or_false] at hg
  rcases hg with rfl | rfl | rfl | rfl | rfl | rfl | rfl
  all_goals first
    | exact absurd rfl hne
    | exact Field.of_frame _ h (fun _ _ => rfl)

theorem Node_frames_camera : Frames Node.fields "camera" (fun x => x.Camera) := by
  intro g hg hne j s s1 h
  simp only [Node.fields, List.mem_cons, List.mem_singleton, List.not_mem_nil, or_false] at hg
  rcases hg with rfl | rfl | rfl | rfl | rfl | rfl | rfl | rfl | rfl | rfl | rfl | rfl
  all_goals first
    | exact absurd rfl hne
    | exact Field.of_frame _ h (fun _ _ => rfl)

theorem Node_frames_skin : Frames Node.fields "skin" (fun x => x.Skin) := by
  intro g hg hne j s s1 h
  simp only [Node.fields, List.mem_cons, List.mem_singleton, List.not_mem_nil, or_false] at hg
  rcases hg with rfl | rfl | rfl | rfl | rfl | rfl | rfl | rfl | rfl | rfl | rfl | rfl
  all_goals first
    | exact absurd rfl hne
    | exact Field.of_frame _ h (fun _ _ => rfl)

theorem Node_frames_mesh : Frames Node.fields "mesh" (fun x => x.Mesh) := by
  intro g hg hne j s s1 h
  simp only [Node.fields, List.mem_cons, List.mem_singleton, List.not_mem_nil, or_false] at hg
  rcases hg with rfl | rfl | rfl | rfl | rfl | rfl | rfl | rfl | rfl | rfl | rfl | rfl
  all_goals first
    | exact absurd rfl hne
    | exact Field.of_frame _ h (fun _ _ => rfl)

theorem Skin_frames_inverseBindMatrices : Frames Skin.fields "inverseBindMatrices" (fun x => x.InverseBindMatrices) := by
  intro g hg hne j s s1 h
  simp only [Skin.fields, List.mem_cons, List.mem_singleton, List.not_mem_nil, or_false] at hg
  rcases hg with rfl | rfl | rfl | rfl | rfl | rfl
  all_goals first
    | exact absurd rfl hne
    | exact Field.of_frame _ h (fun _ _ => rfl)

theorem Skin_frames_skeleton : Frames Skin.fields "skeleton" (fun x => x.Skeleton) := by
  intro g hg hne j s s1 h
  simp only [Skin.fields, List.mem_cons, List.mem_singleton, List.not_mem_nil, or_false] at hg
  rcases hg with rfl | rfl | rfl | rfl | rfl | rfl
  all_goals first
    | exact absurd rfl hne
    | exact Field.of_frame _ h (fun _ _ => rfl)

theorem Primitive_frames_indices : Frames Primitive.fields "indices" (fun x => x.Indices) := by
  intro g hg hne j s s1 h
  simp only [Primitive.fields, List.mem_cons, List.mem_singleton, List.not_mem_nil, or_false] at hg
  rcases hg with rfl | rfl | rfl | rfl | rfl | rfl | rfl
  all_goals first
    | exact absurd rfl hne
    | exact Field.of_frame _ h (fun _ _ => rfl)

theorem Primitive_frames_material : Frames Primitive.fields "material" (fun x => x.Material) := by
  intro g hg hne j s s1 h
  simp only [Primitive.fields, List.mem_cons, List.mem_singleton, List.not_mem_nil, or_false] at hg
  rcases hg with rfl | rfl | rfl | rfl | rfl | rfl | rfl
  all_goals first
    | exact absurd rfl hne
    | exact Field.of_frame _ h (fun _ _ => rfl)

theorem NormalTexture_frames_index : Frames NormalTexture.fields "index" (fun x => x.Index) := by
  intro g hg hne j s s1 h
  simp only [NormalTexture.fields, List.mem_cons, List.mem_singleton, List.not_mem_nil, or_false] at hg
  rcases hg with rfl | rfl | rfl | rfl | rfl
  all_goals first
    | exact absurd rfl hne
    | exact Field.of_frame _ h (fun _ _ => rfl)

theorem OcclusionTexture_frames_index : Frames OcclusionTexture.fields "index" (fun x => x.Index) := by
  intro g hg hne j s s1 h
  simp only [OcclusionTexture.fields, List.mem_cons, List.mem_singleton, List.not_mem_nil, or_false] at hg
  rcases hg with rfl | rfl | rfl | rfl | rfl
  all_goals first
    | exact absurd rfl hne
    | exact Field.of_frame _ h (fun _ _ => rfl)

theorem TextureInfo_frames_index : Frames TextureInfo.fields "index" (fun x => x.Index) := by
  intro g hg hne j s s1 h
  simp only [TextureInfo.fields, List.mem_cons, List.mem_singleton, List.not_mem_nil, or_false] at hg
  rcases hg with rfl | rfl | rfl | rfl
  all_goals first
    | exact absurd rfl hne
    | exact Field.of_frame _ h (fun _ _ => rfl)

theorem Texture_frames_sampler : Frames Texture.fields "sampler" (fun x => x.Sampler) := by
  intro g hg hne j s s1 h
  simp only [Texture.fields, List.mem_cons, List.mem_singleton, List.not_mem_nil, or_false] at hg
  rcases hg with rfl | rfl | rfl | rfl | rfl
  all_goals first
    | exact absurd rfl hne
    | exact Field.of_frame _ h (fun _ _ => rfl)

theorem Texture_frames_source : Frames Texture.fields "source" (fun x => x.Source) := by
  intro g hg hne j s s1 h
  simp only [Texture.fields, List.mem_cons, List.mem_singleton, List.not_mem_nil, or_false] at hg
  rcases hg with rfl | rfl | rfl | rfl | rfl
  all_goals first
    | exact absurd rfl hne
    | exact Field.of_frame _ h (fun _ _ => rfl)

theorem AnimationSampler_frames_input : Frames AnimationSampler.fields "input" (fun x => x.Input) := by
  intro g hg hne j s s1 h
  simp only [AnimationSampler.fields, List.mem_cons, List.mem_singleton, List.not_mem_nil, or_false] at hg
  rcases hg with rfl | rfl | rfl | rfl | rfl
  all_goals first
    | exact absurd rfl hne
    | exact Field.of_frame _ h (fun _ _ => rfl)

theorem AnimationSampler_frames_output : Frames AnimationSampler.fields "output" (fun x => x.Output) := by
  intro g hg hne j s s1 h
  simp only [AnimationSampler.fields, List.mem_cons, List.mem_singleton, List.not_mem_nil, or_false] at hg
  rcases hg with rfl | rfl | rfl | rfl | rfl
  all_goals first
    | exact absurd rfl hne
    | exact Field.of_frame _ h (fun _ _ => rfl)

theorem Channel_frames_sampler : Frames Channel.fields "sampler" (fun x => x.Sampler) := by
  intro g hg hne j s s1 h
  simp only [Channel.fields, List.mem_cons, List.mem_singleton, List.not_mem_nil, or_false] at hg
  rcases hg with rfl | rfl | rfl | rfl
  all_goals first
    | exact absurd rfl hne
    | exact Field.of_frame _ h (fun _ _ => rfl)

theorem ChannelTarget_frames_node : Frames ChannelTarget.fields "node" (fun x => x.Node) := by
  intro g hg hne j s s1 h
  simp only [ChannelTarget.fields, List.mem_cons, List.mem_singleton, List.not_mem_nil, or_false] at hg
  rcases hg with rfl | rfl | rfl | rfl
  all_goals first
    | exact absurd rfl hne
    | exact Field.of_frame _ h (fun _ _ => rfl)

theorem Image_frames_bufferView : Frames Image.fields "bufferView" (fun x => x.BufferView) := by
  intro g hg hne j s s1 h
  simp only [Image.fields, List.mem_cons, List.mem_singleton, List.not_mem_nil, or_false] at hg
  rcases hg with rfl | rfl | rfl | rfl | rfl | rfl
  all_goals first
    | exact absurd rfl hne
    | exact Field.of_frame _ h (fun _ _ => rfl)

theorem SparseIndices_frames_bufferView : Frames SparseIndices.fields "bufferView" (fun x => x.BufferView) := by
  intro g hg hne j s s1 h
  simp only [SparseIndices.fields, List.mem_cons, List.mem_singleton, List.not_mem_nil, or_false] at hg
  rcases hg with rfl | rfl | rfl | rfl | rfl
  all_goals first
    | exact absurd rfl hne
    | exact Field.of_frame _ h (fun _ _ => rfl)

theorem SparseValues_frames_bufferView : Frames SparseValues.fields "bufferView" (fun x => x.BufferView) := by
  intro g hg hne j s s1 h
  simp only [SparseValues.fields, List.mem_cons, List.mem_singleton, List.not_mem_nil, or_false] at hg
  rcases hg with rfl | rfl | rfl | rfl
  all_goals first
    | exact absurd rfl hne
    | exact Field.of_frame _ h (fun _ _ => rfl)

/-- C7, as the code has it: decoding a JSON object in which no key matches the
name of a reference field, with or without regard to case, leaves the field at
the sentinel -1 for every reference field of type int32 (each decoded by the
UnmarshalJSON method of its kind), and at 0 for the unsigned fields
Image.BufferView, SparseIndices.BufferView and SparseValues.BufferView, whose
kinds are decoded by json.Unmarshal into a zero value. -/
theorem C7_absent_reference_keeps_default (data : Bytes) (ms : List (String × JSON))
    (hobj : IsObjectText data ms) :
    (LacksKey ms "scene" → ∀ r r1, Document.UnmarshalJSON r data = (r1, none) → r1.Scene = -1) ∧
    (LacksKey ms "bufferView" → ∀ r r1, Accessor.UnmarshalJSON r data = (r1, none) → r1.BufferView = -1) ∧
    (LacksKey ms "buffer" → ∀ r r1, BufferView.UnmarshalJSON r data = (r1, none) → r1.Buffer = -1) ∧
    (LacksKey ms "camera" → ∀ r r1, Node.UnmarshalJSON r data = (r1, none) → r1.Camera = -1) ∧
    (LacksKey ms "skin" → ∀ r r1, Node.UnmarshalJSON r data = (r1, none) → r1.Skin = -1) ∧
    (LacksKey ms "mesh" → ∀ r r1, Node.UnmarshalJSON r data = (r1, none) → r1.Mesh = -1) ∧
    (LacksKey ms "inverseBindMatrices" → ∀ r r1, Skin.UnmarshalJSON r data = (r1, none) → r1.InverseBindMatrices = -1) ∧
    (LacksKey ms "skeleton" → ∀ r r1, Skin.UnmarshalJSON r data = (r1, none) → r1.Skeleton = -1) ∧
    (LacksKey ms "indices" → ∀ r r1, Primitive.UnmarshalJSON r data = (r1, none) → r1.Indices = -1) ∧
    (LacksKey ms "material" → ∀ r r1, Primitive.UnmarshalJSON r data = (r1, none) → r1.Material = -1) ∧
    (LacksKey ms "index" → ∀ r r1, NormalTexture.UnmarshalJSON r data = (r1, none) → r1.Index = -1) ∧
    (LacksKey ms "index" → ∀ r r1, OcclusionTexture.UnmarshalJSON r data = (r1, none) → r1.Index = -1) ∧
    (LacksKey ms "index" → ∀ r r1, TextureInfo.UnmarshalJSON r data = (r1, none) → r1.Index = -1) ∧
    (LacksKey ms "sampler" → ∀ r r1, Texture.UnmarshalJSON r data = (r1, none) → r1.Sampler = -1) ∧
    (LacksKey ms "source" → ∀ r r1, Texture.UnmarshalJSON r data = (r1, none) → r1.Source = -1) ∧
    (LacksKey ms "input" → ∀ r r1, AnimationSampler.UnmarshalJSON r data = (r1, none) → r1.Input = -1) ∧
    (LacksKey ms "output" → ∀ r r1, AnimationSampler.UnmarshalJSON r data = (r1, none) → r1.Output = -1) ∧
    (LacksKey ms "sampler" → ∀ r r1, Channel.UnmarshalJSON r data = (r1, none) → r1.Sampler = -1) ∧
    (LacksKey ms "node" → ∀ r r1, ChannelTarget.UnmarshalJSON r data = (r1, none) → r1.Node = -1) ∧
    (LacksKey ms "bufferView" → ∀ s1, unmarshalStruct Image.fields data Image.zero = .ok s1 →
      s1.BufferView = 0) ∧
    (LacksKey ms "bufferView" → ∀ s1, unmarshalStruct SparseIndices.fields data SparseIndices.zero = .ok s1 →
      s1.BufferView = 0) ∧
    (LacksKey ms "bufferView" → ∀ s1, unmarshalStruct SparseValues.fields data SparseValues.zero = .ok s1 →
      s1.BufferView = 0) :=
  ⟨fun habs r r1 h => unmarshal_absent _ _ _ Document_frames_scene data ms hobj habs _ r1
      (assignIfOk_none r r1 _ h),
    fun habs r r1 h => unmarshal_absent _ _ _ Accessor_frames_bufferView data ms hobj habs _ r1
      (assignIfOk_none r r1 _ h),
    fun habs r r1 h => unmarshal_absent _ _ _ BufferView_frames_buffer data ms hobj habs _ r1
      (assignIfOk_none r r1 _ h),
    fun habs r r1 h => unmarshal_absent _ _ _ Node_frames_camera data ms hobj habs _ r1
      (assignIfOk_none r r1 _ h),
    fun habs r r1 h => unmarshal_absent _ _ _ Node_frames_skin data ms hobj habs _ r1
      (assignIfOk_none r r1 _ h),
    fun habs r r1 h => unmarshal_absent _ _ _ Node_frames_mesh data ms hobj habs _ r1
      (assignIfOk_none r r1 _ h),
    fun habs r r1 h => unmarshal_absent _ _ _ Skin_frames_inverseBindMatrices data ms hobj habs _ r1
      (assignIfOk_none r r1 _ h),
    fun habs r r1 h => unmarshal_absent _ _ _ Skin_frames_skeleton data ms hobj habs _ r1
      (assignIfOk_none r r1 _ h),
    fun habs r r1 h => unmarshal_absent _ _ _ Primitive_frames_indices data ms hobj habs _ r1
      (assignIfOk_none r r1 _ h),
    fun habs r r1 h => unmarshal_absent _ _ _ Primitive_frames_material data ms hobj habs _ r1
      (assignIfOk_none r r1 _ h),
    fun habs r r1 h => unmarshal_absent _ _ _ NormalTexture_frames_index data ms hobj habs _ r1
      (assignIfOk_none r r1 _ h),
    fun habs r r1 h => unmarshal_absent _ _ _ OcclusionTexture_frames_index data ms hobj habs _ r1
      (assignIfOk_none r r1 _ h),
    fun habs r r1 h => unmarshal_absent _ _ _ TextureInfo_frames_index data ms hobj habs _ r1
      (assignIfOk_none r r1 _ h),
    fun habs r r1 h => unmarshal_absent _ _ _ Texture_frames_sampler data ms hobj habs _ r1
      (assignIfOk_none r r1 _ h),
    fun habs r r1 h => unmarshal_absent _ _ _ Texture_frames_source data ms hobj habs _ r1
      (assignIfOk_none r r1 _ h),
    fun habs r r1 h => unmarshal_absent _ _ _ AnimationSampler_frames_input data ms hobj habs _ r1
      (assignIfOk_none r r1 _ h),
    fun habs r r1 h => unmarshal_absent _ _ _ AnimationSampler_frames_output data ms hobj habs _ r1
      (assignIfOk_none r r1 _ h),
    fun habs r r1 h => unmarshal_absent _ _ _ Channel_frames_sampler data ms hobj habs _ r1
      (assignIfOk_none r r1 _ h),
    fun habs r r1 h => unmarshal_absent _ _ _ ChannelTarget_frames_node data ms hobj habs _ r1
      (assignIfOk_none r r1 _ h),
    fun habs s1 h => unmarshal_absent _ _ _ Image_frames_bufferView data ms hobj habs _ s1 h,
    fun habs s1 h => unmarshal_absent _ _ _ SparseIndices_frames_bufferView data ms hobj habs _ s1 h,
    fun habs s1 h => unmarshal_absent _ _ _ SparseValues_frames_bufferView data ms hobj habs _ s1 h⟩

/-- Witness of C7: the object with the single member name decodes, as a Node,
to camera -1. -/
theorem C7_absent_reference_keeps_default_witness :
    (Node.UnmarshalJSON Node.zero "\x7b\"name\":\"n\"\x7d".data).1.Camera = -1 :=
  (C7_absent_reference_keeps_default "\x7b\"name\":\"n\"\x7d".data [("name", .str "n")]
    (by unfold IsObjectText; decide!)).2.2.2.1
    (by unfold LacksKey; decide) Node.zero _ (by decide!)

/-- C7 fails as stated: the empty object decodes, as an Image, to bufferView 0,
a field that cannot hold -1; and an object that lacks the key camera but has
the key CAMERA decodes, as a Node, to camera 0. -/
theorem C7_image_bufferView_absent_is_zero :
    (∃ img, unmarshalStruct Image.fields [lbrace, rbrace] Image.zero = .ok img ∧
      img.BufferView = 0 ∧ (img.BufferView : Int) ≠ -1) ∧
    (∃ n, Node.UnmarshalJSON NewNode "\x7b\"CAMERA\":0\x7d".data = (n, none) ∧
      n.Camera = 0 ∧
      IsObjectText "\x7b\"CAMERA\":0\x7d".data [("CAMERA", .num ['0'])] ∧
      hasKey [("CAMERA", .num ['0'])] "camera" = false) := by
  refine ⟨⟨Image.zero, by decide!, rfl, by decide⟩,
    ⟨{ NewNode with Camera := 0 }, by decide!, rfl, ?_, by decide⟩⟩
  unfold IsObjectText
  decide!

/-! ## Decoding of object members: a field that is named takes the value -/

theorem Field.of_reads {σ α : Type} {name : String} {oe : Bool} {c : Codec α}
    {get : σ → α} {set : σ → α → σ} {j : JSON} {s s1 : σ}
    (h : (Field.of name oe c get set).decode j s = .ok s1)
    (hset : ∀ s a, get (set s a) = a) :
    c.decode j (get s) = .ok (get s1) := by
  simp only [Field.of] at h
  cases hd : c.decode j (get s) with
  | error e => rw [hd] at h; simp at h
  | ok a =>
    rw [hd] at h
    simp only [Except.ok.injEq] at h
    rw [← h, hset]

theorem findField_exact {σ : Type} (fs : List (Field σ)) (k : String)
    (hk : ∃ g ∈ fs, g.name = k) : ∃ f, findField fs k = some f ∧ f ∈ fs ∧ f.name = k := by
  unfold findField
  cases h1 : fs.find? (fun f => decide (f.name = k)) with
  | some g =>
    have hp := List.find?_some h1
    simp only [decide_eq_true_eq] at hp
    exact ⟨g, rfl, List.mem_of_find?_eq_some h1, hp⟩
  | none =>
    obtain ⟨g, hg, hgk⟩ := hk
    have := List.find?_eq_none.mp h1 g hg
    simp [hgk] at this

theorem lookupKey_cons (k : String) (x : JSON) (ms : List (String × JSON)) (name : String) :
    lookupKey ((k, x) :: ms) name = if k = name then some x else lookupKey ms name := by
  unfold lookupKey
  by_cases h : k = name <;> simp [List.find?, h]

theorem lookupKey_none_of_not_mem (ms : List (String × JSON)) (name : String)
    (h : name ∉ ms.map Prod.fst) : lookupKey ms name = none := by
  induction ms with
  | nil => rfl
  | cons m ms ih =>
    obtain ⟨k, x⟩ := m
    simp only [List.map_cons, List.mem_cons, not_or] at h
    rw [lookupKey_cons, if_neg (fun hk => h.1 hk.symm)]
    exact ih h.2

theorem lookupKey_mem (ms : List (String × JSON)) (name : String) (v : JSON)
    (h : lookupKey ms name = some v) : (name, v) ∈ ms := by
  induction ms with
  | nil => simp [lookupKey] at h
  | cons m ms ih =>
    obtain ⟨k, x⟩ := m
    rw [lookupKey_cons] at h
    by_cases hk : k = name
    · rw [if_pos hk] at h
      simp only [Option.some.injEq] at h
      rw [hk, h]
      exact List.mem_cons_self _ _
    · rw [if_neg hk] at h
      exact List.mem_cons_of_mem _ (ih h)

theorem present_reads {σ α : Type} (fs : List (Field σ)) (name : String) (c : Codec α)
    (get : σ → α) (hfr : Frames fs name get) (hrd : Reads fs name c get)
    (hin : ∃ g ∈ fs, g.name = name) :
    ∀ (ms : List (String × JSON)), (ms.map Prod.fst).Nodup →
      (∀ m ∈ ms, foldEq name m.1 = true → m.1 = name) →
      ∀ v, lookupKey ms name = some v → ∀ s s1, decodeMembers fs ms s = .ok s1 →
        c.decode v (get s) = .ok (get s1)
  | [], _, _, v, hv, _, _, _ => by simp [lookupKey] at hv
  | (k, x) :: ms, hnd, hex, v, hv, s, s1, h => by
    simp only [List.map_cons, List.nodup_cons] at hnd
    rw [lookupKey_cons] at hv
    simp only [decodeMembers] at h
    by_cases hk : k = name
    · rw [if_pos hk] at hv
      simp only [Option.some.injEq] at hv
      subst hv
      obtain ⟨f, hf, hfm, hfn⟩ := findField_exact fs k (hk ▸ hin)
      rw [hf] at h
      simp only at h
      cases hd : f.decode x s with
      | error e => rw [hd] at h; simp at h
      | ok s2 =>
        rw [hd] at h
        simp only at h
        have h1 := hrd f hfm (hfn.trans hk) x s s2 hd
        have h2 : get s1 = get s2 := by
          refine absent_keeps fs name get hfr ms ?_ s2 s1 h
          intro m hm
          cases hfe : foldEq name m.1 with
          | false => rfl
          | true =>
            have := hex m (List.mem_cons_of_mem _ hm) hfe
            exact absurd (List.mem_map_of_mem Prod.fst hm) (by rw [this, ← hk]; exact hnd.1)
        rw [h2]
        exact h1
    · rw [if_neg hk] at hv
      have ih := present_reads fs name c get hfr hrd hin ms hnd.2
        (fun m hm => hex m (List.mem_cons_of_mem _ hm)) v hv
      cases hf : findField fs k with
      | none =>
        rw [hf] at h
        exact ih s s1 h
      | some f =>
        rw [hf] at h
        simp only at h
        cases hd : f.decode x s with
        | error e => rw [hd] at h; simp at h
        | ok s2 =>
          rw [hd] at h
          simp only at h
          have hff := findField_some fs k f hf
          have hne : f.name ≠ name := by
            intro heq
            rw [heq] at hff
            exact hk (hex (k, x) (List.mem_cons_self _ _) hff.2)
          rw [← hfr f hff.1 hne x s s2 hd]
          exact ih s2 s1 h

theorem decodeMembers_ok {σ : Type} (fs : List (Field σ)) :
    ∀ (ms : List (String × JSON)),
      (∀ m ∈ ms, ∀ f, findField fs m.1 = some f → ∀ s, ∃ s1, f.decode m.2 s = .ok s1) →
      ∀ s, ∃ s1, decodeMembers fs ms s = .ok s1
  | [], _, s => ⟨s, rfl⟩
  | (k, v) :: ms, hm, s => by
    have ih := decodeMembers_ok fs ms (fun m hmem => hm m (List.mem_cons_of_mem _ hmem))
    simp only [decodeMembers]
    cases hf : findField fs k with
    | none => exact ih s
    | some f =>
      obtain ⟨s2, hs2⟩ := hm (k, v) (List.mem_cons_self _ _) f hf s
      simp only [hs2]
      exact ih s2

/-! ## Valid Node objects -/

theorem Field.of_ok {σ α : Type} {name : String} {oe : Bool} {c : Codec α}
    {get : σ → α} {set : σ → α → σ} {j : JSON} {s : σ}
    (h : ∃ a, c.decode j (get s) = .ok a) :
    ∃ s1, (Field.of name oe c get set).decode j s = .ok s1 := by
  obtain ⟨a, ha⟩ := h
  exact ⟨set s a, by simp only [Field.of, ha]⟩

theorem int32_decode_of_isInt32 (v : JSON) (h : isInt32 v = true) (old : Int) :
    int32Codec.decode v old = .ok (intValue v) := by
  cases v with
  | num lit =>
    simp only [isInt32] at h
    cases hp : parseIntLit lit with
    | none => rw [hp] at h; simp at h
    | some x =>
      rw [hp] at h
      simp only [decide_eq_true_eq] at h
      simp only [int32Codec, intCodec, hp, intValue, Option.getD_some]
      rw [if_pos]
      simpa using h
  | _ => simp [isInt32] at h

theorem uint32_decode_of_isUint32 (v : JSON) (h : isUint32 v = true) (old : Nat) :
    ∃ a, uint32Codec.decode v old = .ok a := by
  cases v with
  | num lit =>
    simp only [isUint32] at h
    cases hp : parseUintLit lit with
    | none => rw [hp] at h; simp at h
    | some x =>
      rw [hp] at h
      simp only [decide_eq_true_eq] at h
      refine ⟨x, ?_⟩
      simp only [uint32Codec, uintCodec, hp]
      rw [if_pos h]
  | _ => simp [isUint32] at h

theorem float64_decode_of_isFloat64 (v : JSON) (h : isFloat64 v = true) (old : Float64) :
    float64Codec.decode v old = .ok (floatValue v) := by
  cases v with
  | num lit =>
    simp only [isFloat64] at h
    cases hp : parseFloatLit lit with
    | none => rw [hp] at h; simp at h
    | some f => simp only [float64Codec, floatValue, hp, Option.getD_some]
  | _ => simp [isFloat64] at h

theorem decodeArrayElems_floats :
    ∀ (xs : List JSON) (old : List Float64), xs.all isFloat64 = true →
      decodeArrayElems float64Codec f0 xs.length xs old = .ok (xs.map floatValue)
  | [], _, _ => rfl
  | x :: xs, old, hx => by
    simp only [List.all_cons, Bool.and_eq_true] at hx
    simp only [List.length_cons, decodeArrayElems, float64_decode_of_isFloat64 x hx.1 _,
      decodeArrayElems_floats xs old.tail hx.2, List.map_cons]

theorem decodeArrayElems_floats_ok :
    ∀ (n : Nat) (xs : List JSON) (old : List Float64), xs.all isFloat64 = true →
      ∃ r, decodeArrayElems float64Codec f0 n xs old = .ok r
  | 0, _, _, _ => ⟨[], rfl⟩
  | n + 1, [], _, _ => ⟨_, rfl⟩
  | n + 1, x :: xs, old, hx => by
    simp only [List.all_cons, Bool.and_eq_true] at hx
    obtain ⟨r, hr⟩ := decodeArrayElems_floats_ok n xs old.tail hx.2
    exact ⟨floatValue x :: r, by
      simp only [decodeArrayElems, float64_decode_of_isFloat64 x hx.1 _, hr]⟩

theorem decodeSliceElems_floats_ok :
    ∀ (xs : List JSON), xs.all isFloat64 = true →
      ∃ r, decodeSliceElems float64Codec f0 xs = .ok r
  | [], _ => ⟨[], rfl⟩
  | x :: xs, hx => by
    simp only [List.all_cons, Bool.and_eq_true] at hx
    obtain ⟨r, hr⟩ := decodeSliceElems_floats_ok xs hx.2
    exact ⟨floatValue x :: r, by simp only [decodeSliceElems, float64_decode_of_isFloat64 x hx.1 f0, hr]⟩

theorem decodeSliceElems_uints_ok :
    ∀ (xs : List JSON), xs.all isUint32 = true →
      ∃ r, decodeSliceElems uint32Codec 0 xs = .ok r
  | [], _ => ⟨[], rfl⟩
  | x :: xs, hx => by
    simp only [List.all_cons, Bool.and_eq_true] at hx
    obtain ⟨r, hr⟩ := decodeSliceElems_uints_ok xs hx.2
    obtain ⟨a, ha⟩ := uint32_decode_of_isUint32 x hx.1 0
    exact ⟨a :: r, by simp only [decodeSliceElems, ha, hr]⟩

theorem anyCodec_decode_ok (j : JSON) (h : numbersInRange j = true) (old : Option JSON) :
    ∃ a, anyCodec.decode j old = .ok a := by
  unfold numbersInRange at h
  cases hc : JSON.canon j with
  | none => rw [hc] at h; simp at h
  | some c =>
    cases j with
    | null => exact ⟨none, rfl⟩
    | _ => exact ⟨some c, by simp only [anyCodec, hc]⟩

theorem decodeEntries_any_ok :
    ∀ (ms : List (String × JSON)) (acc : List (String × Option JSON)),
      ms.all (fun m => numbersInRange m.2) = true →
      ∃ r, decodeEntries anyCodec none ms acc = .ok r
  | [], acc, _ => ⟨acc, rfl⟩
  | (k, j) :: ms, acc, h => by
    simp only [List.all_cons, Bool.and_eq_true] at h
    obtain ⟨a, ha⟩ := anyCodec_decode_ok j h.1 none
    simp only [decodeEntries, ha]
    exact decodeEntries_any_ok ms _ h.2

theorem floatArray_decode_ok (n : Option Nat) (k : Nat) (v : JSON) (h : isNumArray n v = true)
    (old : List Float64) : ∃ a, (arrayCodec float64Codec f0 k).decode v old = .ok a := by
  cases v with
  | arr xs =>
    simp only [isNumArray, Bool.and_eq_true] at h
    exact decodeArrayElems_floats_ok k xs old h.1
  | _ => simp [isNumArray] at h

theorem floatArray_decode_eq (n : Nat) (v : JSON) (h : isNumArray (some n) v = true)
    (old : List Float64) :
    (arrayCodec float64Codec f0 n).decode v old = .ok (floatValues v) := by
  cases v with
  | arr xs =>
    simp only [isNumArray, Bool.and_eq_true, Option.isNone_some, Bool.false_or,
      decide_eq_true_eq, Option.some.injEq] at h
    have := decodeArrayElems_floats xs old h.1
    rw [← h.2] at this
    exact this
  | _ => simp [isNumArray] at h

theorem Node_field_decode_ok : ∀ f ∈ Node.fields, ∀ v, nodeValueOk f.name v = true →
    ∀ s, ∃ s1, f.decode v s = .ok s1 := by
  intro f hf v hv s
  simp only [Node.fields, List.mem_cons, List.mem_singleton, List.not_mem_nil, or_false] at hf
  rcases hf with rfl | rfl | rfl | rfl | rfl | rfl | rfl | rfl | rfl | rfl | rfl | rfl
  · -- extensions
    apply Field.of_ok
    cases v with
    | obj ms =>
      obtain ⟨r, hr⟩ := decodeEntries_any_ok ms (s.Extensions.getD [])
        (by simpa [nodeValueOk, Field.of] using hv)
      exact ⟨some r, by simp only [extensionsCodec, mapCodec, hr]; rfl⟩
    | _ => simp [nodeValueOk, Field.of] at hv
  · exact Field.of_ok (anyCodec_decode_ok v (by simpa [nodeValueOk, Field.of] using hv) _)
  · apply Field.of_ok
    cases v with
    | str t => exact ⟨t, rfl⟩
    | _ => simp [nodeValueOk, Field.of] at hv
  · exact Field.of_ok ⟨_, int32_decode_of_isInt32 v (by simpa [nodeValueOk, Field.of] using hv) _⟩
  · apply Field.of_ok
    cases v with
    | arr xs =>
      obtain ⟨r, hr⟩ := decodeSliceElems_uints_ok xs (by simpa [nodeValueOk, Field.of, isUint32Array] using hv)
      exact ⟨some r, by simp only [sliceCodec, hr]; rfl⟩
    | _ => simp [nodeValueOk, Field.of, isUint32Array] at hv
  · exact Field.of_ok ⟨_, int32_decode_of_isInt32 v (by simpa [nodeValueOk, Field.of] using hv) _⟩
  · exact Field.of_ok (floatArray_decode_ok (some 16) 16 v (by simpa [nodeValueOk, Field.of] using hv) _)
  · exact Field.of_ok ⟨_, int32_decode_of_isInt32 v (by simpa [nodeValueOk, Field.of] using hv) _⟩
  · exact Field.of_ok (floatArray_decode_ok (some 4) 4 v (by simpa [nodeValueOk, Field.of] using hv) _)
  · exact Field.of_ok (floatArray_decode_ok (some 3) 3 v (by simpa [nodeValueOk, Field.of] using hv) _)
  · exact Field.of_ok (floatArray_decode_ok (some 3) 3 v (by simpa [nodeValueOk, Field.of] using hv) _)
  · apply Field.of_ok
    cases v with
    | arr xs =>
      obtain ⟨r, hr⟩ := decodeSliceElems_floats_ok xs (by simpa [nodeValueOk, Field.of, isNumArray] using hv)
      exact ⟨some r, by simp only [sliceCodec, hr]; rfl⟩
    | _ => simp [nodeValueOk, Field.of, isNumArray] at hv

theorem lookupKey_none_lacks (ms : List (String × JSON)) (name : String)
    (hex : ∀ m ∈ ms, foldEq name m.1 = true → m.1 = name)
    (h : lookupKey ms name = none) : LacksKey ms name := by
  intro m hm
  cases hfe : foldEq name m.1 with
  | false => rfl
  | true =>
    exfalso
    have hk := hex m hm hfe
    induction ms with
    | nil => simp at hm
    | cons m1 ms ih =>
      obtain ⟨k, x⟩ := m1
      rw [lookupKey_cons] at h
      by_cases hkn : k = name
      · rw [if_pos hkn] at h
        simp at h
      · rw [if_neg hkn] at h
        rcases List.mem_cons.mp hm with rfl | hm1
        · exact hkn hk
        · exact ih (fun m hm => hex m (List.mem_cons_of_mem _ hm)) h hm1

theorem decoded_field {σ α : Type} (fs : List (Field σ)) (name : String) (c : Codec α)
    (get : σ → α) (hfr : Frames fs name get) (hrd : Reads fs name c get)
    (hin : ∃ g ∈ fs, g.name = name) (ms : List (String × JSON))
    (hnd : (ms.map Prod.fst).Nodup)
    (hex : ∀ m ∈ ms, foldEq name m.1 = true → m.1 = name)
    (s s1 : σ) (h : decodeMembers fs ms s = .ok s1) :
    (lookupKey ms name = none ∧ get s1 = get s) ∨
      ∃ v, lookupKey ms name = some v ∧ (name, v) ∈ ms ∧ c.decode v (get s) = .ok (get s1) := by
  cases hl : lookupKey ms name with
  | none =>
    exact Or.inl ⟨rfl, absent_keeps fs name get hfr ms (lookupKey_none_lacks ms name hex hl) s s1 h⟩
  | some v =>
    exact Or.inr ⟨v, rfl, lookupKey_mem ms name v hl,
      present_reads fs name c get hfr hrd hin ms hnd hex v hl s s1 h⟩

theorem Node_frames_matrix : Frames Node.fields "matrix" (fun x => x.Matrix) := by
  intro g hg hne j s s1 h
  simp only [Node.fields, List.mem_cons, List.mem_singleton, List.not_mem_nil, or_false] at hg
  rcases hg with rfl | rfl | rfl | rfl | rfl | rfl | rfl | rfl | rfl | rfl | rfl | rfl
  all_goals first
    | exact absurd rfl hne
    | exact Field.of_frame _ h (fun _ _ => rfl)

theorem Node_frames_rotation : Frames Node.fields "rotation" (fun x => x.Rotation) := by
  intro g hg hne j s s1 h
  simp only [Node.fields, List.mem_cons, List.mem_singleton, List.not_mem_nil, or_false] at hg
  rcases hg with rfl | rfl | rfl | rfl | rfl | rfl | rfl | rfl | rfl | rfl | rfl | rfl
  all_goals first
    | exact absurd rfl hne
    | exact Field.of_frame _ h (fun _ _ => rfl)

theorem Node_frames_scale : Frames Node.fields "scale" (fun x => x.Scale) := by
  intro g hg hne j s s1 h
  simp only [Node.fields, List.mem_cons, List.mem_singleton, List.not_mem_nil, or_false] at hg
  rcases hg with rfl | rfl | rfl | rfl | rfl | rfl | rfl | rfl | rfl | rfl | rfl | rfl
  all_goals first
    | exact absurd rfl hne
    | exact Field.of_frame _ h (fun _ _ => rfl)

theorem Node_frames_translation : Frames Node.fields "translation" (fun x => x.Translation) := by
  intro g hg hne j s s1 h
  simp only [Node.fields, List.mem_cons, List.mem_singleton, List.not_mem_nil, or_false] at hg
  rcases hg with rfl | rfl | rfl | rfl | rfl | rfl | rfl | rfl | rfl | rfl | rfl | rfl
  all_goals first
    | exact absurd rfl hne
    | exact Field.of_frame _ h (fun _ _ => rfl)

theorem Node_reads_camera : Reads Node.fields "camera" int32Codec (fun x => x.Camera) := by
  intro g hg hn j s s1 h
  simp only [Node.fields, List.mem_cons, List.mem_singleton, List.not_mem_nil, or_false] at hg
  rcases hg with rfl | rfl | rfl | rfl | rfl | rfl | rfl | rfl | rfl | rfl | rfl | rfl
  all_goals first
    | exact Field.of_reads h (fun _ _ => rfl)
    | exact absurd hn (by decide)

theorem Node_reads_skin : Reads Node.fields "skin" int32Codec (fun x => x.Skin) := by
  intro g hg hn j s s1 h
  simp only [Node.fields, List.mem_cons, List.mem_singleton, List.not_mem_nil, or_false] at hg
  rcases hg with rfl | rfl | rfl | rfl | rfl | rfl | rfl | rfl | rfl | rfl | rfl | rfl
  all_goals first
    | exact Field.of_reads h (fun _ _ => rfl)
    | exact absurd hn (by decide)

theorem Node_reads_mesh : Reads Node.fields "mesh" int32Codec (fun x => x.Mesh) := by
  intro g hg hn j s s1 h
  simp only [Node.fields, List.mem_cons, List.mem_singleton, List.not_mem_nil, or_false] at hg
  rcases hg with rfl | rfl | rfl | rfl | rfl | rfl | rfl | rfl | rfl | rfl | rfl | rfl
  all_goals first
    | exact Field.of_reads h (fun _ _ => rfl)
    | exact absurd hn (by decide)

theorem Node_reads_matrix :
    Reads Node.fields "matrix" (arrayCodec float64Codec f0 16) (fun x => x.Matrix) := by
  intro g hg hn j s s1 h
  simp only [Node.fields, List.mem_cons, List.mem_singleton, List.not_mem_nil, or_false] at hg
  rcases hg with rfl | rfl | rfl | rfl | rfl | rfl | rfl | rfl | rfl | rfl | rfl | rfl
  all_goals first
    | exact Field.of_reads h (fun _ _ => rfl)
    | exact absurd hn (by decide)

theorem Node_reads_rotation :
    Reads Node.fields "rotation" (arrayCodec float64Codec f0 4) (fun x => x.Rotation) := by
  intro g hg hn j s s1 h
  simp only [Node.fields, List.mem_cons, List.mem_singleton, List.not_mem_nil, or_false] at hg
  rcases hg with rfl | rfl | rfl | rfl | rfl | rfl | rfl | rfl | rfl | rfl | rfl | rfl
  all_goals first
    | exact Field.of_reads h (fun _ _ => rfl)
    | exact absurd hn (by decide)

theorem Node_reads_scale :
    Reads Node.fields "scale" (arrayCodec float64Codec f0 3) (fun x => x.Scale) := by
  intro g hg hn j s s1 h
  simp only [Node.fields, List.mem_cons, List.mem_singleton, List.not_mem_nil, or_false] at hg
  rcases hg with rfl | rfl | rfl | rfl | rfl | rfl | rfl | rfl | rfl | rfl | rfl | rfl
  all_goals first
    | exact Field.of_reads h (fun _ _ => rfl)
    | exact absurd hn (by decide)

theorem Node_reads_translation :
    Reads Node.fields "translation" (arrayCodec float64Codec f0 3) (fun x => x.Translation) := by
  intro g hg hn j s s1 h
  simp only [Node.fields, List.mem_cons, List.mem_singleton, List.not_mem_nil, or_false] at hg
  rcases hg with rfl | rfl | rfl | rfl | rfl | rfl | rfl | rfl | rfl | rfl | rfl | rfl
  all_goals first
    | exact Field.of_reads h (fun _ _ => rfl)
    | exact absurd hn (by decide)

theorem Node_has_field (name : String) (h : name ∈ Node.keys) :
    ∃ g ∈ Node.fields, g.name = name := by
  simp only [Node.keys, List.mem_map] at h
  exact h

/-- The value of an int32 field of a decoded Node. -/
theorem Node_int_field (name : String) (get : Node → Int)
    (hfr : Frames Node.fields name get) (hrd : Reads Node.fields name int32Codec get)
    (hin : name ∈ Node.keys) (hok : ∀ v, nodeValueOk name v = true → isInt32 v = true)
    (ms : List (String × JSON)) (hvalid : ValidNodeObject ms) (n : Node)
    (h : decodeMembers Node.fields ms NewNode = .ok n) :
    get n = (match lookupKey ms name with
      | some v => intValue v
      | none => get NewNode) := by
  rcases decoded_field Node.fields name int32Codec get hfr hrd (Node_has_field name hin) ms
    hvalid.1 (fun m hm hf => (hvalid.2 m hm name hin hf).1) NewNode n h with ⟨hl, hg⟩ | ⟨v, hl, hm, hd⟩
  · rw [hl]; exact hg
  · rw [hl]
    have hv := (hvalid.2 (name, v) hm name hin (foldEq_refl name)).2
    rw [int32_decode_of_isInt32 v (hok v hv)] at hd
    simp only [Except.ok.injEq] at hd
    exact hd.symm

/-- The value of a float array field of a decoded Node. -/
theorem Node_floats_field (name : String) (k : Nat) (get : Node → List Float64)
    (hfr : Frames Node.fields name get)
    (hrd : Reads Node.fields name (arrayCodec float64Codec f0 k) get)
    (hin : name ∈ Node.keys)
    (hok : ∀ v, nodeValueOk name v = true → isNumArray (some k) v = true)
    (ms : List (String × JSON)) (hvalid : ValidNodeObject ms) (n : Node)
    (h : decodeMembers Node.fields ms NewNode = .ok n) :
    get n = (match lookupKey ms name with
      | some v => floatValues v
      | none => get NewNode) := by
  rcases decoded_field Node.fields name (arrayCodec float64Codec f0 k) get hfr hrd
    (Node_has_field name hin) ms hvalid.1 (fun m hm hf => (hvalid.2 m hm name hin hf).1)
    NewNode n h with ⟨hl, hg⟩ | ⟨v, hl, hm, hd⟩
  · rw [hl]; exact hg
  · rw [hl]
    have hv := (hvalid.2 (name, v) hm name hin (foldEq_refl name)).2
    rw [floatArray_decode_eq k v (hok v hv) _] at hd
    simp only [Except.ok.injEq] at hd
    exact hd.symm

/-- C6: for every valid Node object, Node.UnmarshalJSON succeeds, and each of
the fields camera, skin, mesh, matrix, rotation, scale, translation of the
decoded Node holds the value given under its key when the key is present and
the value of NewNode when the key is absent, whatever the other keys are.  The
value given by a number for a float64 is the float64 nearest to the number. -/
theorem C6_node_decodes_fieldwise (data : Bytes) (ms : List (String × JSON))
    (hobj : IsObjectText data ms) (hvalid : ValidNodeObject ms) (r : Node) :
    ∃ n, Node.UnmarshalJSON r data = (n, none) ∧
      n.Camera = (match lookupKey ms "camera" with
        | some v => intValue v
        | none => -1) ∧
      n.Skin = (match lookupKey ms "skin" with
        | some v => intValue v
        | none => -1) ∧
      n.Mesh = (match lookupKey ms "mesh" with
        | some v => intValue v
        | none => -1) ∧
      n.Matrix = (match lookupKey ms "matrix" with
        | some v => floatValues v
        | none => identityMatrix) ∧
      n.Rotation = (match lookupKey ms "rotation" with
        | some v => floatValues v
        | none => [f0, f0, f0, f1]) ∧
      n.Scale = (match lookupKey ms "scale" with
        | some v => floatValues v
        | none => [f1, f1, f1]) ∧
      n.Translation = (match lookupKey ms "translation" with
        | some v => floatValues v
        | none => [f0, f0, f0]) := by
  have hok : ∃ n, decodeMembers Node.fields ms NewNode = .ok n := by
    refine decodeMembers_ok Node.fields ms ?_ NewNode
    intro m hm f hf s
    have hff := findField_some Node.fields m.1 f hf
    have hv := hvalid.2 m hm f.name (List.mem_map_of_mem _ hff.1) hff.2
    exact Node_field_decode_ok f hff.1 m.2 hv.2 s
  obtain ⟨n, hn⟩ := hok
  refine ⟨n, ?_, ?_, ?_, ?_, ?_, ?_, ?_, ?_⟩
  · unfold IsObjectText at hobj
    simp only [Node.UnmarshalJSON, unmarshalStruct, hobj, decodeStruct, hn, assignIfOk]
  · exact Node_int_field "camera" _ Node_frames_camera Node_reads_camera (by decide)
      (fun v hv => by simpa [nodeValueOk] using hv) ms hvalid n hn
  · exact Node_int_field "skin" _ Node_frames_skin Node_reads_skin (by decide)
      (fun v hv => by simpa [nodeValueOk] using hv) ms hvalid n hn
  · exact Node_int_field "mesh" _ Node_frames_mesh Node_reads_mesh (by decide)
      (fun v hv => by simpa [nodeValueOk] using hv) ms hvalid n hn
  · exact Node_floats_field "matrix" 16 _ Node_frames_matrix Node_reads_matrix (by decide)
      (fun v hv => by simpa [nodeValueOk] using hv) ms hvalid n hn
  · exact Node_floats_field "rotation" 4 _ Node_frames_rotation Node_reads_rotation (by decide)
      (fun v hv => by simpa [nodeValueOk] using hv) ms hvalid n hn
  · exact Node_floats_field "scale" 3 _ Node_frames_scale Node_reads_scale (by decide)
      (fun v hv => by simpa [nodeValueOk] using hv) ms hvalid n hn
  · exact Node_floats_field "translation" 3 _ Node_frames_translation Node_reads_translation
      (by decide) (fun v hv => by simpa [nodeValueOk] using hv) ms hvalid n hn

/-- Witness of C6: an object with a mesh, a scale, a translation and an unknown
key.  The numbers of the translation are stored as the float64 nearest to
them: 9007199254740993 as 9007199254740992, and the negative number below the
least float64 as the negative zero. -/
theorem C6_node_decodes_fieldwise_witness :
    ∃ n, Node.UnmarshalJSON Node.zero
        "\x7b\"mesh\":2,\"scale\":[2,0.5,1],\"translation\":[0.1,9007199254740993,-1e-400],\"other\":true\x7d".data =
          (n, none) ∧
      n.Camera = -1 ∧ n.Mesh = 2 ∧
      n.Scale = [{ neg := false, digits := [2], exp := 1 }, fhalf, f1] ∧
      n.Translation = [{ neg := false, digits := [1], exp := 0 },
        { neg := false, digits := [9, 0, 0, 7, 1, 9, 9, 2, 5, 4, 7, 4, 0, 9, 9, 2], exp := 16 },
        { neg := true, digits := [], exp := 0 }] ∧
      n.Matrix = identityMatrix := by
  obtain ⟨n, h, h1, _, h3, h4, _, h6, h7⟩ := C6_node_decodes_fieldwise
    "\x7b\"mesh\":2,\"scale\":[2,0.5,1],\"translation\":[0.1,9007199254740993,-1e-400],\"other\":true\x7d".data
    [("mesh", .num ['2']), ("scale", .arr [.num ['2'], .num ['0', '.', '5'], .num ['1']]),
      ("translation", .arr [.num ['0', '.', '1'], .num "9007199254740993".data,
        .num "-1e-400".data]),
      ("other", .bool true)]
    (by unfold IsObjectText; decide!)
    (by unfold ValidNodeObject; decide!) Node.zero
  refine ⟨n, h, h1, h3, ?_, ?_, h4⟩
  · rw [h6]
    decide!
  · rw [h7]
    decide!

/-- A number beyond the range of float64 is no value of a field: for a
translation that holds 1e400, and for extras that are 1e400,
Node.UnmarshalJSON returns the error of json.Unmarshal and leaves the receiver
as it was. -/
theorem Node_number_beyond_float64_rejected :
    Node.UnmarshalJSON NewNode "\x7b\"translation\":[1e400,0,0]\x7d".data =
      (NewNode, some .typeMismatch) ∧
    Node.UnmarshalJSON NewNode "\x7b\"extras\":1e400\x7d".data =
      (NewNode, some .typeMismatch) := by
  refine ⟨by decide!, by decide!⟩

/-! ## Reading back an encoded string -/

theorem char_eq_of_toNat {c : Char} {n : Nat} (h : c.toNat = n) : c = Char.ofNat n := by
  rw [← h, Char.ofNat_toNat]

theorem readChar_escapeChar (c : Char) (tail : Bytes) :
    readChar (escapeChar c ++ tail) = some (c, tail) := by
  unfold escapeChar
  split
  · rename_i h
    rcases h with rfl | rfl <;> rfl
  split
  · rename_i h
    rw [char_eq_of_toNat h]; rfl
  split
  · rename_i h
    rw [char_eq_of_toNat h]; rfl
  split
  · rename_i h
    rw [char_eq_of_toNat h]; rfl
  split
  · rename_i h
    rw [char_eq_of_toNat h]; rfl
  split
  · rename_i h
    rw [char_eq_of_toNat h]; rfl
  split
  · rename_i h1 h2 h3 h4 h5 h6 h
    rcases h with h | rfl | rfl | rfl
    · have hc : c = Char.ofNat c.toNat := (Char.ofNat_toNat c).symm
      generalize c.toNat = n at h hc
      subst hc
      interval_cases n <;> rfl
    · rfl
    · rfl
    · rfl
  split
  · rename_i h
    rw [char_eq_of_toNat h]; rfl
  split
  · rename_i h
    rw [char_eq_of_toNat h]; rfl
  · rename_i h1 h2 h3 h4 h5 h6 h7 h8 h9
    simp only [not_or] at h1 h7
    simp only [List.singleton_append, readChar, if_neg h1.2]
    rw [if_neg]
    exact h7.1

theorem escapeChar_head_ne_dquote (c : Char) :
    ∃ d tl, escapeChar c = d :: tl ∧ d ≠ dquote := by
  unfold escapeChar
  split
  · exact ⟨bslash, [c], rfl, by decide⟩
  split
  · exact ⟨bslash, _, rfl, by decide⟩
  split
  · exact ⟨bslash, _, rfl, by decide⟩
  split
  · exact ⟨bslash, _, rfl, by decide⟩
  split
  · exact ⟨bslash, _, rfl, by decide⟩
  split
  · exact ⟨bslash, _, rfl, by decide⟩
  split
  · exact ⟨bslash, _, rfl, by decide⟩
  split
  · exact ⟨bslash, _, rfl, by decide⟩
  split
  · exact ⟨bslash, _, rfl, by decide⟩
  · rename_i h1 _ _ _ _ _ _ _ _
    simp only [not_or] at h1
    exact ⟨c, [], rfl, h1.1⟩

theorem parseStringBody_escape :
    ∀ (s : List Char) (fuel : Nat) (rest : Bytes), s.length < fuel →
      parseStringBody fuel (escapeString s ++ dquote :: rest) = some (s, rest)
  | [], fuel + 1, rest, _ => by
    simp [escapeString, parseStringBody]
  | [], 0, _, h => by simp at h
  | c :: cs, 0, _, h => by simp at h
  | c :: cs, fuel + 1, rest, h => by
    obtain ⟨d, tl, hd, hne⟩ := escapeChar_head_ne_dquote c
    have hr := readChar_escapeChar c (escapeString cs ++ dquote :: rest)
    have ih := parseStringBody_escape cs fuel rest (by simpa using h)
    simp only [escapeString, List.append_assoc]
    rw [hd] at hr ⊢
    simp only [List.cons_append] at hr ⊢
    simp only [parseStringBody, if_neg hne, hr, ih]

theorem escapeString_length (s : List Char) : s.length ≤ (escapeString s).length := by
  induction s with
  | nil => simp [escapeString]
  | cons c cs ih =>
    obtain ⟨d, tl, hd, _⟩ := escapeChar_head_ne_dquote c
    simp only [escapeString, hd, List.cons_append, List.length_cons, List.length_append]
    omega

theorem parseStringLit_escape (s : List Char) (rest : Bytes) :
    parseStringLit (escapeString s ++ dquote :: rest) = some (s, rest) := by
  unfold parseStringLit
  apply parseStringBody_escape
  have := escapeString_length s
  simp only [List.length_append, List.length_cons]
  omega

/-! ## Reading back a number literal -/

theorem Delim.nil : Delim [] := by
  intro c tl h
  simp at h

theorem Delim.cons_comma (tl : Bytes) : Delim (comma :: tl) := by
  intro c tl1 h
  simp only [List.cons.injEq] at h
  exact Or.inl h.1.symm

theorem Delim.cons_rbrack (tl : Bytes) : Delim (rbrack :: tl) := by
  intro c tl1 h
  simp only [List.cons.injEq] at h
  exact Or.inr (Or.inl h.1.symm)

theorem Delim.cons_rbrace (tl : Bytes) : Delim (rbrace :: tl) := by
  intro c tl1 h
  simp only [List.cons.injEq] at h
  exact Or.inr (Or.inr h.1.symm)

theorem takeDigits_append (x rest : Bytes) (hd : Delim rest) :
    takeDigits (x ++ rest) = ((takeDigits x).1, (takeDigits x).2 ++ rest) := by
  induction x with
  | nil =>
    cases rest with
    | nil => rfl
    | cons c tl =>
      have hc : isDigit c = false := by
        rcases hd c tl rfl with rfl | rfl | rfl <;> rfl
      simp [takeDigits, hc]
  | cons c cs ih =>
    by_cases hc : isDigit c = true
    · simp only [List.cons_append, takeDigits, hc, if_true, List.append_eq, ih, List.cons]
    · simp only [List.cons_append, takeDigits, hc]
      simp

theorem scanInt_append (x rest : Bytes) (hd : Delim rest) :
    scanInt (x ++ rest) = (scanInt x).map (fun p => (p.1, p.2 ++ rest)) := by
  cases x with
  | nil =>
    cases rest with
    | nil => rfl
    | cons c tl =>
      have hc : c ≠ '0' ∧ isDigit c = false := by
        rcases hd c tl rfl with rfl | rfl | rfl <;> exact ⟨by decide, rfl⟩
      simp [scanInt, hc.1, hc.2]
  | cons c cs =>
    simp only [List.cons_append, scanInt]
    split
    · rfl
    split
    · simp [takeDigits_append cs rest hd]
    · rfl

theorem scanFrac_append (x rest : Bytes) (hd : Delim rest) :
    scanFrac (x ++ rest) = (scanFrac x).map (fun p => (p.1, p.2 ++ rest)) := by
  cases x with
  | nil =>
    cases rest with
    | nil => rfl
    | cons c tl =>
      have hc : c ≠ '.' := by
        rcases hd c tl rfl with rfl | rfl | rfl <;> decide
      simp [scanFrac, hc]
  | cons c cs =>
    simp only [List.cons_append, scanFrac]
    split
    · rw [takeDigits_append cs rest hd]
      cases h1 : (takeDigits cs).1 with
      | nil =>
        have : takeDigits cs = ([], (takeDigits cs).2) := by rw [← h1]
        rw [this]
        rfl
      | cons d ds =>
        have : takeDigits cs = (d :: ds, (takeDigits cs).2) := by rw [← h1]
        rw [this]
        rfl
    · rfl

theorem scanExp_append (x rest : Bytes) (hd : Delim rest) :
    scanExp (x ++ rest) = (scanExp x).map (fun p => (p.1, p.2 ++ rest)) := by
  cases x with
  | nil =>
    cases rest with
    | nil => rfl
    | cons c tl =>
      have hc : ¬ (c = 'e' ∨ c = 'E') := by
        rcases hd c tl rfl with rfl | rfl | rfl <;> decide
      simp [scanExp, hc]
  | cons c cs =>
    simp only [List.cons_append, scanExp]
    split
    · cases cs with
      | nil =>
        cases rest with
        | nil => rfl
        | cons d tl =>
          have hc : ¬ (d = '+' ∨ d = '-') ∧ isDigit d = false := by
            rcases hd d tl rfl with rfl | rfl | rfl <;> exact ⟨by decide, rfl⟩
          simp [hc.1, takeDigits, hc.2]
      | cons s cs1 =>
        simp only [List.cons_append]
        split
        · rw [takeDigits_append cs1 rest hd]
          cases h1 : (takeDigits cs1).1 with
          | nil =>
            have : takeDigits cs1 = ([], (takeDigits cs1).2) := by rw [← h1]
            rw [this]
            rfl
          | cons d ds =>
            have : takeDigits cs1 = (d :: ds, (takeDigits cs1).2) := by rw [← h1]
            rw [this]
            rfl
        · have := takeDigits_append (s :: cs1) rest hd
          simp only [List.cons_append] at this
          rw [this]
          cases h1 : (takeDigits (s :: cs1)).1 with
          | nil =>
            have : takeDigits (s :: cs1) = ([], (takeDigits (s :: cs1)).2) := by rw [← h1]
            rw [this]
            rfl
          | cons d ds =>
            have : takeDigits (s :: cs1) = (d :: ds, (takeDigits (s :: cs1)).2) := by rw [← h1]
            rw [this]
            rfl
    · rfl

theorem scanUnsigned_append (x rest : Bytes) (hd : Delim rest) :
    scanUnsigned (x ++ rest) = (scanUnsigned x).map (fun p => (p.1, p.2 ++ rest)) := by
  unfold scanUnsigned
  rw [scanInt_append x rest hd]
  cases scanInt x with
  | none => rfl
  | some p =>
    obtain ⟨i, r1⟩ := p
    simp only [Option.map_some']
    rw [scanFrac_append r1 rest hd]
    cases scanFrac r1 with
    | none => rfl
    | some q =>
      obtain ⟨f, r2⟩ := q
      simp only [Option.map_some']
      rw [scanExp_append r2 rest hd]
      cases scanExp r2 with
      | none => rfl
      | some t => rfl

theorem parseNumber_eq (cs : Bytes) :
    parseNumber cs =
      match cs with
      | [] => scanUnsigned []
      | c :: rest =>
        if c = '-' then (scanUnsigned rest).map (fun p => (c :: p.1, p.2))
        else scanUnsigned (c :: rest) := by
  cases cs with
  | nil => simp only [parseNumber, scanUnsigned]; rfl
  | cons c rest =>
    by_cases hc : c = '-'
    · simp only [parseNumber, hc, if_true, scanUnsigned]
      cases scanInt rest with
      | none => rfl
      | some p =>
        simp only
        cases scanFrac p.2 with
        | none => rfl
        | some q =>
          simp only
          cases scanExp q.2 with
          | none => rfl
          | some t => simp
    · simp only [parseNumber, hc, if_false, scanUnsigned]
      cases scanInt (c :: rest) with
      | none => rfl
      | some p =>
        simp only
        cases scanFrac p.2 with
        | none => rfl
        | some q =>
          simp only
          cases scanExp q.2 with
          | none => rfl
          | some t => simp

theorem parseNumber_append (x rest : Bytes) (hd : Delim rest) (hx : x ≠ []) :
    parseNumber (x ++ rest) = (parseNumber x).map (fun p => (p.1, p.2 ++ rest)) := by
  cases x with
  | nil => exact absurd rfl hx
  | cons c cs =>
    rw [parseNumber_eq, parseNumber_eq]
    simp only [List.cons_append]
    split
    · rw [scanUnsigned_append cs rest hd]
      cases scanUnsigned cs <;> rfl
    · have := scanUnsigned_append (c :: cs) rest hd
      simp only [List.cons_append] at this
      exact this

theorem validNumber_ne_nil (lit : Bytes) (h : validNumber lit = true) : lit ≠ [] := by
  intro hl
  subst hl
  simp [validNumber, parseNumber, scanInt] at h

theorem parseNumber_valid (lit rest : Bytes) (h : validNumber lit = true) (hd : Delim rest) :
    parseNumber (lit ++ rest) = some (lit, rest) := by
  rw [parseNumber_append lit rest hd (validNumber_ne_nil lit h)]
  simp only [validNumber, decide_eq_true_eq] at h
  rw [h]
  rfl

/-! ## Reading back the text of a JSON value -/

theorem validNumber_head (lit : Bytes) (h : validNumber lit = true) :
    ∃ c tl, lit = c :: tl ∧ (c = '-' ∨ isDigit c = true) := by
  cases lit with
  | nil => exact absurd rfl (validNumber_ne_nil [] h)
  | cons c cs =>
    refine ⟨c, cs, rfl, ?_⟩
    by_cases hc : c = '-'
    · exact Or.inl hc
    · right
      simp only [validNumber, decide_eq_true_eq] at h
      rw [parseNumber_eq] at h
      simp only [hc, if_false, scanUnsigned, scanInt] at h
      by_cases h0 : c = '0'
      · rw [h0]; rfl
      · by_cases hdg : isDigit c = true
        · exact hdg
        · simp [h0, hdg] at h

theorem isDigit_start (c : Char) (h : c = '-' ∨ isDigit c = true) :
    isWs c = false ∧ c ≠ rbrack ∧ c ≠ rbrace ∧ c ≠ comma ∧ c ≠ lbrace ∧ c ≠ lbrack ∧
      c ≠ dquote ∧ c ≠ 't' ∧ c ≠ 'f' ∧ c ≠ 'n' := by
  rcases h with rfl | h
  · decide
  · have hc : c = Char.ofNat c.toNat := (Char.ofNat_toNat c).symm
    simp only [isDigit, Bool.and_eq_true, decide_eq_true_eq] at h
    generalize c.toNat = n at h hc
    subst hc
    obtain ⟨h1, h2⟩ := h
    interval_cases n <;> decide

theorem render_starts (j : JSON) (h : j.wf = true) : StartsValue (render j) := by
  cases j with
  | null => exact ⟨'n', _, rfl, by decide⟩
  | bool b => cases b <;> exact ⟨_, _, rfl, by decide⟩
  | num lit =>
    obtain ⟨c, tl, hl, hc⟩ := validNumber_head lit (by simpa [JSON.wf] using h)
    have := isDigit_start c hc
    exact ⟨c, tl, by simp [render, hl], this.1, this.2.1, this.2.2.1, this.2.2.2.1⟩
  | str s => exact ⟨dquote, _, rfl, by decide⟩
  | arr xs => exact ⟨lbrack, _, rfl, by decide⟩
  | obj ms => exact ⟨lbrace, _, rfl, by decide⟩

theorem skipWs_of_start (b rest : Bytes) (h : StartsValue b) : skipWs (b ++ rest) = b ++ rest := by
  obtain ⟨c, tl, hb, hw, _⟩ := h
  subst hb
  simp [skipWs, hw]

theorem renderElems_cons (x : JSON) (xs : List JSON) :
    renderElems (x :: xs) =
      match xs with
      | [] => render x
      | _ :: _ => render x ++ comma :: renderElems xs := by
  cases xs <;> simp [renderElems]

theorem renderMembers_cons (k : String) (v : JSON) (ms : List (String × JSON)) :
    renderMembers ((k, v) :: ms) =
      match ms with
      | [] => renderString k ++ colon :: render v
      | _ :: _ => renderString k ++ colon :: (render v ++ comma :: renderMembers ms) := by
  cases ms <;> simp [renderMembers]

theorem renderElems_single (x : JSON) : renderElems [x] = render x := by
  simp [renderElems]

theorem renderElems_cons2 (x y : JSON) (ys : List JSON) :
    renderElems (x :: y :: ys) = render x ++ comma :: renderElems (y :: ys) := by
  simp [renderElems]

theorem renderMembers_single (k : String) (v : JSON) :
    renderMembers [(k, v)] = renderString k ++ colon :: render v := by
  simp [renderMembers]

theorem renderMembers_cons2 (k : String) (v : JSON) (m : String × JSON)
    (ms : List (String × JSON)) :
    renderMembers ((k, v) :: m :: ms) =
      renderString k ++ colon :: (render v ++ comma :: renderMembers (m :: ms)) := by
  simp [renderMembers]

theorem render_length_pos (j : JSON) (h : j.wf = true) : 0 < (render j).length := by
  obtain ⟨c, tl, hb, _⟩ := render_starts j h
  rw [hb]
  simp

theorem renderElems_starts (x : JSON) (xs : List JSON) (h : x.wf = true) :
    StartsValue (renderElems (x :: xs)) := by
  obtain ⟨c, tl, hb, hr⟩ := render_starts x h
  rw [renderElems_cons]
  cases xs with
  | nil => exact ⟨c, tl, hb, hr⟩
  | cons y ys => exact ⟨c, tl ++ comma :: renderElems (y :: ys), by simp [hb], hr⟩

theorem String.mk_data_eq (s : String) : String.mk s.data = s := rfl

mutual

theorem parseValue_render : ∀ (j : JSON), j.wf = true → ∀ (fuel : Nat) (rest : Bytes),
    (render j).length ≤ fuel → Delim rest → parseValue fuel (render j ++ rest) = some (j, rest)
  | .null, _, fuel, rest, hf, _ => by
    cases fuel with
    | zero => simp [render] at hf
    | succ f => simp [render, parseValue, dropWord, lbrace, lbrack, dquote]
  | .bool b, _, fuel, rest, hf, _ => by
    cases fuel with
    | zero => cases b <;> simp [render] at hf
    | succ f => cases b <;> simp [render, parseValue, dropWord, lbrace, lbrack, dquote]
  | .num lit, hw, fuel, rest, hf, hd => by
    have hv : validNumber lit = true := by simpa [JSON.wf] using hw
    obtain ⟨c, tl, hl, hc⟩ := validNumber_head lit hv
    have hs := isDigit_start c hc
    have hp := parseNumber_valid lit rest hv hd
    cases fuel with
    | zero => simp [render, hl] at hf
    | succ f =>
      simp only [render]
      rw [hl] at hp ⊢
      simp only [List.cons_append] at hp ⊢
      simp only [parseValue, if_neg hs.2.2.2.2.1, if_neg hs.2.2.2.2.2.1,
        if_neg hs.2.2.2.2.2.2.1, if_neg hs.2.2.2.2.2.2.2.1, if_neg hs.2.2.2.2.2.2.2.2.1,
        if_neg hs.2.2.2.2.2.2.2.2.2, hp]
  | .str s, _, fuel, rest, hf, _ => by
    cases fuel with
    | zero => simp [render, renderString] at hf
    | succ f =>
      have hp := parseStringLit_escape s.data rest
      simp only [dquote] at hp
      simp [render, renderString, parseValue, lbrace, lbrack, dquote, hp]
  | .arr [], _, fuel, rest, hf, _ => by
    cases fuel with
    | zero => simp [render] at hf
    | succ f =>
      simp [render, renderElems, parseValue, skipWs, isWs, lbrace, lbrack, rbrack]
  | .arr (x :: xs), hw, fuel, rest, hf, _ => by
    have hwx : x.wf = true := by
      simp only [JSON.wf, JSON.wfElems, Bool.and_eq_true] at hw
      exact hw.1
    cases fuel with
    | zero => simp [render] at hf
    | succ f =>
      have hs := renderElems_starts x xs hwx
      have ih := parseElems_render (x :: xs) (by simpa [JSON.wf] using hw) (List.cons_ne_nil _ _)
        f rest (by simp [render] at hf; omega)
      obtain ⟨c, tl, hb, hr⟩ := hs
      simp only [render, List.cons_append, List.append_assoc, List.singleton_append]
      rw [hb] at ih ⊢
      simp only [List.cons_append] at ih ⊢
      have h1 : lbrack ≠ lbrace := by decide
      simp only [parseValue, if_neg h1, if_true, skipWs, hr.1]
      simp [hr.2.1, ih]
  | .obj [], _, fuel, rest, hf, _ => by
    cases fuel with
    | zero => simp [render] at hf
    | succ f =>
      simp [render, renderMembers, parseValue, skipWs, isWs, lbrace, rbrace]
  | .obj ((k, v) :: ms), hw, fuel, rest, hf, _ => by
    cases fuel with
    | zero => simp [render] at hf
    | succ f =>
      have ih := parseMembers_render ((k, v) :: ms) (by simpa [JSON.wf] using hw)
        (List.cons_ne_nil _ _) f rest (by simp [render] at hf; omega)
      have hb : ∃ tl, renderMembers ((k, v) :: ms) = dquote :: tl := by
        rw [renderMembers_cons]
        cases ms <;> simp only [renderString, List.cons_append] <;> exact ⟨_, rfl⟩
      obtain ⟨tl, hb⟩ := hb
      simp only [render, List.cons_append, List.append_assoc, List.singleton_append]
      rw [hb] at ih ⊢
      simp only [List.cons_append] at ih ⊢
      have h1 : isWs dquote = false := by decide
      have h2 : dquote ≠ rbrace := by decide
      simp only [parseValue, if_true, skipWs, h1]
      simp [h2, ih]

theorem parseElems_render : ∀ (xs : List JSON), JSON.wfElems xs = true → xs ≠ [] →
    ∀ (fuel : Nat) (rest : Bytes), (renderElems xs).length < fuel →
      parseElems fuel (renderElems xs ++ rbrack :: rest) = some (xs, rest)
  | [], _, hne, _, _, _ => absurd rfl hne
  | x :: xs, hw, _, fuel, rest, hf => by
    simp only [JSON.wfElems, Bool.and_eq_true] at hw
    have hpos := render_length_pos x hw.1
    have h1 : isWs rbrack = false := by decide
    have h2 : isWs comma = false := by decide
    have h3 : comma ≠ rbrack := by decide
    cases fuel with
    | zero => simp at hf
    | succ f =>
      cases xs with
      | nil =>
        rw [renderElems_single] at hf ⊢
        have ih := parseValue_render x hw.1 f (rbrack :: rest) (by omega) (Delim.cons_rbrack rest)
        simp only [parseElems, ih, skipWs, h1, if_false, if_true, Bool.false_eq_true]
      | cons y ys =>
        have hy : y.wf = true := by
          simp only [JSON.wfElems, Bool.and_eq_true] at hw
          exact hw.2.1
        rw [renderElems_cons2] at hf ⊢
        simp only [List.length_append, List.length_cons] at hf
        have ih := parseValue_render x hw.1 f
          (comma :: (renderElems (y :: ys) ++ rbrack :: rest)) (by omega) (Delim.cons_comma _)
        have ih2 := parseElems_render (y :: ys) hw.2 (List.cons_ne_nil _ _) f rest (by omega)
        have hsk := skipWs_of_start (renderElems (y :: ys)) (rbrack :: rest)
          (renderElems_starts y ys hy)
        simp only [List.append_assoc, List.cons_append]
        simp only [parseElems, ih, skipWs, h2, h3, if_false, if_true, hsk, ih2, Bool.false_eq_true]

theorem parseMembers_render : ∀ (ms : List (String × JSON)), JSON.wfMembers ms = true →
    ms ≠ [] → ∀ (fuel : Nat) (rest : Bytes), (renderMembers ms).length < fuel →
      parseMembers fuel (renderMembers ms ++ rbrace :: rest) = some (ms, rest)
  | [], _, hne, _, _, _ => absurd rfl hne
  | (k, v) :: ms, hw, _, fuel, rest, hf => by
    simp only [JSON.wfMembers, Bool.and_eq_true] at hw
    have hpos := render_length_pos v hw.1
    have h1 : isWs rbrace = false := by decide
    have h2 : isWs comma = false := by decide
    have h3 : comma ≠ rbrace := by decide
    have h4 : isWs colon = false := by decide
    cases fuel with
    | zero => simp at hf
    | succ f =>
      cases ms with
      | nil =>
        rw [renderMembers_single] at hf ⊢
        simp only [List.length_append, List.length_cons] at hf
        have hp := parseStringLit_escape k.data (colon :: (render v ++ rbrace :: rest))
        have ih := parseValue_render v hw.1 f (rbrace :: rest) (by omega) (Delim.cons_rbrace rest)
        have hsk := skipWs_of_start (render v) (rbrace :: rest) (render_starts v hw.1)
        simp only [renderString, List.append_assoc, List.cons_append,
          List.singleton_append, List.nil_append]
        simp only [parseMembers, if_true, if_false, hp, skipWs, h4, hsk, ih, h1,
          Bool.false_eq_true, String.mk_data_eq]
      | cons m ms1 =>
        rw [renderMembers_cons2] at hf ⊢
        simp only [List.length_append, List.length_cons] at hf
        have hp := parseStringLit_escape k.data
          (colon :: (render v ++ comma :: (renderMembers (m :: ms1) ++ rbrace :: rest)))
        have ih := parseValue_render v hw.1 f
          (comma :: (renderMembers (m :: ms1) ++ rbrace :: rest)) (by omega)
          (Delim.cons_comma _)
        have hsk := skipWs_of_start (render v)
          (comma :: (renderMembers (m :: ms1) ++ rbrace :: rest)) (render_starts v hw.1)
        have ih2 := parseMembers_render (m :: ms1) hw.2 (List.cons_ne_nil _ _) f rest
          (by omega)
        have hb : ∃ tl, renderMembers (m :: ms1) = dquote :: tl := by
          obtain ⟨k1, v1⟩ := m
          rw [renderMembers_cons]
          cases ms1 <;> simp only [renderString, List.cons_append] <;> exact ⟨_, rfl⟩
        obtain ⟨tl, hb⟩ := hb
        have h5 : isWs dquote = false := by decide
        simp only [renderString, List.append_assoc, List.cons_append,
          List.singleton_append, List.nil_append]
        rw [hb] at hp hsk ih ih2 ⊢
        simp only [List.cons_append] at hp hsk ih ih2 ⊢
        simp only [parseMembers, if_true, if_false, hp, skipWs, h4, hsk, ih, h2, h3, h5, ih2,
          Bool.false_eq_true, String.mk_data_eq]
end

/-- The text of a well-formed value is read back as that value. -/
theorem parseJSON_render (j : JSON) (h : j.wf = true) : parseJSON (render j) = some j := by
  obtain ⟨c, tl, hb, hw, _⟩ := render_starts j h
  have hp := parseValue_render j h ((render j).length + 1) [] (by omega) Delim.nil
  simp only [List.append_nil] at hp
  unfold parseJSON
  have hs : skipWs (render j) = render j := by
    rw [hb]; simp [skipWs, hw]
  rw [hs, hp]
  simp [skipWs]

/-! ## Integer literals -/

theorem digitChar_spec (d : Nat) (h : d < 10) :
    isDigit (digitChar d) = true ∧ digitVal (digitChar d) = d ∧
      (digitChar d = '0' → d = 0) := by
  interval_cases d <;> decide

theorem parseNat_append (xs : Bytes) (c : Char) :
    parseNat (xs ++ [c]) = 10 * parseNat xs + digitVal c := by
  simp [parseNat, List.foldl_append]

/-- The digits of a positive number: a non-zero digit followed by digits. -/
theorem natDigits_pos : ∀ (fuel n : Nat), n < fuel → 0 < n →
    ∃ c tl, natDigits fuel n = c :: tl ∧ isDigit c = true ∧ c ≠ '0' ∧
      tl.all isDigit = true ∧ parseNat (c :: tl) = n
  | 0, _, h, _ => by omega
  | fuel + 1, n, h, hp => by
    by_cases h10 : n < 10
    · have hs := digitChar_spec n h10
      refine ⟨digitChar n, [], by simp [natDigits, h10], hs.1, ?_, rfl, ?_⟩
      · intro h0
        have := hs.2.2 h0
        omega
      · simp [parseNat, hs.2.1]
    · have hlt : n / 10 < fuel := by omega
      have hpos : 0 < n / 10 := by omega
      obtain ⟨c, tl, he, hc, hc0, htl, hv⟩ := natDigits_pos fuel (n / 10) hlt hpos
      have hs := digitChar_spec (n % 10) (Nat.mod_lt _ (by decide))
      refine ⟨c, tl ++ [digitChar (n % 10)], by simp [natDigits, h10, he], hc, hc0, ?_, ?_⟩
      · simp [List.all_append, htl, hs.1]
      · have := parseNat_append (c :: tl) (digitChar (n % 10))
        simp only [List.cons_append] at this
        rw [this, hv, hs.2.1]
        omega

theorem formatNat_zero : formatNat 0 = ['0'] := by decide

theorem formatNat_pos (n : Nat) (hp : 0 < n) :
    ∃ c tl, formatNat n = c :: tl ∧ isDigit c = true ∧ c ≠ '0' ∧
      tl.all isDigit = true ∧ parseNat (c :: tl) = n :=
  natDigits_pos (n + 1) n (by omega) hp

theorem takeDigits_all (ds : Bytes) (h : ds.all isDigit = true) : takeDigits ds = (ds, []) := by
  induction ds with
  | nil => rfl
  | cons c cs ih =>
    simp only [List.all_cons, Bool.and_eq_true] at h
    simp [takeDigits, h.1, ih h.2]

theorem isDigit_ne_minus (c : Char) (h : isDigit c = true) : c ≠ '-' := by
  intro hc
  subst hc
  simp [isDigit] at h

theorem scanUnsigned_digits (c : Char) (tl : Bytes) (hc : isDigit c = true) (hc0 : c ≠ '0')
    (htl : tl.all isDigit = true) : scanUnsigned (c :: tl) = some (c :: tl, []) := by
  simp [scanUnsigned, scanInt, hc, hc0, takeDigits_all tl htl, scanFrac, scanExp]

theorem validNumber_digits (c : Char) (tl : Bytes) (hc : isDigit c = true) (hc0 : c ≠ '0')
    (htl : tl.all isDigit = true) : validNumber (c :: tl) = true := by
  simp only [validNumber, decide_eq_true_eq]
  rw [parseNumber_eq]
  simp only [if_neg (isDigit_ne_minus c hc)]
  exact scanUnsigned_digits c tl hc hc0 htl

theorem validNumber_neg_digits (c : Char) (tl : Bytes) (hc : isDigit c = true) (hc0 : c ≠ '0')
    (htl : tl.all isDigit = true) : validNumber ('-' :: c :: tl) = true := by
  simp only [validNumber, decide_eq_true_eq]
  rw [parseNumber_eq]
  simp [scanUnsigned_digits c tl hc hc0 htl]

theorem validNumber_formatNat (n : Nat) : validNumber (formatNat n) = true := by
  rcases Nat.eq_zero_or_pos n with rfl | hp
  · decide
  · obtain ⟨c, tl, he, hc, hc0, htl, _⟩ := formatNat_pos n hp
    rw [he]
    exact validNumber_digits c tl hc hc0 htl

theorem parseUintLit_formatNat (n : Nat) : parseUintLit (formatNat n) = some n := by
  rcases Nat.eq_zero_or_pos n with rfl | hp
  · decide
  · obtain ⟨c, tl, he, hc, hc0, htl, hv⟩ := formatNat_pos n hp
    rw [he]
    simp [parseUintLit, hc, htl, hv]

theorem validNumber_formatInt (i : Int) : validNumber (formatInt i) = true := by
  unfold formatInt
  split
  · rename_i h
    obtain ⟨c, tl, he, hc, hc0, htl, _⟩ := formatNat_pos i.natAbs (by omega)
    rw [he]
    exact validNumber_neg_digits c tl hc hc0 htl
  · exact validNumber_formatNat _

theorem parseIntLit_formatInt (i : Int) : parseIntLit (formatInt i) = some i := by
  unfold formatInt
  split
  · rename_i h
    simp only [parseIntLit, if_true, parseUintLit_formatNat, Option.map_some', Option.some.injEq]
    simp only [Int.ofNat_eq_coe]
    omega
  · rename_i h
    have hn := parseUintLit_formatNat i.natAbs
    rcases Nat.eq_zero_or_pos i.natAbs with h0 | hp
    · rw [h0]
      have : i = 0 := by omega
      subst this
      decide
    · obtain ⟨c, tl, he, hc, hc0, htl, hv⟩ := formatNat_pos i.natAbs hp
      rw [he] at hn ⊢
      simp only [parseIntLit, if_neg (isDigit_ne_minus c hc), hn, Option.map_some',
        Option.some.injEq]
      simp only [Int.ofNat_eq_coe]
      omega

/-! ## Float literals -/

theorem takeDigits_all_append (xs rest : Bytes) (hx : xs.all isDigit = true)
    (hr : ∀ c tl, rest = c :: tl → isDigit c = false) :
    takeDigits (xs ++ rest) = (xs, rest) := by
  induction xs with
  | nil =>
    cases rest with
    | nil => rfl
    | cons c tl => simp [takeDigits, hr c tl rfl]
  | cons c cs ih =>
    simp only [List.all_cons, Bool.and_eq_true] at hx
    simp [takeDigits, hx.1, ih hx.2]

theorem head_not_digit_frac_exp (f e : Bytes) (hf : FracPart f) (he : ExpPart e) :
    ∀ c tl, f ++ e = c :: tl → isDigit c = false := by
  intro c tl h
  rcases hf with rfl | ⟨d, ds, rfl, _⟩
  · rcases he with rfl | ⟨x, sg, d, ds, hx, _, rfl, _⟩
    · simp at h
    · simp only [List.nil_append, List.cons.injEq] at h
      rw [← h.1]
      rcases hx with rfl | rfl <;> rfl
  · simp only [List.cons_append, List.cons.injEq] at h
    rw [← h.1]; rfl

theorem head_not_digit_exp (e : Bytes) (he : ExpPart e) :
    ∀ c tl, e = c :: tl → isDigit c = false ∧ c ≠ '.' := by
  intro c tl h
  rcases he with rfl | ⟨x, sg, d, ds, hx, _, rfl, _⟩
  · simp at h
  · simp only [List.cons.injEq] at h
    rw [← h.1]
    rcases hx with rfl | rfl <;> exact ⟨rfl, by decide⟩

theorem scanInt_build (i rest : Bytes) (hi : IntPart i)
    (hr : ∀ c tl, rest = c :: tl → isDigit c = false) : scanInt (i ++ rest) = some (i, rest) := by
  rcases hi with rfl | ⟨c, tl, rfl, hc, hc0, htl⟩
  · rfl
  · simp [scanInt, hc0, hc, takeDigits_all_append tl rest htl hr]

theorem scanFrac_build (f rest : Bytes) (hf : FracPart f)
    (hr : ∀ c tl, rest = c :: tl → isDigit c = false ∧ c ≠ '.') :
    scanFrac (f ++ rest) = some (f, rest) := by
  rcases hf with rfl | ⟨d, ds, rfl, hd⟩
  · cases rest with
    | nil => rfl
    | cons c tl => simp [scanFrac, (hr c tl rfl).2]
  · have := takeDigits_all_append (d :: ds) rest hd (fun c tl h => (hr c tl h).1)
    simp only [List.cons_append] at this
    simp [scanFrac, this]

theorem scanExp_build (e : Bytes) (he : ExpPart e) : scanExp e = some (e, []) := by
  rcases he with rfl | ⟨x, sg, d, ds, hx, hs, rfl, hd⟩
  · rfl
  · have htd := takeDigits_all (d :: ds) hd
    have hdd : isDigit d = true := by
      simp only [List.all_cons, Bool.and_eq_true] at hd
      exact hd.1
    have hns : ¬ (d = '+' ∨ d = '-') := by
      intro h
      rcases h with rfl | rfl <;> simp [isDigit] at hdd
    rcases hs with rfl | rfl | rfl
    · simp only [List.nil_append, scanExp, hx, if_true, if_neg hns, htd]
    · simp [scanExp, hx, htd]
    · simp [scanExp, hx, htd]

theorem scanUnsigned_build (i f e : Bytes) (hi : IntPart i) (hf : FracPart f) (he : ExpPart e) :
    scanUnsigned (i ++ (f ++ e)) = some (i ++ (f ++ e), []) := by
  unfold scanUnsigned
  rw [scanInt_build i (f ++ e) hi (head_not_digit_frac_exp f e hf he)]
  simp only
  rw [scanFrac_build f e hf (head_not_digit_exp e he)]
  simp only
  rw [scanExp_build e he]
  simp

theorem validNumber_build (neg : Bool) (i f e : Bytes) (hi : IntPart i) (hf : FracPart f)
    (he : ExpPart e) :
    validNumber ((if neg then ['-'] else []) ++ (i ++ (f ++ e))) = true := by
  have hb := scanUnsigned_build i f e hi hf he
  simp only [validNumber, decide_eq_true_eq]
  rw [parseNumber_eq]
  cases neg with
  | true => simp [hb]
  | false =>
    simp only [Bool.false_eq_true, if_false, List.nil_append]
    rcases hi with rfl | ⟨c, tl, rfl, hc, hc0, htl⟩
    · exact hb
    · simp only [List.cons_append] at hb ⊢
      simp only [if_neg (isDigit_ne_minus c hc)]
      exact hb

theorem digitsToChars_all (ds : List (Fin 10)) : (digitsToChars ds).all isDigit = true := by
  induction ds with
  | nil => rfl
  | cons d ds ih =>
    simp only [digitsToChars, List.map_cons, List.all_cons, Bool.and_eq_true]
    exact ⟨(digitChar_spec d.val d.isLt).1, ih⟩

theorem replicate_zero_all (n : Nat) : (List.replicate n '0').all isDigit = true := by
  induction n with
  | zero => rfl
  | succ n ih => simp [List.replicate_succ, ih, isDigit]

theorem digitChar_ne_zero (d : Fin 10) (h : d ≠ 0) : digitChar d.val ≠ '0' := by
  intro h0
  have := (digitChar_spec d.val d.isLt).2.2 h0
  exact h (Fin.ext this)

theorem stripLeading_head : ∀ (ds : List (Fin 10)) (e : Int) (d : Fin 10) (tl : List (Fin 10)),
    (stripLeading ds e).1 = d :: tl → d ≠ 0
  | [], _, _, _, h => by simp [stripLeading] at h
  | x :: xs, e, d, tl, h => by
    by_cases hx : x = 0
    · simp only [stripLeading, hx, if_true] at h
      exact stripLeading_head xs (e - 1) d tl h
    · simp only [stripLeading, hx, if_false, List.cons.injEq] at h
      rw [← h.1]
      exact hx

theorem stripTrailing_head (l : List (Fin 10)) (d : Fin 10) (tl : List (Fin 10))
    (h : stripTrailing l = d :: tl) : ∃ tl1, l = d :: tl1 := by
  have hp : stripTrailing l <+: l := by
    unfold stripTrailing
    have := List.dropWhile_suffix (fun d : Fin 10 => decide (d = 0)) (l := l.reverse)
    have h2 := List.reverse_prefix.mpr this
    rwa [List.reverse_reverse] at h2
  rw [h] at hp
  obtain ⟨t, ht⟩ := hp
  exact ⟨tl ++ t, by rw [← ht]; rfl⟩

theorem normalize_head (f : Float64) (d : Fin 10) (ds : List (Fin 10))
    (h : f.normalize.digits = d :: ds) : d ≠ 0 := by
  unfold Float64.normalize at h
  cases hs : stripTrailing (stripLeading f.digits f.exp).1 with
  | nil => rw [hs] at h; simp at h
  | cons x xs =>
    rw [hs] at h
    simp only [List.cons.injEq] at h
    obtain ⟨tl1, h1⟩ := stripTrailing_head _ x xs hs
    rw [← h.1]
    exact stripLeading_head f.digits f.exp x tl1 h1

theorem formatNat_expPart (s : Char) (hs : s = '+' ∨ s = '-') (n : Nat) :
    ExpPart ('e' :: s :: formatNat n) := by
  right
  have hsg : ([s] : Bytes) = [] ∨ [s] = ['+'] ∨ [s] = ['-'] := by
    rcases hs with rfl | rfl
    · exact Or.inr (Or.inl rfl)
    · exact Or.inr (Or.inr rfl)
  rcases Nat.eq_zero_or_pos n with rfl | hp
  · exact ⟨'e', [s], '0', [], Or.inl rfl, hsg, rfl, rfl⟩
  · obtain ⟨c, tl, he, hc, _, htl, _⟩ := formatNat_pos n hp
    exact ⟨'e', [s], c, tl, Or.inl rfl, hsg, by rw [he]; rfl, by simp [hc, htl]⟩

theorem validNumber_formatFloat (f : Float64) : validNumber (formatFloat f) = true := by
  unfold formatFloat
  simp only
  cases hg : f.normalize.digits with
  | nil =>
    simp only
    cases f.normalize.neg <;> decide
  | cons d ds =>
    have hd0 := normalize_head f d ds hg
    have hdc := digitChar_spec d.val d.isLt
    have hdn := digitChar_ne_zero d hd0
    have hds := digitsToChars_all ds
    simp only
    split
    · -- exponent format
      have hi : IntPart [digitChar d.val] := Or.inr ⟨_, [], rfl, hdc.1, hdn, rfl⟩
      have hf : FracPart (if ds = [] then [] else '.' :: digitsToChars ds) := by
        cases ds with
        | nil => exact Or.inl rfl
        | cons x xs =>
          right
          exact ⟨digitChar x.val, digitsToChars xs, by simp [digitsToChars], by
            simpa [digitsToChars] using hds⟩
      have he := formatNat_expPart (if f.normalize.exp - 1 < 0 then '-' else '+')
        (by split <;> simp) (f.normalize.exp - 1).natAbs
      have := validNumber_build f.normalize.neg _ _ _ hi hf he
      simpa using this
    split
    · -- leading zero and fraction
      have hi : IntPart ['0'] := Or.inl rfl
      have hf : FracPart ('.' :: (List.replicate (-f.normalize.exp).toNat '0' ++
          digitsToChars (d :: ds))) := by
        right
        have hall : (List.replicate (-f.normalize.exp).toNat '0' ++
            digitsToChars (d :: ds)).all isDigit = true := by
          rw [List.all_append, replicate_zero_all, digitsToChars_all]
          rfl
        cases hl : List.replicate (-f.normalize.exp).toNat '0' ++ digitsToChars (d :: ds) with
        | nil => simp [digitsToChars] at hl
        | cons x xs =>
          rw [hl] at hall
          exact ⟨x, xs, rfl, hall⟩
      have := validNumber_build f.normalize.neg _ _ [] hi hf (Or.inl rfl)
      simpa using this
    split
    · -- digits on both sides of the point
      rename_i h1 h2 h3
      have hpos : 0 < f.normalize.exp.toNat := by omega
      have hlt : f.normalize.exp.toNat < (d :: ds).length := by
        simp only [List.length_cons] at h3 ⊢
        omega
      have hi : IntPart (digitsToChars ((d :: ds).take f.normalize.exp.toNat)) := by
        right
        obtain ⟨k, hk⟩ : ∃ k, f.normalize.exp.toNat = k + 1 := ⟨_, (Nat.succ_pred_eq_of_pos hpos).symm⟩
        rw [hk]
        exact ⟨digitChar d.val, digitsToChars (ds.take k), by simp [digitsToChars], hdc.1, hdn,
          digitsToChars_all _⟩
      have hf : FracPart ('.' :: digitsToChars ((d :: ds).drop f.normalize.exp.toNat)) := by
        right
        cases hl : (d :: ds).drop f.normalize.exp.toNat with
        | nil =>
          have := List.drop_eq_nil_iff.mp hl
          omega
        | cons x xs =>
          have hall := digitsToChars_all (x :: xs)
          exact ⟨digitChar x.val, digitsToChars xs, by simp [digitsToChars], by
            simpa [digitsToChars] using hall⟩
      have := validNumber_build f.normalize.neg _ _ [] hi hf (Or.inl rfl)
      simpa using this
    · -- an integer
      have hi : IntPart (digitsToChars (d :: ds) ++
          List.replicate (f.normalize.exp - ((d :: ds).length : Int)).toNat '0') := by
        right
        refine ⟨digitChar d.val, digitsToChars ds ++
          List.replicate (f.normalize.exp - ((d :: ds).length : Int)).toNat '0', ?_, hdc.1, hdn, ?_⟩
        · simp [digitsToChars]
        · rw [List.all_append, hds, replicate_zero_all]
          rfl
      have := validNumber_build f.normalize.neg _ [] [] hi (Or.inl rfl) (Or.inl rfl)
      simpa using this

/-! ## The parser yields well-formed values -/

theorem takeDigits_fst_all (cs : Bytes) : (takeDigits cs).1.all isDigit = true := by
  induction cs with
  | nil => rfl
  | cons c cs ih =>
    by_cases hc : isDigit c = true
    · simp [takeDigits, hc, ih]
    · simp [takeDigits, hc]

theorem scanInt_shape (cs i r : Bytes) (h : scanInt cs = some (i, r)) : IntPart i := by
  cases cs with
  | nil => simp [scanInt] at h
  | cons c rest =>
    simp only [scanInt] at h
    split at h
    · simp only [Option.some.injEq, Prod.mk.injEq] at h
      exact Or.inl h.1.symm
    split at h
    · rename_i h0 hd
      simp only [Option.some.injEq, Prod.mk.injEq] at h
      exact Or.inr ⟨c, (takeDigits rest).1, h.1.symm, hd, h0, takeDigits_fst_all rest⟩
    · simp at h

theorem scanFrac_shape (cs f r : Bytes) (h : scanFrac cs = some (f, r)) : FracPart f := by
  cases cs with
  | nil =>
    simp only [scanFrac, Option.some.injEq, Prod.mk.injEq] at h
    exact Or.inl h.1.symm
  | cons c rest =>
    simp only [scanFrac] at h
    split at h
    · rename_i hc
      have hall := takeDigits_fst_all rest
      cases hd : (takeDigits rest).1 with
      | nil =>
        have : takeDigits rest = ([], (takeDigits rest).2) := by rw [← hd]
        rw [this] at h
        simp at h
      | cons d ds =>
        have : takeDigits rest = (d :: ds, (takeDigits rest).2) := by rw [← hd]
        rw [this] at h
        simp only [Option.some.injEq, Prod.mk.injEq] at h
        rw [hd] at hall
        exact Or.inr ⟨d, ds, by rw [← h.1, hc], hall⟩
    · simp only [Option.some.injEq, Prod.mk.injEq] at h
      exact Or.inl h.1.symm

theorem scanExp_shape (cs e r : Bytes) (h : scanExp cs = some (e, r)) : ExpPart e := by
  cases cs with
  | nil =>
    simp only [scanExp, Option.some.injEq, Prod.mk.injEq] at h
    exact Or.inl h.1.symm
  | cons c rest =>
    simp only [scanExp] at h
    split at h
    · rename_i hc
      cases rest with
      | nil => simp at h
      | cons s rest1 =>
        simp only at h
        split at h
        · rename_i hs
          have hall := takeDigits_fst_all rest1
          cases hd : (takeDigits rest1).1 with
          | nil =>
            have : takeDigits rest1 = ([], (takeDigits rest1).2) := by rw [← hd]
            rw [this] at h
            simp at h
          | cons d ds =>
            have : takeDigits rest1 = (d :: ds, (takeDigits rest1).2) := by rw [← hd]
            rw [this] at h
            simp only [Option.some.injEq, Prod.mk.injEq] at h
            rw [hd] at hall
            refine Or.inr ⟨c, [s], d, ds, hc, ?_, by rw [← h.1]; rfl, hall⟩
            rcases hs with rfl | rfl
            · exact Or.inr (Or.inl rfl)
            · exact Or.inr (Or.inr rfl)
        · have hall := takeDigits_fst_all (s :: rest1)
          cases hd : (takeDigits (s :: rest1)).1 with
          | nil =>
            have : takeDigits (s :: rest1) = ([], (takeDigits (s :: rest1)).2) := by rw [← hd]
            rw [this] at h
            simp at h
          | cons d ds =>
            have : takeDigits (s :: rest1) = (d :: ds, (takeDigits (s :: rest1)).2) := by
              rw [← hd]
            rw [this] at h
            simp only [Option.some.injEq, Prod.mk.injEq] at h
            rw [hd] at hall
            exact Or.inr ⟨c, [], d, ds, hc, Or.inl rfl, by rw [← h.1]; rfl, hall⟩
    · simp only [Option.some.injEq, Prod.mk.injEq] at h
      exact Or.inl h.1.symm

theorem scanUnsigned_shape (cs lit r : Bytes) (h : scanUnsigned cs = some (lit, r)) :
    ∃ i f e, lit = i ++ (f ++ e) ∧ IntPart i ∧ FracPart f ∧ ExpPart e := by
  unfold scanUnsigned at h
  cases hi : scanInt cs with
  | none => rw [hi] at h; simp at h
  | some p =>
    obtain ⟨i, r1⟩ := p
    rw [hi] at h
    simp only at h
    cases hf : scanFrac r1 with
    | none => rw [hf] at h; simp at h
    | some q =>
      obtain ⟨f, r2⟩ := q
      rw [hf] at h
      simp only at h
      cases he : scanExp r2 with
      | none => rw [he] at h; simp at h
      | some t =>
        obtain ⟨e, r3⟩ := t
        rw [he] at h
        simp only [Option.some.injEq, Prod.mk.injEq] at h
        exact ⟨i, f, e, by rw [← h.1, List.append_assoc], scanInt_shape cs i r1 hi,
          scanFrac_shape r1 f r2 hf, scanExp_shape r2 e r3 he⟩

theorem parseNumber_valid_lit (cs lit r : Bytes) (h : parseNumber cs = some (lit, r)) :
    validNumber lit = true := by
  rw [parseNumber_eq] at h
  cases cs with
  | nil => simp [scanUnsigned, scanInt] at h
  | cons c rest =>
    simp only at h
    split at h
    · cases hs : scanUnsigned rest with
      | none => rw [hs] at h; simp at h
      | some p =>
        obtain ⟨l, r1⟩ := p
        rw [hs] at h
        simp only [Option.map_some', Option.some.injEq, Prod.mk.injEq] at h
        obtain ⟨i, f, e, hl, hi, hf, he⟩ := scanUnsigned_shape rest l r1 hs
        have := validNumber_build true i f e hi hf he
        rename_i hc
        rw [← h.1, hl, hc]
        simpa using this
    · obtain ⟨i, f, e, hl, hi, hf, he⟩ := scanUnsigned_shape (c :: rest) lit r h
      have := validNumber_build false i f e hi hf he
      rw [hl]
      simpa using this

theorem parse_wf : ∀ (fuel : Nat),
    (∀ cs j r, parseValue fuel cs = some (j, r) → j.wf = true) ∧
    (∀ cs xs r, parseElems fuel cs = some (xs, r) → JSON.wfElems xs = true) ∧
    (∀ cs ms r, parseMembers fuel cs = some (ms, r) → JSON.wfMembers ms = true)
  | 0 => by
    refine ⟨?_, ?_, ?_⟩ <;> intro cs x r h
    · simp [parseValue] at h
    · simp [parseElems] at h
    · simp [parseMembers] at h
  | fuel + 1 => by
    obtain ⟨ihv, ihe, ihm⟩ := parse_wf fuel
    refine ⟨?_, ?_, ?_⟩
    · intro cs j r h
      cases cs with
      | nil => simp [parseValue] at h
      | cons c rest =>
        simp only [parseValue] at h
        split at h
        · cases hsk : skipWs rest with
          | nil => rw [hsk] at h; simp at h
          | cons d rest1 =>
            rw [hsk] at h
            simp only at h
            split at h
            · simp only [Option.some.injEq, Prod.mk.injEq] at h
              rw [← h.1]; rfl
            · cases hp : parseMembers fuel (d :: rest1) with
              | none => rw [hp] at h; simp at h
              | some p =>
                rw [hp] at h
                simp only [Option.some.injEq, Prod.mk.injEq] at h
                rw [← h.1]
                simpa [JSON.wf] using ihm _ _ _ hp
        split at h
        · cases hsk : skipWs rest with
          | nil => rw [hsk] at h; simp at h
          | cons d rest1 =>
            rw [hsk] at h
            simp only at h
            split at h
            · simp only [Option.some.injEq, Prod.mk.injEq] at h
              rw [← h.1]; rfl
            · cases hp : parseElems fuel (d :: rest1) with
              | none => rw [hp] at h; simp at h
              | some p =>
                rw [hp] at h
                simp only [Option.some.injEq, Prod.mk.injEq] at h
                rw [← h.1]
                simpa [JSON.wf] using ihe _ _ _ hp
        split at h
        · cases hp : parseStringLit rest with
          | none => rw [hp] at h; simp at h
          | some p =>
            rw [hp] at h
            simp only [Option.some.injEq, Prod.mk.injEq] at h
            rw [← h.1]; rfl
        split at h
        · cases hp : dropWord ['r', 'u', 'e'] rest with
          | none => rw [hp] at h; simp at h
          | some p =>
            rw [hp] at h
            simp only [Option.some.injEq, Prod.mk.injEq] at h
            rw [← h.1]; rfl
        split at h
        · cases hp : dropWord ['a', 'l', 's', 'e'] rest with
          | none => rw [hp] at h; simp at h
          | some p =>
            rw [hp] at h
            simp only [Option.some.injEq, Prod.mk.injEq] at h
            rw [← h.1]; rfl
        split at h
        · cases hp : dropWord ['u', 'l', 'l'] rest with
          | none => rw [hp] at h; simp at h
          | some p =>
            rw [hp] at h
            simp only [Option.some.injEq, Prod.mk.injEq] at h
            rw [← h.1]; rfl
        · cases hp : parseNumber (c :: rest) with
          | none => rw [hp] at h; simp at h
          | some p =>
            obtain ⟨lit, r1⟩ := p
            rw [hp] at h
            simp only [Option.some.injEq, Prod.mk.injEq] at h
            rw [← h.1]
            simpa [JSON.wf] using parseNumber_valid_lit _ _ _ hp
    · intro cs xs r h
      simp only [parseElems] at h
      cases hp : parseValue fuel cs with
      | none => rw [hp] at h; simp at h
      | some p =>
        obtain ⟨x, r1⟩ := p
        rw [hp] at h
        simp only at h
        have hx := ihv _ _ _ hp
        cases hsk : skipWs r1 with
        | nil => rw [hsk] at h; simp at h
        | cons d r2 =>
          rw [hsk] at h
          simp only at h
          split at h
          · simp only [Option.some.injEq, Prod.mk.injEq] at h
            rw [← h.1]
            simp [JSON.wfElems, hx]
          split at h
          · cases hq : parseElems fuel (skipWs r2) with
            | none => rw [hq] at h; simp at h
            | some q =>
              rw [hq] at h
              simp only [Option.some.injEq, Prod.mk.injEq] at h
              rw [← h.1]
              simp [JSON.wfElems, hx, ihe _ _ _ hq]
          · simp at h
    · intro cs ms r h
      cases cs with
      | nil => simp [parseMembers] at h
      | cons q rest =>
        simp only [parseMembers] at h
        split at h
        · cases hk : parseStringLit rest with
          | none => rw [hk] at h; simp at h
          | some p =>
            obtain ⟨k, r1⟩ := p
            rw [hk] at h
            simp only at h
            cases hsk : skipWs r1 with
            | nil => rw [hsk] at h; simp at h
            | cons c r2 =>
              rw [hsk] at h
              simp only at h
              split at h
              · cases hp : parseValue fuel (skipWs r2) with
                | none => rw [hp] at h; simp at h
                | some p =>
                  obtain ⟨v, r3⟩ := p
                  rw [hp] at h
                  simp only at h
                  have hv := ihv _ _ _ hp
                  cases hsk2 : skipWs r3 with
                  | nil => rw [hsk2] at h; simp at h
                  | cons d r4 =>
                    rw [hsk2] at h
                    simp only at h
                    split at h
                    · simp only [Option.some.injEq, Prod.mk.injEq] at h
                      rw [← h.1]
                      simp [JSON.wfMembers, hv]
                    split at h
                    · cases hq : parseMembers fuel (skipWs r4) with
                      | none => rw [hq] at h; simp at h
                      | some q =>
                        rw [hq] at h
                        simp only [Option.some.injEq, Prod.mk.injEq] at h
                        rw [← h.1]
                        simp [JSON.wfMembers, hv, ihm _ _ _ hq]
                    · simp at h
              · simp at h
        · simp at h

theorem parseJSON_wf (data : Bytes) (j : JSON) (h : parseJSON data = some j) : j.wf = true := by
  unfold parseJSON at h
  cases hp : parseValue (data.length + 1) (skipWs data) with
  | none => rw [hp] at h; simp at h
  | some p =>
    obtain ⟨j1, r⟩ := p
    rw [hp] at h
    simp only at h
    split at h
    · simp only [Option.some.injEq] at h
      rw [← h]
      exact (parse_wf _).1 _ _ _ hp
    · simp at h

/-! ## Encoders write well-formed values, decoders accept them -/

theorem intCodec_encWF (bits : Nat) : EncWF (intCodec bits) where
  wf := by
    intro a j h
    simp only [intCodec] at h
    split at h
    · simp only [Except.ok.injEq] at h
      rw [← h]
      exact validNumber_formatInt a
    · simp at h

theorem intCodec_sound (bits : Nat) : Sound (intCodec bits) where
  dec := by
    intro a j h old
    simp only [intCodec] at h
    split at h
    · rename_i hr
      simp only [Except.ok.injEq] at h
      refine ⟨a, ?_⟩
      rw [← h]
      simp only [intCodec, parseIntLit_formatInt, if_pos hr]
    · simp at h

theorem uintCodec_encWF (bits : Nat) : EncWF (uintCodec bits) where
  wf := by
    intro a j h
    simp only [uintCodec] at h
    split at h
    · simp only [Except.ok.injEq] at h
      rw [← h]
      exact validNumber_formatNat a
    · simp at h

theorem uintCodec_sound (bits : Nat) : Sound (uintCodec bits) where
  dec := by
    intro a j h old
    simp only [uintCodec] at h
    split at h
    · rename_i hr
      simp only [Except.ok.injEq] at h
      refine ⟨a, ?_⟩
      rw [← h]
      simp only [uintCodec, parseUintLit_formatNat, if_pos hr]
    · simp at h

instance : EncWF int32Codec := intCodec_encWF 32

instance : Sound int32Codec := intCodec_sound 32

instance : EncWF uint32Codec := uintCodec_encWF 32

instance : Sound uint32Codec := uintCodec_sound 32

instance : EncWF uint16Codec := uintCodec_encWF 16

instance : Sound uint16Codec := uintCodec_sound 16

instance : EncWF uint8Codec := uintCodec_encWF 8

instance : Sound uint8Codec := uintCodec_sound 8

instance : EncWF stringCodec where
  wf := by
    intro a j h
    simp only [stringCodec, Except.ok.injEq] at h
    rw [← h]; rfl

instance : Sound stringCodec where
  dec := by
    intro a j h old
    simp only [stringCodec, Except.ok.injEq] at h
    rw [← h]
    exact ⟨a, rfl⟩

instance : EncWF boolCodec where
  wf := by
    intro a j h
    simp only [boolCodec, Except.ok.injEq] at h
    rw [← h]; rfl

instance : Sound boolCodec where
  dec := by
    intro a j h old
    simp only [boolCodec, Except.ok.injEq] at h
    rw [← h]
    exact ⟨a, rfl⟩

instance : EncWF float64Codec where
  wf := by
    intro a j h
    simp only [float64Codec] at h
    split at h
    · simp only [Except.ok.injEq] at h
      rw [← h]
      exact validNumber_formatFloat a
    · simp at h

instance : Sound float64Codec where
  dec := by
    intro a j h old
    simp only [float64Codec] at h
    split at h
    · rename_i hv
      simp only [Except.ok.injEq] at h
      rw [← h]
      simp only [Float64.isValue, decide_eq_true_eq] at hv
      exact ⟨a.normalize, by simp only [float64Codec, hv]⟩
    · simp at h

instance : EncWF anyCodec where
  wf := by
    intro a j h
    cases a with
    | none =>
      simp only [anyCodec, Except.ok.injEq] at h
      rw [← h]; rfl
    | some x =>
      simp only [anyCodec] at h
      split at h
      · rename_i hw
        simp only [Except.ok.injEq] at h
        simp only [Bool.and_eq_true] at hw
        rw [← h]; exact hw.1
      · simp at h

instance : Sound anyCodec where
  dec := by
    intro a j h old
    cases a with
    | none =>
      simp only [anyCodec, Except.ok.injEq] at h
      rw [← h]
      exact ⟨none, rfl⟩
    | some x =>
      simp only [anyCodec] at h
      split at h
      · rename_i hw
        simp only [Except.ok.injEq] at h
        simp only [Bool.and_eq_true] at hw
        rw [← h]
        exact anyCodec_decode_ok x hw.2 old
      · simp at h

theorem encodeElems_wf {α : Type} (c : Codec α) [EncWF c] :
    ∀ (l : List α) (js : List JSON), encodeElems c l = .ok js → JSON.wfElems js = true
  | [], js, h => by
    simp only [encodeElems, Except.ok.injEq] at h
    rw [← h]; rfl
  | a :: as, js, h => by
    simp only [encodeElems] at h
    cases ha : c.encode a with
    | error e => rw [ha] at h; simp at h
    | ok j =>
      rw [ha] at h
      simp only at h
      cases hr : encodeElems c as with
      | error e => rw [hr] at h; simp at h
      | ok js1 =>
        rw [hr] at h
        simp only [Except.ok.injEq] at h
        rw [← h]
        simp [JSON.wfElems, EncWF.wf a j ha, encodeElems_wf c as js1 hr]

theorem decodeSliceElems_ok {α : Type} (c : Codec α) (zero : α) :
    ∀ (l : List α) (js : List JSON), (∀ a ∈ l, Decodable c a) → encodeElems c l = .ok js →
      ∃ r, decodeSliceElems c zero js = .ok r
  | [], js, _, h => by
    simp only [encodeElems, Except.ok.injEq] at h
    rw [← h]
    exact ⟨[], rfl⟩
  | a :: as, js, hd, h => by
    simp only [encodeElems] at h
    cases ha : c.encode a with
    | error e => rw [ha] at h; simp at h
    | ok j =>
      rw [ha] at h
      simp only at h
      cases hr : encodeElems c as with
      | error e => rw [hr] at h; simp at h
      | ok js1 =>
        rw [hr] at h
        simp only [Except.ok.injEq] at h
        rw [← h]
        obtain ⟨a1, ha1⟩ := hd a (List.mem_cons_self _ _) j ha zero
        obtain ⟨r, hr1⟩ := decodeSliceElems_ok c zero as js1
          (fun x hx => hd x (List.mem_cons_of_mem _ hx)) hr
        exact ⟨a1 :: r, by simp only [decodeSliceElems, ha1, hr1]⟩

theorem decodeArrayElems_ok {α : Type} (c : Codec α) (zero : α) :
    ∀ (n : Nat) (l : List α) (js : List JSON) (old : List α), (∀ a ∈ l, Decodable c a) →
      encodeElems c l = .ok js → ∃ r, decodeArrayElems c zero n js old = .ok r
  | 0, _, _, _, _, _ => ⟨[], rfl⟩
  | n + 1, [], js, old, _, h => by
    simp only [encodeElems, Except.ok.injEq] at h
    rw [← h]
    exact ⟨_, rfl⟩
  | n + 1, a :: as, js, old, hd, h => by
    simp only [encodeElems] at h
    cases ha : c.encode a with
    | error e => rw [ha] at h; simp at h
    | ok j =>
      rw [ha] at h
      simp only at h
      cases hr : encodeElems c as with
      | error e => rw [hr] at h; simp at h
      | ok js1 =>
        rw [hr] at h
        simp only [Except.ok.injEq] at h
        rw [← h]
        obtain ⟨a1, ha1⟩ := hd a (List.mem_cons_self _ _) j ha (old.headD zero)
        obtain ⟨r, hr1⟩ := decodeArrayElems_ok c zero n as js1 old.tail
          (fun x hx => hd x (List.mem_cons_of_mem _ hx)) hr
        exact ⟨a1 :: r, by simp only [decodeArrayElems, ha1, hr1]⟩

instance {α : Type} (c : Codec α) (zero : α) [EncWF c] : EncWF (sliceCodec c zero) where
  wf := by
    intro a j h
    cases a with
    | none =>
      simp only [sliceCodec, Except.ok.injEq] at h
      rw [← h]; rfl
    | some l =>
      simp only [sliceCodec] at h
      cases hr : encodeElems c l with
      | error e => rw [hr] at h; simp [Except.map] at h
      | ok js =>
        rw [hr] at h
        simp only [Except.map, Except.ok.injEq] at h
        rw [← h]
        simpa [JSON.wf] using encodeElems_wf c l js hr

/-- A slice is decodable when its elements are. -/
theorem sliceCodec_decodable {α : Type} (c : Codec α) (zero : α) (xs : Option (List α))
    (hd : ∀ l, xs = some l → ∀ a ∈ l, Decodable c a) : Decodable (sliceCodec c zero) xs := by
  intro j h old
  cases xs with
  | none =>
    simp only [sliceCodec, Except.ok.injEq] at h
    rw [← h]
    exact ⟨none, rfl⟩
  | some l =>
    simp only [sliceCodec] at h
    cases hr : encodeElems c l with
    | error e => rw [hr] at h; simp [Except.map] at h
    | ok js =>
      rw [hr] at h
      simp only [Except.map, Except.ok.injEq] at h
      rw [← h]
      obtain ⟨r, hr1⟩ := decodeSliceElems_ok c zero l js (hd l rfl) hr
      exact ⟨some r, by simp only [sliceCodec, hr1, Except.map]⟩

instance {α : Type} (c : Codec α) (zero : α) [Sound c] : Sound (sliceCodec c zero) where
  dec := fun xs => sliceCodec_decodable c zero xs (fun _ _ a _ => Sound.dec a)

instance {α : Type} (c : Codec α) (zero : α) (n : Nat) [EncWF c] :
    EncWF (arrayCodec c zero n) where
  wf := by
    intro a j h
    simp only [arrayCodec] at h
    split at h
    · cases hr : encodeElems c a with
      | error e => rw [hr] at h; simp [Except.map] at h
      | ok js =>
        rw [hr] at h
        simp only [Except.map, Except.ok.injEq] at h
        rw [← h]
        simpa [JSON.wf] using encodeElems_wf c a js hr
    · simp at h

instance {α : Type} (c : Codec α) (zero : α) (n : Nat) [Sound c] :
    Sound (arrayCodec c zero n) where
  dec := by
    intro a j h old
    simp only [arrayCodec] at h
    split at h
    · cases hr : encodeElems c a with
      | error e => rw [hr] at h; simp [Except.map] at h
      | ok js =>
        rw [hr] at h
        simp only [Except.map, Except.ok.injEq] at h
        rw [← h]
        exact decodeArrayElems_ok c zero n a js old (fun x _ => Sound.dec x) hr
    · simp at h

instance {α : Type} (c : Codec α) (zero : α) [EncWF c] : EncWF (ptrCodec c zero) where
  wf := by
    intro a j h
    cases a with
    | none =>
      simp only [ptrCodec, Except.ok.injEq] at h
      rw [← h]; rfl
    | some x => exact EncWF.wf x j h

/-- A pointer is decodable when its pointee is. -/
theorem ptrCodec_decodable {α : Type} (c : Codec α) (zero : α) (p : Option α)
    (hd : ∀ a, p = some a → Decodable c a) : Decodable (ptrCodec c zero) p := by
  intro j h old
  cases p with
  | none =>
    simp only [ptrCodec, Except.ok.injEq] at h
    rw [← h]
    exact ⟨none, rfl⟩
  | some x =>
    have hx : c.encode x = .ok j := h
    obtain ⟨a1, ha1⟩ := hd x rfl j hx (old.getD zero)
    cases j with
    | null => exact ⟨none, rfl⟩
    | _ => exact ⟨some a1, by simp only [ptrCodec, ha1, Except.map]⟩

instance {α : Type} (c : Codec α) (zero : α) [Sound c] : Sound (ptrCodec c zero) where
  dec := fun p => ptrCodec_decodable c zero p (fun a _ => Sound.dec a)

theorem encodeEntries_wf {β : Type} (c : Codec β) [EncWF c] :
    ∀ (l : List (String × β)) (js : List (String × JSON)), encodeEntries c l = .ok js →
      JSON.wfMembers js = true
  | [], js, h => by
    simp only [encodeEntries, Except.ok.injEq] at h
    rw [← h]; rfl
  | (k, b) :: rest, js, h => by
    simp only [encodeEntries] at h
    cases ha : c.encode b with
    | error e => rw [ha] at h; simp at h
    | ok j =>
      rw [ha] at h
      simp only at h
      cases hr : encodeEntries c rest with
      | error e => rw [hr] at h; simp at h
      | ok js1 =>
        rw [hr] at h
        simp only [Except.ok.injEq] at h
        rw [← h]
        simp [JSON.wfMembers, EncWF.wf b j ha, encodeEntries_wf c rest js1 hr]

theorem decodeEntries_ok {β : Type} (c : Codec β) [Sound c] (zero : β) :
    ∀ (l : List (String × β)) (js : List (String × JSON)) (acc : List (String × β)),
      encodeEntries c l = .ok js → ∃ r, decodeEntries c zero js acc = .ok r
  | [], js, acc, h => by
    simp only [encodeEntries, Except.ok.injEq] at h
    rw [← h]
    exact ⟨acc, rfl⟩
  | (k, b) :: rest, js, acc, h => by
    simp only [encodeEntries] at h
    cases ha : c.encode b with
    | error e => rw [ha] at h; simp at h
    | ok j =>
      rw [ha] at h
      simp only at h
      cases hr : encodeEntries c rest with
      | error e => rw [hr] at h; simp at h
      | ok js1 =>
        rw [hr] at h
        simp only [Except.ok.injEq] at h
        rw [← h]
        obtain ⟨b1, hb1⟩ := Sound.dec b j ha zero
        obtain ⟨r, hr1⟩ := decodeEntries_ok c zero rest js1 (mapInsert k b1 acc) hr
        exact ⟨r, by simp only [decodeEntries, hb1, hr1]⟩

instance {β : Type} (c : Codec β) (zero : β) [EncWF c] : EncWF (mapCodec c zero) where
  wf := by
    intro a j h
    cases a with
    | none =>
      simp only [mapCodec, Except.ok.injEq] at h
      rw [← h]; rfl
    | some l =>
      simp only [mapCodec] at h
      split at h
      · cases hr : encodeEntries c l with
        | error e => rw [hr] at h; simp [Except.map] at h
        | ok js =>
          rw [hr] at h
          simp only [Except.map, Except.ok.injEq] at h
          rw [← h]
          simpa [JSON.wf] using encodeEntries_wf c l js hr
      · simp at h

instance {β : Type} (c : Codec β) (zero : β) [Sound c] : Sound (mapCodec c zero) where
  dec := by
    intro a j h old
    cases a with
    | none =>
      simp only [mapCodec, Except.ok.injEq] at h
      rw [← h]
      exact ⟨none, rfl⟩
    | some l =>
      simp only [mapCodec] at h
      split at h
      · cases hr : encodeEntries c l with
        | error e => rw [hr] at h; simp [Except.map] at h
        | ok js =>
          rw [hr] at h
          simp only [Except.map, Except.ok.injEq] at h
          rw [← h]
          obtain ⟨r, hr1⟩ := decodeEntries_ok c zero l js (old.getD []) hr
          exact ⟨some r, by simp only [mapCodec, hr1, Except.map]⟩
      · simp at h

instance : EncWF extensionsCodec := inferInstanceAs (EncWF (mapCodec anyCodec none))

instance : Sound extensionsCodec := inferInstanceAs (Sound (mapCodec anyCodec none))

instance : EncWF attributeCodec := inferInstanceAs (EncWF (mapCodec uint32Codec 0))

instance : Sound attributeCodec := inferInstanceAs (Sound (mapCodec uint32Codec 0))

instance {α : Type} (m : α → Except JsonError Bytes) (u : JSON → α → Except JsonError α) :
    EncWF (methodCodec m u) where
  wf := by
    intro a j h
    simp only [methodCodec] at h
    cases hm : m a with
    | error e => rw [hm] at h; simp at h
    | ok b =>
      rw [hm] at h
      simp only at h
      cases hp : parseJSON b with
      | none => rw [hp] at h; simp at h
      | some j1 =>
        rw [hp] at h
        simp only [Except.ok.injEq] at h
        rw [← h]
        exact parseJSON_wf b j1 hp

/-! ## Struct types: what is written and read back -/

theorem Field.of_wf {σ α : Type} (name : String) (oe : Bool) (c : Codec α) [EncWF c]
    (get : σ → α) (set : σ → α → σ) : FieldWF (Field.of name oe c get set) :=
  fun s j h => EncWF.wf (get s) j h

theorem Field.of_soundAt {σ α : Type} (name : String) (oe : Bool) (c : Codec α)
    (get : σ → α) (set : σ → α → σ) (s : σ) (hd : Decodable c (get s)) :
    FieldSoundAt (Field.of name oe c get set) s := by
  intro j h s0
  exact Field.of_ok (hd j h (get s0))

theorem Field.of_sound {σ α : Type} (name : String) (oe : Bool) (c : Codec α) [Sound c]
    (get : σ → α) (set : σ → α → σ) (s : σ) :
    FieldSoundAt (Field.of name oe c get set) s :=
  Field.of_soundAt name oe c get set s (Sound.dec (get s))

theorem encodeFields_mem {σ : Type} (s : σ) :
    ∀ (fs : List (Field σ)) (ms : List (String × JSON)), encodeFields s fs = .ok ms →
      ∀ m ∈ ms, ∃ f ∈ fs, f.name = m.1 ∧ f.encode s = .ok m.2 ∧ ¬ Omitted f s
  | [], ms, h, m, hm => by
    simp only [encodeFields, Except.ok.injEq] at h
    rw [← h] at hm
    simp at hm
  | f :: fs, ms, h, m, hm => by
    simp only [encodeFields] at h
    split at h
    · obtain ⟨g, hg, hr⟩ := encodeFields_mem s fs ms h m hm
      exact ⟨g, List.mem_cons_of_mem _ hg, hr⟩
    · rename_i hom
      cases he : f.encode s with
      | error e => rw [he] at h; simp at h
      | ok j =>
        rw [he] at h
        simp only at h
        cases hr : encodeFields s fs with
        | error e => rw [hr] at h; simp at h
        | ok ms1 =>
          rw [hr] at h
          simp only [Except.ok.injEq] at h
          rw [← h] at hm
          rcases List.mem_cons.mp hm with rfl | hm1
          · refine ⟨f, List.mem_cons_self _ _, rfl, he, ?_⟩
            intro ho
            exact hom (by simp [ho.1, ho.2])
          · obtain ⟨g, hg, hr1⟩ := encodeFields_mem s fs ms1 hr m hm1
            exact ⟨g, List.mem_cons_of_mem _ hg, hr1⟩

theorem encodeFields_keys_sublist {σ : Type} (s : σ) :
    ∀ (fs : List (Field σ)) (ms : List (String × JSON)), encodeFields s fs = .ok ms →
      List.Sublist (ms.map Prod.fst) (fieldNames fs)
  | [], ms, h => by
    simp only [encodeFields, Except.ok.injEq] at h
    rw [← h]
    exact List.Sublist.slnil
  | f :: fs, ms, h => by
    simp only [encodeFields] at h
    split at h
    · exact List.Sublist.cons _ (encodeFields_keys_sublist s fs ms h)
    · cases he : f.encode s with
      | error e => rw [he] at h; simp at h
      | ok j =>
        rw [he] at h
        simp only at h
        cases hr : encodeFields s fs with
        | error e => rw [hr] at h; simp at h
        | ok ms1 =>
          rw [hr] at h
          simp only [Except.ok.injEq] at h
          rw [← h]
          exact List.Sublist.cons₂ _ (encodeFields_keys_sublist s fs ms1 hr)

theorem encodeFields_present {σ : Type} (s : σ) :
    ∀ (fs : List (Field σ)) (ms : List (String × JSON)), encodeFields s fs = .ok ms →
      ∀ f ∈ fs, ¬ Omitted f s → ∃ v, f.encode s = .ok v ∧ (f.name, v) ∈ ms
  | [], _, _, f, hf, _ => by simp at hf
  | g :: fs, ms, h, f, hf, hno => by
    simp only [encodeFields] at h
    split at h
    · rename_i hom
      rcases List.mem_cons.mp hf with rfl | hf1
      · exfalso
        apply hno
        simpa [Omitted] using hom
      · exact encodeFields_present s fs ms h f hf1 hno
    · cases he : g.encode s with
      | error e => rw [he] at h; simp at h
      | ok j =>
        rw [he] at h
        simp only at h
        cases hr : encodeFields s fs with
        | error e => rw [hr] at h; simp at h
        | ok ms1 =>
          rw [hr] at h
          simp only [Except.ok.injEq] at h
          rw [← h]
          rcases List.mem_cons.mp hf with rfl | hf1
          · exact ⟨j, he, List.mem_cons_self _ _⟩
          · obtain ⟨v, hv, hm⟩ := encodeFields_present s fs ms1 hr f hf1 hno
            exact ⟨v, hv, List.mem_cons_of_mem _ hm⟩

theorem encodeFields_wf {σ : Type} (s : σ) :
    ∀ (fs : List (Field σ)) (ms : List (String × JSON)), (∀ f ∈ fs, FieldWF f) →
      encodeFields s fs = .ok ms → JSON.wfMembers ms = true
  | [], ms, _, h => by
    simp only [encodeFields, Except.ok.injEq] at h
    rw [← h]; rfl
  | f :: fs, ms, hw, h => by
    have hw1 : ∀ g ∈ fs, FieldWF g := fun g hg => hw g (List.mem_cons_of_mem _ hg)
    simp only [encodeFields] at h
    split at h
    · exact encodeFields_wf s fs ms hw1 h
    · cases he : f.encode s with
      | error e => rw [he] at h; simp at h
      | ok j =>
        rw [he] at h
        simp only at h
        cases hr : encodeFields s fs with
        | error e => rw [hr] at h; simp at h
        | ok ms1 =>
          rw [hr] at h
          simp only [Except.ok.injEq] at h
          rw [← h]
          simp [JSON.wfMembers, hw f (List.mem_cons_self _ _) s j he,
            encodeFields_wf s fs ms1 hw1 hr]

theorem field_unique {σ : Type} :
    ∀ (fs : List (Field σ)), (fieldNames fs).Nodup → ∀ f ∈ fs, ∀ g ∈ fs, f.name = g.name → f = g
  | [], _, f, hf, _, _, _ => by simp at hf
  | x :: xs, hn, f, hf, g, hg, hfg => by
    simp only [fieldNames, List.map_cons, List.nodup_cons, List.mem_map, not_exists,
      not_and] at hn
    rcases List.mem_cons.mp hf with rfl | hf1
    · rcases List.mem_cons.mp hg with rfl | hg1
      · rfl
      · exact absurd hfg.symm (hn.1 g hg1)
    · rcases List.mem_cons.mp hg with rfl | hg1
      · exact absurd hfg (hn.1 f hf1)
      · exact field_unique xs hn.2 f hf1 g hg1 hfg

theorem mem_embedFields {σ : Type} (own fs : List (Field σ)) (f : Field σ)
    (h : f ∈ embedFields own fs) : f ∈ own ∨ f ∈ fs := by
  simp only [embedFields, List.mem_append, List.mem_filter] at h
  rcases h with h | h
  · exact Or.inl h
  · exact Or.inr h.1

theorem embedFields_nil {σ : Type} (fs : List (Field σ)) : embedFields [] fs = fs := by
  simp [embedFields]

/-- What json.Marshal writes for a struct is read back as an object by
json.Unmarshal, and the decoder of the struct accepts it. -/
theorem decodeMembers_encodeFields_ok {σ : Type} (fs own : List (Field σ)) (s : σ)
    (hn : (fieldNames fs).Nodup) (hs : ∀ f ∈ fs, FieldSoundAt f s)
    (hown : ∀ g ∈ own, Omitted g s) (ms : List (String × JSON))
    (h : encodeFields s (embedFields own fs) = .ok ms) (s0 : σ) :
    ∃ s1, decodeMembers fs ms s0 = .ok s1 := by
  refine decodeMembers_ok fs ms ?_ s0
  intro m hm f hf t
  obtain ⟨g, hg, hgn, hge, hgo⟩ := encodeFields_mem s _ ms h m hm
  have hgfs : g ∈ fs := by
    rcases mem_embedFields own fs g hg with h1 | h1
    · exact absurd (hown g h1) hgo
    · exact h1
  obtain ⟨f1, hf1, hf1m, hf1n⟩ := findField_exact fs m.1 ⟨g, hgfs, hgn⟩
  rw [hf1] at hf
  simp only [Option.some.injEq] at hf
  subst hf
  have : f1 = g := field_unique fs hn f1 hf1m g hgfs (hf1n.trans hgn.symm)
  subst this
  exact hs f1 hgfs m.2 hge t

theorem marshalStruct_ok {σ : Type} (fs : List (Field σ)) (s : σ) (out : Bytes)
    (h : marshalStruct fs s = .ok out) :
    ∃ ms, encodeFields s fs = .ok ms ∧ out = render (.obj ms) := by
  unfold marshalStruct at h
  cases he : encodeFields s fs with
  | error e => rw [he] at h; simp [Except.map] at h
  | ok ms =>
    rw [he] at h
    simp only [Except.map, Except.ok.injEq] at h
    exact ⟨ms, rfl, h.symm⟩

/-- The text written for a struct is a well-formed object with the members
that were encoded. -/
theorem marshalStruct_parse {σ : Type} (fs : List (Field σ)) (hw : ∀ f ∈ fs, FieldWF f) (s : σ)
    (out : Bytes) (h : marshalStruct fs s = .ok out) :
    ∃ ms, encodeFields s fs = .ok ms ∧ IsObjectText out ms := by
  obtain ⟨ms, he, ho⟩ := marshalStruct_ok fs s out h
  refine ⟨ms, he, ?_⟩
  unfold IsObjectText
  rw [ho]
  exact parseJSON_render _ (by simpa [JSON.wf] using encodeFields_wf s fs ms hw he)

instance {σ : Type} (fs : List (Field σ)) [FieldsWF fs] : EncWF (structCodec fs) where
  wf := by
    intro s j h
    simp only [structCodec] at h
    cases he : encodeFields s fs with
    | error e => rw [he] at h; simp [Except.map] at h
    | ok ms =>
      rw [he] at h
      simp only [Except.map, Except.ok.injEq] at h
      rw [← h]
      simpa [JSON.wf] using encodeFields_wf s fs ms FieldsWF.wf he

/-- A struct value is decodable when its fields are. -/
theorem structCodec_decodable {σ : Type} (fs : List (Field σ)) (hn : (fieldNames fs).Nodup)
    (s : σ) (hs : ∀ f ∈ fs, FieldSoundAt f s) : Decodable (structCodec fs) s := by
  intro j h old
  simp only [structCodec] at h
  cases he : encodeFields s fs with
  | error e => rw [he] at h; simp [Except.map] at h
  | ok ms =>
    rw [he] at h
    simp only [Except.map, Except.ok.injEq] at h
    rw [← h]
    have he1 : encodeFields s (embedFields [] fs) = .ok ms := by rw [embedFields_nil]; exact he
    exact decodeMembers_encodeFields_ok fs [] s hn hs (by simp) ms he1 old

instance {σ : Type} (fs : List (Field σ)) [FieldsSound fs] : Sound (structCodec fs) where
  dec := fun s => structCodec_decodable fs FieldsSound.nodup s (fun f hf => FieldsSound.sound f hf s)

theorem wf_of_embed {σ : Type} (own fs : List (Field σ)) (ho : ∀ f ∈ own, FieldWF f)
    (hf : ∀ f ∈ fs, FieldWF f) : ∀ f ∈ embedFields own fs, FieldWF f := by
  intro f h
  rcases mem_embedFields own fs f h with h1 | h1
  · exact ho f h1
  · exact hf f h1

/-- A value of a type with methods is decodable when MarshalJSON writes the
struct with fields that are omitted put in front, and UnmarshalJSON decodes
the struct. -/
theorem method_decodable {σ : Type} (fs : List (Field σ)) [FieldsWF fs] [FieldsSound fs]
    (marshal : σ → Except JsonError Bytes) (tmp : σ) (s : σ) (own : List (Field σ))
    (hown : ∀ g ∈ own, Omitted g s ∧ FieldWF g)
    (hm : marshal s = marshalStruct (embedFields own fs) s) :
    Decodable (methodCodec marshal (fun j _ => decodeStruct fs j tmp)) s := by
  intro j h old
  simp only [methodCodec, hm] at h
  cases hb : marshalStruct (embedFields own fs) s with
  | error e => rw [hb] at h; simp at h
  | ok b =>
    rw [hb] at h
    simp only at h
    obtain ⟨ms, he, ho⟩ := marshalStruct_parse (embedFields own fs)
      (wf_of_embed own fs (fun g hg => (hown g hg).2) FieldsWF.wf) s b hb
    unfold IsObjectText at ho
    rw [ho] at h
    simp only [Except.ok.injEq] at h
    rw [← h]
    exact decodeMembers_encodeFields_ok fs own s FieldsSound.nodup
      (fun f hf => FieldsSound.sound f hf s) (fun g hg => (hown g hg).1) ms he tmp

theorem shadowField_omitted {σ : Type} (name : String) (s : σ) :
    Omitted (shadowField name : Field σ) s ∧ FieldWF (shadowField name : Field σ) :=
  ⟨⟨rfl, by simp [shadowField, Field.of, int32Codec, intCodec]⟩, Field.of_wf _ _ _ _ _⟩

/-! ## The entity kinds whose encoding is written by json.Marshal alone -/

theorem structWithUnmarshal_encWF {σ : Type} (fs : List (Field σ)) [FieldsWF fs]
    (u : JSON → σ → Except JsonError σ) : EncWF { structCodec fs with decode := u } where
  wf := fun s j h => EncWF.wf (c := structCodec fs) s j h

theorem structWithUnmarshal_sound {σ : Type} (fs : List (Field σ)) [FieldsSound fs] (tmp : σ) :
    Sound { structCodec fs with decode := fun j _ => decodeStruct fs j tmp } where
  dec := by
    intro s j h old
    exact Sound.dec (c := structCodec fs) s j h tmp

instance : EncWF Node.codec :=
  inferInstanceAs (EncWF (methodCodec Node.MarshalJSON _))

instance : EncWF Skin.codec :=
  inferInstanceAs (EncWF (methodCodec Skin.MarshalJSON _))

instance : EncWF Primitive.codec :=
  inferInstanceAs (EncWF (methodCodec Primitive.MarshalJSON _))

instance : EncWF NormalTexture.codec :=
  inferInstanceAs (EncWF (methodCodec NormalTexture.MarshalJSON _))

instance : EncWF OcclusionTexture.codec :=
  inferInstanceAs (EncWF (methodCodec OcclusionTexture.MarshalJSON _))

instance : EncWF PBRMetallicRoughness.codec :=
  inferInstanceAs (EncWF (methodCodec PBRMetallicRoughness.MarshalJSON _))

instance : EncWF Material.codec :=
  inferInstanceAs (EncWF (methodCodec Material.MarshalJSON _))

instance : EncWF Texture.codec :=
  inferInstanceAs (EncWF (methodCodec Texture.MarshalJSON _))

instance : FieldsWF Asset.fields where
  wf := by
    intro f hf
    simp only [Asset.fields, List.mem_cons, List.mem_singleton, List.not_mem_nil, or_false] at hf
    rcases hf with rfl | rfl | rfl | rfl | rfl | rfl
    all_goals exact Field.of_wf _ _ _ _ _

instance : FieldsSound Asset.fields where
  nodup := by decide
  sound := by
    intro f hf s
    simp only [Asset.fields, List.mem_cons, List.mem_singleton, List.not_mem_nil, or_false] at hf
    rcases hf with rfl | rfl | rfl | rfl | rfl | rfl
    all_goals exact Field.of_sound _ _ _ _ _ s

instance : EncWF Asset.codec := inferInstanceAs (EncWF (structCodec Asset.fields))

instance : Sound Asset.codec := inferInstanceAs (Sound (structCodec Asset.fields))

instance : FieldsWF SparseValues.fields where
  wf := by
    intro f hf
    simp only [SparseValues.fields, List.mem_cons, List.mem_singleton, List.not_mem_nil, or_false] at hf
    rcases hf with rfl | rfl | rfl | rfl
    all_goals exact Field.of_wf _ _ _ _ _

instance : FieldsSound SparseValues.fields where
  nodup := by decide
  sound := by
    intro f hf s
    simp only [SparseValues.fields, List.mem_cons, List.mem_singleton, List.not_mem_nil, or_false] at hf
    rcases hf with rfl | rfl | rfl | rfl
    all_goals exact Field.of_sound _ _ _ _ _ s

instance : FieldsWF SparseIndices.fields where
  wf := by
    intro f hf
    simp only [SparseIndices.fields, List.mem_cons, List.mem_singleton, List.not_mem_nil, or_false] at hf
    rcases hf with rfl | rfl | rfl | rfl | rfl
    all_goals exact Field.of_wf _ _ _ _ _

instance : FieldsSound SparseIndices.fields where
  nodup := by decide
  sound := by
    intro f hf s
    simp only [SparseIndices.fields, List.mem_cons, List.mem_singleton, List.not_mem_nil, or_false] at hf
    rcases hf with rfl | rfl | rfl | rfl | rfl
    all_goals exact Field.of_sound _ _ _ _ _ s

instance : FieldsWF Sparse.fields where
  wf := by
    intro f hf
    simp only [Sparse.fields, List.mem_cons, List.mem_singleton, List.not_mem_nil, or_false] at hf
    rcases hf with rfl | rfl | rfl | rfl | rfl
    all_goals exact Field.of_wf _ _ _ _ _

instance : FieldsSound Sparse.fields where
  nodup := by decide
  sound := by
    intro f hf s
    simp only [Sparse.fields, List.mem_cons, List.mem_singleton, List.not_mem_nil, or_false] at hf
    rcases hf with rfl | rfl | rfl | rfl | rfl
    all_goals exact Field.of_sound _ _ _ _ _ s

instance : FieldsWF Accessor.fields where
  wf := by
    intro f hf
    simp only [Accessor.fields, List.mem_cons, List.mem_singleton, List.not_mem_nil, or_false] at hf
    rcases hf with rfl | rfl | rfl | rfl | rfl | rfl | rfl | rfl | rfl | rfl | rfl | rfl
    all_goals exact Field.of_wf _ _ _ _ _

instance : FieldsSound Accessor.fields where
  nodup := by decide
  sound := by
    intro f hf s
    simp only [Accessor.fields, List.mem_cons, List.mem_singleton, List.not_mem_nil, or_false] at hf
    rcases hf with rfl | rfl | rfl | rfl | rfl | rfl | rfl | rfl | rfl | rfl | rfl | rfl
    all_goals exact Field.of_sound _ _ _ _ _ s

instance : EncWF Accessor.codec :=
  inferInstanceAs (EncWF (methodCodec Accessor.MarshalJSON _))

instance : Sound Accessor.codec where
  dec := by
    intro a
    by_cases h : a.BufferView = -1
    · exact method_decodable Accessor.fields Accessor.MarshalJSON NewAccessor a [shadowField "bufferView"]
        (fun g hg => by rw [List.mem_singleton.mp hg]; exact shadowField_omitted _ a)
        (by simp only [Accessor.MarshalJSON, if_pos h])
    · exact method_decodable Accessor.fields Accessor.MarshalJSON NewAccessor a []
        (fun g hg => by simp at hg) (by simp only [Accessor.MarshalJSON, if_neg h])

instance : FieldsWF Buffer.fields where
  wf := by
    intro f hf
    simp only [Buffer.fields, List.mem_cons, List.mem_singleton, List.not_mem_nil, or_false] at hf
    rcases hf with rfl | rfl | rfl | rfl | rfl
    all_goals exact Field.of_wf _ _ _ _ _

instance : FieldsSound Buffer.fields where
  nodup := by decide
  sound := by
    intro f hf s
    simp only [Buffer.fields, List.mem_cons, List.mem_singleton, List.not_mem_nil, or_false] at hf
    rcases hf with rfl | rfl | rfl | rfl | rfl
    all_goals exact Field.of_sound _ _ _ _ _ s

instance : FieldsWF BufferView.fields where
  wf := by
    intro f hf
    simp only [BufferView.fields, List.mem_cons, List.mem_singleton, List.not_mem_nil, or_false] at hf
    rcases hf with rfl | rfl | rfl | rfl | rfl | rfl | rfl
    all_goals exact Field.of_wf _ _ _ _ _

instance : FieldsSound BufferView.fields where
  nodup := by decide
  sound := by
    intro f hf s
    simp only [BufferView.fields, List.mem_cons, List.mem_singleton, List.not_mem_nil, or_false] at hf
    rcases hf with rfl | rfl | rfl | rfl | rfl | rfl | rfl
    all_goals exact Field.of_sound _ _ _ _ _ s

instance : EncWF BufferView.codec :=
  inferInstanceAs (EncWF (methodCodec BufferView.MarshalJSON _))

instance : Sound BufferView.codec where
  dec := by
    intro a
    by_cases h : a.Buffer = -1
    · exact method_decodable BufferView.fields BufferView.MarshalJSON { BufferView.zero with Buffer := -1 } a [shadowField "buffer"]
        (fun g hg => by rw [List.mem_singleton.mp hg]; exact shadowField_omitted _ a)
        (by simp only [BufferView.MarshalJSON, if_pos h])
    · exact method_decodable BufferView.fields BufferView.MarshalJSON { BufferView.zero with Buffer := -1 } a []
        (fun g hg => by simp at hg) (by simp only [BufferView.MarshalJSON, if_neg h])

instance : FieldsWF Scene.fields where
  wf := by
    intro f hf
    simp only [Scene.fields, List.mem_cons, List.mem_singleton, List.not_mem_nil, or_false] at hf
    rcases hf with rfl | rfl | rfl | rfl
    all_goals exact Field.of_wf _ _ _ _ _

instance : FieldsSound Scene.fields where
  nodup := by decide
  sound := by
    intro f hf s
    simp only [Scene.fields, List.mem_cons, List.mem_singleton, List.not_mem_nil, or_false] at hf
    rcases hf with rfl | rfl | rfl | rfl
    all_goals exact Field.of_sound _ _ _ _ _ s

instance : FieldsWF Orthographic.fields where
  wf := by
    intro f hf
    simp only [Orthographic.fields, List.mem_cons, List.mem_singleton, List.not_mem_nil, or_false] at hf
    rcases hf with rfl | rfl | rfl | rfl | rfl | rfl
    all_goals exact Field.of_wf _ _ _ _ _

instance : FieldsSound Orthographic.fields where
  nodup := by decide
  sound := by
    intro f hf s
    simp only [Orthographic.fields, List.mem_cons, List.mem_singleton, List.not_mem_nil, or_false] at hf
    rcases hf with rfl | rfl | rfl | rfl | rfl | rfl
    all_goals exact Field.of_sound _ _ _ _ _ s

instance : FieldsWF Perspective.fields where
  wf := by
    intro f hf
    simp only [Perspective.fields, List.mem_cons, List.mem_singleton, List.not_mem_nil, or_false] at hf
    rcases hf with rfl | rfl | rfl | rfl | rfl | rfl
    all_goals exact Field.of_wf _ _ _ _ _

instance : FieldsSound Perspective.fields where
  nodup := by decide
  sound := by
    intro f hf s
    simp only [Perspective.fields, List.mem_cons, List.mem_singleton, List.not_mem_nil, or_false] at hf
    rcases hf with rfl | rfl | rfl | rfl | rfl | rfl
    all_goals exact Field.of_sound _ _ _ _ _ s

instance : FieldsWF Camera.fields where
  wf := by
    intro f hf
    simp only [Camera.fields, List.mem_cons, List.mem_singleton, List.not_mem_nil, or_false] at hf
    rcases hf with rfl | rfl | rfl | rfl | rfl | rfl
    all_goals exact Field.of_wf _ _ _ _ _

instance : FieldsSound Camera.fields where
  nodup := by decide
  sound := by
    intro f hf s
    simp only [Camera.fields, List.mem_cons, List.mem_singleton, List.not_mem_nil, or_false] at hf
    rcases hf with rfl | rfl | rfl | rfl | rfl | rfl
    all_goals exact Field.of_sound _ _ _ _ _ s

instance : FieldsWF Image.fields where
  wf := by
    intro f hf
    simp only [Image.fields, List.mem_cons, List.mem_singleton, List.not_mem_nil, or_false] at hf
    rcases hf with rfl | rfl | rfl | rfl | rfl | rfl
    all_goals exact Field.of_wf _ _ _ _ _

instance : FieldsSound Image.fields where
  nodup := by decide
  sound := by
    intro f hf s
    simp only [Image.fields, List.mem_cons, List.mem_singleton, List.not_mem_nil, or_false] at hf
    rcases hf with rfl | rfl | rfl | rfl | rfl | rfl
    all_goals exact Field.of_sound _ _ _ _ _ s

instance : FieldsWF TextureInfo.fields where
  wf := by
    intro f hf
    simp only [TextureInfo.fields, List.mem_cons, List.mem_singleton, List.not_mem_nil, or_false] at hf
    rcases hf with rfl | rfl | rfl | rfl
    all_goals exact Field.of_wf _ _ _ _ _

instance : FieldsSound TextureInfo.fields where
  nodup := by decide
  sound := by
    intro f hf s
    simp only [TextureInfo.fields, List.mem_cons, List.mem_singleton, List.not_mem_nil, or_false] at hf
    rcases hf with rfl | rfl | rfl | rfl
    all_goals exact Field.of_sound _ _ _ _ _ s

instance : EncWF TextureInfo.codec :=
  inferInstanceAs (EncWF (methodCodec TextureInfo.MarshalJSON _))

instance : Sound TextureInfo.codec where
  dec := by
    intro a
    by_cases h : a.Index = -1
    · exact method_decodable TextureInfo.fields TextureInfo.MarshalJSON (NewTextureInfo (-1)) a [shadowField "index"]
        (fun g hg => by rw [List.mem_singleton.mp hg]; exact shadowField_omitted _ a)
        (by simp only [TextureInfo.MarshalJSON, if_pos h])
    · exact method_decodable TextureInfo.fields TextureInfo.MarshalJSON (NewTextureInfo (-1)) a []
        (fun g hg => by simp at hg) (by simp only [TextureInfo.MarshalJSON, if_neg h])

instance : FieldsWF ChannelTarget.fields where
  wf := by
    intro f hf
    simp only [ChannelTarget.fields, List.mem_cons, List.mem_singleton, List.not_mem_nil, or_false] at hf
    rcases hf with rfl | rfl | rfl | rfl
    all_goals exact Field.of_wf _ _ _ _ _

instance : FieldsSound ChannelTarget.fields where
  nodup := by decide
  sound := by
    intro f hf s
    simp only [ChannelTarget.fields, List.mem_cons, List.mem_singleton, List.not_mem_nil, or_false] at hf
    rcases hf with rfl | rfl | rfl | rfl
    all_goals exact Field.of_sound _ _ _ _ _ s

instance : EncWF ChannelTarget.codec :=
  inferInstanceAs (EncWF (methodCodec ChannelTarget.MarshalJSON _))

instance : Sound ChannelTarget.codec where
  dec := by
    intro a
    by_cases h : a.Node = -1
    · exact method_decodable ChannelTarget.fields ChannelTarget.MarshalJSON (NewChannelTarget "") a [shadowField "node"]
        (fun g hg => by rw [List.mem_singleton.mp hg]; exact shadowField_omitted _ a)
        (by simp only [ChannelTarget.MarshalJSON, if_pos h])
    · exact method_decodable ChannelTarget.fields ChannelTarget.MarshalJSON (NewChannelTarget "") a []
        (fun g hg => by simp at hg) (by simp only [ChannelTarget.MarshalJSON, if_neg h])

instance : FieldsWF Channel.fields where
  wf := by
    intro f hf
    simp only [Channel.fields, List.mem_cons, List.mem_singleton, List.not_mem_nil, or_false] at hf
    rcases hf with rfl | rfl | rfl | rfl
    all_goals exact Field.of_wf _ _ _ _ _

instance : FieldsSound Channel.fields where
  nodup := by decide
  sound := by
    intro f hf s
    simp only [Channel.fields, List.mem_cons, List.mem_singleton, List.not_mem_nil, or_false] at hf
    rcases hf with rfl | rfl | rfl | rfl
    all_goals exact Field.of_sound _ _ _ _ _ s

instance : EncWF Channel.codec :=
  inferInstanceAs (EncWF (methodCodec Channel.MarshalJSON _))

instance : Sound Channel.codec where
  dec := by
    intro a
    by_cases h : a.Sampler = -1
    · exact method_decodable Channel.fields Channel.MarshalJSON (NewChannel (-1)) a [shadowField "sampler"]
        (fun g hg => by rw [List.mem_singleton.mp hg]; exact shadowField_omitted _ a)
        (by simp only [Channel.MarshalJSON, if_pos h])
    · exact method_decodable Channel.fields Channel.MarshalJSON (NewChannel (-1)) a []
        (fun g hg => by simp at hg) (by simp only [Channel.MarshalJSON, if_neg h])

instance : FieldsWF AnimationSampler.fields where
  wf := by
    intro f hf
    simp only [AnimationSampler.fields, List.mem_cons, List.mem_singleton, List.not_mem_nil, or_false] at hf
    rcases hf with rfl | rfl | rfl | rfl | rfl
    all_goals exact Field.of_wf _ _ _ _ _

instance : FieldsSound AnimationSampler.fields where
  nodup := by decide
  sound := by
    intro f hf s
    simp only [AnimationSampler.fields, List.mem_cons, List.mem_singleton, List.not_mem_nil, or_false] at hf
    rcases hf with rfl | rfl | rfl | rfl | rfl
    all_goals exact Field.of_sound _ _ _ _ _ s

instance : EncWF AnimationSampler.codec := structWithUnmarshal_encWF AnimationSampler.fields _

instance : Sound AnimationSampler.codec := structWithUnmarshal_sound AnimationSampler.fields NewAnimationSampler

instance : FieldsWF Animation.fields where
  wf := by
    intro f hf
    simp only [Animation.fields, List.mem_cons, List.mem_singleton, List.not_mem_nil, or_false] at hf
    rcases hf with rfl | rfl | rfl | rfl | rfl
    all_goals exact Field.of_wf _ _ _ _ _

instance : FieldsSound Animation.fields where
  nodup := by decide
  sound := by
    intro f hf s
    simp only [Animation.fields, List.mem_cons, List.mem_singleton, List.not_mem_nil, or_false] at hf
    rcases hf with rfl | rfl | rfl | rfl | rfl
    all_goals exact Field.of_sound _ _ _ _ _ s

instance : FieldsWF Sampler.fields where
  wf := by
    intro f hf
    simp only [Sampler.fields, List.mem_cons, List.mem_singleton, List.not_mem_nil, or_false] at hf
    rcases hf with rfl | rfl | rfl | rfl | rfl | rfl | rfl
    all_goals exact Field.of_wf _ _ _ _ _

instance : FieldsSound Sampler.fields where
  nodup := by decide
  sound := by
    intro f hf s
    simp only [Sampler.fields, List.mem_cons, List.mem_singleton, List.not_mem_nil, or_false] at hf
    rcases hf with rfl | rfl | rfl | rfl | rfl | rfl | rfl
    all_goals exact Field.of_sound _ _ _ _ _ s

instance : EncWF Sampler.codec := structWithUnmarshal_encWF Sampler.fields _

instance : Sound Sampler.codec := structWithUnmarshal_sound Sampler.fields NewSampler

instance : FieldsWF Node.fields where
  wf := by
    intro f hf
    simp only [Node.fields, List.mem_cons, List.mem_singleton, List.not_mem_nil, or_false] at hf
    rcases hf with rfl | rfl | rfl | rfl | rfl | rfl | rfl | rfl | rfl | rfl | rfl | rfl
    all_goals exact Field.of_wf _ _ _ _ _

instance : FieldsWF Skin.fields where
  wf := by
    intro f hf
    simp only [Skin.fields, List.mem_cons, List.mem_singleton, List.not_mem_nil, or_false] at hf
    rcases hf with rfl | rfl | rfl | rfl | rfl | rfl
    all_goals exact Field.of_wf _ _ _ _ _

instance : FieldsWF Primitive.fields where
  wf := by
    intro f hf
    simp only [Primitive.fields, List.mem_cons, List.mem_singleton, List.not_mem_nil, or_false] at hf
    rcases hf with rfl | rfl | rfl | rfl | rfl | rfl | rfl
    all_goals exact Field.of_wf _ _ _ _ _

instance : FieldsWF Mesh.fields where
  wf := by
    intro f hf
    simp only [Mesh.fields, List.mem_cons, List.mem_singleton, List.not_mem_nil, or_false] at hf
    rcases hf with rfl | rfl | rfl | rfl | rfl
    all_goals exact Field.of_wf _ _ _ _ _

instance : FieldsWF NormalTexture.fields where
  wf := by
    intro f hf
    simp only [NormalTexture.fields, List.mem_cons, List.mem_singleton, List.not_mem_nil, or_false] at hf
    rcases hf with rfl | rfl | rfl | rfl | rfl
    all_goals exact Field.of_wf _ _ _ _ _

instance : FieldsWF OcclusionTexture.fields where
  wf := by
    intro f hf
    simp only [OcclusionTexture.fields, List.mem_cons, List.mem_singleton, List.not_mem_nil, or_false] at hf
    rcases hf with rfl | rfl | rfl | rfl | rfl
    all_goals exact Field.of_wf _ _ _ _ _

instance : FieldsWF PBRMetallicRoughness.fields where
  wf := by
    intro f hf
    simp only [PBRMetallicRoughness.fields, List.mem_cons, List.mem_singleton, List.not_mem_nil, or_false] at hf
    rcases hf with rfl | rfl | rfl | rfl | rfl | rfl | rfl
    all_goals exact Field.of_wf _ _ _ _ _

instance : FieldsWF Material.fields where
  wf := by
    intro f hf
    simp only [Material.fields, List.mem_cons, List.mem_singleton, List.not_mem_nil, or_false] at hf
    rcases hf with rfl | rfl | rfl | rfl | rfl | rfl | rfl | rfl | rfl | rfl | rfl
    all_goals exact Field.of_wf _ _ _ _ _

instance : FieldsWF Texture.fields where
  wf := by
    intro f hf
    simp only [Texture.fields, List.mem_cons, List.mem_singleton, List.not_mem_nil, or_false] at hf
    rcases hf with rfl | rfl | rfl | rfl | rfl
    all_goals exact Field.of_wf _ _ _ _ _

instance : FieldsWF Document.fields where
  wf := by
    intro f hf
    simp only [Document.fields, List.mem_cons, List.mem_singleton, List.not_mem_nil, or_false] at hf
    rcases hf with rfl | rfl | rfl | rfl | rfl | rfl | rfl | rfl | rfl | rfl | rfl | rfl | rfl | rfl | rfl | rfl | rfl | rfl | rfl
    all_goals exact Field.of_wf _ _ _ _ _

/-! ## The shadowing field of the MarshalJSON methods -/

theorem hasKey_false_iff (ms : List (String × JSON)) (k : String) :
    hasKey ms k = false ↔ ∀ m ∈ ms, m.1 ≠ k := by
  simp [hasKey, List.any_eq_false]

theorem lookupKey_of_mem (ms : List (String × JSON)) (k : String) (v : JSON)
    (hn : (ms.map Prod.fst).Nodup) (hm : (k, v) ∈ ms) : lookupKey ms k = some v := by
  induction ms with
  | nil => simp at hm
  | cons m ms ih =>
    obtain ⟨k1, v1⟩ := m
    simp only [List.map_cons, List.nodup_cons] at hn
    rw [lookupKey_cons]
    rcases List.mem_cons.mp hm with h | h
    · simp only [Prod.mk.injEq] at h
      rw [if_pos h.1.symm, h.2]
    · have hne : k1 ≠ k := by
        intro hk
        exact hn.1 (by rw [hk]; exact List.mem_map_of_mem Prod.fst h)
      rw [if_neg hne]
      exact ih hn.2 h

theorem mem_embedFields_hidden {σ : Type} (own fs : List (Field σ)) (f : Field σ)
    (h : f ∈ embedFields own fs) : f ∈ own ∨ (f ∈ fs ∧ ∀ g ∈ own, g.name ≠ f.name) := by
  simp only [embedFields, List.mem_append, List.mem_filter, List.all_eq_true,
    decide_eq_true_eq] at h
  rcases h with h | h
  · exact Or.inl h
  · exact Or.inr h

theorem mem_embedFields_of {σ : Type} (own fs : List (Field σ)) (f : Field σ) (hf : f ∈ fs)
    (hh : ∀ g ∈ own, g.name ≠ f.name) : f ∈ embedFields own fs := by
  simp only [embedFields, List.mem_append, List.mem_filter, List.all_eq_true,
    decide_eq_true_eq]
  exact Or.inr ⟨hf, hh⟩

theorem encodeFields_skip_own {σ : Type} (s : σ) (rest : List (Field σ)) :
    ∀ (own : List (Field σ)), (∀ g ∈ own, Omitted g s) →
      encodeFields s (own ++ rest) = encodeFields s rest
  | [], _ => rfl
  | g :: own, h => by
    have hg := h g (List.mem_cons_self _ _)
    simp only [List.cons_append, encodeFields, hg.1, hg.2, Bool.and_self, if_true]
    exact encodeFields_skip_own s rest own (fun x hx => h x (List.mem_cons_of_mem _ hx))

theorem encodeFields_embed_keys_nodup {σ : Type} (own fs : List (Field σ)) (s : σ)
    (hn : (fieldNames fs).Nodup) (hown : ∀ g ∈ own, Omitted g s) (ms : List (String × JSON))
    (h : encodeFields s (embedFields own fs) = .ok ms) : (ms.map Prod.fst).Nodup := by
  unfold embedFields at h
  rw [encodeFields_skip_own s _ own hown] at h
  have h1 := encodeFields_keys_sublist s _ ms h
  have h2 : List.Sublist (fieldNames (fs.filter (fun f => own.all (fun g => g.name ≠ f.name))))
      (fieldNames fs) := List.Sublist.map _ (List.filter_sublist _)
  exact (hn.sublist h2).sublist h1

/-- A key of the written object is the name of a field of the struct that
is neither omitted nor hidden. -/
theorem encodeFields_embed_mem {σ : Type} (own fs : List (Field σ)) (s : σ)
    (hown : ∀ g ∈ own, Omitted g s) (ms : List (String × JSON))
    (h : encodeFields s (embedFields own fs) = .ok ms) (m : String × JSON) (hm : m ∈ ms) :
    ∃ f ∈ fs, f.name = m.1 ∧ f.encode s = .ok m.2 ∧ ¬ Omitted f s ∧
      ∀ g ∈ own, g.name ≠ f.name := by
  obtain ⟨g, hg, hgn, hge, hgo⟩ := encodeFields_mem s _ ms h m hm
  rcases mem_embedFields_hidden own fs g hg with h1 | h1
  · exact absurd (hown g h1) hgo
  · exact ⟨g, h1.1, hgn, hge, hgo, h1.2⟩

/-- The MarshalJSON methods that shadow an int32 field: the key is absent
when the field holds -1 and carries the decimal text of the field otherwise. -/
theorem shadow_marshal {σ : Type} (fs : List (Field σ)) [FieldsWF fs]
    (hn : (fieldNames fs).Nodup) (key : String) (get : σ → Int)
    (f : Field σ) (hf : f ∈ fs) (hfn : f.name = key) (hfo : f.omitempty = false)
    (hfe : ∀ s, f.encode s = int32Codec.encode (get s))
    (x : σ) (out : Bytes)
    (h : (if get x = -1 then marshalStruct (embedFields [shadowField key] fs) x
      else marshalStruct (embedFields [] fs) x) = .ok out) :
    ∃ ms, IsObjectText out ms ∧ (get x = -1 → hasKey ms key = false) ∧
      (get x ≠ -1 → lookupKey ms key = some (.num (formatInt (get x)))) := by
  by_cases hx : get x = -1
  · rw [if_pos hx] at h
    have hown : ∀ g ∈ [shadowField key], Omitted g x ∧ FieldWF (σ := σ) g := by
      intro g hg
      rw [List.mem_singleton.mp hg]
      exact shadowField_omitted key x
    obtain ⟨ms, he, ho⟩ := marshalStruct_parse _
      (wf_of_embed _ fs (fun g hg => (hown g hg).2) FieldsWF.wf) x out h
    refine ⟨ms, ho, fun _ => ?_, fun hne => absurd hx hne⟩
    rw [hasKey_false_iff]
    intro m hm hk
    obtain ⟨g, _, hgn, _, _, hgh⟩ := encodeFields_embed_mem _ fs x
      (fun g hg => (hown g hg).1) ms he m hm
    exact hgh (shadowField key) (List.mem_singleton.mpr rfl) (by rw [hgn, hk]; rfl)
  · rw [if_neg hx] at h
    obtain ⟨ms, he, ho⟩ := marshalStruct_parse _
      (wf_of_embed [] fs (fun g hg => by simp at hg) FieldsWF.wf) x out h
    refine ⟨ms, ho, fun h1 => absurd h1 hx, fun _ => ?_⟩
    have hno : ¬ Omitted f x := by
      intro ho1
      rw [Omitted, hfo] at ho1
      simp at ho1
    rw [embedFields_nil] at he
    obtain ⟨v, hv, hm⟩ := encodeFields_present x fs ms he f hf hno
    have hnd : (ms.map Prod.fst).Nodup := hn.sublist (encodeFields_keys_sublist x fs ms he)
    rw [hfn] at hm
    rw [lookupKey_of_mem ms key v hnd hm]
    rw [hfe] at hv
    simp only [int32Codec, intCodec] at hv
    split at hv
    · simp only [Except.ok.injEq] at hv
      rw [hv]
    · simp at hv

/-- C8: for each of the reference fields Accessor.BufferView,
BufferView.Buffer, TextureInfo.Index, Channel.Sampler and ChannelTarget.Node,
the text returned by MarshalJSON is a well-formed object that has no member
of the field's key when the field holds -1 and whose member of that key is
the decimal text of the field's value for every other value; that text reads
back as the value. -/
theorem C8_shadowed_reference_omitted_iff_sentinel :
    (∀ (a : Accessor) (out : Bytes), Accessor.MarshalJSON a = .ok out →
      ∃ ms, IsObjectText out ms ∧ (a.BufferView = -1 → hasKey ms "bufferView" = false) ∧
        (a.BufferView ≠ -1 →
          lookupKey ms "bufferView" = some (.num (formatInt a.BufferView)))) ∧
    (∀ (b : BufferView) (out : Bytes), BufferView.MarshalJSON b = .ok out →
      ∃ ms, IsObjectText out ms ∧ (b.Buffer = -1 → hasKey ms "buffer" = false) ∧
        (b.Buffer ≠ -1 → lookupKey ms "buffer" = some (.num (formatInt b.Buffer)))) ∧
    (∀ (t : TextureInfo) (out : Bytes), TextureInfo.MarshalJSON t = .ok out →
      ∃ ms, IsObjectText out ms ∧ (t.Index = -1 → hasKey ms "index" = false) ∧
        (t.Index ≠ -1 → lookupKey ms "index" = some (.num (formatInt t.Index)))) ∧
    (∀ (ch : Channel) (out : Bytes), Channel.MarshalJSON ch = .ok out →
      ∃ ms, IsObjectText out ms ∧ (ch.Sampler = -1 → hasKey ms "sampler" = false) ∧
        (ch.Sampler ≠ -1 → lookupKey ms "sampler" = some (.num (formatInt ch.Sampler)))) ∧
    (∀ (ch : ChannelTarget) (out : Bytes), ChannelTarget.MarshalJSON ch = .ok out →
      ∃ ms, IsObjectText out ms ∧ (ch.Node = -1 → hasKey ms "node" = false) ∧
        (ch.Node ≠ -1 → lookupKey ms "node" = some (.num (formatInt ch.Node)))) ∧
    (∀ i : Int, parseIntLit (formatInt i) = some i) := by
  refine ⟨?_, ?_, ?_, ?_, ?_, parseIntLit_formatInt⟩
  · intro a out h
    exact shadow_marshal Accessor.fields FieldsSound.nodup "bufferView" (fun x => x.BufferView)
      (Field.of "bufferView" false int32Codec (fun s => s.BufferView)
        (fun s a => { s with BufferView := a }))
      (by simp [Accessor.fields]) rfl rfl (fun _ => rfl) a out h
  · intro b out h
    exact shadow_marshal BufferView.fields FieldsSound.nodup "buffer" (fun x => x.Buffer)
      (Field.of "buffer" false int32Codec (fun s => s.Buffer) (fun s a => { s with Buffer := a }))
      (by simp [BufferView.fields]) rfl rfl (fun _ => rfl) b out h
  · intro t out h
    exact shadow_marshal TextureInfo.fields FieldsSound.nodup "index" (fun x => x.Index)
      (Field.of "index" false int32Codec (fun s => s.Index) (fun s a => { s with Index := a }))
      (by simp [TextureInfo.fields]) rfl rfl (fun _ => rfl) t out h
  · intro ch out h
    exact shadow_marshal Channel.fields FieldsSound.nodup "sampler" (fun x => x.Sampler)
      (Field.of "sampler" false int32Codec (fun s => s.Sampler)
        (fun s a => { s with Sampler := a }))
      (by simp [Channel.fields]) rfl rfl (fun _ => rfl) ch out h
  · intro ch out h
    exact shadow_marshal ChannelTarget.fields FieldsSound.nodup "node" (fun x => x.Node)
      (Field.of "node" false int32Codec (fun s => s.Node) (fun s a => { s with Node := a }))
      (by simp [ChannelTarget.fields]) rfl rfl (fun _ => rfl) ch out h

/-- Witness of C8: a BufferView with buffer 0 and a BufferView with buffer -1. -/
theorem C8_shadowed_reference_omitted_iff_sentinel_witness :
    (∃ ms, IsObjectText "\x7b\"buffer\":0,\"byteLength\":3\x7d".data ms ∧
      lookupKey ms "buffer" = some (.num ['0'])) ∧
    (∃ ms, IsObjectText "\x7b\"byteLength\":3\x7d".data ms ∧ hasKey ms "buffer" = false) := by
  constructor
  · obtain ⟨ms, h1, _, h3⟩ := C8_shadowed_reference_omitted_iff_sentinel.2.1
      { BufferView.zero with Buffer := 0, ByteLength := 3 }
      "\x7b\"buffer\":0,\"byteLength\":3\x7d".data (by decide!)
    exact ⟨ms, h1, h3 (by decide)⟩
  · obtain ⟨ms, h1, h2, _⟩ := C8_shadowed_reference_omitted_iff_sentinel.2.1
      { BufferView.zero with Buffer := -1, ByteLength := 3 }
      "\x7b\"byteLength\":3\x7d".data (by decide!)
    exact ⟨ms, h1, h2 rfl⟩

/-! ## Decoding what was encoded: the value of one field -/

theorem lookupKey_ne_none_of_mem (ms : List (String × JSON)) (k : String) (v : JSON)
    (hm : (k, v) ∈ ms) : lookupKey ms k ≠ none := by
  intro h
  induction ms with
  | nil => simp at hm
  | cons m ms ih =>
    obtain ⟨k1, v1⟩ := m
    rw [lookupKey_cons] at h
    by_cases hk : k1 = k
    · rw [if_pos hk] at h
      simp at h
    · rw [if_neg hk] at h
      rcases List.mem_cons.mp hm with h1 | h1
      · simp only [Prod.mk.injEq] at h1
        exact hk h1.1.symm
      · exact ih h1 h

/-- The field of the decoded struct equals the field of the encoded struct:
when it was written, the decoder reads the value back; when it was omitted or
hidden, the value decoded into already holds it. -/
theorem roundtrip_field {σ α : Type} (fs own : List (Field σ)) (hn : (fieldNames fs).Nodup)
    (name : String) (c : Codec α) (get : σ → α)
    (hfr : Frames fs name get) (hrd : Reads fs name c get)
    (f : Field σ) (hf : f ∈ fs) (hfn : f.name = name)
    (hfe : ∀ s, f.encode s = c.encode (get s))
    (hfold : ∀ n ∈ fieldNames fs, foldEq name n = true → n = name)
    (s tmp s1 : σ) (ms : List (String × JSON)) (hown : ∀ g ∈ own, Omitted g s)
    (henc : encodeFields s (embedFields own fs) = .ok ms)
    (hdec : decodeMembers fs ms tmp = .ok s1)
    (hrt : ∀ j, c.encode (get s) = .ok j → ∀ old, c.decode j old = .ok (get s))
    (habs : (Omitted f s ∨ ∃ g ∈ own, g.name = name) → get tmp = get s) :
    get s1 = get s := by
  have hnd := encodeFields_embed_keys_nodup own fs s hn hown ms henc
  have hex : ∀ m ∈ ms, foldEq name m.1 = true → m.1 = name := by
    intro m hm hfm
    obtain ⟨g, hg, hgn, _⟩ := encodeFields_embed_mem own fs s hown ms henc m hm
    rw [← hgn] at hfm ⊢
    exact hfold g.name (List.mem_map_of_mem _ hg) hfm
  rcases decoded_field fs name c get hfr hrd ⟨f, hf, hfn⟩ ms hnd hex tmp s1 hdec with
    ⟨hl, hg⟩ | ⟨v, _, hm, hd⟩
  · rw [hg]
    apply habs
    by_cases ho : Omitted f s
    · exact Or.inl ho
    · right
      by_contra hh
      have hh1 : ∀ g ∈ own, g.name ≠ f.name := by
        intro g hg hgn
        exact hh ⟨g, hg, hgn.trans hfn⟩
      obtain ⟨v, _, hv⟩ := encodeFields_present s _ ms henc f
        (mem_embedFields_of own fs f hf hh1) ho
      rw [hfn] at hv
      exact lookupKey_ne_none_of_mem ms name v hv hl
  · obtain ⟨g, hg, hgn, hge, _⟩ := encodeFields_embed_mem own fs s hown ms henc (name, v) hm
    have hgf : g = f := field_unique fs hn g hg f hf (hgn.trans hfn.symm)
    subst hgf
    rw [hfe] at hge
    rw [hrt v hge (get tmp)] at hd
    simp only [Except.ok.injEq] at hd
    exact hd.symm

theorem intCodec_roundtrip (bits : Nat) (i : Int) (j : JSON) (h : (intCodec bits).encode i = .ok j)
    (old : Int) : (intCodec bits).decode j old = .ok i := by
  simp only [intCodec] at h
  split at h
  · rename_i hr
    simp only [Except.ok.injEq] at h
    rw [← h]
    simp only [intCodec, parseIntLit_formatInt, if_pos hr]
  · simp at h

theorem uintCodec_roundtrip (bits : Nat) (n : Nat) (j : JSON)
    (h : (uintCodec bits).encode n = .ok j) (old : Nat) :
    (uintCodec bits).decode j old = .ok n := by
  simp only [uintCodec] at h
  split at h
  · rename_i hr
    simp only [Except.ok.injEq] at h
    rw [← h]
    simp only [uintCodec, parseUintLit_formatNat, if_pos hr]
  · simp at h

/-! ## BufferView: decoding what was encoded -/

theorem BufferView_frames_extensions : Frames BufferView.fields "extensions" (fun x => x.Extensions) := by
  intro g hg hne j s s1 h
  simp only [BufferView.fields, List.mem_cons, List.mem_singleton, List.not_mem_nil,
    or_false] at hg
  rcases hg with rfl | rfl | rfl | rfl | rfl | rfl | rfl
  all_goals first
    | exact absurd rfl hne
    | exact Field.of_frame _ h (fun _ _ => rfl)

theorem BufferView_reads_extensions : Reads BufferView.fields "extensions" extensionsCodec (fun x => x.Extensions) := by
  intro g hg hn j s s1 h
  simp only [BufferView.fields, List.mem_cons, List.mem_singleton, List.not_mem_nil,
    or_false] at hg
  rcases hg with rfl | rfl | rfl | rfl | rfl | rfl | rfl
  all_goals first
    | exact Field.of_reads h (fun _ _ => rfl)
    | exact absurd hn (by decide)

theorem BufferView_frames_extras : Frames BufferView.fields "extras" (fun x => x.Extras) := by
  intro g hg hne j s s1 h
  simp only [BufferView.fields, List.mem_cons, List.mem_singleton, List.not_mem_nil,
    or_false] at hg
  rcases hg with rfl | rfl | rfl | rfl | rfl | rfl | rfl
  all_goals first
    | exact absurd rfl hne
    | exact Field.of_frame _ h (fun _ _ => rfl)

theorem BufferView_reads_extras : Reads BufferView.fields "extras" anyCodec (fun x => x.Extras) := by
  intro g hg hn j s s1 h
  simp only [BufferView.fields, List.mem_cons, List.mem_singleton, List.not_mem_nil,
    or_false] at hg
  rcases hg with rfl | rfl | rfl | rfl | rfl | rfl | rfl
  all_goals first
    | exact Field.of_reads h (fun _ _ => rfl)
    | exact absurd hn (by decide)

theorem BufferView_reads_buffer : Reads BufferView.fields "buffer" int32Codec (fun x => x.Buffer) := by
  intro g hg hn j s s1 h
  simp only [BufferView.fields, List.mem_cons, List.mem_singleton, List.not_mem_nil,
    or_false] at hg
  rcases hg with rfl | rfl | rfl | rfl | rfl | rfl | rfl
  all_goals first
    | exact Field.of_reads h (fun _ _ => rfl)
    | exact absurd hn (by decide)

theorem BufferView_frames_byteOffset : Frames BufferView.fields "byteOffset" (fun x => x.ByteOffset) := by
  intro g hg hne j s s1 h
  simp only [BufferView.fields, List.mem_cons, List.mem_singleton, List.not_mem_nil,
    or_false] at hg
  rcases hg with rfl | rfl | rfl | rfl | rfl | rfl | rfl
  all_goals first
    | exact absurd rfl hne
    | exact Field.of_frame _ h (fun _ _ => rfl)

theorem BufferView_reads_byteOffset : Reads BufferView.fields "byteOffset" uint32Codec (fun x => x.ByteOffset) := by
  intro g hg hn j s s1 h
  simp only [BufferView.fields, List.mem_cons, List.mem_singleton, List.not_mem_nil,
    or_false] at hg
  rcases hg with rfl | rfl | rfl | rfl | rfl | rfl | rfl
  all_goals first
    | exact Field.of_reads h (fun _ _ => rfl)
    | exact absurd hn (by decide)

theorem BufferView_frames_byteLength : Frames BufferView.fields "byteLength" (fun x => x.ByteLength) := by
  intro g hg hne j s s1 h
  simp only [BufferView.fields, List.mem_cons, List.mem_singleton, List.not_mem_nil,
    or_false] at hg
  rcases hg with rfl | rfl | rfl | rfl | rfl | rfl | rfl
  all_goals first
    | exact absurd rfl hne
    | exact Field.of_frame _ h (fun _ _ => rfl)

theorem BufferView_reads_byteLength : Reads BufferView.fields "byteLength" uint32Codec (fun x => x.ByteLength) := by
  intro g hg hn j s s1 h
  simp only [BufferView.fields, List.mem_cons, List.mem_singleton, List.not_mem_nil,
    or_false] at hg
  rcases hg with rfl | rfl | rfl | rfl | rfl | rfl | rfl
  all_goals first
    | exact Field.of_reads h (fun _ _ => rfl)
    | exact absurd hn (by decide)

theorem BufferView_frames_byteStride : Frames BufferView.fields "byteStride" (fun x => x.ByteStride) := by
  intro g hg hne j s s1 h
  simp only [BufferView.fields, List.mem_cons, List.mem_singleton, List.not_mem_nil,
    or_false] at hg
  rcases hg with rfl | rfl | rfl | rfl | rfl | rfl | rfl
  all_goals first
    | exact absurd rfl hne
    | exact Field.of_frame _ h (fun _ _ => rfl)

theorem BufferView_reads_byteStride : Reads BufferView.fields "byteStride" uint32Codec (fun x => x.ByteStride) := by
  intro g hg hn j s s1 h
  simp only [BufferView.fields, List.mem_cons, List.mem_singleton, List.not_mem_nil,
    or_false] at hg
  rcases hg with rfl | rfl | rfl | rfl | rfl | rfl | rfl
  all_goals first
    | exact Field.of_reads h (fun _ _ => rfl)
    | exact absurd hn (by decide)

theorem BufferView_frames_target : Frames BufferView.fields "target" (fun x => x.Target) := by
  intro g hg hne j s s1 h
  simp only [BufferView.fields, List.mem_cons, List.mem_singleton, List.not_mem_nil,
    or_false] at hg
  rcases hg with rfl | rfl | rfl | rfl | rfl | rfl | rfl
  all_goals first
    | exact absurd rfl hne
    | exact Field.of_frame _ h (fun _ _ => rfl)

theorem BufferView_reads_target : Reads BufferView.fields "target" uint16Codec (fun x => x.Target) := by
  intro g hg hn j s s1 h
  simp only [BufferView.fields, List.mem_cons, List.mem_singleton, List.not_mem_nil,
    or_false] at hg
  rcases hg with rfl | rfl | rfl | rfl | rfl | rfl | rfl
  all_goals first
    | exact Field.of_reads h (fun _ _ => rfl)
    | exact absurd hn (by decide)

theorem encodeFields_total {σ : Type} (s : σ) :
    ∀ (fs : List (Field σ)), (∀ f ∈ fs, ∃ j, f.encode s = .ok j) →
      ∃ ms, encodeFields s fs = .ok ms
  | [], _ => ⟨[], rfl⟩
  | f :: fs, h => by
    obtain ⟨ms, hms⟩ := encodeFields_total s fs (fun g hg => h g (List.mem_cons_of_mem _ hg))
    obtain ⟨j, hj⟩ := h f (List.mem_cons_self _ _)
    simp only [encodeFields]
    split
    · exact ⟨ms, hms⟩
    · exact ⟨(f.name, j) :: ms, by simp only [hj, hms]⟩

theorem BufferView_marshal_eq (v : BufferView) :
    BufferView.MarshalJSON v =
      marshalStruct (embedFields (if v.Buffer = -1 then [shadowField "buffer"] else [])
        BufferView.fields) v := by
  unfold BufferView.MarshalJSON
  split <;> rfl

theorem BufferView_fold_names (name : String) (h : name ∈ fieldNames BufferView.fields) :
    ∀ n ∈ fieldNames BufferView.fields, foldEq name n = true → n = name := by
  intro n hn hf
  simp only [fieldNames, BufferView.fields, Field.of, List.map_cons, List.map_nil,
    List.mem_cons, List.mem_singleton, List.not_mem_nil, or_false] at h hn
  rcases h with rfl | rfl | rfl | rfl | rfl | rfl | rfl <;>
    rcases hn with rfl | rfl | rfl | rfl | rfl | rfl | rfl <;>
    first
      | rfl
      | exact absurd hf (by decide!)

/-- C9: every BufferView without Extensions and Extras whose numbers lie in the
range of their types is encoded by BufferView.MarshalJSON, and
BufferView.UnmarshalJSON applied to the output stores the BufferView in the
receiver and returns no error. -/
theorem C9_bufferView_roundtrip (v : BufferView) (hext : v.Extensions = none)
    (hextras : v.Extras = none)
    (hbuf : - (2 : Int) ^ 31 ≤ v.Buffer ∧ v.Buffer < (2 : Int) ^ 31)
    (hoff : v.ByteOffset < 2 ^ 32) (hlen : v.ByteLength < 2 ^ 32)
    (hstr : v.ByteStride < 2 ^ 32) (htgt : v.Target < 2 ^ 16) :
    ∃ out, BufferView.MarshalJSON v = .ok out ∧
      ∀ r, BufferView.UnmarshalJSON r out = (v, none) := by
  have hown : ∀ g ∈ (if v.Buffer = -1 then [shadowField "buffer"] else []),
      Omitted g v ∧ FieldWF (σ := BufferView) g := by
    intro g hg
    split at hg
    · rw [List.mem_singleton.mp hg]
      exact shadowField_omitted _ v
    · simp at hg
  have hown1 : ∀ g ∈ (if v.Buffer = -1 then [shadowField "buffer"] else []), Omitted g v :=
    fun g hg => (hown g hg).1
  have hownn : ∀ g ∈ (if v.Buffer = -1 then [shadowField "buffer"] else []),
      (g : Field BufferView).name = "buffer" ∧ v.Buffer = -1 := by
    intro g hg
    split at hg
    · rename_i hb
      rw [List.mem_singleton.mp hg]
      exact ⟨rfl, hb⟩
    · simp at hg
  -- the encoder succeeds
  have htot : ∃ ms, encodeFields v (embedFields (if v.Buffer = -1 then [shadowField "buffer"]
      else []) BufferView.fields) = .ok ms := by
    apply encodeFields_total
    intro f hf
    rcases mem_embedFields _ _ f hf with h1 | h1
    · split at h1
      · rw [List.mem_singleton.mp h1]
        exact ⟨_, rfl⟩
      · simp at h1
    · simp only [BufferView.fields, List.mem_cons, List.mem_singleton, List.not_mem_nil,
        or_false] at h1
      rcases h1 with rfl | rfl | rfl | rfl | rfl | rfl | rfl
      · exact ⟨.null, by simp [Field.of, hext, extensionsCodec, mapCodec]⟩
      · exact ⟨.null, by simp [Field.of, hextras, anyCodec]⟩
      · exact ⟨_, by simp only [Field.of, int32Codec, intCodec]; rw [if_pos (by simpa using hbuf)]⟩
      · exact ⟨_, by simp only [Field.of, uint32Codec, uintCodec]; rw [if_pos hoff]⟩
      · exact ⟨_, by simp only [Field.of, uint32Codec, uintCodec]; rw [if_pos hlen]⟩
      · exact ⟨_, by simp only [Field.of, uint32Codec, uintCodec]; rw [if_pos hstr]⟩
      · exact ⟨_, by simp only [Field.of, uint16Codec, uintCodec]; rw [if_pos htgt]⟩
  obtain ⟨ms, henc⟩ := htot
  refine ⟨render (.obj ms), ?_, ?_⟩
  · rw [BufferView_marshal_eq]
    simp only [marshalStruct, henc, Except.map]
  intro r
  have hparse : parseJSON (render (.obj ms)) = some (.obj ms) :=
    parseJSON_render _ (by
      simpa [JSON.wf] using encodeFields_wf v _ ms
        (wf_of_embed _ BufferView.fields (fun g hg => (hown g hg).2) FieldsWF.wf) henc)
  obtain ⟨s1, hdec⟩ := decodeMembers_encodeFields_ok BufferView.fields _ v FieldsSound.nodup
    (fun f hf => FieldsSound.sound f hf v) hown1 ms henc { BufferView.zero with Buffer := -1 }
  have hnd : (fieldNames BufferView.fields).Nodup := FieldsSound.nodup
  have e1 : s1.Extensions = v.Extensions :=
    roundtrip_field BufferView.fields _ hnd "extensions" extensionsCodec (fun x => x.Extensions)
      BufferView_frames_extensions BufferView_reads_extensions _
      (by simp [BufferView.fields]; exact Or.inl rfl) rfl (fun _ => rfl)
      (BufferView_fold_names _ (by decide)) v _ s1 ms hown1 henc hdec
      (by
        intro j hj old
        simp only [hext, extensionsCodec, mapCodec, Except.ok.injEq] at hj ⊢
        rw [← hj])
      (fun _ => hext.symm)
  have e2 : s1.Extras = v.Extras :=
    roundtrip_field BufferView.fields _ hnd "extras" anyCodec (fun x => x.Extras)
      BufferView_frames_extras BufferView_reads_extras _
      (by simp [BufferView.fields]; exact Or.inr (Or.inl rfl)) rfl (fun _ => rfl)
      (BufferView_fold_names _ (by decide)) v _ s1 ms hown1 henc hdec
      (by
        intro j hj old
        simp only [hextras, anyCodec, Except.ok.injEq] at hj ⊢
        rw [← hj])
      (fun _ => hextras.symm)
  have e3 : s1.Buffer = v.Buffer :=
    roundtrip_field BufferView.fields _ hnd "buffer" int32Codec (fun x => x.Buffer)
      BufferView_frames_buffer BufferView_reads_buffer _
      (by simp [BufferView.fields]; exact Or.inr (Or.inr (Or.inl rfl))) rfl (fun _ => rfl)
      (BufferView_fold_names _ (by decide)) v _ s1 ms hown1 henc hdec
      (fun j hj old => intCodec_roundtrip 32 _ j hj old)
      (by
        intro h
        rcases h with h | ⟨g, hg, _⟩
        · simp [Omitted, Field.of] at h
        · exact (hownn g hg).2.symm)
  have e4 : s1.ByteOffset = v.ByteOffset :=
    roundtrip_field BufferView.fields _ hnd "byteOffset" uint32Codec (fun x => x.ByteOffset)
      BufferView_frames_byteOffset BufferView_reads_byteOffset _
      (by simp [BufferView.fields]; exact Or.inr (Or.inr (Or.inr (Or.inl rfl)))) rfl
      (fun _ => rfl)
      (BufferView_fold_names _ (by decide)) v _ s1 ms hown1 henc hdec
      (fun j hj old => uintCodec_roundtrip 32 _ j hj old)
      (by
        intro h
        rcases h with h | ⟨g, hg, hgn⟩
        · simp only [Omitted, Field.of, uint32Codec, uintCodec, decide_eq_true_eq, true_and] at h
          exact h.symm
        · rw [(hownn g hg).1] at hgn
          exact absurd hgn (by decide))
  have e5 : s1.ByteLength = v.ByteLength :=
    roundtrip_field BufferView.fields _ hnd "byteLength" uint32Codec (fun x => x.ByteLength)
      BufferView_frames_byteLength BufferView_reads_byteLength _
      (by simp [BufferView.fields]; exact Or.inr (Or.inr (Or.inr (Or.inr (Or.inl rfl))))) rfl
      (fun _ => rfl)
      (BufferView_fold_names _ (by decide)) v _ s1 ms hown1 henc hdec
      (fun j hj old => uintCodec_roundtrip 32 _ j hj old)
      (by
        intro h
        rcases h with h | ⟨g, hg, hgn⟩
        · simp [Omitted, Field.of] at h
        · rw [(hownn g hg).1] at hgn
          exact absurd hgn (by decide))
  have e6 : s1.ByteStride = v.ByteStride :=
    roundtrip_field BufferView.fields _ hnd "byteStride" uint32Codec (fun x => x.ByteStride)
      BufferView_frames_byteStride BufferView_reads_byteStride _
      (by
        simp [BufferView.fields]
        exact Or.inr (Or.inr (Or.inr (Or.inr (Or.inr (Or.inl rfl)))))) rfl
      (fun _ => rfl)
      (BufferView_fold_names _ (by decide)) v _ s1 ms hown1 henc hdec
      (fun j hj old => uintCodec_roundtrip 32 _ j hj old)
      (by
        intro h
        rcases h with h | ⟨g, hg, hgn⟩
        · simp only [Omitted, Field.of, uint32Codec, uintCodec, decide_eq_true_eq, true_and] at h
          exact h.symm
        · rw [(hownn g hg).1] at hgn
          exact absurd hgn (by decide))
  have e7 : s1.Target = v.Target :=
    roundtrip_field BufferView.fields _ hnd "target" uint16Codec (fun x => x.Target)
      BufferView_frames_target BufferView_reads_target _
      (by
        simp [BufferView.fields]
        exact Or.inr (Or.inr (Or.inr (Or.inr (Or.inr (Or.inr rfl)))))) rfl
      (fun _ => rfl)
      (BufferView_fold_names _ (by decide)) v _ s1 ms hown1 henc hdec
      (fun j hj old => uintCodec_roundtrip 16 _ j hj old)
      (by
        intro h
        rcases h with h | ⟨g, hg, hgn⟩
        · simp only [Omitted, Field.of, uint16Codec, uintCodec, decide_eq_true_eq, true_and] at h
          exact h.symm
        · rw [(hownn g hg).1] at hgn
          exact absurd hgn (by decide))
  have hs1 : s1 = v := by
    cases s1
    cases v
    simp only [BufferView.mk.injEq]
    exact ⟨e1, e2, e3, e4, e5, e6, e7⟩
  simp only [BufferView.UnmarshalJSON, unmarshalStruct, hparse, decodeStruct, hdec, assignIfOk,
    hs1]

/-- Witness of C9: a BufferView that refers to buffer 0. -/
theorem C9_bufferView_roundtrip_witness :
    ∃ out, BufferView.MarshalJSON
        { BufferView.zero with Buffer := 0, ByteLength := 72, Target := 34963 } = .ok out ∧
      ∀ r, BufferView.UnmarshalJSON r out =
        ({ BufferView.zero with Buffer := 0, ByteLength := 72, Target := 34963 }, none) :=
  C9_bufferView_roundtrip { BufferView.zero with Buffer := 0, ByteLength := 72, Target := 34963 }
    rfl rfl (by decide) (by decide) (by decide) (by decide) (by decide)

/-! ## Document: the preferred scene -/

theorem Document_reads_scene : Reads Document.fields "scene" int32Codec (fun x => x.Scene) := by
  intro g hg hn j s s1 h
  simp only [Document.fields, List.mem_cons, List.mem_singleton, List.not_mem_nil,
    or_false] at hg
  rcases hg with rfl | rfl | rfl | rfl | rfl | rfl | rfl | rfl | rfl | rfl | rfl | rfl | rfl | rfl | rfl | rfl | rfl | rfl | rfl
  all_goals first
    | exact Field.of_reads h (fun _ _ => rfl)
    | exact absurd hn (by decide)

theorem Document_nodup : (fieldNames Document.fields).Nodup := by decide

theorem Document_fold_scene :
    ∀ n ∈ fieldNames Document.fields, foldEq "scene" n = true → n = "scene" := by
  intro n hn hf
  simp only [fieldNames, Document.fields, Field.of, List.map_cons, List.map_nil,
    List.mem_cons, List.mem_singleton, List.not_mem_nil, or_false] at hn
  rcases hn with rfl | rfl | rfl | rfl | rfl | rfl | rfl | rfl | rfl | rfl | rfl | rfl | rfl | rfl | rfl | rfl | rfl | rfl | rfl <;>
    first
      | rfl
      | exact absurd hf (by decide!)

theorem Document_marshal_eq (d : Document) :
    Document.MarshalJSON d =
      marshalStruct (embedFields (if d.Scene = -1 then [shadowField "scene"] else [])
        Document.fields) d := by
  unfold Document.MarshalJSON
  split <;> rfl

theorem Document_own_omitted (d : Document) :
    ∀ g ∈ (if d.Scene = -1 then [shadowField "scene"] else []),
      (Omitted g d ∧ FieldWF (σ := Document) g) ∧ g.name = "scene" ∧ d.Scene = -1 := by
  intro g hg
  split at hg
  · rename_i hb
    rw [List.mem_singleton.mp hg]
    exact ⟨shadowField_omitted _ d, rfl, hb⟩
  · simp at hg

/-- The members written by Document.MarshalJSON are read back by the text
parser. -/
theorem Document_marshal_members (d : Document) (out : Bytes)
    (h : Document.MarshalJSON d = .ok out) :
    ∃ ms, IsObjectText out ms ∧
      encodeFields d (embedFields (if d.Scene = -1 then [shadowField "scene"] else [])
        Document.fields) = .ok ms := by
  rw [Document_marshal_eq] at h
  obtain ⟨ms, he, ho⟩ := marshalStruct_parse _
    (wf_of_embed _ Document.fields (fun g hg => (Document_own_omitted d g hg).1.2) FieldsWF.wf)
    d out h
  exact ⟨ms, ho, he⟩

/-- Whatever the decoder of Document makes of the members written for d, the
preferred scene it leaves is the one of d. -/
theorem Document_scene_decoded (d : Document) (ms : List (String × JSON))
    (henc : encodeFields d (embedFields (if d.Scene = -1 then [shadowField "scene"] else [])
      Document.fields) = .ok ms) (s1 : Document)
    (hdec : decodeMembers Document.fields ms { Document.zero with Scene := -1 } = .ok s1) :
    s1.Scene = d.Scene :=
  roundtrip_field Document.fields _ Document_nodup "scene" int32Codec (fun x => x.Scene)
    Document_frames_scene Document_reads_scene
    (Field.of "scene" false int32Codec (fun s => s.Scene) (fun s a => { s with Scene := a }))
    (by simp [Document.fields]) rfl (fun _ => rfl) Document_fold_scene d _ s1 ms
    (fun g hg => (Document_own_omitted d g hg).1.1) henc hdec
    (fun j hj old => intCodec_roundtrip 32 _ j hj old)
    (by
      intro h
      rcases h with h | ⟨g, hg, _⟩
      · simp [Omitted, Field.of] at h
      · exact (Document_own_omitted d g hg).2.2.symm)

/-- The decoder of Document accepts the members written for d when the
entities with an edited encoding are accepted by theirs. -/
theorem Document_decode_total (d : Document) (hN : Document.NestedDecodable d)
    (ms : List (String × JSON))
    (henc : encodeFields d (embedFields (if d.Scene = -1 then [shadowField "scene"] else [])
      Document.fields) = .ok ms) (s0 : Document) :
    ∃ s1, decodeMembers Document.fields ms s0 = .ok s1 := by
  refine decodeMembers_encodeFields_ok Document.fields _ d Document_nodup ?_
    (fun g hg => (Document_own_omitted d g hg).1.1) ms henc s0
  intro f hf
  obtain ⟨h1, h2, h3, h4, h5⟩ := hN
  simp only [Document.fields, List.mem_cons, List.mem_singleton, List.not_mem_nil,
    or_false] at hf
  rcases hf with rfl | rfl | rfl | rfl | rfl | rfl | rfl | rfl | rfl | rfl | rfl | rfl | rfl | rfl | rfl | rfl | rfl | rfl | rfl
  all_goals first
    | exact Field.of_sound _ _ _ _ _ d
    | exact Field.of_soundAt _ _ _ _ _ d (sliceCodec_decodable _ _ _ h1)
    | exact Field.of_soundAt _ _ _ _ _ d (sliceCodec_decodable _ _ _ h2)
    | exact Field.of_soundAt _ _ _ _ _ d (sliceCodec_decodable _ _ _ h3)
    | exact Field.of_soundAt _ _ _ _ _ d (sliceCodec_decodable _ _ _ h4)
    | exact Field.of_soundAt _ _ _ _ _ d (sliceCodec_decodable _ _ _ h5)

theorem Document_unmarshal_ok (r d1 : Document) (out : Bytes) (ms : List (String × JSON))
    (ho : IsObjectText out ms) (h : Document.UnmarshalJSON r out = (d1, none)) :
    decodeMembers Document.fields ms { Document.zero with Scene := -1 } = .ok d1 := by
  have h1 := assignIfOk_none _ _ _ h
  unfold IsObjectText at ho
  simpa only [unmarshalStruct, ho, decodeStruct] using h1

theorem Document_unmarshal_of_decode (r d1 : Document) (out : Bytes)
    (ms : List (String × JSON)) (ho : IsObjectText out ms)
    (h : decodeMembers Document.fields ms { Document.zero with Scene := -1 } = .ok d1) :
    Document.UnmarshalJSON r out = (d1, none) := by
  unfold IsObjectText at ho
  simp only [Document.UnmarshalJSON, unmarshalStruct, ho, decodeStruct, h, assignIfOk]

/-- C3: for every Document d with Scene -1 whose MarshalJSON returns a text,
the text is a well-formed object without a "scene" member; whenever
Document.UnmarshalJSON accepts the text, the Document it stores has Scene -1;
and it does accept the text when the materials, meshes, nodes, skins and
textures of d are accepted by their decoders. -/
theorem C3_document_sentinel_scene_omitted (d : Document) (out : Bytes)
    (hs : d.Scene = -1) (hm : Document.MarshalJSON d = .ok out) :
    (∃ ms, IsObjectText out ms ∧ hasKey ms "scene" = false) ∧
    (∀ r d1, Document.UnmarshalJSON r out = (d1, none) → d1.Scene = -1) ∧
    (Document.NestedDecodable d →
      ∀ r, ∃ d1, Document.UnmarshalJSON r out = (d1, none) ∧ d1.Scene = -1) := by
  obtain ⟨ms, ho, henc⟩ := Document_marshal_members d out hm
  refine ⟨?_, ?_, ?_⟩
  · obtain ⟨ms1, ho1, h1, _⟩ := shadow_marshal Document.fields Document_nodup "scene"
      (fun x => x.Scene)
      (Field.of "scene" false int32Codec (fun s => s.Scene) (fun s a => { s with Scene := a }))
      (by simp [Document.fields]) rfl rfl (fun _ => rfl) d out hm
    exact ⟨ms1, ho1, h1 hs⟩
  · intro r d1 h
    rw [Document_scene_decoded d ms henc d1 (Document_unmarshal_ok r d1 out ms ho h)]
    exact hs
  · intro hN r
    obtain ⟨s1, hdec⟩ := Document_decode_total d hN ms henc { Document.zero with Scene := -1 }
    refine ⟨s1, Document_unmarshal_of_decode r s1 out ms ho hdec, ?_⟩
    rw [Document_scene_decoded d ms henc s1 hdec]
    exact hs

theorem NewNode_decodable : Decodable Node.codec NewNode := by
  intro j hj old
  have h : Node.codec.encode NewNode = .ok (.obj []) := by decide!
  rw [h] at hj
  simp only [Except.ok.injEq] at hj
  rw [← hj]
  exact ⟨NewNode, rfl⟩

theorem sampleDocument_nested (scene : Int) : Document.NestedDecodable (sampleDocument scene) := by
  refine ⟨?_, ?_, ?_, ?_, ?_⟩
  · intro l h
    simp [sampleDocument, Document.zero] at h
  · intro l h
    simp [sampleDocument, Document.zero] at h
  · intro l h a ha
    simp only [sampleDocument, Option.some.injEq] at h
    rw [← h, List.mem_singleton] at ha
    rw [ha]
    exact NewNode_decodable
  · intro l h
    simp [sampleDocument, Document.zero] at h
  · intro l h
    simp [sampleDocument, Document.zero] at h

/-- Witness of C3: a document with one default node and no preferred scene. -/
theorem C3_document_sentinel_scene_omitted_witness :
    (∃ ms, IsObjectText "\x7b\"asset\":\x7b\"version\":\"2.0\"\x7d,\"nodes\":[\x7b\x7d]\x7d".data ms ∧
      hasKey ms "scene" = false) ∧
    (∀ r, ∃ d1, Document.UnmarshalJSON r
        "\x7b\"asset\":\x7b\"version\":\"2.0\"\x7d,\"nodes\":[\x7b\x7d]\x7d".data = (d1, none) ∧
      d1.Scene = -1) :=
  ⟨(C3_document_sentinel_scene_omitted (sampleDocument (-1))
      "\x7b\"asset\":\x7b\"version\":\"2.0\"\x7d,\"nodes\":[\x7b\x7d]\x7d".data rfl (by decide!)).1,
    (C3_document_sentinel_scene_omitted (sampleDocument (-1))
      "\x7b\"asset\":\x7b\"version\":\"2.0\"\x7d,\"nodes\":[\x7b\x7d]\x7d".data rfl
      (by decide!)).2.2 (sampleDocument_nested (-1))⟩

/-- C4: for every Document d with Scene other than -1 whose MarshalJSON returns
a text, the text is a well-formed object whose "scene" member is the decimal
text of d.Scene, which reads back as d.Scene; whenever Document.UnmarshalJSON
accepts the text, the Document it stores has the Scene of d, and it does accept
the text when the materials, meshes, nodes, skins and textures of d are
accepted by their decoders; the text differs from every text written for the
same Document with Scene -1, and what is decoded from the two texts
differs. -/
theorem C4_document_scene_emitted (d : Document) (out : Bytes)
    (hs : d.Scene ≠ -1) (hm : Document.MarshalJSON d = .ok out) :
    (∃ ms, IsObjectText out ms ∧ lookupKey ms "scene" = some (.num (formatInt d.Scene)) ∧
      parseIntLit (formatInt d.Scene) = some d.Scene) ∧
    (∀ r d1, Document.UnmarshalJSON r out = (d1, none) → d1.Scene = d.Scene) ∧
    (Document.NestedDecodable d →
      ∀ r, ∃ d1, Document.UnmarshalJSON r out = (d1, none) ∧ d1.Scene = d.Scene) ∧
    (∀ out1, Document.MarshalJSON { d with Scene := -1 } = .ok out1 →
      out1 ≠ out ∧
      ∀ r r1 d1 d2, Document.UnmarshalJSON r out = (d1, none) →
        Document.UnmarshalJSON r1 out1 = (d2, none) → d1 ≠ d2) := by
  obtain ⟨ms, ho, henc⟩ := Document_marshal_members d out hm
  obtain ⟨ms0, ho0, _, h0⟩ := shadow_marshal Document.fields Document_nodup "scene"
    (fun x => x.Scene)
    (Field.of "scene" false int32Codec (fun s => s.Scene) (fun s a => { s with Scene := a }))
    (by simp [Document.fields]) rfl rfl (fun _ => rfl) d out hm
  have hdecoded : ∀ r d1, Document.UnmarshalJSON r out = (d1, none) → d1.Scene = d.Scene :=
    fun r d1 h => Document_scene_decoded d ms henc d1 (Document_unmarshal_ok r d1 out ms ho h)
  refine ⟨⟨ms0, ho0, h0 hs, parseIntLit_formatInt _⟩, hdecoded, ?_, ?_⟩
  · intro hN r
    obtain ⟨s1, hdec⟩ := Document_decode_total d hN ms henc { Document.zero with Scene := -1 }
    exact ⟨s1, Document_unmarshal_of_decode r s1 out ms ho hdec,
      Document_scene_decoded d ms henc s1 hdec⟩
  · intro out1 hm1
    obtain ⟨ms1, ho1, henc1⟩ := Document_marshal_members _ out1 hm1
    obtain ⟨ms2, ho2, h2, _⟩ := shadow_marshal Document.fields Document_nodup "scene"
      (fun x => x.Scene)
      (Field.of "scene" false int32Codec (fun s => s.Scene) (fun s a => { s with Scene := a }))
      (by simp [Document.fields]) rfl rfl (fun _ => rfl) _ out1 hm1
    constructor
    · intro he
      rw [he] at ho2
      unfold IsObjectText at ho0 ho2
      rw [ho0] at ho2
      simp only [Option.some.injEq, JSON.obj.injEq] at ho2
      have hk := (hasKey_false_iff ms2 "scene").mp (h2 rfl)
      rw [← ho2] at hk
      exact hk _ (lookupKey_mem ms0 "scene" _ (h0 hs)) rfl
    · intro r r1 d1 d2 hd1 hd2 he
      have e1 := hdecoded r d1 hd1
      have e2 : d2.Scene = -1 :=
        Document_scene_decoded _ ms1 henc1 d2 (Document_unmarshal_ok r1 d2 out1 ms1 ho1 hd2)
      rw [he, e2] at e1
      exact hs e1.symm

/-- Witness of C4: a document with one default node and preferred scene 0,
against the same document without a preferred scene. -/
theorem C4_document_scene_emitted_witness :
    (∃ ms, IsObjectText
        "\x7b\"asset\":\x7b\"version\":\"2.0\"\x7d,\"nodes\":[\x7b\x7d],\"scene\":0\x7d".data ms ∧
      lookupKey ms "scene" = some (.num ['0'])) ∧
    (∀ r, ∃ d1, Document.UnmarshalJSON r
        "\x7b\"asset\":\x7b\"version\":\"2.0\"\x7d,\"nodes\":[\x7b\x7d],\"scene\":0\x7d".data =
          (d1, none) ∧ d1.Scene = 0) ∧
    "\x7b\"asset\":\x7b\"version\":\"2.0\"\x7d,\"nodes\":[\x7b\x7d]\x7d".data ≠
      "\x7b\"asset\":\x7b\"version\":\"2.0\"\x7d,\"nodes\":[\x7b\x7d],\"scene\":0\x7d".data := by
  have h := C4_document_scene_emitted (sampleDocument 0)
    "\x7b\"asset\":\x7b\"version\":\"2.0\"\x7d,\"nodes\":[\x7b\x7d],\"scene\":0\x7d".data
    (by decide) (by decide!)
  obtain ⟨⟨ms, h1, h2, _⟩, _, h3, h4⟩ := h
  exact ⟨⟨ms, h1, h2⟩, h3 (sampleDocument_nested 0),
    (h4 "\x7b\"asset\":\x7b\"version\":\"2.0\"\x7d,\"nodes\":[\x7b\x7d]\x7d".data (by decide!)).1⟩

/-! ## NormalTexture: the scale that is compared is -1 -/

/-- C11: the claim fails on the code.  NormalTexture.MarshalJSON compares Scale
with -1, not with the default 1: the NormalTexture of NewNormalTexture(0), whose
Scale is 1, is encoded with a "scale" member, so that decoding the object
with the single member "index":0, which yields that NormalTexture, and
encoding the result does not give the text back. -/
theorem C11_normalTexture_default_scale_is_written :
    (∀ r, NormalTexture.UnmarshalJSON r "\x7b\"index\":0\x7d".data = (NewNormalTexture 0, none)) ∧
    (NewNormalTexture 0).Scale = f1 ∧
    NormalTexture.MarshalJSON (NewNormalTexture 0) =
      .ok "\x7b\"index\":0,\"scale\":1\x7d".data ∧
    (∃ ms, IsObjectText "\x7b\"index\":0,\"scale\":1\x7d".data ms ∧
      lookupKey ms "scale" = some (.num ['1'])) ∧
    "\x7b\"index\":0,\"scale\":1\x7d".data ≠ "\x7b\"index\":0\x7d".data := by
  refine ⟨?_, rfl, by decide!, ⟨[("index", .num ['0']), ("scale", .num ['1'])], ?_, ?_⟩,
    by decide⟩
  · intro r
    have h : unmarshalStruct NormalTexture.fields "\x7b\"index\":0\x7d".data
        (NewNormalTexture (-1)) = .ok (NewNormalTexture 0) := by decide!
    simp only [NormalTexture.UnmarshalJSON, h, assignIfOk]
  · unfold IsObjectText
    decide!
  · decide!

/-- C12: the round trip of a NormalTexture fails on the code.  The
NormalTexture with Index 0 and Scale -1, without Extensions and Extras, is
encoded without a "scale" member, because MarshalJSON removes the text
"scale":-1; decoding the output yields Scale 1. -/
theorem C12_normalTexture_roundtrip_loses_scale :
    NormalTexture.MarshalJSON { NewNormalTexture 0 with Scale := fm1 } =
      .ok "\x7b\"index\":0\x7d".data ∧
    (∀ r, NormalTexture.UnmarshalJSON r "\x7b\"index\":0\x7d".data =
      ({ NewNormalTexture 0 with Scale := f1 }, none)) ∧
    ({ NewNormalTexture 0 with Scale := f1 } : NormalTexture) ≠
      { NewNormalTexture 0 with Scale := fm1 } ∧
    Float64.eq f1 fm1 = false := by
  refine ⟨by decide!, ?_, by decide!, by decide!⟩
  intro r
  have h : unmarshalStruct NormalTexture.fields "\x7b\"index\":0\x7d".data
      (NewNormalTexture (-1)) = .ok { NewNormalTexture 0 with Scale := f1 } := by decide!
  simp only [NormalTexture.UnmarshalJSON, h, assignIfOk]

/-! ## Material: the defaults that are removed from the text -/

/-- C14: the claim fails on the code.  The Material of NewMaterial with the
Extras object of the single member "alphaCutoff":0.5 has AlphaCutoff 0.5,
AlphaMode Opaque and EmissiveFactor (0,0,0), and its encoding has an
"alphaCutoff" member: the removal deletes the first occurrence of the text,
which lies inside extras.  Likewise the PBRMetallicRoughness of the
constructor with the Extras object of the single member "metallicFactor":1 is
encoded with a "metallicFactor" member. -/
theorem C14_material_default_kept_when_extras_repeat_it :
    Float64.eq ({ NewMaterial with
        Extras := some (.obj [("alphaCutoff", .num "0.5".data)]) } : Material).AlphaCutoff
      fhalf = true ∧
    Material.MarshalJSON
        { NewMaterial with Extras := some (.obj [("alphaCutoff", .num "0.5".data)]) } =
      .ok "\x7b\"extras\":\x7b\x7d,\"alphaCutoff\":0.5\x7d".data ∧
    (∃ ms, IsObjectText "\x7b\"extras\":\x7b\x7d,\"alphaCutoff\":0.5\x7d".data ms ∧
      hasKey ms "alphaCutoff" = true ∧ lookupKey ms "extras" = some (.obj [])) ∧
    PBRMetallicRoughness.MarshalJSON
        { NewPBRMetallicRoughness with
          Extras := some (.obj [("metallicFactor", .num "1".data)]) } =
      .ok "\x7b\"extras\":\x7b\x7d,\"metallicFactor\":1\x7d".data ∧
    (∃ ms, IsObjectText "\x7b\"extras\":\x7b\x7d,\"metallicFactor\":1\x7d".data ms ∧
      hasKey ms "metallicFactor" = true) := by
  refine ⟨by decide!, by decide!,
    ⟨[("extras", .obj []), ("alphaCutoff", .num "0.5".data)], ?_, by decide!, by decide!⟩,
    by decide!, ⟨[("extras", .obj []), ("metallicFactor", .num "1".data)], ?_, by decide!⟩⟩
  · unfold IsObjectText
    decide!
  · unfold IsObjectText
    decide!

/-! ## Errors of the decoders -/

theorem assignIfOk_error {σ : Type} (r : σ) (e : JsonError) :
    assignIfOk r (.error e) = (r, some e) := rfl

/-- C15: for each of the sixteen entity kinds with an UnmarshalJSON method,
when json.Unmarshal into the temporary value returns an error, the method
returns that error and the receiver is the one before the call. -/
theorem C15_unmarshal_error_keeps_receiver :
    (∀ r data e, unmarshalStruct Document.fields data { Document.zero with Scene := -1 } =
        .error e → Document.UnmarshalJSON r data = (r, some e)) ∧
    (∀ r data e, unmarshalStruct Accessor.fields data NewAccessor = .error e →
      Accessor.UnmarshalJSON r data = (r, some e)) ∧
    (∀ r data e, unmarshalStruct BufferView.fields data { BufferView.zero with Buffer := -1 } =
        .error e → BufferView.UnmarshalJSON r data = (r, some e)) ∧
    (∀ r data e, unmarshalStruct Node.fields data NewNode = .error e →
      Node.UnmarshalJSON r data = (r, some e)) ∧
    (∀ r data e, unmarshalStruct Skin.fields data NewSkin = .error e →
      Skin.UnmarshalJSON r data = (r, some e)) ∧
    (∀ r data e, unmarshalStruct Primitive.fields data NewPrimitive = .error e →
      Primitive.UnmarshalJSON r data = (r, some e)) ∧
    (∀ r data e, unmarshalStruct Material.fields data NewMaterial = .error e →
      Material.UnmarshalJSON r data = (r, some e)) ∧
    (∀ r data e, unmarshalStruct NormalTexture.fields data (NewNormalTexture (-1)) = .error e →
      NormalTexture.UnmarshalJSON r data = (r, some e)) ∧
    (∀ r data e, unmarshalStruct OcclusionTexture.fields data (NewOcclusionTexture (-1)) =
        .error e → OcclusionTexture.UnmarshalJSON r data = (r, some e)) ∧
    (∀ r data e, unmarshalStruct PBRMetallicRoughness.fields data NewPBRMetallicRoughness =
        .error e → PBRMetallicRoughness.UnmarshalJSON r data = (r, some e)) ∧
    (∀ r data e, unmarshalStruct TextureInfo.fields data (NewTextureInfo (-1)) = .error e →
      TextureInfo.UnmarshalJSON r data = (r, some e)) ∧
    (∀ r data e, unmarshalStruct Texture.fields data NewTexture = .error e →
      Texture.UnmarshalJSON r data = (r, some e)) ∧
    (∀ r data e, unmarshalStruct Sampler.fields data NewSampler = .error e →
      Sampler.UnmarshalJSON r data = (r, some e)) ∧
    (∀ r data e, unmarshalStruct AnimationSampler.fields data NewAnimationSampler = .error e →
      AnimationSampler.UnmarshalJSON r data = (r, some e)) ∧
    (∀ r data e, unmarshalStruct Channel.fields data (NewChannel (-1)) = .error e →
      Channel.UnmarshalJSON r data = (r, some e)) ∧
    (∀ r data e, unmarshalStruct ChannelTarget.fields data (NewChannelTarget "") = .error e →
      ChannelTarget.UnmarshalJSON r data = (r, some e)) := by
  refine ⟨?_, ?_, ?_, ?_, ?_, ?_, ?_, ?_, ?_, ?_, ?_, ?_, ?_, ?_, ?_, ?_⟩
  · intro r data e h
    rw [Document.UnmarshalJSON, h, assignIfOk_error]
  · intro r data e h
    rw [Accessor.UnmarshalJSON, h, assignIfOk_error]
  · intro r data e h
    rw [BufferView.UnmarshalJSON, h, assignIfOk_error]
  · intro r data e h
    rw [Node.UnmarshalJSON, h, assignIfOk_error]
  · intro r data e h
    rw [Skin.UnmarshalJSON, h, assignIfOk_error]
  · intro r data e h
    rw [Primitive.UnmarshalJSON, h, assignIfOk_error]
  · intro r data e h
    rw [Material.UnmarshalJSON, h, assignIfOk_error]
  · intro r data e h
    rw [NormalTexture.UnmarshalJSON, h, assignIfOk_error]
  · intro r data e h
    rw [OcclusionTexture.UnmarshalJSON, h, assignIfOk_error]
  · intro r data e h
    rw [PBRMetallicRoughness.UnmarshalJSON, h, assignIfOk_error]
  · intro r data e h
    rw [TextureInfo.UnmarshalJSON, h, assignIfOk_error]
  · intro r data e h
    rw [Texture.UnmarshalJSON, h, assignIfOk_error]
  · intro r data e h
    rw [Sampler.UnmarshalJSON, h, assignIfOk_error]
  · intro r data e h
    rw [AnimationSampler.UnmarshalJSON, h, assignIfOk_error]
  · intro r data e h
    rw [Channel.UnmarshalJSON, h, assignIfOk_error]
  · intro r data e h
    rw [ChannelTarget.UnmarshalJSON, h, assignIfOk_error]

/-- Witness of C15: a Node object whose mesh is a string is a decode error, and
a receiver with a name and a mesh keeps both. -/
theorem C15_unmarshal_error_keeps_receiver_witness :
    Node.UnmarshalJSON { NewNode with Name := "kept", Mesh := 7 }
        "\x7b\"name\":\"new\",\"mesh\":\"x\"\x7d".data =
      ({ NewNode with Name := "kept", Mesh := 7 }, some .typeMismatch) :=
  C15_unmarshal_error_keeps_receiver.2.2.2.1 { NewNode with Name := "kept", Mesh := 7 }
    "\x7b\"name\":\"new\",\"mesh\":\"x\"\x7d".data .typeMismatch (by decide!)

/-- A member that its field rejects makes the decoding of the object fail. -/
theorem decodeMembers_error_of_member {σ : Type} (fs : List (Field σ)) :
    ∀ (ms : List (String × JSON)) (s : σ) (m : String × JSON) (f : Field σ), m ∈ ms →
      findField fs m.1 = some f → (∀ s0, ∃ e, f.decode m.2 s0 = .error e) →
      ∃ e, decodeMembers fs ms s = .error e
  | [], _, m, _, hm, _, _ => by simp at hm
  | (k, v) :: ms, s, m, f, hm, hf, hr => by
    simp only [decodeMembers]
    rcases List.mem_cons.mp hm with h | h
    · subst h
      simp only at hf hr
      rw [hf]
      obtain ⟨e, he⟩ := hr s
      exact ⟨e, by simp only [he]⟩
    · cases hk : findField fs k with
      | none => exact decodeMembers_error_of_member fs ms s m f h hf hr
      | some g =>
        simp only
        cases hg : g.decode v s with
        | error e => exact ⟨e, rfl⟩
        | ok s1 => exact decodeMembers_error_of_member fs ms s1 m f h hf hr

/-- An element that the element type rejects makes the decoding of the array
fail. -/
theorem decodeSliceElems_error {α : Type} (c : Codec α) (zero : α) :
    ∀ (js : List JSON) (x : JSON), x ∈ js → (∃ e, c.decode x zero = .error e) →
      ∃ e, decodeSliceElems c zero js = .error e
  | [], x, hx, _ => by simp at hx
  | j :: js, x, hx, hr => by
    simp only [decodeSliceElems]
    rcases List.mem_cons.mp hx with h | h
    · subst h
      obtain ⟨e, he⟩ := hr
      exact ⟨e, by simp only [he]⟩
    · cases hj : c.decode j zero with
      | error e => exact ⟨e, rfl⟩
      | ok a =>
        simp only
        obtain ⟨e, he⟩ := decodeSliceElems_error c zero js x h hr
        exact ⟨e, by simp only [he]⟩

theorem Field.of_error {σ α : Type} {name : String} {oe : Bool} {c : Codec α} {get : σ → α}
    {set : σ → α → σ} {j : JSON} {s : σ} (h : ∃ e, c.decode j (get s) = .error e) :
    ∃ e, (Field.of name oe c get set).decode j s = .error e := by
  obtain ⟨e, he⟩ := h
  exact ⟨e, by simp only [Field.of, he]⟩

/-! ## Values of a wrong JSON type -/

/-- An element that the element type rejects, within the length of the Go
array, makes the decoding of the array fail. -/
theorem decodeArrayElems_error {α : Type} (c : Codec α) (zero : α) :
    ∀ (n : Nat) (js : List JSON) (old : List α) (i : Nat) (x : JSON), i < n →
      js[i]? = some x → (∀ o, ∃ e, c.decode x o = .error e) →
      ∃ e, decodeArrayElems c zero n js old = .error e
  | 0, _, _, _, _, hi, _, _ => by omega
  | n + 1, [], _, i, x, _, hx, _ => by simp at hx
  | n + 1, j :: js, old, 0, x, _, hx, hr => by
    simp only [List.getElem?_cons_zero, Option.some.injEq] at hx
    subst hx
    obtain ⟨e, he⟩ := hr (old.headD zero)
    exact ⟨e, by simp only [decodeArrayElems, he]⟩
  | n + 1, j :: js, old, i + 1, x, hi, hx, hr => by
    simp only [List.getElem?_cons_succ] at hx
    simp only [decodeArrayElems]
    cases hj : c.decode j (old.headD zero) with
    | error e => exact ⟨e, rfl⟩
    | ok a =>
      obtain ⟨e, he⟩ := decodeArrayElems_error c zero n js old.tail i x (by omega) hx hr
      exact ⟨e, by simp only [he]⟩

/-- An entry whose value the value type rejects makes the decoding of the map
fail. -/
theorem decodeEntries_error {β : Type} (c : Codec β) (zero : β) :
    ∀ (ms : List (String × JSON)) (acc : List (String × β)) (m : String × JSON), m ∈ ms →
      (∃ e, c.decode m.2 zero = .error e) → ∃ e, decodeEntries c zero ms acc = .error e
  | [], _, _, hm, _ => by simp at hm
  | (k, v) :: ms, acc, m, hm, hr => by
    simp only [decodeEntries]
    rcases List.mem_cons.mp hm with h | h
    · subst h
      obtain ⟨e, he⟩ := hr
      exact ⟨e, by simp only [he]⟩
    · cases hj : c.decode v zero with
      | error e => exact ⟨e, rfl⟩
      | ok b => exact decodeEntries_error c zero ms _ m h hr

/-- The value null is of no wrong type. -/
theorem WrongType_ne_null {α : Type} {c : Codec α} {j : JSON} (h : WrongType c j) :
    j ≠ .null := by
  induction h with
  | int _ j h => intro e; rw [e] at h; exact absurd h (by decide)
  | uint _ j h => intro e; rw [e] at h; exact absurd h (by decide)
  | float j h => intro e; rw [e] at h; exact absurd h (by decide)
  | string j h => intro e; rw [e] at h; exact absurd h (by decide)
  | bool j h => intro e; rw [e] at h; exact absurd h (by decide)
  | array _ _ _ j h => intro e; rw [e] at h; exact absurd h (by decide)
  | arrayElement => intro e; cases e
  | slice _ _ j h => intro e; rw [e] at h; exact absurd h (by decide)
  | element => intro e; cases e
  | pointer _ _ _ _ ih => exact ih
  | map _ _ j h => intro e; rw [e] at h; exact absurd h (by decide)
  | entry => intro e; cases e
  | struct _ j h => intro e; rw [e] at h; exact absurd h (by decide)
  | member => intro e; cases e
  | unmarshaler _ _ _ _ _ _ ih => exact ih

/-- A value of a wrong JSON type is rejected by the decoder of the type,
whatever the variable holds. -/
theorem WrongType_rejected {α : Type} {c : Codec α} {j : JSON} (h : WrongType c j) :
    ∀ old, ∃ e, c.decode j old = .error e := by
  induction h with
  | int _ j h => intro old; cases j <;> simp [notNumber] at h <;> exact ⟨_, rfl⟩
  | uint _ j h => intro old; cases j <;> simp [notNumber] at h <;> exact ⟨_, rfl⟩
  | float j h => intro old; cases j <;> simp [notNumber] at h <;> exact ⟨_, rfl⟩
  | string j h => intro old; cases j <;> simp [notString] at h <;> exact ⟨_, rfl⟩
  | bool j h => intro old; cases j <;> simp [notBool] at h <;> exact ⟨_, rfl⟩
  | array _ _ _ j h => intro old; cases j <;> simp [notArray] at h <;> exact ⟨_, rfl⟩
  | arrayElement c zero n xs i x hi hx _ ih =>
    intro old
    exact decodeArrayElems_error c zero n xs old i x hi hx ih
  | slice _ _ j h => intro old; cases j <;> simp [notArray] at h <;> exact ⟨_, rfl⟩
  | element c zero xs x hx _ ih =>
    intro old
    obtain ⟨e, he⟩ := decodeSliceElems_error c zero xs x hx (ih zero)
    exact ⟨e, by simp only [sliceCodec, he, Except.map]⟩
  | pointer c zero j hw ih =>
    intro old
    obtain ⟨e, he⟩ := ih (old.getD zero)
    have hn := WrongType_ne_null hw
    cases j with
    | null => exact absurd rfl hn
    | _ => exact ⟨e, by simp only [ptrCodec, he, Except.map]⟩
  | map _ _ j h => intro old; cases j <;> simp [notObject] at h <;> exact ⟨_, rfl⟩
  | entry c zero ms m hm _ ih =>
    intro old
    obtain ⟨e, he⟩ := decodeEntries_error c zero ms (old.getD []) m hm (ih zero)
    exact ⟨e, by simp only [mapCodec, he, Except.map]⟩
  | struct _ j h => intro old; cases j <;> simp [notObject] at h <;> exact ⟨_, rfl⟩
  | member fs ms m name omitempty c get set hm hf _ ih =>
    intro old
    exact decodeMembers_error_of_member fs ms old m _ hm hf
      (fun s0 => Field.of_error (ih (get s0)))
  | unmarshaler c fs tmp j hc _ ih =>
    intro old
    rw [hc]
    exact ih tmp

/-- C16: the claim fails for the value null, which has the JSON type of no
field and which Document.UnmarshalJSON accepts for every field, leaving the
field as it is: null for the integer "scene", and null for "asset" and for
the "mesh" of a node, are decoded without an error.  It fails as well for an
element beyond the length of a fixed-size array, which is not looked at: a
string as the fourth element of the "scale" of a node is decoded without an
error. -/
theorem C16_null_and_surplus_element_are_accepted :
    Document.UnmarshalJSON Document.zero "\x7b\"scene\":null\x7d".data =
      ({ Document.zero with Scene := -1 }, none) ∧
    Document.UnmarshalJSON Document.zero
        "\x7b\"asset\":null,\"nodes\":[\x7b\"mesh\":null\x7d]\x7d".data =
      ({ Document.zero with Scene := -1, Nodes := some [NewNode] }, none) ∧
    Document.UnmarshalJSON Document.zero
        "\x7b\"nodes\":[\x7b\"scale\":[2,2,2,\"x\"]\x7d]\x7d".data =
      ({ Document.zero with
          Scene := -1,
          Nodes := some [{ NewNode with Scale := List.replicate 3 ⟨false, [2], 1⟩ }] }, none) := by
  refine ⟨by decide!, by decide!, by decide!⟩

/-- C16, amended: Document.UnmarshalJSON returns an error, and leaves the
receiver as it was, for every input that the JSON parser rejects and for every
input that is a JSON value of a wrong JSON type for Document: a value that is
neither an object nor null, or an object that gives a field of Document, or a
field at any depth below it, a value other than null of a JSON type that the
field does not take. -/
theorem C16_document_rejects_malformed_and_wrong_type (r : Document) (data : Bytes) :
    (parseJSON data = none → Document.UnmarshalJSON r data = (r, some .invalidJSON)) ∧
    (∀ j, parseJSON data = some j → WrongType (structCodec Document.fields) j →
      ∃ e, Document.UnmarshalJSON r data = (r, some e)) := by
  refine ⟨?_, ?_⟩
  · intro h
    simp only [Document.UnmarshalJSON, unmarshalStruct, h, assignIfOk]
  · intro j h hw
    obtain ⟨e, he⟩ := WrongType_rejected hw { Document.zero with Scene := -1 }
    simp only [structCodec] at he
    exact ⟨e, by simp only [Document.UnmarshalJSON, unmarshalStruct, h, he, assignIfOk]⟩

/-- Witness of C16, amended: the text of the repository test with an unquoted
key; a string for "scene"; a node with a string for "mesh"; a material with a
string for "alphaCutoff"; a node with a string as the second element of its
"scale"; and a boolean for the "index" of the base colour texture of a
material. -/
theorem C16_document_rejects_malformed_and_wrong_type_witness :
    Document.UnmarshalJSON Document.zero "\x7basset: \x7b\x7d\x7d".data =
      (Document.zero, some .invalidJSON) ∧
    (∃ e, Document.UnmarshalJSON Document.zero "\x7b\"scene\":\"0\"\x7d".data =
      (Document.zero, some e)) ∧
    (∃ e, Document.UnmarshalJSON Document.zero
        "\x7b\"nodes\":[\x7b\"mesh\":\"x\"\x7d]\x7d".data = (Document.zero, some e)) ∧
    (∃ e, Document.UnmarshalJSON Document.zero
        "\x7b\"materials\":[\x7b\"alphaCutoff\":\"x\"\x7d]\x7d".data = (Document.zero, some e)) ∧
    (∃ e, Document.UnmarshalJSON Document.zero
        "\x7b\"nodes\":[\x7b\"scale\":[1,\"x\",1]\x7d]\x7d".data = (Document.zero, some e)) ∧
    (∃ e, Document.UnmarshalJSON Document.zero
        "\x7b\"materials\":[\x7b\"pbrMetallicRoughness\":\x7b\"baseColorTexture\":\x7b\"index\":true\x7d\x7d\x7d]\x7d".data =
      (Document.zero, some e)) :=
  ⟨(C16_document_rejects_malformed_and_wrong_type Document.zero _).1 (by decide!),
    (C16_document_rejects_malformed_and_wrong_type Document.zero
      "\x7b\"scene\":\"0\"\x7d".data).2 (.obj [("scene", .str "0")]) (by decide!)
      (WrongType.member Document.fields _ ("scene", .str "0") "scene" false int32Codec
        (fun s => s.Scene) (fun s a => { s with Scene := a }) (by simp) rfl
        (WrongType.int 32 _ rfl)),
    (C16_document_rejects_malformed_and_wrong_type Document.zero
      "\x7b\"nodes\":[\x7b\"mesh\":\"x\"\x7d]\x7d".data).2
      (.obj [("nodes", .arr [.obj [("mesh", .str "x")]])]) (by decide!)
      (WrongType.member Document.fields _ ("nodes", .arr [.obj [("mesh", .str "x")]]) "nodes" true
        (sliceCodec Node.codec Node.zero) (fun s => s.Nodes) (fun s a => { s with Nodes := a })
        (by simp) rfl
        (WrongType.element Node.codec Node.zero _ (.obj [("mesh", .str "x")]) (by simp)
          (WrongType.unmarshaler Node.codec Node.fields NewNode _ (fun _ _ => rfl)
            (WrongType.member Node.fields _ ("mesh", .str "x") "mesh" false int32Codec
              (fun s => s.Mesh) (fun s a => { s with Mesh := a }) (by simp) rfl
              (WrongType.int 32 _ rfl))))),
    (C16_document_rejects_malformed_and_wrong_type Document.zero
      "\x7b\"materials\":[\x7b\"alphaCutoff\":\"x\"\x7d]\x7d".data).2
      (.obj [("materials", .arr [.obj [("alphaCutoff", .str "x")]])]) (by decide!)
      (WrongType.member Document.fields _ ("materials", .arr [.obj [("alphaCutoff", .str "x")]])
        "materials" true (sliceCodec Material.codec Material.zero) (fun s => s.Materials)
        (fun s a => { s with Materials := a }) (by simp) rfl
        (WrongType.element Material.codec Material.zero _ (.obj [("alphaCutoff", .str "x")])
          (by simp)
          (WrongType.unmarshaler Material.codec Material.fields NewMaterial _ (fun _ _ => rfl)
            (WrongType.member Material.fields _ ("alphaCutoff", .str "x") "alphaCutoff" false
              float64Codec (fun s => s.AlphaCutoff) (fun s a => { s with AlphaCutoff := a })
              (by simp) rfl (WrongType.float _ rfl))))),
    (C16_document_rejects_malformed_and_wrong_type Document.zero
      "\x7b\"nodes\":[\x7b\"scale\":[1,\"x\",1]\x7d]\x7d".data).2
      (.obj [("nodes", .arr [.obj [("scale", .arr [.num ['1'], .str "x", .num ['1']])]])])
      (by decide!)
      (WrongType.member Document.fields _
        ("nodes", .arr [.obj [("scale", .arr [.num ['1'], .str "x", .num ['1']])]]) "nodes" true
        (sliceCodec Node.codec Node.zero) (fun s => s.Nodes) (fun s a => { s with Nodes := a })
        (by simp) rfl
        (WrongType.element Node.codec Node.zero _
          (.obj [("scale", .arr [.num ['1'], .str "x", .num ['1']])]) (by simp)
          (WrongType.unmarshaler Node.codec Node.fields NewNode _ (fun _ _ => rfl)
            (WrongType.member Node.fields _ ("scale", .arr [.num ['1'], .str "x", .num ['1']])
              "scale" false (arrayCodec float64Codec f0 3) (fun s => s.Scale)
              (fun s a => { s with Scale := a }) (by simp) rfl
              (WrongType.arrayElement float64Codec f0 3 _ 1 (.str "x") (by decide) rfl
                (WrongType.float _ rfl)))))),
    (C16_document_rejects_malformed_and_wrong_type Document.zero
      "\x7b\"materials\":[\x7b\"pbrMetallicRoughness\":\x7b\"baseColorTexture\":\x7b\"index\":true\x7d\x7d\x7d]\x7d".data).2
      (.obj [("materials", .arr [.obj [("pbrMetallicRoughness",
        .obj [("baseColorTexture", .obj [("index", .bool true)])])]])]) (by decide!)
      (WrongType.member Document.fields _
        ("materials", .arr [.obj [("pbrMetallicRoughness",
          .obj [("baseColorTexture", .obj [("index", .bool true)])])]])
        "materials" true (sliceCodec Material.codec Material.zero) (fun s => s.Materials)
        (fun s a => { s with Materials := a }) (by simp) rfl
        (WrongType.element Material.codec Material.zero _
          (.obj [("pbrMetallicRoughness",
            .obj [("baseColorTexture", .obj [("index", .bool true)])])]) (by simp)
          (WrongType.unmarshaler Material.codec Material.fields NewMaterial _ (fun _ _ => rfl)
            (WrongType.member Material.fields _
              ("pbrMetallicRoughness", .obj [("baseColorTexture", .obj [("index", .bool true)])])
              "pbrMetallicRoughness" true
              (ptrCodec PBRMetallicRoughness.codec PBRMetallicRoughness.zero)
              (fun s => s.PBRMetallicRoughness) (fun s a => { s with PBRMetallicRoughness := a })
              (by simp) rfl
              (WrongType.pointer _ _ _
                (WrongType.unmarshaler PBRMetallicRoughness.codec PBRMetallicRoughness.fields
                  NewPBRMetallicRoughness _ (fun _ _ => rfl)
                  (WrongType.member PBRMetallicRoughness.fields _
                    ("baseColorTexture", .obj [("index", .bool true)]) "baseColorTexture" true
                    (ptrCodec TextureInfo.codec TextureInfo.zero) (fun s => s.BaseColorTexture)
                    (fun s a => { s with BaseColorTexture := a }) (by simp) rfl
                    (WrongType.pointer _ _ _
                      (WrongType.unmarshaler TextureInfo.codec TextureInfo.fields
                        (NewTextureInfo (-1)) _ (fun _ _ => rfl)
                        (WrongType.member TextureInfo.fields _ ("index", .bool true) "index"
                          false int32Codec (fun s => s.Index) (fun s a => { s with Index := a })
                          (by simp) rfl (WrongType.int 32 _ rfl)))))))))))⟩

/-! ## The asset of a document is not checked by the decoder -/

theorem Document_frames_asset : Frames Document.fields "asset" (fun x => x.Asset) := by
  intro g hg hne j s s1 h
  simp only [Document.fields, List.mem_cons, List.mem_singleton, List.not_mem_nil, or_false] at hg
  rcases hg with rfl | rfl | rfl | rfl | rfl | rfl | rfl | rfl | rfl | rfl | rfl | rfl | rfl | rfl | rfl | rfl | rfl | rfl | rfl
  all_goals first
    | exact absurd rfl hne
    | exact Field.of_frame _ h (fun _ _ => rfl)

/-- C17 fails as stated: Document.UnmarshalJSON accepts the empty object and
the object of the repository test that has buffers only, and the Document it
stores has an empty Asset.Version. -/
theorem C17_document_without_asset_is_accepted :
    (∀ r, Document.UnmarshalJSON r [lbrace, rbrace] = ({ Document.zero with Scene := -1 }, none)) ∧
    ({ Document.zero with Scene := -1 } : Document).Asset.Version = "" ∧
    (∀ r, Document.UnmarshalJSON r
        "\x7b\"buffers\": [\x7b\"byteLength\": 1, \"URI\": \"a.bin\"\x7d]\x7d".data =
      ({ Document.zero with
          Scene := -1,
          Buffers := some [{ Buffer.zero with ByteLength := 1, URI := "a.bin" }] }, none)) := by
  refine ⟨?_, rfl, ?_⟩
  · intro r
    have h : unmarshalStruct Document.fields [lbrace, rbrace]
        { Document.zero with Scene := -1 } = .ok { Document.zero with Scene := -1 } := by
      decide!
    simp only [Document.UnmarshalJSON, h, assignIfOk]
  · intro r
    have h : unmarshalStruct Document.fields
        "\x7b\"buffers\": [\x7b\"byteLength\": 1, \"URI\": \"a.bin\"\x7d]\x7d".data
        { Document.zero with Scene := -1 } =
        .ok { Document.zero with
          Scene := -1,
          Buffers := some [{ Buffer.zero with ByteLength := 1, URI := "a.bin" }] } := by
      decide!
    simp only [Document.UnmarshalJSON, h, assignIfOk]

/-- C17, amended: Document.UnmarshalJSON does not require the asset.  For every
JSON object in which no key matches "asset", with or without regard to case,
the Document stored by a call that returns no error has the zero Asset, whose
Version is empty. -/
theorem C17_absent_asset_decodes_to_empty_version (data : Bytes) (ms : List (String × JSON))
    (ho : IsObjectText data ms) (hl : LacksKey ms "asset") (r d1 : Document)
    (h : Document.UnmarshalJSON r data = (d1, none)) :
    d1.Asset = Asset.zero ∧ d1.Asset.Version = "" := by
  have h1 := unmarshal_absent Document.fields "asset" (fun x => x.Asset) Document_frames_asset
    data ms ho hl { Document.zero with Scene := -1 } d1 (assignIfOk_none _ _ _ h)
  simp only at h1
  rw [h1]
  exact ⟨rfl, rfl⟩

/-- Witness of C17, amended: the object of the repository test that has buffers
only. -/
theorem C17_absent_asset_decodes_to_empty_version_witness :
    Document.UnmarshalJSON Document.zero
        "\x7b\"buffers\": [\x7b\"byteLength\": 1, \"URI\": \"a.bin\"\x7d]\x7d".data =
      ({ Document.zero with
          Scene := -1,
          Buffers := some [{ Buffer.zero with ByteLength := 1, URI := "a.bin" }] }, none) ∧
    ({ Document.zero with
        Scene := -1,
        Buffers := some [{ Buffer.zero with ByteLength := 1, URI := "a.bin" }] } :
      Document).Asset.Version = "" :=
  ⟨by decide!,
    (C17_absent_asset_decodes_to_empty_version
      "\x7b\"buffers\": [\x7b\"byteLength\": 1, \"URI\": \"a.bin\"\x7d]\x7d".data
      [("buffers", .arr [.obj [("byteLength", .num ['1']), ("URI", .str "a.bin")]])]
      (by unfold IsObjectText; decide!) (by unfold LacksKey; decide) Document.zero
      { Document.zero with
        Scene := -1,
        Buffers := some [{ Buffer.zero with ByteLength := 1, URI := "a.bin" }] }
      (by decide!)).2⟩

/-! ## Go strings and base64 -/

theorem goBytes_append (a b : String) : goBytes (a ++ b) = goBytes a ++ goBytes b := by
  simp [goBytes]

theorem utf8Bytes_ofNat (n : Nat) (h : n < 128) : utf8Bytes (Char.ofNat n) = [n] := by
  interval_cases n <;> rfl

theorem goBytes_goString : ∀ (bs : List Nat), (∀ b ∈ bs, b < 128) → goBytes (goString bs) = bs
  | [], _ => rfl
  | b :: bs, h => by
    have ih := goBytes_goString bs (fun x hx => h x (List.mem_cons_of_mem _ hx))
    simp only [goBytes, goString, List.map_cons, List.flatten_cons] at ih ⊢
    rw [ih, utf8Bytes_ofNat b (h b (List.mem_cons_self _ _))]
    rfl

theorem base64Char_spec : ∀ v, v < 64 → base64Char v < 128 ∧ decodeMap (base64Char v) = some v := by
  decide

theorem padChar_spec : decodeMap padChar = none ∧ padChar ≠ 10 ∧ padChar ≠ 13 ∧ padChar < 128 := by
  decide

theorem base64Encode_ascii : ∀ (n : Nat) (d : List Nat), d.length ≤ n →
    ∀ b ∈ base64Encode d, b < 128
  | 0, [], _, b, hb => by simp [base64Encode] at hb
  | n + 1, [], _, b, hb => by simp [base64Encode] at hb
  | n + 1, [a], _, b, hb => by
    simp only [base64Encode, List.mem_cons, List.mem_singleton, List.not_mem_nil,
      or_false] at hb
    rcases hb with rfl | rfl | rfl | rfl
    · exact (base64Char_spec _ (Nat.mod_lt _ (by decide))).1
    · exact (base64Char_spec _ (Nat.mod_lt _ (by decide))).1
    · exact padChar_spec.2.2.2
    · exact padChar_spec.2.2.2
  | n + 1, [a, b1], _, b, hb => by
    simp only [base64Encode, List.mem_cons, List.mem_singleton, List.not_mem_nil,
      or_false] at hb
    rcases hb with rfl | rfl | rfl | rfl
    · exact (base64Char_spec _ (Nat.mod_lt _ (by decide))).1
    · exact (base64Char_spec _ (Nat.mod_lt _ (by decide))).1
    · exact (base64Char_spec _ (Nat.mod_lt _ (by decide))).1
    · exact padChar_spec.2.2.2
  | n + 1, a :: b1 :: c :: rest, hl, b, hb => by
    simp only [base64Encode, List.mem_cons] at hb
    rcases hb with rfl | rfl | rfl | rfl | hb
    · exact (base64Char_spec _ (Nat.mod_lt _ (by decide))).1
    · exact (base64Char_spec _ (Nat.mod_lt _ (by decide))).1
    · exact (base64Char_spec _ (Nat.mod_lt _ (by decide))).1
    · exact (base64Char_spec _ (Nat.mod_lt _ (by decide))).1
    · exact base64Encode_ascii n rest (by simp only [List.length_cons] at hl; omega) b hb

theorem quantumBytes_full (a b c : Nat) (ha : a < 256) (hb : b < 256) (hc : c < 256) :
    quantumBytes [(a * 65536 + b * 256 + c) / 262144 % 64, (a * 65536 + b * 256 + c) / 4096 % 64,
      (a * 65536 + b * 256 + c) / 64 % 64, (a * 65536 + b * 256 + c) % 64] 4 = [a, b, c] := by
  simp only [quantumBytes, List.getD_cons_zero, List.getD_cons_succ, List.take, Nat.reduceSub,
    List.cons.injEq, and_true]
  refine ⟨?_, ?_, ?_⟩ <;> omega

theorem quantumBytes_two (a b : Nat) (ha : a < 256) (hb : b < 256) :
    quantumBytes [(a * 65536 + b * 256) / 262144 % 64, (a * 65536 + b * 256) / 4096 % 64,
      (a * 65536 + b * 256) / 64 % 64] 3 = [a, b] := by
  simp only [quantumBytes, List.getD_cons_zero, List.getD_cons_succ, List.getD_nil, List.take,
    Nat.reduceSub, List.cons.injEq, and_true]
  refine ⟨?_, ?_⟩ <;> omega

theorem quantumBytes_one (a : Nat) (ha : a < 256) :
    quantumBytes [a * 65536 / 262144 % 64, a * 65536 / 4096 % 64] 2 = [a] := by
  simp only [quantumBytes, List.getD_cons_zero, List.getD_cons_succ, List.getD_nil, List.take,
    Nat.reduceSub, List.cons.injEq, and_true]
  omega

/-- Decoding what base64Encode wrote stores the bytes that were encoded and
reports no error. -/
theorem base64Decode_encode : ∀ (n : Nat) (d : List Nat), d.length ≤ n → (∀ x ∈ d, x < 256) →
    ∀ (len si : Nat) (out : List Nat),
      base64Decode len (base64Encode d) si [] out = (out ++ d, none)
  | 0, [], _, _, len, si, out => by simp [base64Encode, base64Decode]
  | n + 1, [], _, _, len, si, out => by simp [base64Encode, base64Decode]
  | n + 1, [a], _, hd, len, si, out => by
    have ha : a < 256 := hd a (by simp)
    have h0 := (base64Char_spec (a * 65536 / 262144 % 64) (Nat.mod_lt _ (by decide))).2
    have h1 := (base64Char_spec (a * 65536 / 4096 % 64) (Nat.mod_lt _ (by decide))).2
    obtain ⟨hp, hp1, hp2, _⟩ := padChar_spec
    simp only [base64Encode, base64Decode, h0, h1, hp, List.length_nil, List.nil_append,
      List.length_cons, List.singleton_append, skipNewlines, finishPadded, hp1, hp2, or_self,
      if_false, ne_eq, not_true_eq_false, Nat.reduceEqDiff, Nat.reduceLT, Nat.zero_add,
      Nat.reduceAdd, List.length_singleton, OfNat.ofNat_ne_one, OfNat.zero_ne_ofNat,
      OfNat.one_ne_ofNat, if_true, Nat.lt_irrefl]
    rw [quantumBytes_one a ha]
  | n + 1, [a, b], _, hd, len, si, out => by
    have ha : a < 256 := hd a (by simp)
    have hb : b < 256 := hd b (by simp)
    have h0 := (base64Char_spec ((a * 65536 + b * 256) / 262144 % 64)
      (Nat.mod_lt _ (by decide))).2
    have h1 := (base64Char_spec ((a * 65536 + b * 256) / 4096 % 64) (Nat.mod_lt _ (by decide))).2
    have h2 := (base64Char_spec ((a * 65536 + b * 256) / 64 % 64) (Nat.mod_lt _ (by decide))).2
    obtain ⟨hp, hp1, hp2, _⟩ := padChar_spec
    simp only [base64Encode, base64Decode, h0, h1, h2, hp, List.length_nil, List.nil_append,
      List.length_cons, List.singleton_append, List.cons_append, skipNewlines, finishPadded,
      hp1, hp2, or_self,
      if_false, ne_eq, not_true_eq_false, Nat.reduceEqDiff, Nat.reduceLT, Nat.zero_add,
      Nat.reduceAdd, List.length_singleton, OfNat.ofNat_ne_one, OfNat.zero_ne_ofNat,
      OfNat.one_ne_ofNat, if_true, Nat.lt_irrefl]
    rw [quantumBytes_two a b ha hb]
  | n + 1, a :: b :: c :: rest, hl, hd, len, si, out => by
    have ha : a < 256 := hd a (by simp)
    have hb : b < 256 := hd b (by simp)
    have hc : c < 256 := hd c (by simp)
    have h0 := (base64Char_spec ((a * 65536 + b * 256 + c) / 262144 % 64)
      (Nat.mod_lt _ (by decide))).2
    have h1 := (base64Char_spec ((a * 65536 + b * 256 + c) / 4096 % 64)
      (Nat.mod_lt _ (by decide))).2
    have h2 := (base64Char_spec ((a * 65536 + b * 256 + c) / 64 % 64)
      (Nat.mod_lt _ (by decide))).2
    have h3 := (base64Char_spec ((a * 65536 + b * 256 + c) % 64) (Nat.mod_lt _ (by decide))).2
    have ih := base64Decode_encode n rest (by simp only [List.length_cons] at hl; omega)
      (fun x hx => hd x (by simp [hx])) len (si + 1 + 1 + 1 + 1) (out ++ [a, b, c])
    simp only [base64Encode, base64Decode, h0, h1, h2, h3, List.length_nil, List.nil_append,
      List.length_cons, List.singleton_append, List.cons_append, Nat.zero_add, Nat.reduceAdd,
      Nat.reduceEqDiff, if_false, if_true, OfNat.zero_ne_ofNat, OfNat.one_ne_ofNat,
      List.length_singleton]
    rw [quantumBytes_full a b c ha hb hc, ih]
    simp

theorem base64DecodeString_encode (d : List Nat) (hd : ∀ x ∈ d, x < 256) :
    base64DecodeString (base64Encode d) = (d, none) := by
  have h := base64Decode_encode d.length d (Nat.le_refl _) hd (base64Encode d).length 0 []
  simpa [base64DecodeString] using h

/-! ## Embedded resources -/

theorem goBytes_dataURI (p : String) (d : List Nat) :
    goBytes (p ++ "," ++ base64EncodeToString d) = goBytes p ++ 44 :: base64Encode d := by
  rw [goBytes_append, goBytes_append, base64EncodeToString,
    goBytes_goString _ (base64Encode_ascii d.length d (Nat.le_refl _)), List.append_assoc]
  rfl

theorem hasPrefix_dataURI (p : String) (d : List Nat) :
    hasPrefix (p ++ "," ++ base64EncodeToString d) p = true := by
  rw [hasPrefix, goBytes_dataURI, List.isPrefixOf_iff_prefix]
  exact List.prefix_append _ _

theorem sliceFrom_dataURI (p : String) (d : List Nat) :
    sliceFrom (goBytes (p ++ "," ++ base64EncodeToString d)) ((goBytes p).length + 1) =
      .returns (base64Encode d) := by
  rw [goBytes_dataURI, sliceFrom, if_pos (by simp)]
  congr 1
  rw [← List.drop_drop, List.drop_left]
  rfl

/-- C18: for every Buffer, whatever its Data, the buffer that
EmbeddedResource leaves is an embedded resource, holds the same Data, and its
marshalData returns exactly the Data and no error. -/
theorem C18_embeddedResource_then_marshalData (b : Buffer) (hd : ∀ x ∈ b.Data, x < 256) :
    b.EmbeddedResource.IsEmbeddedResource = true ∧
    b.EmbeddedResource.Data = b.Data ∧
    b.EmbeddedResource.marshalData = .returns (b.Data, none) := by
  have h1 : b.EmbeddedResource.IsEmbeddedResource = true :=
    hasPrefix_dataURI mimetypeApplicationOctet b.Data
  refine ⟨h1, rfl, ?_⟩
  rw [Buffer.marshalData, h1]
  simp only [Bool.not_true, Bool.false_eq_true, if_false, Buffer.EmbeddedResource]
  rw [sliceFrom_dataURI]
  simp only [base64DecodeString_encode b.Data hd]

/-- Witness of C18: a buffer of four bytes and a buffer without bytes. -/
theorem C18_embeddedResource_then_marshalData_witness :
    (Buffer.EmbeddedResource { Buffer.zero with Data := [1, 2, 3, 255] }).marshalData =
      .returns ([1, 2, 3, 255], none) ∧
    (Buffer.EmbeddedResource Buffer.zero).marshalData = .returns ([], none) :=
  ⟨(C18_embeddedResource_then_marshalData { Buffer.zero with Data := [1, 2, 3, 255] }
      (by decide)).2.2,
    (C18_embeddedResource_then_marshalData Buffer.zero (by decide)).2.2⟩

/-- C19: a Buffer whose URI does not start with mimetypeApplicationOctet has a
marshalData that returns no bytes and no error, and so has the MarshalData of
an Image whose URI starts with neither mimetypeImagePNG nor
mimetypeImageJPG. -/
theorem C19_not_embedded_returns_empty :
    (∀ b : Buffer, hasPrefix b.URI mimetypeApplicationOctet = false →
      b.marshalData = .returns ([], none)) ∧
    (∀ im : Image, hasPrefix im.URI mimetypeImagePNG = false →
      hasPrefix im.URI mimetypeImageJPG = false → im.MarshalData = .returns ([], none)) := by
  constructor
  · intro b h
    simp [Buffer.marshalData, Buffer.IsEmbeddedResource, h]
  · intro im h1 h2
    simp [Image.MarshalData, Image.IsEmbeddedResource, h1, h2]

/-- Witness of C19: the buffer and the image of the Cube test document. -/
theorem C19_not_embedded_returns_empty_witness :
    Buffer.marshalData { Buffer.zero with URI := "Cube.bin", ByteLength := 1800 } =
      .returns ([], none) ∧
    Image.MarshalData { Image.zero with URI := "Cube_BaseColor.png" } = .returns ([], none) :=
  ⟨C19_not_embedded_returns_empty.1 { Buffer.zero with URI := "Cube.bin", ByteLength := 1800 }
      (by decide),
    C19_not_embedded_returns_empty.2 { Image.zero with URI := "Cube_BaseColor.png" }
      (by decide) (by decide)⟩

theorem hasPrefix_jpg_of_png (d : List Nat) :
    hasPrefix (mimetypeImagePNG ++ "," ++ base64EncodeToString d) mimetypeImageJPG = false := by
  rw [hasPrefix, goBytes_dataURI]
  have h1 : goBytes mimetypeImagePNG =
      [100, 97, 116, 97, 58, 105, 109, 97, 103, 101, 47, 112, 110, 103, 59, 98, 97, 115, 101,
        54, 52] := by decide
  have h2 : goBytes mimetypeImageJPG =
      [100, 97, 116, 97, 58, 105, 109, 97, 103, 101, 47, 106, 112, 101, 103, 59, 98, 97, 115,
        101, 54, 52] := by decide
  rw [h1, h2]
  rfl

/-- C20: for every sequence of bytes d, an Image whose URI is mimetypeImagePNG,
or mimetypeImageJPG, followed by a comma and the standard base64 encoding of d
is an embedded resource, and its MarshalData returns exactly d and no
error. -/
theorem C20_image_data_uri_roundtrip (d : List Nat) (hd : ∀ x ∈ d, x < 256) (im : Image) :
    (im.URI = mimetypeImagePNG ++ "," ++ base64EncodeToString d →
      im.IsEmbeddedResource = true ∧ im.MarshalData = .returns (d, none)) ∧
    (im.URI = mimetypeImageJPG ++ "," ++ base64EncodeToString d →
      im.IsEmbeddedResource = true ∧ im.MarshalData = .returns (d, none)) := by
  constructor
  · intro h
    have h1 : hasPrefix im.URI mimetypeImagePNG = true := by
      rw [h]
      exact hasPrefix_dataURI _ d
    have h2 : hasPrefix im.URI mimetypeImageJPG = false := by
      rw [h]
      exact hasPrefix_jpg_of_png d
    have h3 : im.IsEmbeddedResource = true := by
      simp [Image.IsEmbeddedResource, h1]
    refine ⟨h3, ?_⟩
    rw [Image.MarshalData, h3, h2]
    simp only [Bool.not_true, Bool.false_eq_true, if_false]
    rw [h, sliceFrom_dataURI]
    simp only [base64DecodeString_encode d hd]
  · intro h
    have h2 : hasPrefix im.URI mimetypeImageJPG = true := by
      rw [h]
      exact hasPrefix_dataURI _ d
    have h3 : im.IsEmbeddedResource = true := by
      simp [Image.IsEmbeddedResource, h2]
    refine ⟨h3, ?_⟩
    rw [Image.MarshalData, h3, h2]
    simp only [Bool.not_true, Bool.false_eq_true, if_false, if_true]
    rw [h, sliceFrom_dataURI]
    simp only [base64DecodeString_encode d hd]

/-- Witness of C20: the three bytes 65, 66, 67 as a PNG and as a JPEG data
URI. -/
theorem C20_image_data_uri_roundtrip_witness :
    Image.MarshalData { Image.zero with URI := "data:image/png;base64,QUJD" } =
      .returns ([65, 66, 67], none) ∧
    Image.MarshalData { Image.zero with URI := "data:image/jpeg;base64,QUJD" } =
      .returns ([65, 66, 67], none) :=
  ⟨((C20_image_data_uri_roundtrip [65, 66, 67] (by decide)
      { Image.zero with URI := "data:image/png;base64,QUJD" }).1 (by decide)).2,
    ((C20_image_data_uri_roundtrip [65, 66, 67] (by decide)
      { Image.zero with URI := "data:image/jpeg;base64,QUJD" }).2 (by decide)).2⟩

/-! ## bytes.Replace on the text of an object -/

theorem replaceFirst_hit (old new rest : Bytes) :
    replaceFirst old new (old ++ rest) = new ++ rest := by
  have hp : old.isPrefixOf (old ++ rest) = true := by
    rw [List.isPrefixOf_iff_prefix]
    exact List.prefix_append _ _
  cases h : old ++ rest with
  | nil =>
    have h1 : old = [] := (List.append_eq_nil.mp h).1
    have h2 : rest = [] := (List.append_eq_nil.mp h).2
    subst h1 h2
    simp [replaceFirst]
  | cons c cs =>
    rw [h] at hp
    simp only [replaceFirst, hp, if_true]
    rw [← h, List.drop_left]

theorem replaceFirst_mismatch (old new : Bytes) (c : Char) (cs : Bytes)
    (h : old.isPrefixOf (c :: cs) = false) :
    replaceFirst old new (c :: cs) = c :: replaceFirst old new cs := by
  simp [replaceFirst, h]

theorem replaceFirst_char (h : Char) (t new : Bytes) (c : Char) (cs : Bytes) (hc : c ≠ h) :
    replaceFirst (h :: t) new (c :: cs) = c :: replaceFirst (h :: t) new cs := by
  apply replaceFirst_mismatch
  simp [List.isPrefixOf, Ne.symm hc]

theorem replaceFirst_nil (h : Char) (t new : Bytes) : replaceFirst (h :: t) new [] = [] := by
  simp [replaceFirst, List.isPrefixOf]

theorem replaceFirst_skip (h : Char) (t new : Bytes) :
    ∀ (u rest : Bytes), h ∉ u →
      replaceFirst (h :: t) new (u ++ rest) = u ++ replaceFirst (h :: t) new rest
  | [], _, _ => rfl
  | c :: u, rest, hu => by
    have hc : c ≠ h := fun e => hu (by simp [e])
    rw [List.cons_append, replaceFirst_char h t new c _ hc,
      replaceFirst_skip h t new u rest (fun e => hu (List.mem_cons_of_mem _ e))]
    rfl

/-- A key other than the key of the pattern does not start a match. -/
theorem isPrefixOf_key_ne : ∀ (K k : Bytes), dquote ∉ K → dquote ∉ k → k ≠ K →
    ∀ (V Y : Bytes), (K ++ dquote :: V).isPrefixOf (k ++ dquote :: Y) = false
  | [], [], _, _, hne, _, _ => absurd rfl hne
  | [], c :: k, _, hk, _, V, Y => by
    have hc : c ≠ dquote := fun e => hk (by simp [e])
    simp [List.isPrefixOf, Ne.symm hc]
  | a :: K, [], hK, _, _, V, Y => by
    have ha : a ≠ dquote := fun e => hK (by simp [e])
    simp [List.isPrefixOf, ha]
  | a :: K, c :: k, hK, hk, hne, V, Y => by
    simp only [List.cons_append, List.isPrefixOf, Bool.and_eq_false_imp, beq_iff_eq]
    intro hac
    subst hac
    exact isPrefixOf_key_ne K k (fun e => hK (List.mem_cons_of_mem _ e))
      (fun e => hk (List.mem_cons_of_mem _ e)) (fun e => hne (by rw [e])) V Y

/-- The text written for one character of a string: the character itself, a
backslash and a quote, or a backslash and characters other than a quote. -/
theorem escapeChar_shape (c : Char) :
    (escapeChar c = [c] ∧ c ≠ dquote ∧ c ≠ bslash) ∨ escapeChar c = [bslash, dquote] ∨
      ∃ tl, escapeChar c = bslash :: tl ∧ dquote ∉ tl := by
  unfold escapeChar
  split
  · rename_i h
    rcases h with rfl | rfl
    · exact Or.inr (Or.inl rfl)
    · exact Or.inr (Or.inr ⟨[bslash], rfl, by decide⟩)
  rename_i h0
  split
  · exact Or.inr (Or.inr ⟨['n'], rfl, by decide⟩)
  split
  · exact Or.inr (Or.inr ⟨['r'], rfl, by decide⟩)
  split
  · exact Or.inr (Or.inr ⟨['t'], rfl, by decide⟩)
  split
  · exact Or.inr (Or.inr ⟨['b'], rfl, by decide⟩)
  split
  · exact Or.inr (Or.inr ⟨['f'], rfl, by decide⟩)
  split
  · rename_i h
    refine Or.inr (Or.inr ⟨_, rfl, ?_⟩)
    have hh : ∀ n, n < 16 → hexDigit n ≠ dquote := by decide
    have hlt : c.toNat < 64 := by
      rcases h with h | rfl | rfl | rfl
      · omega
      · decide
      · decide
      · decide
    have h1 := hh (c.toNat / 16) (by omega)
    have h2 := hh (c.toNat % 16) (Nat.mod_lt _ (by decide))
    simp only [List.mem_cons, List.mem_singleton, List.not_mem_nil, or_false, not_or]
    exact ⟨by decide, by decide, by decide, Ne.symm h1, Ne.symm h2⟩
  split
  · exact Or.inr (Or.inr ⟨_, rfl, by decide⟩)
  split
  · exact Or.inr (Or.inr ⟨_, rfl, by decide⟩)
  · exact Or.inl ⟨rfl, fun e => h0 (Or.inl e), fun e => h0 (Or.inr e)⟩

/-- A key does not match inside the body of a string, nor at its closing
quote when a character other than a colon follows. -/
theorem isPrefixOf_key_string : ∀ (K : Bytes), (∀ k ∈ K, k ≠ dquote ∧ k ≠ bslash) →
    ∀ (V : Bytes) (n : List Char) (d : Char) (R : Bytes), d ≠ colon →
      (K ++ dquote :: colon :: V).isPrefixOf (escapeString n ++ dquote :: d :: R) = false
  | [], _, V, [], d, R, hd => by
    simp [escapeString, List.isPrefixOf, Ne.symm hd]
  | [], _, V, c :: cs, d, R, _ => by
    obtain ⟨e, tl, he, hne⟩ := escapeChar_head_ne_dquote c
    simp [escapeString, he, List.isPrefixOf, Ne.symm hne]
  | a :: K, hK, V, [], d, R, _ => by
    have ha := (hK a (List.mem_cons_self _ _)).1
    simp [escapeString, List.isPrefixOf, ha]
  | a :: K, hK, V, c :: cs, d, R, hd => by
    have ha := hK a (List.mem_cons_self _ _)
    rcases escapeChar_shape c with ⟨h1, _, _⟩ | h1 | ⟨tl, h1, _⟩
    · simp only [escapeString, h1, List.cons_append, List.nil_append, List.isPrefixOf,
        Bool.and_eq_false_imp, beq_iff_eq]
      intro _
      exact isPrefixOf_key_string K (fun k hk => hK k (List.mem_cons_of_mem _ hk)) V cs d R hd
    · simp [escapeString, h1, List.isPrefixOf, ha.2]
    · simp [escapeString, h1, List.isPrefixOf, ha.2]

/-- The search for a key passes over the body of a string and its closing
quote. -/
theorem replaceFirst_skip_string (k0 : Char) (K V new : Bytes)
    (hK : ∀ k ∈ k0 :: K, k ≠ dquote ∧ k ≠ bslash) :
    ∀ (n : List Char) (d : Char) (R : Bytes), d ≠ colon → d ≠ k0 →
      replaceFirst (dquote :: k0 :: (K ++ dquote :: colon :: V)) new
          (escapeString n ++ dquote :: d :: R) =
        escapeString n ++ dquote ::
          replaceFirst (dquote :: k0 :: (K ++ dquote :: colon :: V)) new (d :: R)
  | [], d, R, _, hd => by
    simp only [escapeString, List.nil_append]
    apply replaceFirst_mismatch
    simp [List.isPrefixOf, Ne.symm hd]
  | c :: cs, d, R, hc, hd => by
    have ih := replaceFirst_skip_string k0 K V new hK cs d R hc hd
    rcases escapeChar_shape c with ⟨h1, h2, _⟩ | h1 | ⟨tl, h1, h2⟩
    · simp only [escapeString, h1, List.cons_append, List.nil_append]
      rw [replaceFirst_char _ _ _ _ _ h2, ih]
    · simp only [escapeString, h1, List.cons_append, List.nil_append]
      rw [replaceFirst_char _ _ _ _ _ (by decide), replaceFirst_mismatch, ih]
      simp only [List.isPrefixOf, beq_self_eq_true, Bool.true_and]
      exact isPrefixOf_key_string (k0 :: K) hK V cs d R hc
    · simp only [escapeString, h1, List.cons_append]
      rw [replaceFirst_char _ _ _ _ _ (by decide), List.append_assoc,
        replaceFirst_skip _ _ _ tl _ h2, ih, List.append_assoc]

/-- The body of a string holds a character only if the string does, for a
character that no escape sequence is made of. -/
theorem escapeString_not_mem (x : Char) (hx : x ≠ bslash ∧ x ≠ dquote ∧ x ≠ 'n' ∧ x ≠ 'r' ∧
    x ≠ 't' ∧ x ≠ 'u' ∧ x ≠ '0' ∧ x ≠ '2' ∧ x ≠ '8' ∧ x ≠ '9' ∧ ∀ n, n < 16 → x ≠ hexDigit n) :
    ∀ (n : List Char), x ∉ n → x ∉ escapeString n
  | [], _ => by simp [escapeString]
  | c :: cs, h => by
    have hc : x ≠ c := fun e => h (by simp [e])
    have ih := escapeString_not_mem x hx cs (fun e => h (List.mem_cons_of_mem _ e))
    obtain ⟨h1, h2, h3, h4, h5, h6, h7, h8, h9, h10, h11⟩ := hx
    have hb := h11 11 (by decide)
    rw [show hexDigit 11 = 'b' by decide] at hb
    have hf := h11 15 (by decide)
    rw [show hexDigit 15 = 'f' by decide] at hf
    simp only [escapeString, List.mem_append, not_or]
    refine ⟨?_, ih⟩
    unfold escapeChar
    by_cases c1 : c = dquote ∨ c = bslash
    · rw [if_pos c1]
      simp [h1, hc]
    rw [if_neg c1]
    by_cases c2 : c.toNat = 10
    · rw [if_pos c2]
      simp [h1, h3]
    rw [if_neg c2]
    by_cases c3 : c.toNat = 13
    · rw [if_pos c3]
      simp [h1, h4]
    rw [if_neg c3]
    by_cases c4 : c.toNat = 9
    · rw [if_pos c4]
      simp [h1, h5]
    rw [if_neg c4]
    by_cases c5 : c.toNat = 8
    · rw [if_pos c5]
      simp [h1, hb]
    rw [if_neg c5]
    by_cases c6 : c.toNat = 12
    · rw [if_pos c6]
      simp [h1, hf]
    rw [if_neg c6]
    by_cases c7 : c.toNat < 32 ∨ c = '<' ∨ c = '>' ∨ c = '&'
    · rw [if_pos c7]
      have hlt : c.toNat < 64 := by
        rcases c7 with h | rfl | rfl | rfl
        · omega
        · decide
        · decide
        · decide
      simp [h1, h6, h7, h11 (c.toNat / 16) (by omega),
        h11 (c.toNat % 16) (Nat.mod_lt _ (by decide))]
    rw [if_neg c7]
    by_cases c8 : c.toNat = 8232
    · rw [if_pos c8]
      simp [h1, h6, h7, h8, h9]
    rw [if_neg c8]
    by_cases c9 : c.toNat = 8233
    · rw [if_pos c9]
      simp [h1, h6, h7, h8, h10]
    rw [if_neg c9]
    simp [hc]

theorem memberText_append (key : String) (value X : Bytes) :
    memberText key value ++ X = dquote :: (key.data ++ dquote :: colon :: (value ++ X)) := by
  simp [memberText]

/-- The search for a member passes over a member of another key whose value
holds no quote. -/
theorem replaceFirst_skip_member (k κ : String) (pv new v X : Bytes) (k0 : Char) (K : Bytes)
    (hk : k.data = k0 :: K) (hk0 : k0 ≠ colon) (hq : dquote ∉ k.data) (hκ : dquote ∉ κ.data)
    (hne : κ.data ≠ k.data) (hv : dquote ∉ v) :
    replaceFirst (memberText k pv) new (memberText κ v ++ X) =
      memberText κ v ++ replaceFirst (memberText k pv) new X := by
  rw [memberText_append]
  rw [replaceFirst_mismatch _ _ _ _ (by
    simp only [memberText, List.isPrefixOf, beq_self_eq_true, Bool.true_and]
    exact isPrefixOf_key_ne k.data κ.data hq hκ hne _ _)]
  simp only [memberText]
  rw [replaceFirst_skip _ _ _ κ.data _ hκ]
  rw [replaceFirst_mismatch _ _ _ _ (by
    simp [hk, List.isPrefixOf, hk0])]
  rw [replaceFirst_char _ _ _ _ _ (by decide), replaceFirst_skip _ _ _ v _ hv]
  simp

/-- The search for a member passes over a member of another key whose value
is a string, when the character after it is not a colon. -/
theorem replaceFirst_skip_string_member (k κ : String) (pv new : Bytes) (s : String) (d : Char)
    (R : Bytes) (k0 : Char) (K : Bytes)
    (hk : k.data = k0 :: K) (hk0 : k0 ≠ colon) (hq : ∀ c ∈ k.data, c ≠ dquote ∧ c ≠ bslash)
    (hκ : dquote ∉ κ.data) (hne : κ.data ≠ k.data) (hd : d ≠ colon) (hd0 : d ≠ k0) :
    replaceFirst (memberText k pv) new (memberText κ (stringText s) ++ d :: R) =
      memberText κ (stringText s) ++ replaceFirst (memberText k pv) new (d :: R) := by
  have hq1 : dquote ∉ k.data := fun e => (hq _ e).1 rfl
  rw [memberText_append]
  rw [replaceFirst_mismatch _ _ _ _ (by
    simp only [memberText, List.isPrefixOf, beq_self_eq_true, Bool.true_and]
    exact isPrefixOf_key_ne k.data κ.data hq1 hκ hne _ _)]
  simp only [memberText]
  rw [replaceFirst_skip _ _ _ κ.data _ hκ]
  rw [replaceFirst_mismatch _ _ _ _ (by
    simp [hk, List.isPrefixOf, hk0])]
  rw [replaceFirst_char _ _ _ _ _ (by decide)]
  simp only [stringText, List.cons_append, List.append_assoc, List.nil_append]
  rw [replaceFirst_mismatch _ _ _ _ (by
    simp only [List.isPrefixOf, beq_self_eq_true, Bool.true_and]
    exact isPrefixOf_key_string k.data hq pv s.data d R hd)]
  have h := replaceFirst_skip_string k0 K pv new (by rw [← hk]; exact hq) s.data d R hd hd0
  rw [hk]
  rw [List.cons_append, h]

theorem natDigits_all : ∀ (fuel n : Nat), (natDigits fuel n).all isDigit = true
  | 0, _ => rfl
  | fuel + 1, n => by
    simp only [natDigits]
    split
    · rename_i h
      simp [(digitChar_spec n h).1]
    · rw [List.all_append, natDigits_all fuel (n / 10)]
      simp [(digitChar_spec (n % 10) (Nat.mod_lt _ (by decide))).1]

/-- The text of an integer holds a minus sign and digits only. -/
theorem formatInt_not_mem (x : Char) (hx : isDigit x = false) (hm : x ≠ '-') (i : Int) :
    x ∉ formatInt i := by
  have hn : ∀ n, x ∉ formatNat n := by
    intro n hmem
    have h := List.all_eq_true.mp (natDigits_all (n + 1) n) x hmem
    rw [hx] at h
    exact absurd h (by decide)
  unfold formatInt
  split
  · simp only [List.mem_cons, not_or]
    exact ⟨hm, hn _⟩
  · exact hn _

/-! ## The text edits of the MarshalJSON methods, member by member -/

theorem objectBody_cons (m : Bytes) (ms : List Bytes) :
    objectBody (m :: ms) =
      match ms with
      | [] => m ++ [rbrace]
      | m1 :: ms1 => m ++ comma :: objectBody (m1 :: ms1) := by
  cases ms <;> rfl

theorem objectBody_cons2 (m m1 : Bytes) (ms : List Bytes) :
    objectBody (m :: m1 :: ms) = m ++ comma :: objectBody (m1 :: ms) := rfl

theorem objectBody_head (ms : List Bytes) (x : Char) (hx : x ≠ comma) (hr : x ≠ rbrace)
    (h : ∀ m ∈ ms, x ∉ m) : x ∉ objectBody ms := by
  induction ms with
  | nil => simp [objectBody, hr]
  | cons m ms ih =>
    have hm := h m (List.mem_cons_self _ _)
    have ih1 := ih (fun a ha => h a (List.mem_cons_of_mem _ ha))
    rw [objectBody_cons]
    cases ms with
    | nil => simp [hm, hr]
    | cons m1 ms1 => simp [hm, hx, ih1]

/-- The removal of a member: the member that equals the pattern, found after
members that the search passes over, becomes empty. -/
theorem replaceFirst_member (old : Bytes) (h0 : ∃ t, old = dquote :: t) :
    ∀ (pre post : List Bytes), (∀ m ∈ pre, PassesKey old m) →
      replaceFirst old [] (objectText (pre ++ old :: post)) = objectText (pre ++ [] :: post) := by
  obtain ⟨t, rfl⟩ := h0
  have hbody : ∀ (pre post : List Bytes), (∀ m ∈ pre, PassesKey (dquote :: t) m) →
      replaceFirst (dquote :: t) [] (objectBody (pre ++ (dquote :: t) :: post)) =
        objectBody (pre ++ [] :: post) := by
    intro pre
    induction pre with
    | nil =>
      intro post _
      cases post with
      | nil => exact replaceFirst_hit _ _ _
      | cons p ps => exact replaceFirst_hit _ _ _
    | cons m pre ih =>
      intro post h
      have hm := h m (List.mem_cons_self _ _)
      have ih1 := ih post (fun a ha => h a (List.mem_cons_of_mem _ ha))
      cases pre with
      | nil =>
        rw [List.nil_append] at ih1
        rw [List.cons_append, List.nil_append, objectBody_cons2, hm, ih1]
        rfl
      | cons m1 pre1 =>
        rw [List.cons_append] at ih1
        rw [List.cons_append, List.cons_append, objectBody_cons2, hm, ih1]
        rfl
  intro pre post h
  simp only [objectText]
  rw [replaceFirst_char _ _ _ _ _ (by decide), hbody pre post h]

theorem PassesKey_empty (t : Bytes) : PassesKey (dquote :: t) [] := by
  intro new X
  exact replaceFirst_char _ _ _ _ _ (by decide)

theorem replaceFirst_pair_ne (x y : Char) (new : Bytes) (c : Char) (cs : Bytes) (hc : c ≠ y) :
    replaceFirst [x, y] new (x :: c :: cs) = x :: replaceFirst [x, y] new (c :: cs) := by
  apply replaceFirst_mismatch
  simp [List.isPrefixOf, Ne.symm hc]

theorem replaceFirst_pair_end (x y : Char) (new : Bytes) :
    replaceFirst [x, y] new [x] = [x] := by
  rw [replaceFirst_mismatch _ _ _ _ (by simp [List.isPrefixOf]), replaceFirst_nil]

theorem dropInnerEmpty_head (m : Bytes) (ms : List Bytes) :
    ∃ ms1, dropInnerEmpty (m :: ms) = m :: ms1 := by
  match ms with
  | [] => exact ⟨[], rfl⟩
  | [[]] => exact ⟨[[]], rfl⟩
  | [] :: m2 :: ms2 => exact ⟨m2 :: ms2, rfl⟩
  | (c :: m1) :: ms1 => exact ⟨dropInnerEmpty ((c :: m1) :: ms1), rfl⟩

theorem dropTrailingEmpty_head (m1 : Bytes) (ms : List Bytes) (h : m1 ≠ [] ∨ ms ≠ []) :
    ∃ ms1, dropTrailingEmpty (m1 :: ms) = m1 :: ms1 := by
  match m1, ms, h with
  | m1, [], _ => exact ⟨[], rfl⟩
  | m1, [[]], _ => exact ⟨[], rfl⟩
  | m1, [c :: m2], _ => exact ⟨[c :: m2], rfl⟩
  | m1, m2 :: m3 :: ms3, _ => exact ⟨dropTrailingEmpty (m2 :: m3 :: ms3), by
      cases m2 <;> rfl⟩

/-- The first pair of commas of an object text whose members hold no comma:
it surrounds the first empty member that stands between two members. -/
theorem replaceFirst_commas_body : ∀ (ms : List Bytes), (∀ m ∈ ms, comma ∉ m) →
    replaceFirst [comma, comma] [comma] (objectBody ms) = objectBody (dropInnerEmpty ms)
  | [], _ => by
    simp only [objectBody, dropInnerEmpty]
    rw [replaceFirst_char _ _ _ _ _ (by decide), replaceFirst_nil]
  | [m], h => by
    simp only [objectBody, dropInnerEmpty]
    rw [replaceFirst_skip _ _ _ m _ (h m (by simp)), replaceFirst_char _ _ _ _ _ (by decide),
      replaceFirst_nil]
  | [m, []], h => by
    simp only [objectBody, dropInnerEmpty, List.nil_append]
    rw [replaceFirst_skip _ _ _ m _ (h m (by simp)),
      replaceFirst_pair_ne _ _ _ _ _ (by decide), replaceFirst_char _ _ _ _ _ (by decide),
      replaceFirst_nil]
  | m :: [] :: m2 :: ms, h => by
    simp only [objectBody, dropInnerEmpty, List.nil_append]
    rw [replaceFirst_skip _ _ _ m _ (h m (by simp))]
    have hh := replaceFirst_hit [comma, comma] [comma] (objectBody (m2 :: ms))
    simp only [List.cons_append, List.nil_append] at hh
    rw [hh]
  | m :: (c :: m1) :: ms, h => by
    have hc : c ≠ comma := fun e => h (c :: m1) (by simp) (by simp [e])
    have ih := replaceFirst_commas_body ((c :: m1) :: ms) (fun a ha => h a (by simp [ha]))
    obtain ⟨ms1, h1⟩ := dropInnerEmpty_head (c :: m1) ms
    have h2 : dropInnerEmpty (m :: (c :: m1) :: ms) = m :: dropInnerEmpty ((c :: m1) :: ms) := rfl
    rw [h2, h1, objectBody_cons2, objectBody_cons2, replaceFirst_skip _ _ _ m _ (h m (by simp))]
    rw [h1] at ih
    have h3 : objectBody ((c :: m1) :: ms) =
        c :: (objectBody ((c :: m1) :: ms)).drop 1 := by
      cases ms with
      | nil => simp [objectBody]
      | cons a as => simp [objectBody]
    rw [h3, replaceFirst_pair_ne _ _ _ _ _ hc, ← h3, ih]

theorem replaceFirst_commas (ms : List Bytes) (h : ∀ m ∈ ms, comma ∉ m) :
    replaceFirst [comma, comma] [comma] (objectText ms) = objectText (dropInnerEmpty ms) := by
  simp only [objectText]
  rw [replaceFirst_char _ _ _ _ _ (by decide), replaceFirst_commas_body ms h]

/-- The pair of an opening brace and a comma in an object text whose members
hold neither a brace nor a comma: it is there when the first member is empty
and followed by a member. -/
theorem replaceFirst_lbrace_comma (ms : List Bytes) (h : ∀ m ∈ ms, lbrace ∉ m ∧ comma ∉ m) :
    replaceFirst [lbrace, comma] [lbrace] (objectText ms) = objectText (dropLeadingEmpty ms) := by
  have hb : lbrace ∉ objectBody ms :=
    objectBody_head ms lbrace (by decide) (by decide) (fun m hm => (h m hm).1)
  simp only [objectText]
  match ms, h, hb with
  | [], _, _ =>
    simp only [objectBody, dropLeadingEmpty]
    rw [replaceFirst_pair_ne _ _ _ _ _ (by decide), replaceFirst_char _ _ _ _ _ (by decide),
      replaceFirst_nil]
  | [[]], _, _ =>
    simp only [objectBody, dropLeadingEmpty, List.nil_append]
    rw [replaceFirst_pair_ne _ _ _ _ _ (by decide), replaceFirst_char _ _ _ _ _ (by decide),
      replaceFirst_nil]
  | [] :: m1 :: ms1, _, _ =>
    simp only [objectBody, dropLeadingEmpty, List.nil_append]
    have hh := replaceFirst_hit [lbrace, comma] [lbrace] (objectBody (m1 :: ms1))
    simp only [List.cons_append, List.nil_append] at hh
    rw [hh]
  | (c :: m) :: ms1, h, hb =>
    have hc : c ≠ comma := fun e => (h (c :: m) (by simp)).2 (by simp [e])
    have h2 : dropLeadingEmpty ((c :: m) :: ms1) = (c :: m) :: ms1 := rfl
    rw [h2]
    have h3 : objectBody ((c :: m) :: ms1) =
        c :: (objectBody ((c :: m) :: ms1)).drop 1 := by
      cases ms1 with
      | nil => simp [objectBody]
      | cons a as => simp [objectBody]
    have hb1 : lbrace ∉ (objectBody ((c :: m) :: ms1)).drop 1 :=
      fun e => hb (List.mem_of_mem_drop e)
    have hcl : c ≠ lbrace := fun e => hb (by rw [h3, e]; simp)
    rw [h3, replaceFirst_pair_ne _ _ _ _ _ hc, replaceFirst_char _ _ _ _ _ hcl]
    have := replaceFirst_skip lbrace [comma] [lbrace] _ [] hb1
    rw [List.append_nil] at this
    rw [this, replaceFirst_nil, List.append_nil]

/-- The pair of a comma and the closing brace in an object text whose members
hold neither a comma nor a closing brace: it is there when the last member is
empty and follows a member. -/
theorem replaceFirst_comma_rbrace_body : ∀ (ms : List Bytes),
    (∀ m ∈ ms, comma ∉ m ∧ rbrace ∉ m) →
    replaceFirst [comma, rbrace] [rbrace] (objectBody ms) = objectBody (dropTrailingEmpty ms)
  | [], _ => by
    simp only [objectBody, dropTrailingEmpty]
    rw [replaceFirst_char _ _ _ _ _ (by decide), replaceFirst_nil]
  | [m], h => by
    simp only [objectBody, dropTrailingEmpty]
    rw [replaceFirst_skip _ _ _ m _ (h m (by simp)).1, replaceFirst_char _ _ _ _ _ (by decide),
      replaceFirst_nil]
  | [m, []], h => by
    simp only [objectBody, dropTrailingEmpty, List.nil_append]
    rw [replaceFirst_skip _ _ _ m _ (h m (by simp)).1]
    have hh := replaceFirst_hit [comma, rbrace] [rbrace] []
    simp only [List.cons_append, List.nil_append, List.append_nil] at hh
    rw [hh]
  | m :: [] :: m2 :: ms, h => by
    have ih := replaceFirst_comma_rbrace_body ([] :: m2 :: ms) (fun a ha => h a (by simp [ha]))
    obtain ⟨ms1, h1⟩ := dropTrailingEmpty_head [] (m2 :: ms) (Or.inr (by simp))
    have h2 : dropTrailingEmpty (m :: [] :: m2 :: ms) =
        m :: dropTrailingEmpty ([] :: m2 :: ms) := rfl
    rw [h2, h1, objectBody_cons2, objectBody_cons2,
      replaceFirst_skip _ _ _ m _ (h m (by simp)).1]
    rw [h1] at ih
    rw [objectBody_cons2, List.nil_append, replaceFirst_pair_ne _ _ _ _ _ (by decide)]
    rw [objectBody_cons2, List.nil_append] at ih
    rw [ih]
  | m :: (c :: m1) :: ms, h => by
    have hc : c ≠ rbrace := fun e => (h (c :: m1) (by simp)).2 (by simp [e])
    have ih := replaceFirst_comma_rbrace_body ((c :: m1) :: ms) (fun a ha => h a (by simp [ha]))
    obtain ⟨ms1, h1⟩ := dropTrailingEmpty_head (c :: m1) ms (Or.inl (by simp))
    have h2 : dropTrailingEmpty (m :: (c :: m1) :: ms) =
        m :: dropTrailingEmpty ((c :: m1) :: ms) := rfl
    rw [h2, h1, objectBody_cons2, objectBody_cons2,
      replaceFirst_skip _ _ _ m _ (h m (by simp)).1]
    rw [h1] at ih
    have h3 : objectBody ((c :: m1) :: ms) =
        c :: (objectBody ((c :: m1) :: ms)).drop 1 := by
      cases ms with
      | nil => simp [objectBody]
      | cons a as => simp [objectBody]
    rw [h3, replaceFirst_pair_ne _ _ _ _ _ hc, ← h3, ih]

theorem replaceFirst_comma_rbrace (ms : List Bytes) (h : ∀ m ∈ ms, comma ∉ m ∧ rbrace ∉ m) :
    replaceFirst [comma, rbrace] [rbrace] (objectText ms) =
      objectText (dropTrailingEmpty ms) := by
  simp only [objectText]
  rw [replaceFirst_char _ _ _ _ _ (by decide), replaceFirst_comma_rbrace_body ms h]

/-- Function removeProperty on an object text: the member that equals the
pattern becomes empty, and the pair of commas this leaves is reduced to one. -/
theorem removeProperty_member (old : Bytes) (h0 : ∃ t, old = dquote :: t)
    (pre post : List Bytes) (hp : ∀ m ∈ pre, PassesKey old m)
    (hq : ∀ m ∈ pre ++ post, Quiet m) :
    removeProperty old (objectText (pre ++ old :: post)) =
      objectText (dropInnerEmpty (pre ++ [] :: post)) := by
  rw [removeProperty, replaceFirst_member old h0 pre post hp, replaceFirst_commas]
  intro m hm
  rcases List.mem_append.mp hm with h | h
  · exact (hq m (List.mem_append.mpr (Or.inl h))).1
  · rcases List.mem_cons.mp h with h | h
    · rw [h]
      simp
    · exact (hq m (List.mem_append.mpr (Or.inr h))).1

theorem dropLeadingEmpty_mem (ms : List Bytes) (m : Bytes) (h : m ∈ dropLeadingEmpty ms) :
    m ∈ ms := by
  match ms, h with
  | [], h => exact h
  | [[]], h => exact h
  | [] :: m1 :: ms1, h => exact List.mem_cons_of_mem _ h
  | (c :: m0) :: ms1, h => exact h

/-- Function sanitizeJSON on an object text: an empty first member and an
empty last member are dropped with their commas. -/
theorem sanitizeJSON_objectText (ms : List Bytes) (hq : ∀ m ∈ ms, Quiet m) :
    sanitizeJSON (objectText ms) = objectText (dropTrailingEmpty (dropLeadingEmpty ms)) := by
  rw [sanitizeJSON, replaceFirst_lbrace_comma ms (fun m hm => ⟨(hq m hm).2.1, (hq m hm).1⟩),
    replaceFirst_comma_rbrace]
  intro m hm
  have h := hq m (dropLeadingEmpty_mem ms m hm)
  exact ⟨h.1, h.2.2⟩

theorem Quiet_nil : Quiet [] := by simp [Quiet]

theorem Quiet_number_member (key : String) (i : Int) (hk : Quiet key.data) :
    Quiet (memberText key (formatInt i)) := by
  obtain ⟨h1, h2, h3⟩ := hk
  have n1 := formatInt_not_mem comma (by decide) (by decide) i
  have n2 := formatInt_not_mem lbrace (by decide) (by decide) i
  have n3 := formatInt_not_mem rbrace (by decide) (by decide) i
  refine ⟨?_, ?_, ?_⟩ <;>
    simp only [memberText, List.mem_cons, List.mem_append, not_or] <;>
    refine ⟨by decide, ?_, by decide, by decide, ?_⟩ <;> assumption

theorem Quiet_string_member (key : String) (s : String) (hk : Quiet key.data)
    (hs : ∀ c ∈ s.data, c ≠ comma ∧ c ≠ lbrace ∧ c ≠ rbrace) :
    Quiet (memberText key (stringText s)) := by
  obtain ⟨h1, h2, h3⟩ := hk
  have hh : ∀ x : Char, x = comma ∨ x = lbrace ∨ x = rbrace →
      (x ≠ bslash ∧ x ≠ dquote ∧ x ≠ 'n' ∧ x ≠ 'r' ∧ x ≠ 't' ∧ x ≠ 'u' ∧ x ≠ '0' ∧ x ≠ '2' ∧
        x ≠ '8' ∧ x ≠ '9' ∧ ∀ n, n < 16 → x ≠ hexDigit n) := by
    intro x hx
    rcases hx with rfl | rfl | rfl <;> decide
  have n1 := escapeString_not_mem comma (hh _ (Or.inl rfl)) s.data (fun e => (hs _ e).1 rfl)
  have n2 := escapeString_not_mem lbrace (hh _ (Or.inr (Or.inl rfl))) s.data
    (fun e => (hs _ e).2.1 rfl)
  have n3 := escapeString_not_mem rbrace (hh _ (Or.inr (Or.inr rfl))) s.data
    (fun e => (hs _ e).2.2 rfl)
  refine ⟨?_, ?_, ?_⟩ <;>
    simp only [memberText, stringText, List.mem_cons, List.mem_append, List.mem_singleton,
      not_or] <;>
    refine ⟨by decide, ?_, by decide, by decide, by decide, ?_, by decide⟩ <;> assumption

theorem PassesKey_number_member (k κ : String) (pv : Bytes) (i : Int) (k0 : Char) (K : Bytes)
    (hk : k.data = k0 :: K) (hk0 : k0 ≠ colon) (hq : dquote ∉ k.data) (hκ : dquote ∉ κ.data)
    (hne : κ.data ≠ k.data) :
    PassesKey (memberText k pv) (memberText κ (formatInt i)) := by
  intro new X
  rw [replaceFirst_skip_member k κ pv new (formatInt i) (comma :: X) k0 K hk hk0 hq hκ hne
    (formatInt_not_mem dquote (by decide) (by decide) i)]
  rw [show memberText k pv = dquote :: (k.data ++ dquote :: colon :: pv) from rfl,
    replaceFirst_char _ _ _ _ _ (by decide)]

theorem PassesKey_string_member (k κ : String) (pv : Bytes) (s : String) (k0 : Char) (K : Bytes)
    (hk : k.data = k0 :: K) (hk0 : k0 ≠ colon) (hkc : k0 ≠ comma)
    (hq : ∀ c ∈ k.data, c ≠ dquote ∧ c ≠ bslash) (hκ : dquote ∉ κ.data)
    (hne : κ.data ≠ k.data) :
    PassesKey (memberText k pv) (memberText κ (stringText s)) := by
  intro new X
  rw [replaceFirst_skip_string_member k κ pv new s comma X k0 K hk hk0 hq hκ hne (by decide)
    (Ne.symm hkc)]
  rw [show memberText k pv = dquote :: (k.data ++ dquote :: colon :: pv) from rfl,
    replaceFirst_char _ _ _ _ _ (by decide)]

/-! ## Texture: encoding and decoding -/

theorem Texture_encodeFields (t : Texture) (he : t.Extensions = none) (hx : t.Extras = none)
    (hs : - (2 : Int) ^ 31 ≤ t.Sampler ∧ t.Sampler < (2 : Int) ^ 31)
    (hr : - (2 : Int) ^ 31 ≤ t.Source ∧ t.Source < (2 : Int) ^ 31) :
    encodeFields t (embedFields [] Texture.fields) =
      .ok ((if t.Name.data = [] then [] else [("name", .str t.Name)]) ++
        [("sampler", .num (formatInt t.Sampler)), ("source", .num (formatInt t.Source))]) := by
  rw [embedFields_nil]
  have hs1 : int32Codec.encode t.Sampler = .ok (.num (formatInt t.Sampler)) := by
    simp only [int32Codec, intCodec]
    rw [if_pos (by simpa using hs)]
  have hr1 : int32Codec.encode t.Source = .ok (.num (formatInt t.Source)) := by
    simp only [int32Codec, intCodec]
    rw [if_pos (by simpa using hr)]
  by_cases hn : t.Name.data = []
  · simp [encodeFields, Texture.fields, Field.of, he, hx, hn, hs1, hr1, extensionsCodec,
      mapCodec, anyCodec, stringCodec]
  · simp [encodeFields, Texture.fields, Field.of, he, hx, hn, hs1, hr1, extensionsCodec,
      mapCodec, anyCodec, stringCodec]

theorem render_members_texts (ms : List (String × JSON)) :
    render (.obj ms) = objectText (ms.map (fun m => renderString m.1 ++ colon :: render m.2)) ∨
      ms = [] := by
  cases ms with
  | nil => exact Or.inr rfl
  | cons m ms =>
    left
    simp only [render, objectText, List.cons.injEq, true_and]
    induction ms generalizing m with
    | nil =>
      obtain ⟨k, v⟩ := m
      simp [renderMembers, objectBody]
    | cons m1 ms ih =>
      obtain ⟨k, v⟩ := m
      have := ih m1
      simp only [List.map_cons] at this ⊢
      rw [renderMembers_cons2, objectBody_cons2, ← this]
      simp

/-- The texts of the three members of a Texture. -/
theorem Texture_member_texts (t : Texture) :
    renderString "name" ++ colon :: render (.str t.Name) =
      memberText "name" (stringText t.Name) ∧
    renderString "sampler" ++ colon :: render (.num (formatInt t.Sampler)) =
      memberText "sampler" (formatInt t.Sampler) ∧
    renderString "source" ++ colon :: render (.num (formatInt t.Source)) =
      memberText "source" (formatInt t.Source) := by
  have e1 : escapeString "name".data = "name".data := by decide
  have e2 : escapeString "sampler".data = "sampler".data := by decide
  have e3 : escapeString "source".data = "source".data := by decide
  refine ⟨?_, ?_, ?_⟩ <;>
    simp [renderString, render, memberText, stringText, e1, e2, e3]

/-- The text that Texture.MarshalJSON returns for a Texture without Extensions
and Extras whose name holds no comma and no brace: the object of the members
that are not at their defaults. -/
theorem Texture_marshal (t : Texture) (he : t.Extensions = none) (hx : t.Extras = none)
    (hname : ∀ c ∈ t.Name.data, c ≠ comma ∧ c ≠ lbrace ∧ c ≠ rbrace)
    (hs : - (2 : Int) ^ 31 ≤ t.Sampler ∧ t.Sampler < (2 : Int) ^ 31)
    (hr : - (2 : Int) ^ 31 ≤ t.Source ∧ t.Source < (2 : Int) ^ 31) :
    Texture.MarshalJSON t = .ok (render (.obj (Texture.members t))) := by
  obtain ⟨tn, ts, tr⟩ := Texture_member_texts t
  have qn : Quiet (memberText "name" (stringText t.Name)) :=
    Quiet_string_member "name" t.Name ⟨by decide, by decide, by decide⟩ hname
  have qs : Quiet (memberText "sampler" (formatInt t.Sampler)) :=
    Quiet_number_member "sampler" _ ⟨by decide, by decide, by decide⟩
  have qr : Quiet (memberText "source" (formatInt t.Source)) :=
    Quiet_number_member "source" _ ⟨by decide, by decide, by decide⟩
  have q0 := Quiet_nil
  have psam : "\"sampler\":-1".data = memberText "sampler" "-1".data := by decide
  have psrc : "\"source\":-1".data = memberText "source" "-1".data := by decide
  have pn1 : PassesKey (memberText "sampler" "-1".data) (memberText "name" (stringText t.Name)) :=
    PassesKey_string_member "sampler" "name" _ t.Name 's' "ampler".data rfl (by decide)
      (by decide) (by decide) (by decide) (by decide)
  have pn2 : PassesKey (memberText "source" "-1".data) (memberText "name" (stringText t.Name)) :=
    PassesKey_string_member "source" "name" _ t.Name 's' "ource".data rfl (by decide)
      (by decide) (by decide) (by decide) (by decide)
  have ps2 : PassesKey (memberText "source" "-1".data)
      (memberText "sampler" (formatInt t.Sampler)) :=
    PassesKey_number_member "source" "sampler" _ t.Sampler 's' "ource".data rfl (by decide)
      (by decide) (by decide) (by decide)
  have p02 : PassesKey (memberText "source" "-1".data) [] := PassesKey_empty _
  have hq0 : ∃ tl, memberText "sampler" "-1".data = dquote :: tl := ⟨_, rfl⟩
  have hq1 : ∃ tl, memberText "source" "-1".data = dquote :: tl := ⟨_, rfl⟩
  have fm1 : formatInt (-1) = "-1".data := by decide
  have qp1 : Quiet (memberText "sampler" "-1".data) := ⟨by decide, by decide, by decide⟩
  have qp2 : Quiet (memberText "source" "-1".data) := ⟨by decide, by decide, by decide⟩
  have rpos : ∀ (c : Bool) (str : String) (b : Bytes), c = true →
      removeIf c str b = removeProperty str.data b := by
    intro c str b h
    simp [removeIf, h]
  have rneg : ∀ (c : Bool) (str : String) (b : Bytes), c = false → removeIf c str b = b := by
    intro c str b h
    simp [removeIf, h]
  have htext : ∀ ms : List (String × JSON), ms ≠ [] →
      render (.obj ms) = objectText (ms.map (fun m => renderString m.1 ++ colon :: render m.2)) :=
    fun ms h => (render_members_texts ms).resolve_right h
  unfold Texture.MarshalJSON
  simp only [marshalStruct, Texture_encodeFields t he hx hs hr, Except.map]
  congr 1
  unfold Texture.members
  by_cases hn : t.Name.data = [] <;> by_cases h1 : t.Sampler = -1 <;>
    by_cases h2 : t.Source = -1
  · -- name empty, sampler -1, source -1
    rw [if_pos hn, if_pos h1, if_pos h2]
    rw [rpos _ _ _ (by simpa using h2), rpos _ _ _ (by simpa using h1)]
    rw [psam, psrc]
    rw [htext _ (by simp)]
    simp only [List.map, List.nil_append, List.cons_append, tn, ts, tr]
    rw [h1, fm1]
    rw [h2, fm1]
    rw [show objectText [(memberText "sampler" "-1".data), (memberText "source" "-1".data)] = objectText ([] ++ (memberText "sampler" "-1".data) :: [(memberText "source" "-1".data)]) from rfl,
      removeProperty_member _ hq0 [] [(memberText "source" "-1".data)] (by simp)
      (by
        intro m hm
        simp only [List.mem_cons, List.mem_singleton, List.mem_append, List.not_mem_nil, or_false, false_or] at hm
        rcases hm with rfl
        all_goals assumption),
      show dropInnerEmpty ([] ++ [] :: [(memberText "source" "-1".data)]) = [[], (memberText "source" "-1".data)] from rfl]
    rw [show objectText [[], (memberText "source" "-1".data)] = objectText ([[]] ++ (memberText "source" "-1".data) :: []) from rfl,
      removeProperty_member _ hq1 [[]] [] (by
        intro m hm
        simp only [List.mem_cons, List.mem_singleton, List.not_mem_nil, or_false] at hm
        rcases hm with rfl
        all_goals assumption)
      (by
        intro m hm
        simp only [List.mem_cons, List.mem_singleton, List.mem_append, List.not_mem_nil, or_false, false_or] at hm
        rcases hm with rfl
        all_goals assumption),
      show dropInnerEmpty ([[]] ++ [] :: []) = [[], []] from rfl]
    rw [sanitizeJSON_objectText [[], []]
      (by
        intro m hm
        simp only [List.mem_cons, List.mem_singleton, List.mem_append, List.not_mem_nil, or_false, false_or] at hm
        rcases hm with rfl | rfl
        all_goals assumption)]
    rfl
  · -- name empty, sampler -1, source set
    rw [if_pos hn, if_pos h1, if_neg h2]
    rw [rneg _ _ _ (by simpa using h2), rpos _ _ _ (by simpa using h1)]
    rw [psam]
    rw [htext _ (by simp)]
    simp only [List.map, List.nil_append, List.cons_append, tn, ts, tr]
    rw [h1, fm1]
    rw [show objectText [(memberText "sampler" "-1".data), (memberText "source" (formatInt t.Source))] = objectText ([] ++ (memberText "sampler" "-1".data) :: [(memberText "source" (formatInt t.Source))]) from rfl,
      removeProperty_member _ hq0 [] [(memberText "source" (formatInt t.Source))] (by simp)
      (by
        intro m hm
        simp only [List.mem_cons, List.mem_singleton, List.mem_append, List.not_mem_nil, or_false, false_or] at hm
        rcases hm with rfl
        all_goals assumption),
      show dropInnerEmpty ([] ++ [] :: [(memberText "source" (formatInt t.Source))]) = [[], (memberText "source" (formatInt t.Source))] from rfl]
    rw [sanitizeJSON_objectText [[], (memberText "source" (formatInt t.Source))]
      (by
        intro m hm
        simp only [List.mem_cons, List.mem_singleton, List.mem_append, List.not_mem_nil, or_false, false_or] at hm
        rcases hm with rfl | rfl
        all_goals assumption)]
    rw [htext _ (by simp)]
    simp only [List.map, List.nil_append, List.cons_append, tn, ts, tr]
    rfl
  · -- name empty, sampler set, source -1
    rw [if_pos hn, if_neg h1, if_pos h2]
    rw [rpos _ _ _ (by simpa using h2), rneg _ _ _ (by simpa using h1)]
    rw [psrc]
    rw [htext _ (by simp)]
    simp only [List.map, List.nil_append, List.cons_append, tn, ts, tr]
    rw [h2, fm1]
    rw [show objectText [(memberText "sampler" (formatInt t.Sampler)), (memberText "source" "-1".data)] = objectText ([(memberText "sampler" (formatInt t.Sampler))] ++ (memberText "source" "-1".data) :: []) from rfl,
      removeProperty_member _ hq1 [(memberText "sampler" (formatInt t.Sampler))] [] (by
        intro m hm
        simp only [List.mem_cons, List.mem_singleton, List.not_mem_nil, or_false] at hm
        rcases hm with rfl
        all_goals assumption)
      (by
        intro m hm
        simp only [List.mem_cons, List.mem_singleton, List.mem_append, List.not_mem_nil, or_false, false_or] at hm
        rcases hm with rfl
        all_goals assumption),
      show dropInnerEmpty ([(memberText "sampler" (formatInt t.Sampler))] ++ [] :: []) = [(memberText "sampler" (formatInt t.Sampler)), []] from rfl]
    rw [sanitizeJSON_objectText [(memberText "sampler" (formatInt t.Sampler)), []]
      (by
        intro m hm
        simp only [List.mem_cons, List.mem_singleton, List.mem_append, List.not_mem_nil, or_false, false_or] at hm
        rcases hm with rfl | rfl
        all_goals assumption)]
    rw [htext _ (by simp)]
    simp only [List.map, List.nil_append, List.cons_append, tn, ts, tr]
    rfl
  · -- name empty, sampler set, source set
    rw [if_pos hn, if_neg h1, if_neg h2]
    rw [rneg _ _ _ (by simpa using h2), rneg _ _ _ (by simpa using h1)]
    rw [htext _ (by simp)]
    simp only [List.map, List.nil_append, List.cons_append, tn, ts, tr]
    rw [sanitizeJSON_objectText [(memberText "sampler" (formatInt t.Sampler)), (memberText "source" (formatInt t.Source))]
      (by
        intro m hm
        simp only [List.mem_cons, List.mem_singleton, List.mem_append, List.not_mem_nil, or_false, false_or] at hm
        rcases hm with rfl | rfl
        all_goals assumption)]
    rw [htext _ (by simp)]
    simp only [List.map, List.nil_append, List.cons_append, tn, ts, tr]
    rfl
  · -- name set, sampler -1, source -1
    rw [if_neg hn, if_pos h1, if_pos h2]
    rw [rpos _ _ _ (by simpa using h2), rpos _ _ _ (by simpa using h1)]
    rw [psam, psrc]
    rw [htext _ (by simp)]
    simp only [List.map, List.nil_append, List.cons_append, tn, ts, tr]
    rw [h1, fm1]
    rw [h2, fm1]
    rw [show objectText [(memberText "name" (stringText t.Name)), (memberText "sampler" "-1".data), (memberText "source" "-1".data)] = objectText ([(memberText "name" (stringText t.Name))] ++ (memberText "sampler" "-1".data) :: [(memberText "source" "-1".data)]) from rfl,
      removeProperty_member _ hq0 [(memberText "name" (stringText t.Name))] [(memberText "source" "-1".data)] (by
        intro m hm
        simp only [List.mem_cons, List.mem_singleton, List.not_mem_nil, or_false] at hm
        rcases hm with rfl
        all_goals assumption)
      (by
        intro m hm
        simp only [List.mem_cons, List.mem_singleton, List.mem_append, List.not_mem_nil, or_false, false_or] at hm
        rcases hm with rfl | rfl
        all_goals assumption),
      show dropInnerEmpty ([(memberText "name" (stringText t.Name))] ++ [] :: [(memberText "source" "-1".data)]) = [(memberText "name" (stringText t.Name)), (memberText "source" "-1".data)] from rfl]
    rw [show objectText [(memberText "name" (stringText t.Name)), (memberText "source" "-1".data)] = objectText ([(memberText "name" (stringText t.Name))] ++ (memberText "source" "-1".data) :: []) from rfl,
      removeProperty_member _ hq1 [(memberText "name" (stringText t.Name))] [] (by
        intro m hm
        simp only [List.mem_cons, List.mem_singleton, List.not_mem_nil, or_false] at hm
        rcases hm with rfl
        all_goals assumption)
      (by
        intro m hm
        simp only [List.mem_cons, List.mem_singleton, List.mem_append, List.not_mem_nil, or_false, false_or] at hm
        rcases hm with rfl
        all_goals assumption),
      show dropInnerEmpty ([(memberText "name" (stringText t.Name))] ++ [] :: []) = [(memberText "name" (stringText t.Name)), []] from rfl]
    rw [sanitizeJSON_objectText [(memberText "name" (stringText t.Name)), []]
      (by
        intro m hm
        simp only [List.mem_cons, List.mem_singleton, List.mem_append, List.not_mem_nil, or_false, false_or] at hm
        rcases hm with rfl | rfl
        all_goals assumption)]
    rw [htext _ (by simp)]
    simp only [List.map, List.nil_append, List.cons_append, tn, ts, tr]
    rfl
  · -- name set, sampler -1, source set
    rw [if_neg hn, if_pos h1, if_neg h2]
    rw [rneg _ _ _ (by simpa using h2), rpos _ _ _ (by simpa using h1)]
    rw [psam]
    rw [htext _ (by simp)]
    simp only [List.map, List.nil_append, List.cons_append, tn, ts, tr]
    rw [h1, fm1]
    rw [show objectText [(memberText "name" (stringText t.Name)), (memberText "sampler" "-1".data), (memberText "source" (formatInt t.Source))] = objectText ([(memberText "name" (stringText t.Name))] ++ (memberText "sampler" "-1".data) :: [(memberText "source" (formatInt t.Source))]) from rfl,
      removeProperty_member _ hq0 [(memberText "name" (stringText t.Name))] [(memberText "source" (formatInt t.Source))] (by
        intro m hm
        simp only [List.mem_cons, List.mem_singleton, List.not_mem_nil, or_false] at hm
        rcases hm with rfl
        all_goals assumption)
      (by
        intro m hm
        simp only [List.mem_cons, List.mem_singleton, List.mem_append, List.not_mem_nil, or_false, false_or] at hm
        rcases hm with rfl | rfl
        all_goals assumption),
      show dropInnerEmpty ([(memberText "name" (stringText t.Name))] ++ [] :: [(memberText "source" (formatInt t.Source))]) = [(memberText "name" (stringText t.Name)), (memberText "source" (formatInt t.Source))] from rfl]
    rw [sanitizeJSON_objectText [(memberText "name" (stringText t.Name)), (memberText "source" (formatInt t.Source))]
      (by
        intro m hm
        simp only [List.mem_cons, List.mem_singleton, List.mem_append, List.not_mem_nil, or_false, false_or] at hm
        rcases hm with rfl | rfl
        all_goals assumption)]
    rw [htext _ (by simp)]
    simp only [List.map, List.nil_append, List.cons_append, tn, ts, tr]
    rfl
  · -- name set, sampler set, source -1
    rw [if_neg hn, if_neg h1, if_pos h2]
    rw [rpos _ _ _ (by simpa using h2), rneg _ _ _ (by simpa using h1)]
    rw [psrc]
    rw [htext _ (by simp)]
    simp only [List.map, List.nil_append, List.cons_append, tn, ts, tr]
    rw [h2, fm1]
    rw [show objectText [(memberText "name" (stringText t.Name)), (memberText "sampler" (formatInt t.Sampler)), (memberText "source" "-1".data)] = objectText ([(memberText "name" (stringText t.Name)), (memberText "sampler" (formatInt t.Sampler))] ++ (memberText "source" "-1".data) :: []) from rfl,
      removeProperty_member _ hq1 [(memberText "name" (stringText t.Name)), (memberText "sampler" (formatInt t.Sampler))] [] (by
        intro m hm
        simp only [List.mem_cons, List.mem_singleton, List.not_mem_nil, or_false] at hm
        rcases hm with rfl | rfl
        all_goals assumption)
      (by
        intro m hm
        simp only [List.mem_cons, List.mem_singleton, List.mem_append, List.not_mem_nil, or_false, false_or] at hm
        rcases hm with rfl | rfl
        all_goals assumption),
      show dropInnerEmpty ([(memberText "name" (stringText t.Name)), (memberText "sampler" (formatInt t.Sampler))] ++ [] :: []) = [(memberText "name" (stringText t.Name)), (memberText "sampler" (formatInt t.Sampler)), []] from rfl]
    rw [sanitizeJSON_objectText [(memberText "name" (stringText t.Name)), (memberText "sampler" (formatInt t.Sampler)), []]
      (by
        intro m hm
        simp only [List.mem_cons, List.mem_singleton, List.mem_append, List.not_mem_nil, or_false, false_or] at hm
        rcases hm with rfl | rfl | rfl
        all_goals assumption)]
    rw [htext _ (by simp)]
    simp only [List.map, List.nil_append, List.cons_append, tn, ts, tr]
    rfl
  · -- name set, sampler set, source set
    rw [if_neg hn, if_neg h1, if_neg h2]
    rw [rneg _ _ _ (by simpa using h2), rneg _ _ _ (by simpa using h1)]
    rw [htext _ (by simp)]
    simp only [List.map, List.nil_append, List.cons_append, tn, ts, tr]
    rw [sanitizeJSON_objectText [(memberText "name" (stringText t.Name)), (memberText "sampler" (formatInt t.Sampler)), (memberText "source" (formatInt t.Source))]
      (by
        intro m hm
        simp only [List.mem_cons, List.mem_singleton, List.mem_append, List.not_mem_nil, or_false, false_or] at hm
        rcases hm with rfl | rfl | rfl
        all_goals assumption)]
    rw [htext _ (by simp)]
    simp only [List.map, List.nil_append, List.cons_append, tn, ts, tr]
    rfl

theorem Texture_members_wf (t : Texture) : (JSON.obj (Texture.members t)).wf = true := by
  unfold Texture.members
  by_cases hn : t.Name.data = [] <;> by_cases h1 : t.Sampler = -1 <;>
    by_cases h2 : t.Source = -1 <;>
    simp [hn, h1, h2, JSON.wf, JSON.wfMembers, validNumber_formatInt]

/-- The decoder of Texture, started from NewTexture, reads the members back
into the Texture they were written for. -/
theorem Texture_decode (t : Texture) (he : t.Extensions = none) (hx : t.Extras = none)
    (hs : - (2 : Int) ^ 31 ≤ t.Sampler ∧ t.Sampler < (2 : Int) ^ 31)
    (hr : - (2 : Int) ^ 31 ≤ t.Source ∧ t.Source < (2 : Int) ^ 31) :
    decodeMembers Texture.fields (Texture.members t) NewTexture = .ok t := by
  have hs1 : ∀ old, int32Codec.decode (.num (formatInt t.Sampler)) old = .ok t.Sampler := by
    intro old
    apply intCodec_roundtrip 32
    simp only [intCodec]
    rw [if_pos (by simpa using hs)]
  have hr1 : ∀ old, int32Codec.decode (.num (formatInt t.Source)) old = .ok t.Source := by
    intro old
    apply intCodec_roundtrip 32
    simp only [intCodec]
    rw [if_pos (by simpa using hr)]
  have f1 : findField Texture.fields "name" = some (Field.of "name" true stringCodec
      (fun s => s.Name) (fun s a => { s with Name := a })) := rfl
  have f2 : findField Texture.fields "sampler" = some (Field.of "sampler" false int32Codec
      (fun s => s.Sampler) (fun s a => { s with Sampler := a })) := rfl
  have f3 : findField Texture.fields "source" = some (Field.of "source" false int32Codec
      (fun s => s.Source) (fun s a => { s with Source := a })) := rfl
  obtain ⟨e, x, n, sa, so⟩ := t
  simp only at he hx hs1 hr1
  subst he hx
  unfold Texture.members
  by_cases hn : n.data = [] <;> by_cases h1 : sa = -1 <;> by_cases h2 : so = -1 <;>
    simp only [hn, h1, h2, if_true, if_false, List.nil_append, List.cons_append,
      decodeMembers, f1, f2, f3, Field.of, hs1, hr1, stringCodec, NewTexture, Texture.zero,
      Except.ok.injEq, Texture.mk.injEq, true_and, and_true]
  all_goals first
    | rfl
    | (apply String.ext; simp [hn])

/-- C13: for every Texture without Extensions and Extras whose Name holds
no comma and no brace, Texture.MarshalJSON returns the text of a well-formed
JSON object, and Texture.UnmarshalJSON applied to that text stores the Texture
in the receiver and returns no error. -/
theorem C13_texture_roundtrip (t : Texture) (he : t.Extensions = none) (hx : t.Extras = none)
    (hname : ∀ c ∈ t.Name.data, c ≠ comma ∧ c ≠ lbrace ∧ c ≠ rbrace)
    (hs : - (2 : Int) ^ 31 ≤ t.Sampler ∧ t.Sampler < (2 : Int) ^ 31)
    (hr : - (2 : Int) ^ 31 ≤ t.Source ∧ t.Source < (2 : Int) ^ 31) :
    ∃ out, Texture.MarshalJSON t = .ok out ∧ (∃ ms, IsObjectText out ms) ∧
      ∀ r, Texture.UnmarshalJSON r out = (t, none) := by
  have hp : parseJSON (render (.obj (Texture.members t))) = some (.obj (Texture.members t)) :=
    parseJSON_render _ (Texture_members_wf t)
  refine ⟨_, Texture_marshal t he hx hname hs hr, ⟨_, hp⟩, ?_⟩
  intro r
  simp only [Texture.UnmarshalJSON, unmarshalStruct, hp, decodeStruct,
    Texture_decode t he hx hs hr, assignIfOk]

/-- Witness of C13: a texture of the Cube test document with a name, and the
texture of NewTexture. -/
theorem C13_texture_roundtrip_witness :
    (∃ out, Texture.MarshalJSON { NewTexture with Name := "base color", Sampler := 0 } =
        .ok out ∧ (∃ ms, IsObjectText out ms) ∧
      ∀ r, Texture.UnmarshalJSON r out =
        ({ NewTexture with Name := "base color", Sampler := 0 }, none)) ∧
    (∃ out, Texture.MarshalJSON NewTexture = .ok out ∧ (∃ ms, IsObjectText out ms) ∧
      ∀ r, Texture.UnmarshalJSON r out = (NewTexture, none)) :=
  ⟨C13_texture_roundtrip { NewTexture with Name := "base color", Sampler := 0 } rfl rfl
      (by decide) (by decide) (by decide),
    C13_texture_roundtrip NewTexture rfl rfl (by decide) (by decide) (by decide)⟩

/-! ## Texture, Node: edits of the text that reach other members -/

/-- C27: the claim fails on the code.  The Texture with the name a,,b, no
sampler and source 0 is encoded as a text with two adjacent commas between the
name and the source, which is not well-formed JSON, and with the name a,b: the
pair of commas that removeProperty replaces is the first one of the whole
text, which lies inside the name.  With a sampler and a source the output is
well-formed, and the name written for a Texture named with an opening brace and
a comma has lost the comma, by sanitizeJSON. -/
theorem C27_texture_name_with_commas_breaks_output :
    Texture.MarshalJSON { NewTexture with Name := "a,,b", Source := 0 } =
        .ok "\x7b\"name\":\"a,b\",,\"source\":0\x7d".data ∧
      parseJSON "\x7b\"name\":\"a,b\",,\"source\":0\x7d".data = none ∧
      Texture.MarshalJSON { NewTexture with Name := "a\x7b,b", Sampler := 0, Source := 0 } =
        .ok "\x7b\"name\":\"a\x7bb\",\"sampler\":0,\"source\":0\x7d".data ∧
      (∃ ms, IsObjectText "\x7b\"name\":\"a\x7bb\",\"sampler\":0,\"source\":0\x7d".data ms ∧
        lookupKey ms "name" = some (.str "a\x7bb") ∧ "a\x7bb" ≠ "a\x7b,b") := by
  refine ⟨by decide!, by decide!, by decide!,
    ⟨[("name", .str "a\x7bb"), ("sampler", .num "0".data), ("source", .num "0".data)],
      ?_, by decide!, by decide⟩⟩
  unfold IsObjectText
  decide!

/-- C28: the claim fails on the code.  The Node of NewNode, whose Camera is -1,
with the Extras object of the single member "camera":-1 is encoded with an
empty extras object and with its own camera member: the removal deletes the
first occurrence of the text, which lies inside extras. -/
theorem C28_node_sentinel_removed_inside_extras :
    ({ NewNode with Extras := some (.obj [("camera", .num "-1".data)]) } : Node).Camera = -1 ∧
    Node.MarshalJSON { NewNode with Extras := some (.obj [("camera", .num "-1".data)]) } =
      .ok "\x7b\"extras\":\x7b\x7d,\"camera\":-1\x7d".data ∧
    (∃ ms, IsObjectText "\x7b\"extras\":\x7b\x7d,\"camera\":-1\x7d".data ms ∧
      lookupKey ms "extras" = some (.obj []) ∧
      lookupKey ms "camera" = some (.num "-1".data)) ∧
    render (.obj [("camera", .num "-1".data)]) ≠ render (.obj []) := by
  refine ⟨by decide!, by decide!,
    ⟨[("extras", .obj []), ("camera", .num "-1".data)], ?_, by decide!, by decide!⟩,
    by decide!⟩
  unfold IsObjectText
  decide!

/-! ## Data URIs: the slice after the prefix -/

/-- C29: the claim fails on the code.  For a URI that is the prefix of a data
URI and nothing more, the start of the slice is one past the length of the
URI, and the slice expression of Buffer.marshalData and of Image.MarshalData
is a run-time panic, for each of the three prefixes. -/
theorem C29_marshalData_panics_on_bare_prefix :
    Buffer.marshalData { Buffer.zero with URI := mimetypeApplicationOctet } = .panics ∧
    Image.MarshalData { Image.zero with URI := mimetypeImagePNG } = .panics ∧
    Image.MarshalData { Image.zero with URI := mimetypeImageJPG } = .panics := by
  refine ⟨by decide!, by decide!, by decide!⟩

/-! ## Decoding does not read the receiver -/

/-- C30: for each of the sixteen entity kinds with an UnmarshalJSON method,
when decoding some bytes into one receiver succeeds with some entity, decoding
the same bytes into any other receiver succeeds with the same entity. -/
theorem C30_unmarshal_result_independent_of_receiver :
    (∀ r1 r2 data a, Document.UnmarshalJSON r1 data = (a, none) →
      Document.UnmarshalJSON r2 data = (a, none)) ∧
    (∀ r1 r2 data a, Accessor.UnmarshalJSON r1 data = (a, none) →
      Accessor.UnmarshalJSON r2 data = (a, none)) ∧
    (∀ r1 r2 data a, BufferView.UnmarshalJSON r1 data = (a, none) →
      BufferView.UnmarshalJSON r2 data = (a, none)) ∧
    (∀ r1 r2 data a, Node.UnmarshalJSON r1 data = (a, none) →
      Node.UnmarshalJSON r2 data = (a, none)) ∧
    (∀ r1 r2 data a, Skin.UnmarshalJSON r1 data = (a, none) →
      Skin.UnmarshalJSON r2 data = (a, none)) ∧
    (∀ r1 r2 data a, Primitive.UnmarshalJSON r1 data = (a, none) →
      Primitive.UnmarshalJSON r2 data = (a, none)) ∧
    (∀ r1 r2 data a, Material.UnmarshalJSON r1 data = (a, none) →
      Material.UnmarshalJSON r2 data = (a, none)) ∧
    (∀ r1 r2 data a, NormalTexture.UnmarshalJSON r1 data = (a, none) →
      NormalTexture.UnmarshalJSON r2 data = (a, none)) ∧
    (∀ r1 r2 data a, OcclusionTexture.UnmarshalJSON r1 data = (a, none) →
      OcclusionTexture.UnmarshalJSON r2 data = (a, none)) ∧
    (∀ r1 r2 data a, PBRMetallicRoughness.UnmarshalJSON r1 data = (a, none) →
      PBRMetallicRoughness.UnmarshalJSON r2 data = (a, none)) ∧
    (∀ r1 r2 data a, TextureInfo.UnmarshalJSON r1 data = (a, none) →
      TextureInfo.UnmarshalJSON r2 data = (a, none)) ∧
    (∀ r1 r2 data a, Texture.UnmarshalJSON r1 data = (a, none) →
      Texture.UnmarshalJSON r2 data = (a, none)) ∧
    (∀ r1 r2 data a, Sampler.UnmarshalJSON r1 data = (a, none) →
      Sampler.UnmarshalJSON r2 data = (a, none)) ∧
    (∀ r1 r2 data a, AnimationSampler.UnmarshalJSON r1 data = (a, none) →
      AnimationSampler.UnmarshalJSON r2 data = (a, none)) ∧
    (∀ r1 r2 data a, Channel.UnmarshalJSON r1 data = (a, none) →
      Channel.UnmarshalJSON r2 data = (a, none)) ∧
    (∀ r1 r2 data a, ChannelTarget.UnmarshalJSON r1 data = (a, none) →
      ChannelTarget.UnmarshalJSON r2 data = (a, none)) := by
  refine ⟨?_, ?_, ?_, ?_, ?_, ?_, ?_, ?_, ?_, ?_, ?_, ?_, ?_, ?_, ?_, ?_⟩
  · intro r1 r2 data a h
    rw [Document.UnmarshalJSON] at h ⊢
    rw [assignIfOk_none _ _ _ h]
    rfl
  · intro r1 r2 data a h
    rw [Accessor.UnmarshalJSON] at h ⊢
    rw [assignIfOk_none _ _ _ h]
    rfl
  · intro r1 r2 data a h
    rw [BufferView.UnmarshalJSON] at h ⊢
    rw [assignIfOk_none _ _ _ h]
    rfl
  · intro r1 r2 data a h
    rw [Node.UnmarshalJSON] at h ⊢
    rw [assignIfOk_none _ _ _ h]
    rfl
  · intro r1 r2 data a h
    rw [Skin.UnmarshalJSON] at h ⊢
    rw [assignIfOk_none _ _ _ h]
    rfl
  · intro r1 r2 data a h
    rw [Primitive.UnmarshalJSON] at h ⊢
    rw [assignIfOk_none _ _ _ h]
    rfl
  · intro r1 r2 data a h
    rw [Material.UnmarshalJSON] at h ⊢
    rw [assignIfOk_none _ _ _ h]
    rfl
  · intro r1 r2 data a h
    rw [NormalTexture.UnmarshalJSON] at h ⊢
    rw [assignIfOk_none _ _ _ h]
    rfl
  · intro r1 r2 data a h
    rw [OcclusionTexture.UnmarshalJSON] at h ⊢
    rw [assignIfOk_none _ _ _ h]
    rfl
  · intro r1 r2 data a h
    rw [PBRMetallicRoughness.UnmarshalJSON] at h ⊢
    rw [assignIfOk_none _ _ _ h]
    rfl
  · intro r1 r2 data a h
    rw [TextureInfo.UnmarshalJSON] at h ⊢
    rw [assignIfOk_none _ _ _ h]
    rfl
  · intro r1 r2 data a h
    rw [Texture.UnmarshalJSON] at h ⊢
    rw [assignIfOk_none _ _ _ h]
    rfl
  · intro r1 r2 data a h
    rw [Sampler.UnmarshalJSON] at h ⊢
    rw [assignIfOk_none _ _ _ h]
    rfl
  · intro r1 r2 data a h
    rw [AnimationSampler.UnmarshalJSON] at h ⊢
    rw [assignIfOk_none _ _ _ h]
    rfl
  · intro r1 r2 data a h
    rw [Channel.UnmarshalJSON] at h ⊢
    rw [assignIfOk_none _ _ _ h]
    rfl
  · intro r1 r2 data a h
    rw [ChannelTarget.UnmarshalJSON] at h ⊢
    rw [assignIfOk_none _ _ _ h]
    rfl

/-- Witness of C30: the object with mesh 3 decoded into the Node of NewNode and
into a Node with a name, a camera and a mesh gives the same Node. -/
theorem C30_unmarshal_result_independent_of_receiver_witness :
    Node.UnmarshalJSON NewNode "\x7b\"mesh\":3\x7d".data = ({ NewNode with Mesh := 3 }, none) ∧
    Node.UnmarshalJSON { NewNode with Name := "old", Camera := 5, Mesh := 7 }
        "\x7b\"mesh\":3\x7d".data = ({ NewNode with Mesh := 3 }, none) :=
  ⟨by decide!,
    C30_unmarshal_result_independent_of_receiver.2.2.2.1 NewNode
      { NewNode with Name := "old", Camera := 5, Mesh := 7 } "\x7b\"mesh\":3\x7d".data
      { NewNode with Mesh := 3 } (by decide!)⟩

/-! ## The decoder: the model and the tests of the repository -/

/-- The model of decodeBuffer returns an error in the cases of
TestDecoder_decodeBuffer that expect one.  In the case base, the last one here,
the declared length is 3 and the stream holds one byte: the test expects no
error, the spec calls every mismatch of the length a failure, and the model
follows the spec.  The quotas of 8 buffers and 1024 bytes stand for those that
NewDecoder sets. -/
theorem decodeBuffer_repository_tests :
    Decoder.decodeBuffer ⟨[], fun _ => none, ⟨0, 2⟩⟩
        { Buffer.zero with ByteLength := 0, URI := "a.bin" } =
      .returns ⟨{ Buffer.zero with ByteLength := 0, URI := "a.bin" }, [], some .resource, []⟩ ∧
    Decoder.decodeBuffer ⟨[], fun _ => none, ⟨0, 2⟩⟩
        { Buffer.zero with ByteLength := 1, URI := "" } =
      .returns ⟨{ Buffer.zero with ByteLength := 1, URI := "" }, [], some .resource, []⟩ ∧
    Decoder.decodeBuffer ⟨[], fun _ => none, ⟨0, 2⟩⟩
        { Buffer.zero with ByteLength := 1, URI := "../a.bin" } =
      .returns ⟨{ Buffer.zero with ByteLength := 1, URI := "../a.bin" }, [], some .resource,
        []⟩ ∧
    Decoder.decodeBuffer ⟨[], fun _ => none, ⟨0, 2⟩⟩
        { Buffer.zero with ByteLength := 3, URI := "a.bin" } =
      .returns ⟨{ Buffer.zero with ByteLength := 3, URI := "a.bin" }, [], some .quotaExceeded,
        []⟩ ∧
    Decoder.decodeBuffer ⟨[], fun _ => none, ⟨8, 1024⟩⟩
        { Buffer.zero with ByteLength := 3, URI := "a.bin" } =
      .returns ⟨{ Buffer.zero with ByteLength := 3, URI := "a.bin" }, [], some .resource,
        [.readCallback "a.bin"]⟩ ∧
    Decoder.decodeBuffer ⟨[], readCallback, ⟨8, 1024⟩⟩
        { Buffer.zero with ByteLength := 3, URI := "a.bin" } =
      .returns ⟨{ Buffer.zero with ByteLength := 3, URI := "a.bin" }, [], some .resource,
        [.readCallback "a.bin", .allocate 3]⟩ := by
  refine ⟨by decide!, by decide!, by decide!, by decide!, by decide!, by decide!⟩

/-- The model of decodeBinaryBuffer returns an error in each case of
TestDecoder_decodeBinaryBuffer: a declared length of zero, an empty stream, and
a stream of eight letters a. -/
theorem decodeBinaryBuffer_repository_tests :
    (Decoder.decodeBinaryBuffer ⟨[], fun _ => none, ⟨0, 0⟩⟩
        { Buffer.zero with ByteLength := 0, URI := "a.bin" }).err = some .resource ∧
    (Decoder.decodeBinaryBuffer ⟨[], fun _ => none, ⟨8, 1024⟩⟩
        { Buffer.zero with ByteLength := 1, URI := "a.bin" }).err = some .framing ∧
    (Decoder.decodeBinaryBuffer ⟨[97, 97, 97, 97, 97, 97, 97, 97], fun _ => none, ⟨8, 1024⟩⟩
        { Buffer.zero with ByteLength := 1, URI := "a.bin" }).err = some .resource := by
  refine ⟨by decide!, by decide!, by decide!⟩

/-- The model of Decode returns no error in the case baseJSON of
TestDecoder_Decode, in which the buffer of one byte is read from the stream of
readCallback, and an error in each other case of the test. -/
theorem Decode_repository_tests :
    Decoder.Decode
        ⟨goBytes "\x7b\"buffers\": [\x7b\"byteLength\": 1, \"URI\": \"a.bin\"\x7d]\x7d",
          readCallback, ⟨8, 1024⟩⟩ Document.zero =
      .returns ⟨{ Document.zero with
          Scene := -1,
          Buffers := some [{ Buffer.zero with ByteLength := 1, URI := "a.bin", Data := [97] }] },
        [], none, [.readCallback "a.bin", .allocate 1]⟩ ∧
    Decoder.Decode
        ⟨[0x67, 0x6c, 0x54, 0x46, 0x02, 0x00, 0x00, 0x00, 0x40, 0x0b, 0x00, 0x00,
          0x5c, 0x06, 0x00, 0x00, 0x4a, 0x53, 0x4f, 0x4e], readCallback, ⟨8, 1628⟩⟩
        Document.zero =
      .returns ⟨Document.zero, [0x67, 0x6c, 0x54, 0x46, 0x02, 0x00, 0x00, 0x00, 0x40, 0x0b,
        0x00, 0x00, 0x5c, 0x06, 0x00, 0x00, 0x4a, 0x53, 0x4f, 0x4e], some .framing, []⟩ ∧
    Decoder.Decode
        ⟨[0x67, 0x6c, 0x54, 0x46, 0x02, 0x00, 0x00, 0x00, 0x40, 0x0b, 0x00, 0x00,
          0x5c, 0x06, 0x00, 0x00, 0x4a, 0x53, 0x4f, 0x4e], readCallback, ⟨0, 0⟩⟩
        Document.zero =
      .returns ⟨Document.zero, [0x67, 0x6c, 0x54, 0x46, 0x02, 0x00, 0x00, 0x00, 0x40, 0x0b,
        0x00, 0x00, 0x5c, 0x06, 0x00, 0x00, 0x4a, 0x53, 0x4f, 0x4e], some .quotaExceeded, []⟩ ∧
    Decoder.Decode
        ⟨[0x67, 0x6c, 0x54, 0x46, 0x02, 0x00, 0x00, 0x00, 0x40, 0x0b, 0x00, 0x00,
          0x5c, 0x06, 0x00, 0x00, 0x4a, 0x52, 0x4f, 0x4e], readCallback, ⟨8, 1628⟩⟩
        Document.zero =
      .returns ⟨Document.zero, [0x67, 0x6c, 0x54, 0x46, 0x02, 0x00, 0x00, 0x00, 0x40, 0x0b,
        0x00, 0x00, 0x5c, 0x06, 0x00, 0x00, 0x4a, 0x52, 0x4f, 0x4e], some .framing, []⟩ ∧
    Decoder.Decode ⟨[], fun _ => none, ⟨8, 1024⟩⟩ Document.zero =
      .returns ⟨Document.zero, [], some .schema, []⟩ ∧
    Decoder.Decode ⟨goBytes "\x7basset: \x7b\x7d\x7d", fun _ => none, ⟨8, 1024⟩⟩
        Document.zero =
      .returns ⟨Document.zero, [], some .schema, []⟩ ∧
    Decoder.Decode
        ⟨goBytes "\x7b\"buffers\": [\x7b\"byteLength\": 0\x7d]\x7d", fun _ => none, ⟨8, 1024⟩⟩
        Document.zero =
      .returns ⟨{ Document.zero with
          Scene := -1, Buffers := some [{ Buffer.zero with ByteLength := 0 }] },
        [], some .resource, []⟩ ∧
    Decoder.Decode
        ⟨goBytes "\x7b\"buffers\": [\x7b\"byteLength\": 0\x7d]\x7d", fun _ => none, ⟨0, 0⟩⟩
        Document.zero =
      .returns ⟨{ Document.zero with
          Scene := -1, Buffers := some [{ Buffer.zero with ByteLength := 0 }] },
        [], some .quotaExceeded, []⟩ := by
  refine ⟨by decide!, by decide!, by decide!, by decide!, by decide!, by decide!, by decide!,
    by decide!⟩

/-! ## The decoder: the checks of a buffer -/

/-- C21: for every decoder and every Buffer whose declared ByteLength is 0,
whatever its URI and whatever the quotas, decodeBuffer and decodeBinaryBuffer
return an error, and the buffer is as it was. -/
theorem C21_zero_byteLength_is_an_error (d : Decoder) (b : Buffer) (h : b.ByteLength = 0) :
    d.decodeBuffer b = .returns ⟨b, d.r, some .resource, []⟩ ∧
    d.decodeBinaryBuffer b = ⟨b, d.r, some .resource, []⟩ := by
  simp [Decoder.decodeBuffer, Decoder.decodeBinaryBuffer, Decoder.checkBuffer, h]

/-- Witness of C21: the buffer of the tests byteLength_0 and invalidBuffer, of
length 0 and locator a.bin. -/
theorem C21_zero_byteLength_is_an_error_witness :
    Decoder.decodeBuffer ⟨[], readCallback, ⟨0, 2⟩⟩
        { Buffer.zero with ByteLength := 0, URI := "a.bin" } =
      .returns ⟨{ Buffer.zero with ByteLength := 0, URI := "a.bin" }, [], some .resource, []⟩ ∧
    Decoder.decodeBinaryBuffer ⟨[], readCallback, ⟨0, 2⟩⟩
        { Buffer.zero with ByteLength := 0, URI := "a.bin" } =
      ⟨{ Buffer.zero with ByteLength := 0, URI := "a.bin" }, [], some .resource, []⟩ :=
  C21_zero_byteLength_is_an_error ⟨[], readCallback, ⟨0, 2⟩⟩
    { Buffer.zero with ByteLength := 0, URI := "a.bin" } rfl

/-- C22: for every decoder and every Buffer whose URI is not an embedded
resource and contains a parent-directory segment, decodeBuffer returns an
error with no effect at all, so the read callback is not invoked; and the
result is the same whatever the read callback is. -/
theorem C22_parent_segment_fails_before_callback (d : Decoder) (b : Buffer)
    (hext : b.IsEmbeddedResource = false) (hseg : hasParentSegment b.URI = true) :
    (∃ e, d.decodeBuffer b = .returns ⟨b, d.r, some e, []⟩) ∧
    (∀ cb, ({ d with cb := cb } : Decoder).decodeBuffer b = d.decodeBuffer b) := by
  have huri : b.URI ≠ "" := by
    intro h0
    rw [h0] at hseg
    exact absurd hseg (by decide)
  by_cases h0 : b.ByteLength = 0
  · refine ⟨⟨.resource, ?_⟩, ?_⟩
    · simp [Decoder.decodeBuffer, Decoder.checkBuffer, h0]
    · intro cb
      simp [Decoder.decodeBuffer, Decoder.checkBuffer, h0]
  · by_cases hq : d.quotas.MaxMemoryAllocation < b.ByteLength
    · refine ⟨⟨.quotaExceeded, ?_⟩, ?_⟩
      · simp [Decoder.decodeBuffer, Decoder.checkBuffer, h0, hq]
      · intro cb
        simp [Decoder.decodeBuffer, Decoder.checkBuffer, h0, hq]
    · refine ⟨⟨.resource, ?_⟩, ?_⟩
      · simp [Decoder.decodeBuffer, Decoder.checkBuffer, h0, hq, huri, hext, hseg]
      · intro cb
        simp [Decoder.decodeBuffer, Decoder.checkBuffer, h0, hq, huri, hext, hseg]

/-- Witness of C22: the buffer of the test invalidURI, with the locator
../a.bin, and the read callback of the tests. -/
theorem C22_parent_segment_fails_before_callback_witness :
    (∃ e, Decoder.decodeBuffer ⟨[], readCallback, ⟨8, 2⟩⟩
        { Buffer.zero with ByteLength := 1, URI := "../a.bin" } =
      .returns ⟨{ Buffer.zero with ByteLength := 1, URI := "../a.bin" }, [], some e, []⟩) ∧
    (∀ cb, Decoder.decodeBuffer ⟨[], cb, ⟨8, 2⟩⟩
        { Buffer.zero with ByteLength := 1, URI := "../a.bin" } =
      Decoder.decodeBuffer ⟨[], readCallback, ⟨8, 2⟩⟩
        { Buffer.zero with ByteLength := 1, URI := "../a.bin" }) :=
  C22_parent_segment_fails_before_callback ⟨[], readCallback, ⟨8, 2⟩⟩
    { Buffer.zero with ByteLength := 1, URI := "../a.bin" } (by decide!) (by decide!)

/-- C23: for every decoder and every Buffer whose declared ByteLength exceeds
MaxMemoryAllocation, decodeBuffer returns the error of an exceeded quota with
no effect at all, so nothing is allocated, and the buffer is as it was: it has
gained no Data. -/
theorem C23_over_quota_fails_without_allocation (d : Decoder) (b : Buffer)
    (h : d.quotas.MaxMemoryAllocation < b.ByteLength) :
    d.decodeBuffer b = .returns ⟨b, d.r, some .quotaExceeded, []⟩ := by
  have h0 : b.ByteLength ≠ 0 := by omega
  simp [Decoder.decodeBuffer, Decoder.checkBuffer, h0, h]

/-- Witness of C23: the test maxQuota, a ceiling of 2 bytes and a declared
length of 3. -/
theorem C23_over_quota_fails_without_allocation_witness :
    Decoder.decodeBuffer ⟨[], readCallback, ⟨0, 2⟩⟩
        { Buffer.zero with ByteLength := 3, URI := "a.bin" } =
      .returns ⟨{ Buffer.zero with ByteLength := 3, URI := "a.bin" }, [], some .quotaExceeded,
        []⟩ :=
  C23_over_quota_fails_without_allocation ⟨[], readCallback, ⟨0, 2⟩⟩
    { Buffer.zero with ByteLength := 3, URI := "a.bin" } (by decide)

/-! ## The decoder: the payload of an external buffer -/

/-- C24: for every Buffer that is not an embedded resource and every read
callback whose stream for the locator of the Buffer holds a number of bytes
other than the declared length, decodeBuffer returns an error, and the Buffer
is as it was: no truncated and no padded payload is stored. -/
theorem C24_length_mismatch_is_an_error (d : Decoder) (b : Buffer) (stream : List Nat)
    (hext : b.IsEmbeddedResource = false) (hcb : d.cb b.URI = some stream)
    (hne : stream.length ≠ b.ByteLength) :
    ∃ e effs, d.decodeBuffer b = .returns ⟨b, d.r, some e, effs⟩ := by
  unfold Decoder.decodeBuffer
  cases hc : d.checkBuffer b with
  | some e => exact ⟨e, [], rfl⟩
  | none =>
    by_cases huri : b.URI = ""
    · exact ⟨.resource, [], by simp [huri]⟩
    · by_cases hseg : hasParentSegment b.URI = true
      · exact ⟨.resource, [], by simp [huri, hext, hseg]⟩
      · exact ⟨.resource, [.readCallback b.URI, .allocate b.ByteLength], by
          simp [huri, hext, hseg, hcb, readPayload, hne]⟩

/-- Witness of C24: a declared length of 3 and the stream of readCallback, which
holds the single byte of the letter a, give a resource error and leave the
Buffer without a payload. -/
theorem C24_length_mismatch_is_an_error_witness :
    (readCallback "a.bin").map List.length = some 1 ∧
    ({ Buffer.zero with ByteLength := 3, URI := "a.bin" } : Buffer).Data = [] ∧
    ∃ e effs, Decoder.decodeBuffer ⟨[], readCallback, ⟨8, 1024⟩⟩
        { Buffer.zero with ByteLength := 3, URI := "a.bin" } =
      .returns ⟨{ Buffer.zero with ByteLength := 3, URI := "a.bin" }, [], some e, effs⟩ :=
  ⟨by decide!, by decide!,
    C24_length_mismatch_is_an_error ⟨[], readCallback, ⟨8, 1024⟩⟩
      { Buffer.zero with ByteLength := 3, URI := "a.bin" } [97] (by decide!) (by decide!)
      (by decide)⟩

/-! ## The decoder: the frame of the binary container -/

theorem length_four {α : Type} (l : List α) (h : l.length = 4) :
    ∃ a b c e, l = [a, b, c, e] := by
  match l, h with
  | [a, b, c, e], _ => exact ⟨a, b, c, e, rfl⟩

/-- C25: for every decoder whose stream is the magic constant, the version 2,
a total length of four bytes, and a chunk whose length field is any four bytes
and whose type tag is four bytes other than those of the JSON tag, followed by
anything, Decode returns a framing error, decodes nothing into the document and
has no effect. -/
theorem C25_first_chunk_not_json_is_a_framing_error (d : Decoder) (doc : Document)
    (total len tag rest : List Nat) (htotal : total.length = 4) (hlen : len.length = 4)
    (htag : tag.length = 4) (hne : u32le tag ≠ glbChunkJSON)
    (hr : d.r = glbHeaderMagic ++ [2, 0, 0, 0] ++ total ++ len ++ tag ++ rest) :
    d.Decode doc = .returns ⟨doc, d.r, some .framing, []⟩ := by
  obtain ⟨t0, t1, t2, t3, rfl⟩ := length_four total htotal
  obtain ⟨l0, l1, l2, l3, rfl⟩ := length_four len hlen
  obtain ⟨g0, g1, g2, g3, rfl⟩ := length_four tag htag
  have hc : readContainer d.quotas d.r = .error .framing := by
    rw [hr]
    simp only [glbHeaderMagic, List.cons_append, List.nil_append]
    have h8 : ¬ (rest.length + 1 + 1 + 1 + 1 + 1 + 1 + 1 + 1 < 8) := by omega
    have hne1 : ¬ (g0 + 256 * (g1 + 256 * (g2 + 256 * g3)) = glbChunkJSON) := by
      simpa [u32le] using hne
    simp [readContainer, readChunkHeader, u32le, glbVersion, h8, hne1]
  have hp : glbHeaderMagic.isPrefixOf d.r = true := by
    rw [hr]
    simp [glbHeaderMagic, List.isPrefixOf]
  simp only [Decoder.Decode, hp, if_true, hc]

/-- Witness of C25: the stream of the test glbNoJSONChunk, whose chunk has the
tag of the letters JRON. -/
theorem C25_first_chunk_not_json_is_a_framing_error_witness :
    Decoder.Decode
        ⟨[0x67, 0x6c, 0x54, 0x46, 0x02, 0x00, 0x00, 0x00, 0x40, 0x0b, 0x00, 0x00,
          0x5c, 0x06, 0x00, 0x00, 0x4a, 0x52, 0x4f, 0x4e], readCallback, ⟨8, 1024⟩⟩
        Document.zero =
      .returns ⟨Document.zero, [0x67, 0x6c, 0x54, 0x46, 0x02, 0x00, 0x00, 0x00, 0x40, 0x0b,
        0x00, 0x00, 0x5c, 0x06, 0x00, 0x00, 0x4a, 0x52, 0x4f, 0x4e], some .framing, []⟩ :=
  C25_first_chunk_not_json_is_a_framing_error
    ⟨[0x67, 0x6c, 0x54, 0x46, 0x02, 0x00, 0x00, 0x00, 0x40, 0x0b, 0x00, 0x00,
      0x5c, 0x06, 0x00, 0x00, 0x4a, 0x52, 0x4f, 0x4e], readCallback, ⟨8, 1024⟩⟩
    Document.zero [0x40, 0x0b, 0x00, 0x00] [0x5c, 0x06, 0x00, 0x00] [0x4a, 0x52, 0x4f, 0x4e] []
    rfl rfl rfl (by decide) rfl

/-! ## The text edits, for members that hold commas -/

theorem SkipsPair_of_not_mem (x y : Char) (m : Bytes) (h : x ∉ m) : SkipsPair x y m :=
  fun new R => replaceFirst_skip x [y] new m R h

theorem Calm_of_Quiet (m : Bytes) (h : Quiet m) : Calm m := by
  obtain ⟨h1, h2, h3⟩ := h
  refine ⟨SkipsPair_of_not_mem _ _ m h1, SkipsPair_of_not_mem _ _ m h1, h2, ?_⟩
  intro c t e
  subst e
  exact ⟨fun e => h1 (by simp [e]), fun e => h3 (by simp [e])⟩

theorem Calm_nil : Calm [] := Calm_of_Quiet [] Quiet_nil

theorem objectBody_split (c : Char) (m : Bytes) (ms : List Bytes) :
    objectBody ((c :: m) :: ms) = c :: (objectBody ((c :: m) :: ms)).drop 1 := by
  cases ms with
  | nil => simp [objectBody]
  | cons a as => simp [objectBody]

/-- The first pair of commas of an object text whose members are calm: it
surrounds the first empty member that stands between two members. -/
theorem replaceFirst_commas_calm_body : ∀ (ms : List Bytes), (∀ m ∈ ms, Calm m) →
    replaceFirst [comma, comma] [comma] (objectBody ms) = objectBody (dropInnerEmpty ms)
  | [], _ => by
    simp only [objectBody, dropInnerEmpty]
    rw [replaceFirst_char _ _ _ _ _ (by decide), replaceFirst_nil]
  | [m], h => by
    simp only [objectBody, dropInnerEmpty]
    rw [(h m (by simp)).1, replaceFirst_char _ _ _ _ _ (by decide), replaceFirst_nil]
  | [m, []], h => by
    simp only [objectBody, dropInnerEmpty, List.nil_append]
    rw [(h m (by simp)).1, replaceFirst_pair_ne _ _ _ _ _ (by decide),
      replaceFirst_char _ _ _ _ _ (by decide), replaceFirst_nil]
  | m :: [] :: m2 :: ms, h => by
    simp only [objectBody, dropInnerEmpty, List.nil_append]
    rw [(h m (by simp)).1]
    have hh := replaceFirst_hit [comma, comma] [comma] (objectBody (m2 :: ms))
    simp only [List.cons_append, List.nil_append] at hh
    rw [hh]
  | m :: (c :: m1) :: ms, h => by
    have hc : c ≠ comma := ((h (c :: m1) (by simp)).2.2.2 c m1 rfl).1
    have ih := replaceFirst_commas_calm_body ((c :: m1) :: ms) (fun a ha => h a (by simp [ha]))
    obtain ⟨ms1, h1⟩ := dropInnerEmpty_head (c :: m1) ms
    have h2 : dropInnerEmpty (m :: (c :: m1) :: ms) = m :: dropInnerEmpty ((c :: m1) :: ms) := rfl
    rw [h2, h1, objectBody_cons2, objectBody_cons2, (h m (by simp)).1]
    rw [h1] at ih
    have h3 := objectBody_split c m1 ms
    rw [h3, replaceFirst_pair_ne _ _ _ _ _ hc, ← h3, ih]

theorem replaceFirst_commas_calm (ms : List Bytes) (h : ∀ m ∈ ms, Calm m) :
    replaceFirst [comma, comma] [comma] (objectText ms) = objectText (dropInnerEmpty ms) := by
  simp only [objectText]
  rw [replaceFirst_char _ _ _ _ _ (by decide), replaceFirst_commas_calm_body ms h]

/-- The pair of an opening brace and a comma in an object text whose members
are calm: it is there when the first member is empty and followed by a
member. -/
theorem replaceFirst_lbrace_comma_calm (ms : List Bytes) (h : ∀ m ∈ ms, Calm m) :
    replaceFirst [lbrace, comma] [lbrace] (objectText ms) = objectText (dropLeadingEmpty ms) := by
  have hb : lbrace ∉ objectBody ms :=
    objectBody_head ms lbrace (by decide) (by decide) (fun m hm => (h m hm).2.2.1)
  simp only [objectText]
  match ms, h, hb with
  | [], _, _ =>
    simp only [objectBody, dropLeadingEmpty]
    rw [replaceFirst_pair_ne _ _ _ _ _ (by decide), replaceFirst_char _ _ _ _ _ (by decide),
      replaceFirst_nil]
  | [[]], _, _ =>
    simp only [objectBody, dropLeadingEmpty, List.nil_append]
    rw [replaceFirst_pair_ne _ _ _ _ _ (by decide), replaceFirst_char _ _ _ _ _ (by decide),
      replaceFirst_nil]
  | [] :: m1 :: ms1, _, _ =>
    simp only [objectBody, dropLeadingEmpty, List.nil_append]
    have hh := replaceFirst_hit [lbrace, comma] [lbrace] (objectBody (m1 :: ms1))
    simp only [List.cons_append, List.nil_append] at hh
    rw [hh]
  | (c :: m) :: ms1, h, hb =>
    have hc : c ≠ comma := ((h (c :: m) (by simp)).2.2.2 c m rfl).1
    have h2 : dropLeadingEmpty ((c :: m) :: ms1) = (c :: m) :: ms1 := rfl
    rw [h2]
    have h3 := objectBody_split c m ms1
    have hb1 : lbrace ∉ (objectBody ((c :: m) :: ms1)).drop 1 :=
      fun e => hb (List.mem_of_mem_drop e)
    have hcl : c ≠ lbrace := fun e => hb (by rw [h3, e]; simp)
    rw [h3, replaceFirst_pair_ne _ _ _ _ _ hc, replaceFirst_char _ _ _ _ _ hcl]
    have := replaceFirst_skip lbrace [comma] [lbrace] _ [] hb1
    rw [List.append_nil] at this
    rw [this, replaceFirst_nil, List.append_nil]

/-- The pair of a comma and the closing brace in an object text whose members
are calm: it is there when the last member is empty and follows a member. -/
theorem replaceFirst_comma_rbrace_calm_body : ∀ (ms : List Bytes), (∀ m ∈ ms, Calm m) →
    replaceFirst [comma, rbrace] [rbrace] (objectBody ms) = objectBody (dropTrailingEmpty ms)
  | [], _ => by
    simp only [objectBody, dropTrailingEmpty]
    rw [replaceFirst_char _ _ _ _ _ (by decide), replaceFirst_nil]
  | [m], h => by
    simp only [objectBody, dropTrailingEmpty]
    rw [(h m (by simp)).2.1, replaceFirst_char _ _ _ _ _ (by decide), replaceFirst_nil]
  | [m, []], h => by
    simp only [objectBody, dropTrailingEmpty, List.nil_append]
    rw [(h m (by simp)).2.1]
    have hh := replaceFirst_hit [comma, rbrace] [rbrace] []
    simp only [List.cons_append, List.nil_append, List.append_nil] at hh
    rw [hh]
  | m :: [] :: m2 :: ms, h => by
    have ih := replaceFirst_comma_rbrace_calm_body ([] :: m2 :: ms)
      (fun a ha => h a (by simp [ha]))
    obtain ⟨ms1, h1⟩ := dropTrailingEmpty_head [] (m2 :: ms) (Or.inr (by simp))
    have h2 : dropTrailingEmpty (m :: [] :: m2 :: ms) =
        m :: dropTrailingEmpty ([] :: m2 :: ms) := rfl
    rw [h2, h1, objectBody_cons2, objectBody_cons2, (h m (by simp)).2.1]
    rw [h1] at ih
    rw [objectBody_cons2, List.nil_append, replaceFirst_pair_ne _ _ _ _ _ (by decide)]
    rw [objectBody_cons2, List.nil_append] at ih
    rw [ih]
  | m :: (c :: m1) :: ms, h => by
    have hc : c ≠ rbrace := ((h (c :: m1) (by simp)).2.2.2 c m1 rfl).2
    have ih := replaceFirst_comma_rbrace_calm_body ((c :: m1) :: ms)
      (fun a ha => h a (by simp [ha]))
    obtain ⟨ms1, h1⟩ := dropTrailingEmpty_head (c :: m1) ms (Or.inl (by simp))
    have h2 : dropTrailingEmpty (m :: (c :: m1) :: ms) =
        m :: dropTrailingEmpty ((c :: m1) :: ms) := rfl
    rw [h2, h1, objectBody_cons2, objectBody_cons2, (h m (by simp)).2.1]
    rw [h1] at ih
    have h3 := objectBody_split c m1 ms
    rw [h3, replaceFirst_pair_ne _ _ _ _ _ hc, ← h3, ih]

theorem replaceFirst_comma_rbrace_calm (ms : List Bytes) (h : ∀ m ∈ ms, Calm m) :
    replaceFirst [comma, rbrace] [rbrace] (objectText ms) =
      objectText (dropTrailingEmpty ms) := by
  simp only [objectText]
  rw [replaceFirst_char _ _ _ _ _ (by decide), replaceFirst_comma_rbrace_calm_body ms h]

/-- Function removeProperty on an object text whose members are calm: the
member that equals the pattern becomes empty, and the pair of commas this
leaves is reduced to one. -/
theorem removeProperty_member_calm (old : Bytes) (h0 : ∃ t, old = dquote :: t)
    (pre post : List Bytes) (hp : ∀ m ∈ pre, PassesKey old m)
    (hq : ∀ m ∈ pre ++ post, Calm m) :
    removeProperty old (objectText (pre ++ old :: post)) =
      objectText (dropInnerEmpty (pre ++ [] :: post)) := by
  rw [removeProperty, replaceFirst_member old h0 pre post hp, replaceFirst_commas_calm]
  intro m hm
  rcases List.mem_append.mp hm with h | h
  · exact hq m (List.mem_append.mpr (Or.inl h))
  · rcases List.mem_cons.mp h with h | h
    · rw [h]
      exact Calm_nil
    · exact hq m (List.mem_append.mpr (Or.inr h))

/-- Function sanitizeJSON on an object text whose members are calm: an empty
first member and an empty last member are dropped with their commas. -/
theorem sanitizeJSON_objectText_calm (ms : List Bytes) (hq : ∀ m ∈ ms, Calm m) :
    sanitizeJSON (objectText ms) = objectText (dropTrailingEmpty (dropLeadingEmpty ms)) := by
  rw [sanitizeJSON, replaceFirst_lbrace_comma_calm ms hq, replaceFirst_comma_rbrace_calm]
  intro m hm
  exact hq m (dropLeadingEmpty_mem ms m hm)

/-! ## Skin: the text of the joints -/

theorem SkipsPair_append (x y : Char) (a b : Bytes) (ha : SkipsPair x y a)
    (hb : SkipsPair x y b) : SkipsPair x y (a ++ b) := by
  intro new R
  rw [List.append_assoc, ha, hb, List.append_assoc]

/-- The text of a natural number: a digit followed by digits. -/
theorem formatNat_shape (n : Nat) :
    ∃ d ds, formatNat n = d :: ds ∧ isDigit d = true ∧ ds.all isDigit = true := by
  have hall := natDigits_all (n + 1) n
  have hne : natDigits (n + 1) n ≠ [] := by
    simp only [natDigits]
    split <;> simp
  unfold formatNat
  cases h : natDigits (n + 1) n with
  | nil => exact absurd h hne
  | cons d ds =>
    rw [h] at hall
    simp only [List.all_cons, Bool.and_eq_true] at hall
    exact ⟨d, ds, rfl, hall.1, hall.2⟩

theorem formatNat_not_mem (x : Char) (hx : isDigit x = false) (n : Nat) : x ∉ formatNat n := by
  intro hmem
  have h := List.all_eq_true.mp (natDigits_all (n + 1) n) x hmem
  rw [hx] at h
  exact absurd h (by decide)

/-- The search for a comma followed by a character that is not a digit passes
over the elements of an array of natural numbers and its closing bracket. -/
theorem renderElems_nums_skip (y : Char) (hy : isDigit y = false) (new : Bytes) :
    ∀ (ns : List Nat) (R : Bytes),
      replaceFirst [comma, y] new
          (renderElems (ns.map (fun n => JSON.num (formatNat n))) ++ rbrack :: R) =
        renderElems (ns.map (fun n => JSON.num (formatNat n))) ++
          rbrack :: replaceFirst [comma, y] new R
  | [], R => by
    simp only [List.map, renderElems, List.nil_append]
    rw [replaceFirst_char _ _ _ _ _ (by decide)]
  | [n], R => by
    simp only [List.map, renderElems, render]
    rw [replaceFirst_skip _ _ _ (formatNat n) _ (formatNat_not_mem comma (by decide) n),
      replaceFirst_char _ _ _ _ _ (by decide)]
  | n :: n1 :: ns, R => by
    have ih := renderElems_nums_skip y hy new (n1 :: ns) R
    obtain ⟨d, ds, hd, hd1, _⟩ := formatNat_shape n1
    have hdy : d ≠ y := by
      intro e
      rw [e, hy] at hd1
      exact absurd hd1 (by decide)
    have hhead : ∃ tl, renderElems (JSON.num (formatNat n1) ::
        ns.map (fun n => JSON.num (formatNat n))) = d :: tl := by
      cases ns.map (fun n => JSON.num (formatNat n)) with
      | nil => exact ⟨ds, by simp [renderElems, render, hd]⟩
      | cons j js =>
        exact ⟨ds ++ comma :: renderElems (j :: js), by
          rw [renderElems_cons2]
          simp [render, hd]⟩
    obtain ⟨tl, htl⟩ := hhead
    simp only [List.map_cons] at ih ⊢
    rw [renderElems_cons2, List.append_assoc]
    simp only [render, List.cons_append]
    rw [replaceFirst_skip _ _ _ (formatNat n) _ (formatNat_not_mem comma (by decide) n)]
    rw [htl] at ih ⊢
    simp only [List.cons_append] at ih ⊢
    rw [replaceFirst_pair_ne _ _ _ _ _ hdy, ih]
    simp

theorem renderElems_nums_not_mem (x : Char) (hx : isDigit x = false) (hc : x ≠ comma) :
    ∀ (ns : List Nat), x ∉ renderElems (ns.map (fun n => JSON.num (formatNat n)))
  | [] => by simp [renderElems]
  | [n] => by
    simp only [List.map, renderElems, render]
    exact formatNat_not_mem x hx n
  | n :: n1 :: ns => by
    have ih := renderElems_nums_not_mem x hx hc (n1 :: ns)
    simp only [List.map_cons] at ih ⊢
    rw [renderElems_cons2]
    simp only [render, List.mem_append, List.mem_cons, not_or]
    exact ⟨formatNat_not_mem x hx n, hc, ih⟩

/-- A member whose key is quiet and whose value the searches pass over is
calm. -/
theorem Calm_member (key : String) (v : Bytes) (hk : Quiet key.data)
    (h1 : SkipsPair comma comma v) (h2 : SkipsPair comma rbrace v) (h3 : lbrace ∉ v) :
    Calm (memberText key v) := by
  obtain ⟨k1, k2, _⟩ := hk
  have hpre : ∀ y, SkipsPair comma y (dquote :: (key.data ++ [dquote, colon])) := by
    intro y
    apply SkipsPair_of_not_mem
    simp only [List.mem_cons, List.mem_append, List.mem_singleton, List.not_mem_nil, or_false,
      not_or]
    exact ⟨by decide, k1, by decide, by decide⟩
  have e : memberText key v = dquote :: (key.data ++ [dquote, colon]) ++ v := by
    simp [memberText]
  rw [e]
  refine ⟨SkipsPair_append _ _ _ _ (hpre _) h1, SkipsPair_append _ _ _ _ (hpre _) h2, ?_, ?_⟩
  · simp only [List.cons_append, List.mem_cons, List.mem_append, List.mem_singleton,
      List.not_mem_nil, or_false, not_or]
    exact ⟨by decide, ⟨k2, by decide, by decide⟩, h3⟩
  · intro c t hct
    simp only [List.cons_append, List.cons.injEq] at hct
    rw [← hct.1]
    exact ⟨by decide, by decide⟩

/-- The member written for the joints of a Skin is calm. -/
theorem Skin_joints_calm (s : Skin) :
    Calm (memberText "joints" (render (Skin.jointsValue s))) := by
  apply Calm_member "joints" _ ⟨by decide, by decide, by decide⟩
  · unfold Skin.jointsValue
    cases s.Joints with
    | none => exact SkipsPair_of_not_mem _ _ _ (by decide)
    | some l =>
      intro new R
      simp only [render, List.cons_append, List.append_assoc, List.singleton_append,
        List.nil_append]
      rw [replaceFirst_char _ _ _ _ _ (by decide),
        renderElems_nums_skip comma (by decide) new l R]
  · unfold Skin.jointsValue
    cases s.Joints with
    | none => exact SkipsPair_of_not_mem _ _ _ (by decide)
    | some l =>
      intro new R
      simp only [render, List.cons_append, List.append_assoc, List.singleton_append,
        List.nil_append]
      rw [replaceFirst_char _ _ _ _ _ (by decide),
        renderElems_nums_skip rbrace (by decide) new l R]
  · unfold Skin.jointsValue
    cases s.Joints with
    | none => decide
    | some l =>
      simp only [render, List.mem_cons, List.mem_append, List.mem_singleton, not_or]
      exact ⟨by decide, renderElems_nums_not_mem lbrace (by decide) (by decide) l, by decide⟩

/-! ## Skin: encoding -/

theorem encodeElems_uint32 : ∀ (l : List Nat), (∀ n ∈ l, n < 2 ^ 32) →
    encodeElems uint32Codec l = .ok (l.map (fun n => JSON.num (formatNat n)))
  | [], _ => rfl
  | n :: l, h => by
    have hn : n < 2 ^ 32 := h n (by simp)
    have ih := encodeElems_uint32 l (fun a ha => h a (by simp [ha]))
    have e : uint32Codec.encode n = .ok (JSON.num (formatNat n)) := by
      simp only [uint32Codec, uintCodec]
      rw [if_pos hn]
    simp only [encodeElems, e, ih, List.map_cons]

theorem Skin_encodeFields (s : Skin) (he : s.Extensions = none) (hx : s.Extras = none)
    (hi : - (2 : Int) ^ 31 ≤ s.InverseBindMatrices ∧ s.InverseBindMatrices < (2 : Int) ^ 31)
    (hk : - (2 : Int) ^ 31 ≤ s.Skeleton ∧ s.Skeleton < (2 : Int) ^ 31)
    (hj : ∀ l, s.Joints = some l → ∀ n ∈ l, n < 2 ^ 32) :
    encodeFields s (embedFields [] Skin.fields) =
      .ok ((if s.Name.data = [] then [] else [("name", .str s.Name)]) ++
        [("inverseBindMatrices", .num (formatInt s.InverseBindMatrices)),
          ("skeleton", .num (formatInt s.Skeleton)), ("joints", Skin.jointsValue s)]) := by
  rw [embedFields_nil]
  have hi1 : int32Codec.encode s.InverseBindMatrices =
      .ok (.num (formatInt s.InverseBindMatrices)) := by
    simp only [int32Codec, intCodec]
    rw [if_pos (by simpa using hi)]
  have hk1 : int32Codec.encode s.Skeleton = .ok (.num (formatInt s.Skeleton)) := by
    simp only [int32Codec, intCodec]
    rw [if_pos (by simpa using hk)]
  have hj1 : (sliceCodec uint32Codec 0).encode s.Joints = .ok (Skin.jointsValue s) := by
    unfold Skin.jointsValue
    cases hjs : s.Joints with
    | none => rfl
    | some l =>
      simp only [sliceCodec, encodeElems_uint32 l (hj l hjs), Except.map]
  by_cases hn : s.Name.data = []
  · simp [encodeFields, Skin.fields, Field.of, he, hx, hn, hi1, hk1, hj1, extensionsCodec,
      mapCodec, anyCodec, stringCodec]
  · simp [encodeFields, Skin.fields, Field.of, he, hx, hn, hi1, hk1, hj1, extensionsCodec,
      mapCodec, anyCodec, stringCodec]

/-- The texts of the four members of a Skin. -/
theorem Skin_member_texts (s : Skin) :
    renderString "name" ++ colon :: render (.str s.Name) =
      memberText "name" (stringText s.Name) ∧
    renderString "inverseBindMatrices" ++
        colon :: render (.num (formatInt s.InverseBindMatrices)) =
      memberText "inverseBindMatrices" (formatInt s.InverseBindMatrices) ∧
    renderString "skeleton" ++ colon :: render (.num (formatInt s.Skeleton)) =
      memberText "skeleton" (formatInt s.Skeleton) ∧
    renderString "joints" ++ colon :: render (Skin.jointsValue s) =
      memberText "joints" (render (Skin.jointsValue s)) := by
  have e1 : escapeString "name".data = "name".data := by decide
  have e2 : escapeString "inverseBindMatrices".data = "inverseBindMatrices".data := by decide
  have e3 : escapeString "skeleton".data = "skeleton".data := by decide
  have e4 : escapeString "joints".data = "joints".data := by decide
  refine ⟨?_, ?_, ?_, ?_⟩
  · simp [renderString, render, memberText, stringText, e1]
  · simp [renderString, render, memberText, e2]
  · simp [renderString, render, memberText, e3]
  · simp [renderString, memberText, e4]

/-- The text that Skin.MarshalJSON returns for a Skin without Extensions and
Extras whose name holds no comma and no brace: the object of the members that
are not at their defaults, and of the joints. -/
theorem Skin_marshal (s : Skin) (he : s.Extensions = none) (hx : s.Extras = none)
    (hname : ∀ c ∈ s.Name.data, c ≠ comma ∧ c ≠ lbrace ∧ c ≠ rbrace)
    (hi : - (2 : Int) ^ 31 ≤ s.InverseBindMatrices ∧ s.InverseBindMatrices < (2 : Int) ^ 31)
    (hk : - (2 : Int) ^ 31 ≤ s.Skeleton ∧ s.Skeleton < (2 : Int) ^ 31)
    (hj : ∀ l, s.Joints = some l → ∀ n ∈ l, n < 2 ^ 32) :
    Skin.MarshalJSON s = .ok (render (.obj (Skin.members s))) := by
  obtain ⟨tn, ti, ts, tj⟩ := Skin_member_texts s
  have cn : Calm (memberText "name" (stringText s.Name)) :=
    Calm_of_Quiet _ (Quiet_string_member "name" s.Name ⟨by decide, by decide, by decide⟩ hname)
  have ci : Calm (memberText "inverseBindMatrices" (formatInt s.InverseBindMatrices)) :=
    Calm_of_Quiet _ (Quiet_number_member "inverseBindMatrices" _
      ⟨by decide, by decide, by decide⟩)
  have cs : Calm (memberText "skeleton" (formatInt s.Skeleton)) :=
    Calm_of_Quiet _ (Quiet_number_member "skeleton" _ ⟨by decide, by decide, by decide⟩)
  have cj := Skin_joints_calm s
  have c0 := Calm_nil
  have pibm : "\"inverseBindMatrices\":-1".data = memberText "inverseBindMatrices" "-1".data := by
    decide
  have pske : "\"skeleton\":-1".data = memberText "skeleton" "-1".data := by decide
  have pn1 : PassesKey (memberText "inverseBindMatrices" "-1".data)
      (memberText "name" (stringText s.Name)) :=
    PassesKey_string_member "inverseBindMatrices" "name" _ s.Name 'i' "nverseBindMatrices".data
      rfl (by decide) (by decide) (by decide) (by decide) (by decide)
  have pn2 : PassesKey (memberText "skeleton" "-1".data)
      (memberText "name" (stringText s.Name)) :=
    PassesKey_string_member "skeleton" "name" _ s.Name 's' "keleton".data rfl (by decide)
      (by decide) (by decide) (by decide) (by decide)
  have pi2 : PassesKey (memberText "skeleton" "-1".data)
      (memberText "inverseBindMatrices" (formatInt s.InverseBindMatrices)) :=
    PassesKey_number_member "skeleton" "inverseBindMatrices" _ s.InverseBindMatrices 's'
      "keleton".data rfl (by decide) (by decide) (by decide) (by decide)
  have p02 : PassesKey (memberText "skeleton" "-1".data) [] := PassesKey_empty _
  have hq0 : ∃ tl, memberText "inverseBindMatrices" "-1".data = dquote :: tl := ⟨_, rfl⟩
  have hq1 : ∃ tl, memberText "skeleton" "-1".data = dquote :: tl := ⟨_, rfl⟩
  have fm1 : formatInt (-1) = "-1".data := by decide
  have cp2 : Calm (memberText "skeleton" "-1".data) :=
    Calm_of_Quiet _ ⟨by decide, by decide, by decide⟩
  have rpos : ∀ (c : Bool) (str : String) (b : Bytes), c = true →
      removeIf c str b = removeProperty str.data b := by
    intro c str b h
    simp [removeIf, h]
  have rneg : ∀ (c : Bool) (str : String) (b : Bytes), c = false → removeIf c str b = b := by
    intro c str b h
    simp [removeIf, h]
  have htext : ∀ ms : List (String × JSON), ms ≠ [] →
      render (.obj ms) = objectText (ms.map (fun m => renderString m.1 ++ colon :: render m.2)) :=
    fun ms h => (render_members_texts ms).resolve_right h
  unfold Skin.MarshalJSON
  simp only [marshalStruct, Skin_encodeFields s he hx hi hk hj, Except.map]
  congr 1
  unfold Skin.members
  by_cases hn : s.Name.data = [] <;> by_cases h1 : s.InverseBindMatrices = -1 <;>
    by_cases h2 : s.Skeleton = -1
  · -- name empty, inverseBindMatrices -1, skeleton -1
    rw [if_pos hn, if_pos h1, if_pos h2]
    rw [rpos _ _ _ (by simpa using h2), rpos _ _ _ (by simpa using h1)]
    rw [pibm, pske]
    rw [htext _ (by simp)]
    simp only [List.map, List.nil_append, List.cons_append, tn, ti, ts, tj]
    rw [h1, fm1]
    rw [h2, fm1]
    rw [show objectText [(memberText "inverseBindMatrices" "-1".data), (memberText "skeleton" "-1".data), (memberText "joints" (render (Skin.jointsValue s)))] = objectText ([] ++ (memberText "inverseBindMatrices" "-1".data) :: [(memberText "skeleton" "-1".data), (memberText "joints" (render (Skin.jointsValue s)))]) from rfl,
      removeProperty_member_calm _ hq0 [] [(memberText "skeleton" "-1".data), (memberText "joints" (render (Skin.jointsValue s)))] (by simp)
      (by
        intro m hm
        simp only [List.mem_cons, List.mem_singleton, List.mem_append, List.not_mem_nil, or_false, false_or, or_assoc] at hm
        rcases hm with rfl | rfl
        all_goals assumption),
      show dropInnerEmpty ([] ++ [] :: [(memberText "skeleton" "-1".data), (memberText "joints" (render (Skin.jointsValue s)))]) = [[], (memberText "skeleton" "-1".data), (memberText "joints" (render (Skin.jointsValue s)))] from rfl]
    rw [show objectText [[], (memberText "skeleton" "-1".data), (memberText "joints" (render (Skin.jointsValue s)))] = objectText ([[]] ++ (memberText "skeleton" "-1".data) :: [(memberText "joints" (render (Skin.jointsValue s)))]) from rfl,
      removeProperty_member_calm _ hq1 [[]] [(memberText "joints" (render (Skin.jointsValue s)))] (by
          intro m hm
          simp only [List.mem_cons, List.mem_singleton, List.mem_append, List.not_mem_nil, or_false, false_or, or_assoc] at hm
          rcases hm with rfl
          all_goals assumption)
      (by
        intro m hm
        simp only [List.mem_cons, List.mem_singleton, List.mem_append, List.not_mem_nil, or_false, false_or, or_assoc] at hm
        rcases hm with rfl | rfl
        all_goals assumption),
      show dropInnerEmpty ([[]] ++ [] :: [(memberText "joints" (render (Skin.jointsValue s)))]) = [[], (memberText "joints" (render (Skin.jointsValue s)))] from rfl]
    rw [sanitizeJSON_objectText_calm [[], (memberText "joints" (render (Skin.jointsValue s)))]
      (by
        intro m hm
        simp only [List.mem_cons, List.mem_singleton, List.mem_append, List.not_mem_nil, or_false, false_or, or_assoc] at hm
        rcases hm with rfl | rfl
        all_goals assumption)]
    rw [htext _ (by simp)]
    simp only [List.map, List.nil_append, List.cons_append, tn, ti, ts, tj]
    rfl
  · -- name empty, inverseBindMatrices -1, skeleton set
    rw [if_pos hn, if_pos h1, if_neg h2]
    rw [rneg _ _ _ (by simpa using h2), rpos _ _ _ (by simpa using h1)]
    rw [pibm]
    rw [htext _ (by simp)]
    simp only [List.map, List.nil_append, List.cons_append, tn, ti, ts, tj]
    rw [h1, fm1]
    rw [show objectText [(memberText "inverseBindMatrices" "-1".data), (memberText "skeleton" (formatInt s.Skeleton)), (memberText "joints" (render (Skin.jointsValue s)))] = objectText ([] ++ (memberText "inverseBindMatrices" "-1".data) :: [(memberText "skeleton" (formatInt s.Skeleton)), (memberText "joints" (render (Skin.jointsValue s)))]) from rfl,
      removeProperty_member_calm _ hq0 [] [(memberText "skeleton" (formatInt s.Skeleton)), (memberText "joints" (render (Skin.jointsValue s)))] (by simp)
      (by
        intro m hm
        simp only [List.mem_cons, List.mem_singleton, List.mem_append, List.not_mem_nil, or_false, false_or, or_assoc] at hm
        rcases hm with rfl | rfl
        all_goals assumption),
      show dropInnerEmpty ([] ++ [] :: [(memberText "skeleton" (formatInt s.Skeleton)), (memberText "joints" (render (Skin.jointsValue s)))]) = [[], (memberText "skeleton" (formatInt s.Skeleton)), (memberText "joints" (render (Skin.jointsValue s)))] from rfl]
    rw [sanitizeJSON_objectText_calm [[], (memberText "skeleton" (formatInt s.Skeleton)), (memberText "joints" (render (Skin.jointsValue s)))]
      (by
        intro m hm
        simp only [List.mem_cons, List.mem_singleton, List.mem_append, List.not_mem_nil, or_false, false_or, or_assoc] at hm
        rcases hm with rfl | rfl | rfl
        all_goals assumption)]
    rw [htext _ (by simp)]
    simp only [List.map, List.nil_append, List.cons_append, tn, ti, ts, tj]
    rfl
  · -- name empty, inverseBindMatrices set, skeleton -1
    rw [if_pos hn, if_neg h1, if_pos h2]
    rw [rpos _ _ _ (by simpa using h2), rneg _ _ _ (by simpa using h1)]
    rw [pske]
    rw [htext _ (by simp)]
    simp only [List.map, List.nil_append, List.cons_append, tn, ti, ts, tj]
    rw [h2, fm1]
    rw [show objectText [(memberText "inverseBindMatrices" (formatInt s.InverseBindMatrices)), (memberText "skeleton" "-1".data), (memberText "joints" (render (Skin.jointsValue s)))] = objectText ([(memberText "inverseBindMatrices" (formatInt s.InverseBindMatrices))] ++ (memberText "skeleton" "-1".data) :: [(memberText "joints" (render (Skin.jointsValue s)))]) from rfl,
      removeProperty_member_calm _ hq1 [(memberText "inverseBindMatrices" (formatInt s.InverseBindMatrices))] [(memberText "joints" (render (Skin.jointsValue s)))] (by
          intro m hm
          simp only [List.mem_cons, List.mem_singleton, List.mem_append, List.not_mem_nil, or_false, false_or, or_assoc] at hm
          rcases hm with rfl
          all_goals assumption)
      (by
        intro m hm
        simp only [List.mem_cons, List.mem_singleton, List.mem_append, List.not_mem_nil, or_false, false_or, or_assoc] at hm
        rcases hm with rfl | rfl
        all_goals assumption),
      show dropInnerEmpty ([(memberText "inverseBindMatrices" (formatInt s.InverseBindMatrices))] ++ [] :: [(memberText "joints" (render (Skin.jointsValue s)))]) = [(memberText "inverseBindMatrices" (formatInt s.InverseBindMatrices)), (memberText "joints" (render (Skin.jointsValue s)))] from rfl]
    rw [sanitizeJSON_objectText_calm [(memberText "inverseBindMatrices" (formatInt s.InverseBindMatrices)), (memberText "joints" (render (Skin.jointsValue s)))]
      (by
        intro m hm
        simp only [List.mem_cons, List.mem_singleton, List.mem_append, List.not_mem_nil, or_false, false_or, or_assoc] at hm
        rcases hm with rfl | rfl
        all_goals assumption)]
    rw [htext _ (by simp)]
    simp only [List.map, List.nil_append, List.cons_append, tn, ti, ts, tj]
    rfl
  · -- name empty, inverseBindMatrices set, skeleton set
    rw [if_pos hn, if_neg h1, if_neg h2]
    rw [rneg _ _ _ (by simpa using h2), rneg _ _ _ (by simpa using h1)]
    rw [htext _ (by simp)]
    simp only [List.map, List.nil_append, List.cons_append, tn, ti, ts, tj]
    rw [sanitizeJSON_objectText_calm [(memberText "inverseBindMatrices" (formatInt s.InverseBindMatrices)), (memberText "skeleton" (formatInt s.Skeleton)), (memberText "joints" (render (Skin.jointsValue s)))]
      (by
        intro m hm
        simp only [List.mem_cons, List.mem_singleton, List.mem_append, List.not_mem_nil, or_false, false_or, or_assoc] at hm
        rcases hm with rfl | rfl | rfl
        all_goals assumption)]
    rw [htext _ (by simp)]
    simp only [List.map, List.nil_append, List.cons_append, tn, ti, ts, tj]
    rfl
  · -- name set, inverseBindMatrices -1, skeleton -1
    rw [if_neg hn, if_pos h1, if_pos h2]
    rw [rpos _ _ _ (by simpa using h2), rpos _ _ _ (by simpa using h1)]
    rw [pibm, pske]
    rw [htext _ (by simp)]
    simp only [List.map, List.nil_append, List.cons_append, tn, ti, ts, tj]
    rw [h1, fm1]
    rw [h2, fm1]
    rw [show objectText [(memberText "name" (stringText s.Name)), (memberText "inverseBindMatrices" "-1".data), (memberText "skeleton" "-1".data), (memberText "joints" (render (Skin.jointsValue s)))] = objectText ([(memberText "name" (stringText s.Name))] ++ (memberText "inverseBindMatrices" "-1".data) :: [(memberText "skeleton" "-1".data), (memberText "joints" (render (Skin.jointsValue s)))]) from rfl,
      removeProperty_member_calm _ hq0 [(memberText "name" (stringText s.Name))] [(memberText "skeleton" "-1".data), (memberText "joints" (render (Skin.jointsValue s)))] (by
          intro m hm
          simp only [List.mem_cons, List.mem_singleton, List.mem_append, List.not_mem_nil, or_false, false_or, or_assoc] at hm
          rcases hm with rfl
          all_goals assumption)
      (by
        intro m hm
        simp only [List.mem_cons, List.mem_singleton, List.mem_append, List.not_mem_nil, or_false, false_or, or_assoc] at hm
        rcases hm with rfl | rfl | rfl
        all_goals assumption),
      show dropInnerEmpty ([(memberText "name" (stringText s.Name))] ++ [] :: [(memberText "skeleton" "-1".data), (memberText "joints" (render (Skin.jointsValue s)))]) = [(memberText "name" (stringText s.Name)), (memberText "skeleton" "-1".data), (memberText "joints" (render (Skin.jointsValue s)))] from rfl]
    rw [show objectText [(memberText "name" (stringText s.Name)), (memberText "skeleton" "-1".data), (memberText "joints" (render (Skin.jointsValue s)))] = objectText ([(memberText "name" (stringText s.Name))] ++ (memberText "skeleton" "-1".data) :: [(memberText "joints" (render (Skin.jointsValue s)))]) from rfl,
      removeProperty_member_calm _ hq1 [(memberText "name" (stringText s.Name))] [(memberText "joints" (render (Skin.jointsValue s)))] (by
          intro m hm
          simp only [List.mem_cons, List.mem_singleton, List.mem_append, List.not_mem_nil, or_false, false_or, or_assoc] at hm
          rcases hm with rfl
          all_goals assumption)
      (by
        intro m hm
        simp only [List.mem_cons, List.mem_singleton, List.mem_append, List.not_mem_nil, or_false, false_or, or_assoc] at hm
        rcases hm with rfl | rfl
        all_goals assumption),
      show dropInnerEmpty ([(memberText "name" (stringText s.Name))] ++ [] :: [(memberText "joints" (render (Skin.jointsValue s)))]) = [(memberText "name" (stringText s.Name)), (memberText "joints" (render (Skin.jointsValue s)))] from rfl]
    rw [sanitizeJSON_objectText_calm [(memberText "name" (stringText s.Name)), (memberText "joints" (render (Skin.jointsValue s)))]
      (by
        intro m hm
        simp only [List.mem_cons, List.mem_singleton, List.mem_append, List.not_mem_nil, or_false, false_or, or_assoc] at hm
        rcases hm with rfl | rfl
        all_goals assumption)]
    rw [htext _ (by simp)]
    simp only [List.map, List.nil_append, List.cons_append, tn, ti, ts, tj]
    rfl
  · -- name set, inverseBindMatrices -1, skeleton set
    rw [if_neg hn, if_pos h1, if_neg h2]
    rw [rneg _ _ _ (by simpa using h2), rpos _ _ _ (by simpa using h1)]
    rw [pibm]
    rw [htext _ (by simp)]
    simp only [List.map, List.nil_append, List.cons_append, tn, ti, ts, tj]
    rw [h1, fm1]
    rw [show objectText [(memberText "name" (stringText s.Name)), (memberText "inverseBindMatrices" "-1".data), (memberText "skeleton" (formatInt s.Skeleton)), (memberText "joints" (render (Skin.jointsValue s)))] = objectText ([(memberText "name" (stringText s.Name))] ++ (memberText "inverseBindMatrices" "-1".data) :: [(memberText "skeleton" (formatInt s.Skeleton)), (memberText "joints" (render (Skin.jointsValue s)))]) from rfl,
      removeProperty_member_calm _ hq0 [(memberText "name" (stringText s.Name))] [(memberText "skeleton" (formatInt s.Skeleton)), (memberText "joints" (render (Skin.jointsValue s)))] (by
          intro m hm
          simp only [List.mem_cons, List.mem_singleton, List.mem_append, List.not_mem_nil, or_false, false_or, or_assoc] at hm
          rcases hm with rfl
          all_goals assumption)
      (by
        intro m hm
        simp only [List.mem_cons, List.mem_singleton, List.mem_append, List.not_mem_nil, or_false, false_or, or_assoc] at hm
        rcases hm with rfl | rfl | rfl
        all_goals assumption),
      show dropInnerEmpty ([(memberText "name" (stringText s.Name))] ++ [] :: [(memberText "skeleton" (formatInt s.Skeleton)), (memberText "joints" (render (Skin.jointsValue s)))]) = [(memberText "name" (stringText s.Name)), (memberText "skeleton" (formatInt s.Skeleton)), (memberText "joints" (render (Skin.jointsValue s)))] from rfl]
    rw [sanitizeJSON_objectText_calm [(memberText "name" (stringText s.Name)), (memberText "skeleton" (formatInt s.Skeleton)), (memberText "joints" (render (Skin.jointsValue s)))]
      (by
        intro m hm
        simp only [List.mem_cons, List.mem_singleton, List.mem_append, List.not_mem_nil, or_false, false_or, or_assoc] at hm
        rcases hm with rfl | rfl | rfl
        all_goals assumption)]
    rw [htext _ (by simp)]
    simp only [List.map, List.nil_append, List.cons_append, tn, ti, ts, tj]
    rfl
  · -- name set, inverseBindMatrices set, skeleton -1
    rw [if_neg hn, if_neg h1, if_pos h2]
    rw [rpos _ _ _ (by simpa using h2), rneg _ _ _ (by simpa using h1)]
    rw [pske]
    rw [htext _ (by simp)]
    simp only [List.map, List.nil_append, List.cons_append, tn, ti, ts, tj]
    rw [h2, fm1]
    rw [show objectText [(memberText "name" (stringText s.Name)), (memberText "inverseBindMatrices" (formatInt s.InverseBindMatrices)), (memberText "skeleton" "-1".data), (memberText "joints" (render (Skin.jointsValue s)))] = objectText ([(memberText "name" (stringText s.Name)), (memberText "inverseBindMatrices" (formatInt s.InverseBindMatrices))] ++ (memberText "skeleton" "-1".data) :: [(memberText "joints" (render (Skin.jointsValue s)))]) from rfl,
      removeProperty_member_calm _ hq1 [(memberText "name" (stringText s.Name)), (memberText "inverseBindMatrices" (formatInt s.InverseBindMatrices))] [(memberText "joints" (render (Skin.jointsValue s)))] (by
          intro m hm
          simp only [List.mem_cons, List.mem_singleton, List.mem_append, List.not_mem_nil, or_false, false_or, or_assoc] at hm
          rcases hm with rfl | rfl
          all_goals assumption)
      (by
        intro m hm
        simp only [List.mem_cons, List.mem_singleton, List.mem_append, List.not_mem_nil, or_false, false_or, or_assoc] at hm
        rcases hm with rfl | rfl | rfl
        all_goals assumption),
      show dropInnerEmpty ([(memberText "name" (stringText s.Name)), (memberText "inverseBindMatrices" (formatInt s.InverseBindMatrices))] ++ [] :: [(memberText "joints" (render (Skin.jointsValue s)))]) = [(memberText "name" (stringText s.Name)), (memberText "inverseBindMatrices" (formatInt s.InverseBindMatrices)), (memberText "joints" (render (Skin.jointsValue s)))] from rfl]
    rw [sanitizeJSON_objectText_calm [(memberText "name" (stringText s.Name)), (memberText "inverseBindMatrices" (formatInt s.InverseBindMatrices)), (memberText "joints" (render (Skin.jointsValue s)))]
      (by
        intro m hm
        simp only [List.mem_cons, List.mem_singleton, List.mem_append, List.not_mem_nil, or_false, false_or, or_assoc] at hm
        rcases hm with rfl | rfl | rfl
        all_goals assumption)]
    rw [htext _ (by simp)]
    simp only [List.map, List.nil_append, List.cons_append, tn, ti, ts, tj]
    rfl
  · -- name set, inverseBindMatrices set, skeleton set
    rw [if_neg hn, if_neg h1, if_neg h2]
    rw [rneg _ _ _ (by simpa using h2), rneg _ _ _ (by simpa using h1)]
    rw [htext _ (by simp)]
    simp only [List.map, List.nil_append, List.cons_append, tn, ti, ts, tj]
    rw [sanitizeJSON_objectText_calm [(memberText "name" (stringText s.Name)), (memberText "inverseBindMatrices" (formatInt s.InverseBindMatrices)), (memberText "skeleton" (formatInt s.Skeleton)), (memberText "joints" (render (Skin.jointsValue s)))]
      (by
        intro m hm
        simp only [List.mem_cons, List.mem_singleton, List.mem_append, List.not_mem_nil, or_false, false_or, or_assoc] at hm
        rcases hm with rfl | rfl | rfl | rfl
        all_goals assumption)]
    rw [htext _ (by simp)]
    simp only [List.map, List.nil_append, List.cons_append, tn, ti, ts, tj]
    rfl

theorem wfElems_nums : ∀ (l : List Nat),
    JSON.wfElems (l.map (fun n => JSON.num (formatNat n))) = true
  | [] => rfl
  | n :: l => by
    simp only [List.map_cons, JSON.wfElems, JSON.wf, validNumber_formatNat, wfElems_nums l,
      Bool.and_self]

theorem Skin_jointsValue_wf (s : Skin) : (Skin.jointsValue s).wf = true := by
  unfold Skin.jointsValue
  cases s.Joints with
  | none => rfl
  | some l => simp only [JSON.wf, wfElems_nums]

theorem Skin_members_wf (s : Skin) : (JSON.obj (Skin.members s)).wf = true := by
  unfold Skin.members
  by_cases hn : s.Name.data = [] <;> by_cases h1 : s.InverseBindMatrices = -1 <;>
    by_cases h2 : s.Skeleton = -1 <;>
    simp [hn, h1, h2, JSON.wf, JSON.wfMembers, validNumber_formatInt, Skin_jointsValue_wf]

/-- C26: for every Skin without Extensions and Extras whose Name holds no
comma and no brace (the numbers being in the ranges of their Go types),
Skin.MarshalJSON returns the text of a well-formed JSON object.  The object has
an "inverseBindMatrices" member exactly when InverseBindMatrices is not -1, and
its value is then the number; it has a "skeleton" member exactly when Skeleton
is not -1, and its value is then the number; and it always has a "joints"
member, whose value is the one json.Marshal writes for the joints. -/
theorem C26_skin_marshal_omits_sentinels (s : Skin) (he : s.Extensions = none)
    (hx : s.Extras = none)
    (hname : ∀ c ∈ s.Name.data, c ≠ comma ∧ c ≠ lbrace ∧ c ≠ rbrace)
    (hi : - (2 : Int) ^ 31 ≤ s.InverseBindMatrices ∧ s.InverseBindMatrices < (2 : Int) ^ 31)
    (hk : - (2 : Int) ^ 31 ≤ s.Skeleton ∧ s.Skeleton < (2 : Int) ^ 31)
    (hj : ∀ l, s.Joints = some l → ∀ n ∈ l, n < 2 ^ 32) :
    ∃ out ms, Skin.MarshalJSON s = .ok out ∧ IsObjectText out ms ∧
      (hasKey ms "inverseBindMatrices" = true ↔ s.InverseBindMatrices ≠ -1) ∧
      (s.InverseBindMatrices ≠ -1 →
        lookupKey ms "inverseBindMatrices" = some (.num (formatInt s.InverseBindMatrices))) ∧
      (hasKey ms "skeleton" = true ↔ s.Skeleton ≠ -1) ∧
      (s.Skeleton ≠ -1 → lookupKey ms "skeleton" = some (.num (formatInt s.Skeleton))) ∧
      hasKey ms "joints" = true ∧ lookupKey ms "joints" = some (Skin.jointsValue s) := by
  have hp : parseJSON (render (.obj (Skin.members s))) = some (.obj (Skin.members s)) :=
    parseJSON_render _ (Skin_members_wf s)
  refine ⟨_, Skin.members s, Skin_marshal s he hx hname hi hk hj, hp, ?_⟩
  unfold Skin.members
  by_cases hn : s.Name.data = [] <;> by_cases h1 : s.InverseBindMatrices = -1 <;>
    by_cases h2 : s.Skeleton = -1 <;>
    simp [hn, h1, h2, hasKey, lookupKey, List.find?]

/-- Witness of C26: a Skin with a name, a skeleton and two joints and no
inverseBindMatrices, and the Skin of NewSkin. -/
theorem C26_skin_marshal_omits_sentinels_witness :
    (∃ out ms,
      Skin.MarshalJSON { NewSkin with Name := "arm", Skeleton := 2, Joints := some [1, 2] } =
        .ok out ∧ IsObjectText out ms ∧
      (hasKey ms "inverseBindMatrices" = true ↔ (-1 : Int) ≠ -1) ∧
      ((-1 : Int) ≠ -1 →
        lookupKey ms "inverseBindMatrices" = some (.num (formatInt (-1)))) ∧
      (hasKey ms "skeleton" = true ↔ (2 : Int) ≠ -1) ∧
      ((2 : Int) ≠ -1 → lookupKey ms "skeleton" = some (.num (formatInt 2))) ∧
      hasKey ms "joints" = true ∧
      lookupKey ms "joints" = some (.arr [.num (formatNat 1), .num (formatNat 2)])) ∧
    Skin.MarshalJSON { NewSkin with Name := "arm", Skeleton := 2, Joints := some [1, 2] } =
      .ok "\x7b\"name\":\"arm\",\"skeleton\":2,\"joints\":[1,2]\x7d".data ∧
    Skin.MarshalJSON NewSkin = .ok "\x7b\"joints\":null\x7d".data :=
  ⟨C26_skin_marshal_omits_sentinels
      { NewSkin with Name := "arm", Skeleton := 2, Joints := some [1, 2] } rfl rfl
      (by decide) (by decide) (by decide)
      (by
        intro l h
        cases h
        decide),
    by decide!, by decide!⟩

/-! ## removeProperty on a text without the property -/

/-- A text in which the pattern does not occur is returned by the replacement
as it is. -/
theorem replaceFirst_of_not_occurs (old new : Bytes) :
    ∀ (b : Bytes), occursIn old b = false → replaceFirst old new b = b
  | [], h => by
    simp only [occursIn] at h
    simp [replaceFirst, h]
  | c :: cs, h => by
    simp only [occursIn, Bool.or_eq_false_iff] at h
    rw [replaceFirst_mismatch old new c cs h.1, replaceFirst_of_not_occurs old new cs h.2]

/-- What removeProperty does when the property does not occur in the text: the
first pair of commas of the text becomes one comma. -/
theorem removeProperty_of_not_occurs (str b : Bytes) (h : occursIn str b = false) :
    removeProperty str b = replaceFirst [comma, comma] [comma] b := by
  rw [removeProperty, replaceFirst_of_not_occurs str [] b h]

/-- Function removeProperty returns the text as it is when neither the
property nor a pair of commas occurs in it. -/
theorem removeProperty_unchanged (str b : Bytes) (h : occursIn str b = false)
    (hc : occursIn [comma, comma] b = false) : removeProperty str b = b := by
  rw [removeProperty_of_not_occurs str b h, replaceFirst_of_not_occurs _ _ b hc]

/-- C31: the claim fails on the code.  The text "camera":-1 does not occur in
the object text whose only member is the name a,,b, and removeProperty returns
that object with the name a,b: the replacement of the first pair of commas is
made whether or not the property was found.  Material.MarshalJSON makes such a
call: for the Material with the name a,,b, the AlphaMode MASK, the AlphaCutoff
1 and an EmissiveFactor whose first component is the negative zero, the
EmissiveFactor equals (0,0,0), the text "emissiveFactor":[0,0,0] does not
occur in the text of json.Marshal, which writes -0, and the name of the output
has lost a comma. -/
theorem C31_removeProperty_changes_text_without_the_property :
    occursIn "\"camera\":-1".data "\x7b\"name\":\"a,,b\"\x7d".data = false ∧
    removeProperty "\"camera\":-1".data "\x7b\"name\":\"a,,b\"\x7d".data =
      "\x7b\"name\":\"a,b\"\x7d".data ∧
    "\x7b\"name\":\"a,b\"\x7d".data ≠ "\x7b\"name\":\"a,,b\"\x7d".data ∧
    floatsEq [fnegzero, f0, f0] [f0, f0, f0] = true ∧
    marshalStruct (embedFields [] Material.fields)
        { NewMaterial with
          Name := "a,,b", EmissiveFactor := [fnegzero, f0, f0], AlphaMode := "MASK",
          AlphaCutoff := f1 } =
      .ok ("\x7b\"name\":\"a,,b\",\"emissiveFactor\":[-0,0,0],\"alphaMode\":\"MASK\"," ++
        "\"alphaCutoff\":1\x7d").data ∧
    occursIn "\"emissiveFactor\":[0,0,0]".data
        ("\x7b\"name\":\"a,,b\",\"emissiveFactor\":[-0,0,0],\"alphaMode\":\"MASK\"," ++
          "\"alphaCutoff\":1\x7d").data = false ∧
    Material.MarshalJSON
        { NewMaterial with
          Name := "a,,b", EmissiveFactor := [fnegzero, f0, f0], AlphaMode := "MASK",
          AlphaCutoff := f1 } =
      .ok ("\x7b\"name\":\"a,b\",\"emissiveFactor\":[-0,0,0],\"alphaMode\":\"MASK\"," ++
        "\"alphaCutoff\":1\x7d").data := by
  refine ⟨by decide!, by decide!, by decide!, by decide!, by decide!, by decide!, by decide!⟩

end Gltf
